import Mathlib

/-!
The timing algebra and the OP-1a index table builder of bmx (namespace `im`).

A shallow embedding of

* `src/src/common/Utils.cpp` : `convert_position`, `convert_duration`, the SMPTE timecode
  encoder and decoder
* `src/src/mxf_op1a/OP1AIndexTable.cpp` : the CBE / VBE index table builder
* `src/src/as02/AS02Track.cpp` : the output offsets and durations of a track, its header
  metadata, its CBE index segment and the life cycle of the track file
* `src/src/as02/AS02Bundle.cpp` : the file names of the essence components
* `src/src/avid_mxf/AvidClip.cpp` : track order, default tape source, locators, tape start
  timecode and track durations of the clip writer

C++ machine integers are embedded as `Int` / `Nat` values with explicit wrap-around
(`wrap64`, `% 2^32`, `% 256`).  Functions that can throw return the state left behind
together with the fact that they threw.
-/

namespace im

/-! ## Machine arithmetic -/

/-- Value of a mathematical integer when stored in an `int64_t` (two's complement). -/
def wrap64 (x : Int) : Int := (x + 2 ^ 63) % 2 ^ 64 - 2 ^ 63

/-- The `int64_t` product. -/
def mul64 (a b : Int) : Int := wrap64 (a * b)

/-- The `int64_t` sum. -/
def add64 (a b : Int) : Int := wrap64 (a + b)

/-- The `int64_t` difference. -/
def sub64 (a b : Int) : Int := wrap64 (a - b)

/-- The `int64_t` unary minus. -/
def neg64 (a : Int) : Int := wrap64 (-a)

/-- The `int64_t` quotient: truncation toward zero, no result for a zero divisor. -/
def div64 (a b : Int) : Option Int := if b = 0 then none else some (wrap64 (Int.tdiv a b))

/-- The `int64_t` remainder: sign of the dividend, no result for a zero divisor. -/
def mod64 (a b : Int) : Option Int := if b = 0 then none else some (wrap64 (Int.tmod a b))

/-! ## Utils.h / Utils.cpp -/

/-- The `Rounding` enumeration of `Utils.h`. -/
inductive Rounding where
  | ROUND_AUTO
  | ROUND_DOWN
  | ROUND_UP
  | ROUND_NEAREST
  deriving DecidableEq, Repr

/-- The constant `MAX_INT32` of `Utils.cpp`. -/
def MAX_INT32 : Int := 2147483647

/-- An edit rate: signed 32-bit numerator and denominator. -/
structure Rational where
  numerator : Int
  denominator : Int
  deriving DecidableEq, Repr

/-- The local `round_num` of `convert_position` (lines 76-80). -/
def round_num (factor_top factor_bottom : Int) (rounding : Rounding) : Int :=
  if rounding = Rounding.ROUND_UP ∨ (rounding = Rounding.ROUND_AUTO ∧ factor_top < factor_bottom) then
    sub64 factor_bottom 1
  else if rounding = Rounding.ROUND_NEAREST then
    wrap64 (Int.tdiv factor_bottom 2)
  else
    0

/-- The function `im::convert_position(int64_t, int64_t, int64_t, Rounding)`; the fuel counts
the nested calls, of which the source makes at most one (for a negative position). -/
def convert_position_fuel : Nat → Int → Int → Int → Rounding → Option Int
  | 0, _, _, _, _ => none
  | fuel + 1, in_position, factor_top, factor_bottom, rounding =>
    if in_position = 0 ∨ factor_top = factor_bottom then
      some in_position
    else if in_position < 0 then
      (convert_position_fuel fuel (neg64 in_position) factor_top factor_bottom rounding).map neg64
    else if in_position ≤ MAX_INT32 then
      div64 (add64 (mul64 in_position factor_top) (round_num factor_top factor_bottom rounding))
        factor_bottom
    else
      (div64 in_position factor_bottom).bind fun q =>
      (mod64 in_position factor_bottom).bind fun r =>
      (div64 (add64 (mul64 r factor_top) (round_num factor_top factor_bottom rounding))
        factor_bottom).bind fun d =>
      some (add64 (mul64 q factor_top) d)

/-- The function `im::convert_position` on factors.  Two levels of calls serve every position
except `-2^63`, whose negation is itself and for which the source never stops calling itself. -/
def convert_position (in_position factor_top factor_bottom : Int) (rounding : Rounding) :
    Option Int :=
  convert_position_fuel 2 in_position factor_top factor_bottom rounding

/-- The overload `im::convert_position(Rational, int64_t, Rational, Rounding)`. -/
def convert_position_rate (in_edit_rate : Rational) (in_position : Int) (out_edit_rate : Rational)
    (rounding : Rounding) : Option Int :=
  convert_position in_position
    (mul64 out_edit_rate.numerator in_edit_rate.denominator)
    (mul64 out_edit_rate.denominator in_edit_rate.numerator)
    rounding

/-- The function `im::convert_duration(int64_t, int64_t, int64_t, Rounding)`. -/
def convert_duration (in_duration factor_top factor_bottom : Int) (rounding : Rounding) :
    Option Int :=
  if rounding = Rounding.ROUND_AUTO then
    convert_position in_duration factor_top factor_bottom
      (if factor_top < factor_bottom then Rounding.ROUND_DOWN else Rounding.ROUND_UP)
  else
    convert_position in_duration factor_top factor_bottom rounding

/-- The overload `im::convert_duration(Rational, int64_t, Rational, Rounding)`. -/
def convert_duration_rate (in_edit_rate : Rational) (in_duration : Int) (out_edit_rate : Rational)
    (rounding : Rounding) : Option Int :=
  convert_duration in_duration
    (mul64 out_edit_rate.numerator in_edit_rate.denominator)
    (mul64 out_edit_rate.denominator in_edit_rate.numerator)
    rounding

/-! ### The specification's formula -/

/-- The rounding term of the specification's table (section 4.1), over the integers. -/
def spec_round (factor_top factor_bottom : Int) : Rounding → Int
  | Rounding.ROUND_DOWN => 0
  | Rounding.ROUND_UP => factor_bottom - 1
  | Rounding.ROUND_NEAREST => factor_bottom / 2
  | Rounding.ROUND_AUTO => if factor_top < factor_bottom then factor_bottom - 1 else 0

/-- The specification's formula `floor((in_pos * factor_top + round) / factor_bottom)`,
over the integers. -/
def spec_convert (in_position factor_top factor_bottom : Int) (rounding : Rounding) : Int :=
  (in_position * factor_top + spec_round factor_top factor_bottom rounding) / factor_bottom

/-- An edit rate whose 32-bit numerator and denominator are both positive. -/
def Rational.positive (r : Rational) : Prop :=
  0 < r.numerator ∧ r.numerator ≤ MAX_INT32 ∧ 0 < r.denominator ∧ r.denominator ≤ MAX_INT32

instance (r : Rational) : Decidable r.positive := by
  unfold Rational.positive
  infer_instance


/-! ## OP1AIndexTable.cpp

Counters that advance once per call (`mDuration`, a segment's index duration) and the running
essence offset `mStreamOffset` are kept as unbounded integers: no run of the program reaches
`2^63` edit units or essence bytes.  Slice numbers are 8-bit, sizes are 32-bit. -/

/-- The constant `MAX_INDEX_SEGMENT_SIZE`. -/
def MAX_INDEX_SEGMENT_SIZE : Nat := 65000

/-- The constant `INDEX_ENTRIES_INCREMENT`. -/
def INDEX_ENTRIES_INCREMENT : Nat := 250

/-- The constant `MAX_GOP_SIZE_GUESS`. -/
def MAX_GOP_SIZE_GUESS : Nat := 30

/-- The constant `MAX_CACHE_ENTRIES`. -/
def MAX_CACHE_ENTRIES : Nat := 250

/-- Modelled from the spec: the widths of `slice_offset` and `mSliceCount` are declared in the
class header, which is not among the sources; a slice number is a `u8` (the `slice` of a delta
entry, the local `prev_slice_offset` of `UpdateIndex`), so it is stored modulo 256. -/
def wrapU8 (x : Nat) : Nat := x % 256

/-- Value of a natural number when stored in a `uint32_t` (`index_entry_size`, the element
sizes and the offsets derived from them). -/
def wrapU32 (x : Nat) : Nat := x % 4294967296

/-- Modelled from the spec: the macros `IM_CHECK`, `IM_CHECK_M` and `IM_ASSERT` are defined in
a header that is not among the sources; a failed check surfaces as an error to the caller
(section 7).  Each failure is named after the condition that did not hold. -/
inductive Failure where
  | cache_size_le_max            -- CacheIndexEntry: mIndexEntryCache.size() <= MAX_CACHE_ENTRIES
  | cache_has_position           -- element UpdateIndexEntry / CanStartPartition: entry is cached
  | entry_size_matches_slices    -- segment AddIndexEntry: mIndexEntrySize == 11 + 4 * slices
  | segment_position_in_entries  -- segment UpdateIndexEntry: position * size < entries size
  | cbe_size_constant            -- AddCBEIndexEntry: edit unit byte count unchanged
  | cbe_has_no_slices            -- PrepareWrite: !mIsCBE || mSliceCount == 0
  | table_is_vbe                 -- AddIndexEntry / UpdateIndexEntry: !mIsCBE
  | position_ge_duration         -- AddIndexEntry: position >= mDuration
  | position_nonneg              -- UpdateIndexEntry: position >= 0
  | track_is_registered          -- AddIndexEntry / UpdateIndexEntry: track is in the map
  | element_sizes_count          -- UpdateIndex: element_sizes.size() == mIndexElements.size()
  | element_size_constant        -- UpdateIndex: CBE element size unchanged
  | entries_compatible           -- UpdateIndex: entry.IsCompatible(element_entry)
  | have_segments                -- WriteSegments: HaveSegments()
  | duration_positive            -- WriteSegments: mDuration > 0
  | offset_nonneg                -- AS02Track::SetOutputStartOffset: offset >= 0
  | offset_nonpos                -- AS02Track::SetOutputEndOffset: offset <= 0
  | mxf_file_set                 -- AS02Track::PrepareWrite / CompleteWrite: mMXFFile
  | is_track                     -- UpdatePackageMetadata / UpdateTrackDurations: track
  | output_duration_nonneg       -- AS02Track::GetOutputDuration: duration >= 0
  | duration_nonneg              -- AS02Track::GetDuration: duration >= 0
  | single_component             -- components.size() == 1
  | sample_size_positive         -- AS02Track::WriteCBEIndexTable: mSampleSize > 0
  | is_source_clip               -- AvidClip::SetTapeStartTimecode: source_clip
  | track_found                  -- AvidClip::UpdateHeaderMetadata: gen_track
  | edit_rate_is_sample_rate     -- AvidClip::UpdateHeaderMetadata: edit rate == sample rate
  | track_number_positive        -- AS02Bundle::CreateEssenceComponentFilepath: track_number > 0
  | frame_rate_supported         -- AvidClip::AvidClip: one of the four frame rates
  deriving DecidableEq, Repr

/-- How a call of a method ends: it returns (`ok`), it throws after a failed check, leaving
the object in the state given (`thrown`), or it reads a vector outside its bounds
(`undefined`). -/
inductive Outcome (σ : Type) where
  | ok : σ → Outcome σ
  | thrown : Failure → σ → Outcome σ
  | undefined : Outcome σ
  deriving DecidableEq, Repr

/-- The state an object is left in, when the call has a defined behaviour. -/
def Outcome.state {σ : Type} : Outcome σ → Option σ
  | Outcome.ok s => some s
  | Outcome.thrown _ s => some s
  | Outcome.undefined => none

/-- Sequencing of statements: the next statement runs only when the one before returned. -/
def Outcome.andThen {σ : Type} (o : Outcome σ) (next : σ → Outcome σ) : Outcome σ :=
  match o with
  | Outcome.ok s => next s
  | Outcome.thrown f s => Outcome.thrown f s
  | Outcome.undefined => Outcome.undefined

/-- The class `OP1AIndexEntry`: `int8_t`, `int8_t`, `uint8_t`, `bool`. -/
structure OP1AIndexEntry where
  temporal_offset : Int
  key_frame_offset : Int
  flags : Nat
  can_start_partition : Bool
  deriving DecidableEq, Repr

/-- The default constructor `OP1AIndexEntry::OP1AIndexEntry()`. -/
def OP1AIndexEntry.new : OP1AIndexEntry :=
  { temporal_offset := 0, key_frame_offset := 0, flags := 0, can_start_partition := true }

/-- The method `OP1AIndexEntry::IsDefault`. -/
def OP1AIndexEntry.IsDefault (self : OP1AIndexEntry) : Bool :=
  self.temporal_offset == 0 && self.key_frame_offset == 0 && self.flags == 0

/-- The method `OP1AIndexEntry::IsCompatible`. -/
def OP1AIndexEntry.IsCompatible (self entry : OP1AIndexEntry) : Bool :=
  (self.temporal_offset == 0 && self.key_frame_offset == 0 && self.flags == 0) ||
  (self.temporal_offset == entry.temporal_offset &&
    self.key_frame_offset == entry.key_frame_offset &&
    self.flags == entry.flags)

/-- The class `OP1ADeltaEntry`: `int8_t`, `uint8_t`, `uint32_t`. -/
structure OP1ADeltaEntry where
  pos_table_index : Int
  slice : Nat
  element_delta : Nat
  deriving DecidableEq, Repr

/-! ### The entry cache `std::map<int64_t, OP1AIndexEntry>` -/

/-- The lookup `map.find(position)`. -/
def cacheFind (position : Int) : List (Int × OP1AIndexEntry) → Option OP1AIndexEntry
  | [] => none
  | (k, v) :: rest => if k = position then some v else cacheFind position rest

/-- The assignment `map[position] = entry`: keys stay unique and ascending. -/
def cacheSet (position : Int) (entry : OP1AIndexEntry) :
    List (Int × OP1AIndexEntry) → List (Int × OP1AIndexEntry)
  | [] => [(position, entry)]
  | (k, v) :: rest =>
    if position < k then (position, entry) :: (k, v) :: rest
    else if position = k then (position, entry) :: rest
    else (k, v) :: cacheSet position entry rest

/-- The removal `map.erase(iterator)` of the entry found at `position`. -/
def cacheErase (position : Int) : List (Int × OP1AIndexEntry) → List (Int × OP1AIndexEntry)
  | [] => []
  | (k, v) :: rest => if k = position then rest else (k, v) :: cacheErase position rest

/-- The class `OP1AIndexTableElement`.  `object_id` stands for the address of the heap object,
by which `mIndexElementsMap` refers to it; objects are numbered in the order of registration. -/
structure OP1AIndexTableElement where
  object_id : Nat
  track_index : Nat
  is_picture : Bool
  is_cbe : Bool
  apply_temporal_reordering : Bool
  slice_offset : Nat
  element_size : Nat
  mIndexEntryCache : List (Int × OP1AIndexEntry)
  deriving DecidableEq, Repr

/-- The constructor `OP1AIndexTableElement::OP1AIndexTableElement`. -/
def OP1AIndexTableElement.new (object_id track_index : Nat)
    (is_picture is_cbe apply_temporal_reordering : Bool) : OP1AIndexTableElement :=
  { object_id := object_id, track_index := track_index, is_picture := is_picture,
    is_cbe := is_cbe, apply_temporal_reordering := apply_temporal_reordering,
    slice_offset := 0, element_size := 0, mIndexEntryCache := [] }

/-- The method `OP1AIndexTableElement::CacheIndexEntry`. -/
def OP1AIndexTableElement.CacheIndexEntry (self : OP1AIndexTableElement) (position : Int)
    (temporal_offset key_frame_offset : Int) (flags : Nat) (can_start_partition : Bool) :
    Outcome OP1AIndexTableElement :=
  if self.mIndexEntryCache.length ≤ MAX_CACHE_ENTRIES then
    Outcome.ok { self with
      mIndexEntryCache := cacheSet position
        { temporal_offset := temporal_offset, key_frame_offset := key_frame_offset,
          flags := flags, can_start_partition := can_start_partition }
        self.mIndexEntryCache }
  else
    Outcome.thrown Failure.cache_size_le_max self

/-- The method `OP1AIndexTableElement::UpdateIndexEntry`. -/
def OP1AIndexTableElement.UpdateIndexEntry (self : OP1AIndexTableElement) (position : Int)
    (temporal_offset : Int) : Outcome OP1AIndexTableElement :=
  match cacheFind position self.mIndexEntryCache with
  | none => Outcome.thrown Failure.cache_has_position self
  | some entry =>
    Outcome.ok { self with
      mIndexEntryCache :=
        cacheSet position { entry with temporal_offset := temporal_offset } self.mIndexEntryCache }

/-- The method `OP1AIndexTableElement::TakeIndexEntry`: the entry taken, if there is one,
and the element after the removal. -/
def OP1AIndexTableElement.TakeIndexEntry (self : OP1AIndexTableElement) (position : Int) :
    Option OP1AIndexEntry × OP1AIndexTableElement :=
  match cacheFind position self.mIndexEntryCache with
  | none => (none, self)
  | some entry =>
    (some entry, { self with mIndexEntryCache := cacheErase position self.mIndexEntryCache })

/-- The method `OP1AIndexTableElement::CanStartPartition`: `none` when its assertion fails. -/
def OP1AIndexTableElement.CanStartPartition (self : OP1AIndexTableElement) (position : Int) :
    Option Bool :=
  if self.is_cbe then some true
  else
    match cacheFind position self.mIndexEntryCache with
    | none => none
    | some entry => some entry.can_start_partition

/-! ### Serialisation primitives -/

/-- Modelled from the spec: `mxf_set_int8` belongs to the MXF primitive library, which is not
among the sources; an `i8` is stored as one two's complement byte. -/
def mxf_set_int8 (value : Int) : Nat := (value % 256).toNat

/-- Modelled from the spec: `mxf_set_uint8` belongs to the MXF primitive library, which is not
among the sources; a `u8` is stored as one byte. -/
def mxf_set_uint8 (value : Nat) : Nat := value % 256

/-- Big-endian bytes of a natural number, `n` of them. -/
def bigEndian : Nat → Nat → List Nat
  | 0, _ => []
  | n + 1, value => bigEndian n (value / 256) ++ [value % 256]

/-- Modelled from the spec: `mxf_set_int64` belongs to the MXF primitive library, which is not
among the sources; an `i64` is stored as eight bytes, most significant first. -/
def mxf_set_int64 (value : Int) : List Nat := bigEndian 8 (value % 18446744073709551616).toNat

/-- Modelled from the spec: `mxf_set_uint32` belongs to the MXF primitive library, which is not
among the sources; a `u32` is stored as four bytes, most significant first. -/
def mxf_set_uint32 (value : Nat) : List Nat := bigEndian 4 (value % 4294967296)

/-- Modelled from the spec: reading back a byte as an `i8`, the inverse of `mxf_set_int8`. -/
def mxf_get_int8 (byte : Nat) : Int := if byte < 128 then (byte : Int) else (byte : Int) - 256

/-! ### OP1AIndexTableSegment -/

/-- The class `OP1AIndexTableSegment`: `mIndexEntrySize`, the byte array `mEntries`, and the
fields of the library's index table segment `mSegment` that the builder reads or writes. -/
structure OP1AIndexTableSegment where
  mIndexEntrySize : Nat
  mEntries : List Nat
  index_sid : Nat
  body_sid : Nat
  index_edit_rate : Rational
  index_start_position : Int
  index_duration : Int
  edit_unit_byte_count : Nat
  slice_count : Nat
  delta_entries : List OP1ADeltaEntry
  deriving DecidableEq, Repr

/-- The constructor `OP1AIndexTableSegment::OP1AIndexTableSegment`. -/
def OP1AIndexTableSegment.new (index_sid body_sid : Nat) (frame_rate : Rational)
    (start_position : Int) (index_entry_size slice_count : Nat) : OP1AIndexTableSegment :=
  { mIndexEntrySize := index_entry_size, mEntries := [], index_sid := index_sid,
    body_sid := body_sid, index_edit_rate := frame_rate,
    index_start_position := start_position, index_duration := 0, edit_unit_byte_count := 0,
    slice_count := slice_count, delta_entries := [] }

/-- The method `OP1AIndexTableSegment::RequireNewSegment`; the threshold
`MAX_INDEX_SEGMENT_SIZE - MAX_GOP_SIZE_GUESS * mIndexEntrySize` is computed in 32 bits,
unsigned. -/
def OP1AIndexTableSegment.RequireNewSegment (self : OP1AIndexTableSegment)
    (can_start_partition : Bool) : Bool :=
  decide (self.mEntries.length ≥ MAX_INDEX_SEGMENT_SIZE) ||
  (decide (self.mEntries.length ≥
      wrapU32 (MAX_INDEX_SEGMENT_SIZE + 4294967296
        - wrapU32 (MAX_GOP_SIZE_GUESS * self.mIndexEntrySize))) &&
    can_start_partition)

/-- The bytes that `OP1AIndexTableSegment::AddIndexEntry` writes for one entry. -/
def entryBytes (entry : OP1AIndexEntry) (stream_offset : Int) (slice_cp_offsets : List Nat) :
    List Nat :=
  [mxf_set_int8 entry.temporal_offset, mxf_set_int8 entry.key_frame_offset,
    mxf_set_uint8 entry.flags] ++ mxf_set_int64 stream_offset ++
  (slice_cp_offsets.map mxf_set_uint32).flatten

/-- The method `OP1AIndexTableSegment::AddIndexEntry`. -/
def OP1AIndexTableSegment.AddIndexEntry (self : OP1AIndexTableSegment) (entry : OP1AIndexEntry)
    (stream_offset : Int) (slice_cp_offsets : List Nat) : Outcome OP1AIndexTableSegment :=
  if self.mIndexEntrySize = 11 + slice_cp_offsets.length * 4 then
    Outcome.ok { self with
      mEntries := self.mEntries ++ entryBytes entry stream_offset slice_cp_offsets,
      index_duration := self.index_duration + 1 }
  else
    Outcome.thrown Failure.entry_size_matches_slices self

/-- The method `OP1AIndexTableSegment::UpdateIndexEntry`; a negative `segment_position` that
passes the assertion would write before the start of the byte array. -/
def OP1AIndexTableSegment.UpdateIndexEntry (self : OP1AIndexTableSegment)
    (segment_position : Int) (temporal_offset : Int) : Outcome OP1AIndexTableSegment :=
  if segment_position * (self.mIndexEntrySize : Int) < (self.mEntries.length : Int) then
    if segment_position * (self.mIndexEntrySize : Int) < 0 then
      Outcome.undefined
    else
      Outcome.ok { self with
        mEntries := self.mEntries.set (segment_position * (self.mIndexEntrySize : Int)).toNat
          (mxf_set_int8 temporal_offset) }
  else
    Outcome.thrown Failure.segment_position_in_entries self

/-- The method `OP1AIndexTableSegment::AddCBEIndexEntry`. -/
def OP1AIndexTableSegment.AddCBEIndexEntry (self : OP1AIndexTableSegment)
    (edit_unit_byte_count : Nat) : Outcome OP1AIndexTableSegment :=
  if self.edit_unit_byte_count = 0 then
    Outcome.ok { self with
      edit_unit_byte_count := edit_unit_byte_count,
      index_duration := self.index_duration + 1 }
  else if self.edit_unit_byte_count = edit_unit_byte_count then
    Outcome.ok { self with index_duration := self.index_duration + 1 }
  else
    Outcome.thrown Failure.cbe_size_constant self

/-- The method `OP1AIndexTableSegment::GetDuration`, which returns a `uint32_t`. -/
def OP1AIndexTableSegment.GetDuration (self : OP1AIndexTableSegment) : Int :=
  self.index_duration % 4294967296

/-! ### OP1AIndexTable -/

/-- The class `OP1AIndexTable`.  `mIndexElementsMap` maps a track index to the `object_id` of
the element it points to. -/
structure OP1AIndexTable where
  mIndexSID : Nat
  mBodySID : Nat
  mFrameRate : Rational
  mIsCBE : Bool
  mHaveAVCI : Bool
  mIndexElements : List OP1AIndexTableElement
  mIndexElementsMap : List (Nat × Nat)
  mSliceCount : Nat
  mIndexEntrySize : Nat
  mAVCIFirstIndexSegment : Option OP1AIndexTableSegment
  mIndexSegments : List OP1AIndexTableSegment
  mDeltaEntries : List OP1ADeltaEntry
  mDuration : Int
  mStreamOffset : Int
  deriving DecidableEq, Repr

/-- The constructor `OP1AIndexTable::OP1AIndexTable`. -/
def OP1AIndexTable.new (index_sid body_sid : Nat) (frame_rate : Rational) : OP1AIndexTable :=
  { mIndexSID := index_sid, mBodySID := body_sid, mFrameRate := frame_rate, mIsCBE := true,
    mHaveAVCI := false, mIndexElements := [], mIndexElementsMap := [], mSliceCount := 0,
    mIndexEntrySize := 0, mAVCIFirstIndexSegment := none, mIndexSegments := [],
    mDeltaEntries := [], mDuration := 0, mStreamOffset := 0 }

/-- The assignment `mIndexElementsMap[track_index] = mIndexElements.back()`. -/
def elementsMapSet (track_index object_id : Nat) (m : List (Nat × Nat)) : List (Nat × Nat) :=
  (track_index, object_id) :: m.filter (fun kv => kv.1 != track_index)

/-- The lookup `mIndexElementsMap.find(track_index)`. -/
def elementsMapFind (track_index : Nat) (m : List (Nat × Nat)) : Option Nat :=
  m.lookup track_index

/-- The two statements shared by the three `Register...TrackElement` methods: a new element
object is appended and entered in the map. -/
def OP1AIndexTable.pushElement (self : OP1AIndexTable) (track_index : Nat)
    (is_picture is_cbe apply_temporal_reordering : Bool) : OP1AIndexTable :=
  { self with
    mIndexElements := self.mIndexElements ++
      [OP1AIndexTableElement.new self.mIndexElements.length track_index is_picture is_cbe
        apply_temporal_reordering],
    mIndexElementsMap :=
      elementsMapSet track_index self.mIndexElements.length self.mIndexElementsMap }

/-- The method `OP1AIndexTable::RegisterPictureTrackElement`. -/
def OP1AIndexTable.RegisterPictureTrackElement (self : OP1AIndexTable) (track_index : Nat)
    (is_cbe apply_temporal_reordering : Bool) : OP1AIndexTable :=
  { self.pushElement track_index true is_cbe apply_temporal_reordering with
    mIsCBE := self.mIsCBE && is_cbe }

/-- The method `OP1AIndexTable::RegisterAVCITrackElement`. -/
def OP1AIndexTable.RegisterAVCITrackElement (self : OP1AIndexTable) (track_index : Nat) :
    OP1AIndexTable :=
  { self.pushElement track_index true true false with mHaveAVCI := true }

/-- The method `OP1AIndexTable::RegisterSoundTrackElement`. -/
def OP1AIndexTable.RegisterSoundTrackElement (self : OP1AIndexTable) (track_index : Nat) :
    OP1AIndexTable :=
  self.pushElement track_index false true false

/-- The comparator `compare_element`. -/
def compare_element (left right : OP1AIndexTableElement) : Bool :=
  left.is_picture && !right.is_picture

/-- The library function `std::stable_sort` for a comparator `less`: each element is put in
front of the first one that is not less than it, so equivalent elements keep their order. -/
def stable_sort {α : Type} (less : α → α → Bool) (l : List α) : List α :=
  l.insertionSort (fun a b => less b a = false)

/-- The loop of `OP1AIndexTable::PrepareWrite` (lines 290-296): `prev_is_vbe` is the condition
`i > 0 && !mIndexElements[i - 1]->is_cbe`; the result is the elements with their slice
offsets, `mSliceCount` and `mIndexEntrySize`. -/
def assignSliceOffsets : Bool → Nat → Nat → List OP1AIndexTableElement →
    List OP1AIndexTableElement × Nat × Nat
  | _, slice_count, entry_size, [] => ([], slice_count, entry_size)
  | prev_is_vbe, slice_count, entry_size, e :: rest =>
    let slice_count1 := if prev_is_vbe then wrapU8 (slice_count + 1) else slice_count
    let entry_size1 := if prev_is_vbe then wrapU32 (entry_size + 4) else entry_size
    let r := assignSliceOffsets (!e.is_cbe) slice_count1 entry_size1 rest
    ({ e with slice_offset := slice_count1 } :: r.1, r.2.1, r.2.2)

/-- Modelled from the spec: `RequireIndexTableSegmentPair` is defined in the class header,
which is not among the sources; a separate first segment is asked for when the essence is
AVC-Intra. -/
def OP1AIndexTable.RequireIndexTableSegmentPair (self : OP1AIndexTable) : Bool :=
  self.mHaveAVCI

/-- The method `OP1AIndexTable::PrepareWrite`. -/
def OP1AIndexTable.PrepareWrite (self : OP1AIndexTable) : Outcome OP1AIndexTable :=
  let r := assignSliceOffsets false 0 11 (stable_sort compare_element self.mIndexElements)
  let t1 : OP1AIndexTable :=
    { self with mIndexElements := r.1, mSliceCount := r.2.1, mIndexEntrySize := r.2.2 }
  if t1.mIsCBE && t1.mSliceCount != 0 then
    Outcome.thrown Failure.cbe_has_no_slices t1
  else
    let segment := OP1AIndexTableSegment.new t1.mIndexSID t1.mBodySID t1.mFrameRate 0
      t1.mIndexEntrySize t1.mSliceCount
    Outcome.ok { t1 with
      mIndexSegments := t1.mIndexSegments ++ [segment],
      mAVCIFirstIndexSegment :=
        if t1.RequireIndexTableSegmentPair then some segment else t1.mAVCIFirstIndexSegment }

/-- The element that `mIndexElementsMap[track_index]` points to. -/
def OP1AIndexTable.findElement (self : OP1AIndexTable) (track_index : Nat) :
    Option OP1AIndexTableElement :=
  match elementsMapFind track_index self.mIndexElementsMap with
  | none => none
  | some id => self.mIndexElements.find? (fun e => e.object_id == id)

/-- The elements after the object with the identity of `e` took the value `e`. -/
def replaceElement (e : OP1AIndexTableElement) :
    List OP1AIndexTableElement → List OP1AIndexTableElement
  | [] => []
  | x :: rest => if x.object_id = e.object_id then e :: rest else x :: replaceElement e rest

/-- Storing back the element object `e` after a method of it has run. -/
def OP1AIndexTable.storeElement (self : OP1AIndexTable) (e : OP1AIndexTableElement) :
    OP1AIndexTable :=
  { self with mIndexElements := replaceElement e self.mIndexElements }

/-- The method `OP1AIndexTable::AddIndexEntry`. -/
def OP1AIndexTable.AddIndexEntry (self : OP1AIndexTable) (track_index : Nat) (position : Int)
    (temporal_offset key_frame_offset : Int) (flags : Nat) (can_start_partition : Bool) :
    Outcome OP1AIndexTable :=
  if self.mIsCBE then Outcome.thrown Failure.table_is_vbe self
  else if ¬ (position ≥ self.mDuration) then Outcome.thrown Failure.position_ge_duration self
  else
    match elementsMapFind track_index self.mIndexElementsMap with
    | none => Outcome.thrown Failure.track_is_registered self
    | some _ =>
      match self.findElement track_index with
      | none => Outcome.undefined
      | some e =>
        match e.CacheIndexEntry position temporal_offset key_frame_offset flags
            can_start_partition with
        | Outcome.ok e1 => Outcome.ok (self.storeElement e1)
        | Outcome.thrown f e1 => Outcome.thrown f (self.storeElement e1)
        | Outcome.undefined => Outcome.undefined

/-- The loop of `OP1AIndexTable::UpdateIndexEntry` (lines 327-331) from index `i` down: the
index of the segment reached and the remaining `end_offset`; no result when the index would
leave the vector. -/
def walkSegments (segments : List OP1AIndexTableSegment) : Nat → Int → Option (Nat × Int)
  | 0, end_offset =>
    match segments[0]? with
    | none => none
    | some s => if end_offset > s.GetDuration then none else some (0, end_offset)
  | i + 1, end_offset =>
    match segments[i + 1]? with
    | none => none
    | some s =>
      if end_offset > s.GetDuration then walkSegments segments i (end_offset - s.GetDuration)
      else some (i + 1, end_offset)

/-- The method `OP1AIndexTable::UpdateIndexEntry`. -/
def OP1AIndexTable.UpdateIndexEntry (self : OP1AIndexTable) (track_index : Nat) (position : Int)
    (temporal_offset : Int) : Outcome OP1AIndexTable :=
  if self.mIsCBE then Outcome.thrown Failure.table_is_vbe self
  else if ¬ (position ≥ 0) then Outcome.thrown Failure.position_nonneg self
  else
    match elementsMapFind track_index self.mIndexElementsMap with
    | none => Outcome.thrown Failure.track_is_registered self
    | some _ =>
      if position > self.mDuration then
        match self.findElement track_index with
        | none => Outcome.undefined
        | some e =>
          match e.UpdateIndexEntry position temporal_offset with
          | Outcome.ok e1 => Outcome.ok (self.storeElement e1)
          | Outcome.thrown f e1 => Outcome.thrown f (self.storeElement e1)
          | Outcome.undefined => Outcome.undefined
      else
        if self.mIndexSegments.length = 0 then Outcome.undefined
        else
          match walkSegments self.mIndexSegments (self.mIndexSegments.length - 1)
              (self.mDuration - position) with
          | none => Outcome.undefined
          | some (i, end_offset) =>
            match self.mIndexSegments[i]? with
            | none => Outcome.undefined
            | some s =>
              match s.UpdateIndexEntry (s.GetDuration - end_offset) temporal_offset with
              | Outcome.ok s1 =>
                Outcome.ok { self with mIndexSegments := self.mIndexSegments.set i s1 }
              | Outcome.thrown f s1 =>
                Outcome.thrown f { self with mIndexSegments := self.mIndexSegments.set i s1 }
              | Outcome.undefined => Outcome.undefined

/-- The loop of `OP1AIndexTable::CanStartPartition`: `none` when an element's assertion
fails. -/
def canStartPartitionLoop (position : Int) : List OP1AIndexTableElement → Option Bool
  | [] => some true
  | e :: rest =>
    match e.CanStartPartition position with
    | none => none
    | some false => some false
    | some true => canStartPartitionLoop position rest

/-- The method `OP1AIndexTable::CanStartPartition`: `none` when an element's assertion
fails. -/
def OP1AIndexTable.CanStartPartition (self : OP1AIndexTable) : Option Bool :=
  if self.mIsCBE then some true else canStartPartitionLoop self.mDuration self.mIndexElements

/-- The loop that creates the delta entries in `OP1AIndexTable::UpdateIndex` (lines 359-377),
from `prev_slice_offset` and `element_delta`; it also records the size of each CBE element. -/
def createDeltaEntries : Nat → Nat → List OP1AIndexTableElement → List Nat →
    List OP1ADeltaEntry × List OP1AIndexTableElement
  | prev_slice_offset, element_delta, e :: rest, size :: sizes =>
    let element_delta1 := if e.slice_offset ≠ prev_slice_offset then 0 else element_delta
    let entry : OP1ADeltaEntry :=
      { pos_table_index := if e.apply_temporal_reordering then -1 else 0,
        slice := e.slice_offset, element_delta := element_delta1 }
    let r := createDeltaEntries e.slice_offset (wrapU32 (element_delta1 + size)) rest sizes
    (entry :: r.1, (if e.is_cbe then { e with element_size := size } else e) :: r.2)
  | _, _, elements, _ => ([], elements)

/-- The test of lines 378-381: a single delta entry with all fields zero. -/
def singleZeroDeltaEntry (entries : List OP1ADeltaEntry) : Bool :=
  match entries with
  | [d] => d.pos_table_index == 0 && d.slice == 0 && d.element_delta == 0
  | _ => false

/-- The loop that checks the CBE element sizes in `OP1AIndexTable::UpdateIndex`
(lines 405-410). -/
def elementSizesUnchanged : List OP1AIndexTableElement → List Nat → Bool
  | e :: rest, size :: sizes =>
    (!e.is_cbe || e.element_size == size) && elementSizesUnchanged rest sizes
  | _, _ => true

/-- The library call `appendDeltaEntry` on a segment. -/
def OP1AIndexTableSegment.appendDeltaEntries (self : OP1AIndexTableSegment)
    (entries : List OP1ADeltaEntry) : OP1AIndexTableSegment :=
  { self with delta_entries := self.delta_entries ++ entries }

/-- Lines 352-411 of `OP1AIndexTable::UpdateIndex`: create or check the delta entries. -/
def OP1AIndexTable.updateDeltaEntries (self : OP1AIndexTable) (element_sizes : List Nat) :
    Outcome OP1AIndexTable :=
  if self.mDuration = 0 ∨ (self.mAVCIFirstIndexSegment.isSome ∧ self.mDuration = 1) then
    let r := createDeltaEntries 0 0 self.mIndexElements element_sizes
    let entries := if singleZeroDeltaEntry r.1 then [] else r.1
    let t1 : OP1AIndexTable := { self with mDeltaEntries := entries, mIndexElements := r.2 }
    if t1.mIsCBE then
      if entries = [] then Outcome.ok t1
      else
        match t1.mAVCIFirstIndexSegment, decide (t1.mDuration = 0) with
        | some first, true =>
          Outcome.ok { t1 with mAVCIFirstIndexSegment := some (first.appendDeltaEntries entries) }
        | _, _ =>
          match t1.mIndexSegments with
          | [] => Outcome.undefined
          | s :: rest =>
            Outcome.ok { t1 with mIndexSegments := s.appendDeltaEntries entries :: rest }
    else Outcome.ok t1
  else if elementSizesUnchanged self.mIndexElements element_sizes then Outcome.ok self
  else Outcome.thrown Failure.element_size_constant self

/-- Running a method of `mIndexSegments[0]`. -/
def OP1AIndexTable.onFirstSegment (self : OP1AIndexTable)
    (f : OP1AIndexTableSegment → Outcome OP1AIndexTableSegment) : Outcome OP1AIndexTable :=
  match self.mIndexSegments with
  | [] => Outcome.undefined
  | s :: rest =>
    match f s with
    | Outcome.ok s1 => Outcome.ok { self with mIndexSegments := s1 :: rest }
    | Outcome.thrown e s1 => Outcome.thrown e { self with mIndexSegments := s1 :: rest }
    | Outcome.undefined => Outcome.undefined

/-- Lines 415-442 of `OP1AIndexTable::UpdateIndex`: the CBE branch. -/
def OP1AIndexTable.updateCBE (self : OP1AIndexTable) (size : Nat) (element_sizes : List Nat) :
    Outcome OP1AIndexTable :=
  match self.mAVCIFirstIndexSegment, decide (self.mDuration = 0) with
  | some first, true =>
    match first.AddCBEIndexEntry size with
    | Outcome.ok first1 =>
      { self with mAVCIFirstIndexSegment := some first1 }.onFirstSegment
        (fun s => Outcome.ok { s with index_start_position := 1 })
    | Outcome.thrown e first1 =>
      Outcome.thrown e { self with mAVCIFirstIndexSegment := some first1 }
    | Outcome.undefined => Outcome.undefined
  | first, _ =>
    let fold : Bool :=
      match first with
      | some f =>
        decide (self.mDuration = 1) && decide (f.edit_unit_byte_count = size) &&
          elementSizesUnchanged self.mIndexElements element_sizes
      | none => false
    if fold then
      ({ self with mAVCIFirstIndexSegment := none }.onFirstSegment
          (fun s => ({ s with index_start_position := 0 } :
            OP1AIndexTableSegment).AddCBEIndexEntry size)).andThen
        (fun t1 => t1.onFirstSegment (fun s => s.AddCBEIndexEntry size))
    else
      self.onFirstSegment (fun s => s.AddCBEIndexEntry size)

/-- The local variables of the VBE loop of `OP1AIndexTable::UpdateIndex` (lines 446-450). -/
structure VBELoopState where
  slice_cp_offset : Nat
  slice_cp_offsets : List Nat
  prev_slice_offset : Nat
  entry : OP1AIndexEntry
  deriving DecidableEq, Repr

/-- The VBE loop of `OP1AIndexTable::UpdateIndex` (lines 451-464): the elements after their
cache entries were taken, and the final local variables unless `IM_CHECK` failed on the way. -/
def takeIndexEntries (mDuration : Int) : List OP1AIndexTableElement → List Nat → VBELoopState →
    List OP1AIndexTableElement × Option VBELoopState
  | e :: rest, size :: sizes, st =>
    let taken := e.TakeIndexEntry mDuration
    let element_entry : Option OP1AIndexEntry :=
      match taken.1 with
      | some x => if x.IsDefault then none else some x
      | none => none
    match element_entry with
    | some x =>
      if st.entry.IsCompatible x then
        let offsets := if e.slice_offset ≠ st.prev_slice_offset
          then st.slice_cp_offsets ++ [st.slice_cp_offset] else st.slice_cp_offsets
        let r := takeIndexEntries mDuration rest sizes
          { slice_cp_offset := wrapU32 (st.slice_cp_offset + size), slice_cp_offsets := offsets,
            prev_slice_offset := e.slice_offset, entry := x }
        (taken.2 :: r.1, r.2)
      else (taken.2 :: rest, none)
    | none =>
      let offsets := if e.slice_offset ≠ st.prev_slice_offset
        then st.slice_cp_offsets ++ [st.slice_cp_offset] else st.slice_cp_offsets
      let r := takeIndexEntries mDuration rest sizes
        { slice_cp_offset := wrapU32 (st.slice_cp_offset + size), slice_cp_offsets := offsets,
          prev_slice_offset := e.slice_offset, entry := st.entry }
      (taken.2 :: r.1, r.2)
  | elements, _, st => (elements, some st)

/-- Lines 466-469 of `OP1AIndexTable::UpdateIndex`: open a new segment when there is none or
the last one asks for it. -/
def OP1AIndexTable.openSegment (self : OP1AIndexTable) (can_start_partition : Bool) :
    OP1AIndexTable :=
  match self.mIndexSegments.getLast? with
  | none =>
    { self with mIndexSegments := [OP1AIndexTableSegment.new self.mIndexSID self.mBodySID
        self.mFrameRate self.mDuration self.mIndexEntrySize self.mSliceCount] }
  | some last =>
    if last.RequireNewSegment can_start_partition then
      { self with mIndexSegments := self.mIndexSegments ++
          [OP1AIndexTableSegment.new self.mIndexSID self.mBodySID self.mFrameRate self.mDuration
            self.mIndexEntrySize self.mSliceCount] }
    else self

/-- Lines 444-471 of `OP1AIndexTable::UpdateIndex`: the VBE branch. -/
def OP1AIndexTable.updateVBE (self : OP1AIndexTable) (element_sizes : List Nat) :
    Outcome OP1AIndexTable :=
  match self.CanStartPartition with
  | none => Outcome.thrown Failure.cache_has_position self
  | some can_start_partition =>
    let r := takeIndexEntries self.mDuration self.mIndexElements element_sizes
      { slice_cp_offset := 0, slice_cp_offsets := [], prev_slice_offset := 0,
        entry := OP1AIndexEntry.new }
    let t1 : OP1AIndexTable := { self with mIndexElements := r.1 }
    match r.2 with
    | none => Outcome.thrown Failure.entries_compatible t1
    | some st =>
      let t2 := t1.openSegment can_start_partition
      match t2.mIndexSegments.getLast? with
      | none => Outcome.undefined
      | some last =>
        match last.AddIndexEntry st.entry t2.mStreamOffset st.slice_cp_offsets with
        | Outcome.ok last1 =>
          Outcome.ok { t2 with mIndexSegments := t2.mIndexSegments.dropLast ++ [last1] }
        | Outcome.thrown f last1 =>
          Outcome.thrown f { t2 with mIndexSegments := t2.mIndexSegments.dropLast ++ [last1] }
        | Outcome.undefined => Outcome.undefined

/-- The method `OP1AIndexTable::UpdateIndex`. -/
def OP1AIndexTable.UpdateIndex (self : OP1AIndexTable) (size : Nat) (element_sizes : List Nat) :
    Outcome OP1AIndexTable :=
  if element_sizes.length ≠ self.mIndexElements.length then
    Outcome.thrown Failure.element_sizes_count self
  else
    ((self.updateDeltaEntries element_sizes).andThen
      (fun t1 =>
        if t1.mIsCBE then t1.updateCBE size element_sizes else t1.updateVBE element_sizes)).andThen
      (fun t2 =>
        Outcome.ok { t2 with mDuration := t2.mDuration + 1,
                             mStreamOffset := t2.mStreamOffset + (size : Int) })

/-- The method `OP1AIndexTable::HaveSegments`. -/
def OP1AIndexTable.HaveSegments (self : OP1AIndexTable) : Bool :=
  self.mIsCBE ||
  (match self.mIndexSegments with
   | [] => false
   | s :: _ => decide (s.GetDuration > 0))

/-- The effect of `OP1AIndexTable::WriteSegments` on the table: a VBE table hands its segments
to the file and forgets them. -/
def OP1AIndexTable.WriteSegments (self : OP1AIndexTable) : Outcome OP1AIndexTable :=
  if !self.HaveSegments then Outcome.thrown Failure.have_segments self
  else if ¬ (self.mDuration > 0) then Outcome.thrown Failure.duration_positive self
  else if self.mIsCBE then Outcome.ok self
  else Outcome.ok { self with mIndexSegments := [] }

/-! ### Sequences of calls -/

/-- A call of one of the three `Register...TrackElement` methods. -/
inductive Registration where
  | picture (track_index : Nat) (is_cbe apply_temporal_reordering : Bool)
  | avci (track_index : Nat)
  | sound (track_index : Nat)
  deriving DecidableEq, Repr

/-- The table after one registration call. -/
def OP1AIndexTable.register (self : OP1AIndexTable) : Registration → OP1AIndexTable
  | Registration.picture track_index is_cbe apply_temporal_reordering =>
    self.RegisterPictureTrackElement track_index is_cbe apply_temporal_reordering
  | Registration.avci track_index => self.RegisterAVCITrackElement track_index
  | Registration.sound track_index => self.RegisterSoundTrackElement track_index

/-- Construction, the registration calls in order, then `PrepareWrite`. -/
def prepared (index_sid body_sid : Nat) (frame_rate : Rational)
    (registrations : List Registration) : Outcome OP1AIndexTable :=
  (registrations.foldl OP1AIndexTable.register
    (OP1AIndexTable.new index_sid body_sid frame_rate)).PrepareWrite

/-- A call made on a prepared index table while samples are written. -/
inductive Call where
  | AddIndexEntry (track_index : Nat) (position : Int) (temporal_offset key_frame_offset : Int)
      (flags : Nat) (can_start_partition : Bool)
  | UpdateIndexEntry (track_index : Nat) (position : Int) (temporal_offset : Int)
  | UpdateIndex (size : Nat) (element_sizes : List Nat)
  deriving DecidableEq, Repr

/-- The outcome of one call. -/
def OP1AIndexTable.call (self : OP1AIndexTable) : Call → Outcome OP1AIndexTable
  | Call.AddIndexEntry track_index position temporal_offset key_frame_offset flags
      can_start_partition =>
    self.AddIndexEntry track_index position temporal_offset key_frame_offset flags
      can_start_partition
  | Call.UpdateIndexEntry track_index position temporal_offset =>
    self.UpdateIndexEntry track_index position temporal_offset
  | Call.UpdateIndex size element_sizes => self.UpdateIndex size element_sizes

/-- The table after a sequence of calls, each of which may return or throw (the caller goes on
with the object as the throwing call left it); no table when a call has undefined
behaviour. -/
def OP1AIndexTable.run (self : OP1AIndexTable) : List Call → Option OP1AIndexTable
  | [] => some self
  | c :: rest =>
    match (self.call c).state with
    | none => none
    | some t => t.run rest

/-- The table after a sequence of calls that all return normally. -/
def OP1AIndexTable.runOk (self : OP1AIndexTable) : List Call → Option OP1AIndexTable
  | [] => some self
  | c :: rest =>
    match self.call c with
    | Outcome.ok t => t.runOk rest
    | _ => none

/-! ### Notions used in the statements about the index table -/

/-- The number of elements that come directly after a VBE element, given whether the element
before the list is VBE: the number of times the loop of `PrepareWrite` starts a new slice. -/
def countSlices : Bool → List OP1AIndexTableElement → Nat
  | _, [] => 0
  | prev_is_vbe, e :: rest => (if prev_is_vbe then 1 else 0) + countSlices (!e.is_cbe) rest

/-- The number of places at which a sequence of slice offsets, read after `prev`, changes. -/
def countChanges : Nat → List Nat → Nat
  | _, [] => 0
  | prev, o :: rest => (if o ≠ prev then 1 else 0) + countChanges o rest

/-- The segments cover the edit units from `first` up to `last` without gap or overlap. -/
def contiguous : Int → List OP1AIndexTableSegment → Int → Prop
  | first, [], last => first = last
  | first, s :: rest, last =>
    s.index_start_position = first ∧ contiguous (first + s.index_duration) rest last

/-- The local variables with which the VBE loop of `UpdateIndex` starts. -/
def VBELoopState.init : VBELoopState :=
  { slice_cp_offset := 0, slice_cp_offsets := [], prev_slice_offset := 0,
    entry := OP1AIndexEntry.new }

/-- The calls that index `count` edit units of one VBE track from position `start` on: for
each, the entry is cached without temporal offset, key frame offset or flags and with
`can_start_partition = false`, then the edit unit of 100 bytes is indexed. -/
def indexFrames (track_index : Nat) : Nat → Int → List Call
  | 0, _ => []
  | count + 1, start =>
    Call.AddIndexEntry track_index start 0 0 0 false ::
    Call.UpdateIndex 100 [100] :: indexFrames track_index count (start + 1)

/-- What holds of a VBE index table between calls, from `PrepareWrite` until the segments are
written out: every segment has the table's entry size and slice count, holds one entry of that
size per edit unit, and the segments cover the edit units indexed so far. -/
structure VBEInvariant (t : OP1AIndexTable) : Prop where
  vbe : t.mIsCBE = false
  entry_size_pos : 0 < t.mIndexEntrySize
  nonempty : t.mIndexSegments ≠ []
  segments : ∀ s ∈ t.mIndexSegments,
    s.mIndexEntrySize = t.mIndexEntrySize ∧ s.slice_count = t.mSliceCount ∧
    (s.mEntries.length : Int) = s.index_duration * (t.mIndexEntrySize : Int) ∧
    0 ≤ s.index_duration ∧ s.index_duration ≤ 65000
  cover : contiguous 0 t.mIndexSegments t.mDuration

/-- The parts of a table that no call after `PrepareWrite` changes: the kind of the table,
the slice count, the entry size and the slice offsets of the elements. -/
def sameShape (t t1 : OP1AIndexTable) : Prop :=
  t1.mIsCBE = t.mIsCBE ∧ t1.mSliceCount = t.mSliceCount ∧
  t1.mIndexEntrySize = t.mIndexEntrySize ∧
  t1.mIndexElements.map (fun x => x.slice_offset) = t.mIndexElements.map (fun x => x.slice_offset)

/-- The table with one VBE picture track (track index 0) after `n` edit units of 100 bytes
were indexed into a single segment holding `bytes`. -/
def singleSegmentTable (n : Nat) (bytes : List Nat) : OP1AIndexTable :=
  { mIndexSID := 1, mBodySID := 2, mFrameRate := ⟨25, 1⟩, mIsCBE := false, mHaveAVCI := false,
    mIndexElements :=
      [{ object_id := 0, track_index := 0, is_picture := true, is_cbe := false,
         apply_temporal_reordering := false, slice_offset := 0, element_size := 0,
         mIndexEntryCache := [] }],
    mIndexElementsMap := [(0, 0)], mSliceCount := 0, mIndexEntrySize := 11,
    mAVCIFirstIndexSegment := none,
    mIndexSegments :=
      [{ mIndexEntrySize := 11, mEntries := bytes, index_sid := 1, body_sid := 2,
         index_edit_rate := ⟨25, 1⟩, index_start_position := 0, index_duration := (n : Int),
         edit_unit_byte_count := 0, slice_count := 0, delta_entries := [] }],
    mDeltaEntries := [], mDuration := (n : Int), mStreamOffset := 100 * (n : Int) }

/-- The prepared table of a VBE picture track (track index 0) and a sound track (track
index 1), registered sound first: one slice, entries of 15 bytes. -/
def pictureSoundTable : OP1AIndexTable :=
  { mIndexSID := 1, mBodySID := 2, mFrameRate := ⟨25, 1⟩, mIsCBE := false, mHaveAVCI := false,
    mIndexElements :=
      [{ object_id := 1, track_index := 0, is_picture := true, is_cbe := false,
         apply_temporal_reordering := true, slice_offset := 0, element_size := 0,
         mIndexEntryCache := [] },
       { object_id := 0, track_index := 1, is_picture := false, is_cbe := true,
         apply_temporal_reordering := false, slice_offset := 1, element_size := 0,
         mIndexEntryCache := [] }],
    mIndexElementsMap := [(0, 1), (1, 0)], mSliceCount := 1, mIndexEntrySize := 15,
    mAVCIFirstIndexSegment := none,
    mIndexSegments :=
      [{ mIndexEntrySize := 15, mEntries := [], index_sid := 1, body_sid := 2,
         index_edit_rate := ⟨25, 1⟩, index_start_position := 0, index_duration := 0,
         edit_unit_byte_count := 0, slice_count := 1, delta_entries := [] }],
    mDeltaEntries := [], mDuration := 0, mStreamOffset := 0 }

/-! ## Utils.cpp: SMPTE timecodes -/

/-- The function `get_rounded_tc_base`, `(uint16_t)(numerator / (double)denominator + 0.5)`,
for a rate with non-negative numerator and positive denominator: the quotient rounded half up,
computed exactly, and stored in 16 bits. -/
def get_rounded_tc_base (rate : Rational) : Nat :=
  ((2 * rate.numerator + rate.denominator) / (2 * rate.denominator)).toNat % 65536

/-- Modelled from the spec: the class `Timecode` is declared in a header that is not among the
sources.  The structure holds the values that its getters return; hour, minute, second and
frame of a timecode are not negative, the offset is an `int64_t` count of frames. -/
structure Timecode where
  GetRoundedTCBase : Nat
  IsDropFrame : Bool
  GetHour : Nat
  GetMin : Nat
  GetSec : Nat
  GetFrame : Nat
  GetOffset : Int
  deriving DecidableEq, Repr

/-- What `decode_smpte_timecode` hands back: the arguments of its call
`timecode->Init(frame_rate, drop_frame, hour, min, sec, frame)` and the value it stores in
`*field_mark`. -/
structure DecodedTimecode where
  frame_rate : Rational
  drop_frame : Bool
  hour : Nat
  min : Nat
  sec : Nat
  frame : Nat
  field_mark : Bool
  deriving DecidableEq, Repr

/-- Value of a non-negative `int` when stored in an `unsigned char`. -/
def to_uchar (x : Nat) : Nat := x % 256

/-- The function `decode_smpte_timecode`: no result when the assertion `size >= 4` fails or the
array has fewer than four bytes. -/
def decode_smpte_timecode (frame_rate : Rational) (smpte_tc : List Nat) (size : Nat) :
    Option DecodedTimecode :=
  if size < 4 then none
  else
    match smpte_tc with
    | b0 :: b1 :: b2 :: b3 :: _ =>
      let frame := ((b0 &&& 0x30) >>> 4) * 10 + (b0 &&& 0x0f)
      let sec := ((b1 &&& 0x70) >>> 4) * 10 + (b1 &&& 0x0f)
      let min := ((b2 &&& 0x70) >>> 4) * 10 + (b2 &&& 0x0f)
      let hour := ((b3 &&& 0x30) >>> 4) * 10 + (b3 &&& 0x0f)
      let drop_frame := (b0 &&& 0x40) != 0
      let tc_base := get_rounded_tc_base frame_rate
      if tc_base > 30 then
        some { frame_rate := frame_rate, drop_frame := drop_frame, hour := hour, min := min,
               sec := sec, frame := frame * 2,
               field_mark := (tc_base == 50 && (b3 &&& 0x80) != 0) ||
                             (tc_base == 60 && (b1 &&& 0x80) != 0) }
      else
        some { frame_rate := frame_rate, drop_frame := drop_frame, hour := hour, min := min,
               sec := sec, frame := frame, field_mark := false }
    | _ => none

/-- The function `encode_smpte_timecode`: the `size` bytes written to `smpte_tc`; no result
when the assertion `size >= 4` fails. -/
def encode_smpte_timecode (timecode : Timecode) (field_mark : Bool) (size : Nat) :
    Option (List Nat) :=
  if size < 4 then none
  else
    let frame := if timecode.GetRoundedTCBase > 30 then timecode.GetFrame / 2
      else timecode.GetFrame
    let b0 := to_uchar (((frame % 10) &&& 0x0f) ||| (((frame / 10) <<< 4) &&& 0x30))
    let b1 := to_uchar (((timecode.GetSec % 10) &&& 0x0f) |||
      (((timecode.GetSec / 10) <<< 4) &&& 0x70))
    let b2 := to_uchar (((timecode.GetMin % 10) &&& 0x0f) |||
      (((timecode.GetMin / 10) <<< 4) &&& 0x70))
    let b3 := to_uchar (((timecode.GetHour % 10) &&& 0x0f) |||
      (((timecode.GetHour / 10) <<< 4) &&& 0x30))
    let b0 := if timecode.IsDropFrame then b0 ||| 0x40 else b0
    let second_of_pair :=
      field_mark && decide (timecode.GetRoundedTCBase > 30) &&
        decide (timecode.GetFrame % 2 = 1)
    let b3 := if second_of_pair && timecode.GetRoundedTCBase == 50 then b3 ||| 0x80 else b3
    let b1 := if second_of_pair && timecode.GetRoundedTCBase == 60 then b1 ||| 0x80 else b1
    some ([b0, b1, b2, b3] ++ List.replicate (size - 4) 0)

/-- The binary-coded decimal form of a number below 100: tens in the high bits, units in the
low four bits. -/
def bcd (n : Nat) : Nat := (n / 10) * 16 + n % 10

/-! ## AS02Track.cpp: output offsets and durations -/

/-- The data members of the class `AS02Track` that its offset and duration methods read or
write, with the two rates that `ContainerDurationToClipFrameRate` asks for: the value of
`GetSampleRate()` and the clip's `mClipFrameRate`. -/
structure AS02Track where
  mContainerDuration : Int
  mOutputStartOffset : Int
  mOutputEndOffset : Int
  sample_rate : Rational
  mClipFrameRate : Rational
  deriving DecidableEq, Repr

/-- The constructor `AS02Track::AS02Track` (lines 244-247). -/
def AS02Track.new (sample_rate clip_frame_rate : Rational) : AS02Track :=
  { mContainerDuration := 0, mOutputStartOffset := 0, mOutputEndOffset := 0,
    sample_rate := sample_rate, mClipFrameRate := clip_frame_rate }

/-- The method `AS02Track::SetOutputStartOffset`. -/
def AS02Track.SetOutputStartOffset (self : AS02Track) (offset : Int) : Outcome AS02Track :=
  if offset ≥ 0 then Outcome.ok { self with mOutputStartOffset := offset }
  else Outcome.thrown Failure.offset_nonneg self

/-- The method `AS02Track::SetOutputEndOffset`. -/
def AS02Track.SetOutputEndOffset (self : AS02Track) (offset : Int) : Outcome AS02Track :=
  if offset ≤ 0 then Outcome.ok { self with mOutputEndOffset := offset }
  else Outcome.thrown Failure.offset_nonpos self

/-- The method `AS02Track::ContainerDurationToClipFrameRate`. -/
def AS02Track.ContainerDurationToClipFrameRate (self : AS02Track) (length : Int) : Option Int :=
  convert_duration_rate self.sample_rate length self.mClipFrameRate Rounding.ROUND_AUTO

/-- The method `AS02Track::GetOutputDuration`: no result when its check fails. -/
def AS02Track.GetOutputDuration (self : AS02Track) (clip_frame_rate : Bool) : Option Int :=
  let duration :=
    add64 (sub64 self.mContainerDuration self.mOutputStartOffset) self.mOutputEndOffset
  if duration ≥ 0 then
    if clip_frame_rate then self.ContainerDurationToClipFrameRate duration
    else some duration
  else none

/-- The method `AS02Track::GetDuration`: no result when its check fails. -/
def AS02Track.GetDuration (self : AS02Track) : Option Int :=
  let duration := add64 self.mContainerDuration self.mOutputEndOffset
  if duration ≥ 0 then some duration else none

/-- A call of one of the two offset setters. -/
inductive OffsetCall where
  | SetOutputStartOffset (offset : Int)
  | SetOutputEndOffset (offset : Int)
  deriving DecidableEq, Repr

/-- The outcome of one setter call. -/
def AS02Track.call (self : AS02Track) : OffsetCall → Outcome AS02Track
  | OffsetCall.SetOutputStartOffset offset => self.SetOutputStartOffset offset
  | OffsetCall.SetOutputEndOffset offset => self.SetOutputEndOffset offset

/-- The track after a sequence of setter calls, each of which may return or throw. -/
def AS02Track.run (self : AS02Track) : List OffsetCall → AS02Track
  | [] => self
  | c :: rest =>
    match self.call c with
    | Outcome.ok t => t.run rest
    | Outcome.thrown _ t => t.run rest
    | Outcome.undefined => self.run rest

/-- The value is in the range of `int64_t`. -/
def isInt64 (x : Int) : Prop := -2 ^ 63 ≤ x ∧ x < 2 ^ 63

instance (x : Int) : Decidable (isInt64 x) := by
  unfold isInt64
  infer_instance

/-! ### Notions used in the statements about preparation and the delta entries -/

/-- The table after the registration calls, before `PrepareWrite`. -/
def registered (index_sid body_sid : Nat) (frame_rate : Rational)
    (registrations : List Registration) : OP1AIndexTable :=
  registrations.foldl OP1AIndexTable.register (OP1AIndexTable.new index_sid body_sid frame_rate)

/-- The number of VBE elements among the elements `0 .. i-1` of a list. -/
def vbeBefore (elements : List OP1AIndexTableElement) (i : Nat) : Nat :=
  ((elements.take i).filter (fun e => !e.is_cbe)).length

/-- The condition under which `UpdateIndex` creates the delta entries (line 353). -/
def createsDeltaEntries (t : OP1AIndexTable) : Prop :=
  t.mDuration = 0 ∨ (t.mAVCIFirstIndexSegment.isSome ∧ t.mDuration = 1)

/-- What the statements of a call other than the creation of the delta entries leave alone:
the kind of the table, the first AVC-Intra segment of a VBE table, the delta entries, and an
attribute `g` of the elements that does not depend on their entry caches. -/
def sameFrame {β : Type} (g : OP1AIndexTableElement → β) (t t1 : OP1AIndexTable) : Prop :=
  t1.mIsCBE = t.mIsCBE ∧
  (t.mIsCBE = false → t1.mAVCIFirstIndexSegment = t.mAVCIFirstIndexSegment) ∧
  t1.mIndexElements.map g = t.mIndexElements.map g ∧
  t1.mDeltaEntries = t.mDeltaEntries

/-- What one call leaves alone: the kind of the table and the first AVC-Intra segment of a VBE
table always, the duration but for the edit unit added; an attribute `g` of the elements that
does not depend on their entry caches, when it does not depend on the element sizes either or
the call does not create the delta entries; and the delta entries in the latter case. -/
def stepFrame {β : Type} (g : OP1AIndexTableElement → β) (t t1 : OP1AIndexTable) : Prop :=
  t1.mIsCBE = t.mIsCBE ∧
  t.mDuration ≤ t1.mDuration ∧ t1.mDuration ≤ t.mDuration + 1 ∧
  (t.mIsCBE = false → t1.mAVCIFirstIndexSegment = t.mAVCIFirstIndexSegment) ∧
  (((∀ e s, g { e with element_size := s } = g e) ∨ ¬ createsDeltaEntries t) →
    t1.mIndexElements.map g = t.mIndexElements.map g) ∧
  (¬ createsDeltaEntries t → t1.mDeltaEntries = t.mDeltaEntries)

/-- A cache holding the default entry at each of the positions `0 .. n-1`. -/
def filledCache (n : Nat) : List (Int × OP1AIndexEntry) :=
  (List.range n).map (fun (i : Nat) => ((i : Int), OP1AIndexEntry.new))

/-- The prepared table of one VBE picture track (track index 0) whose element has cached the
default entry at each of the positions `0 .. n-1`; no edit unit was indexed yet. -/
def cachedTable (n : Nat) : OP1AIndexTable :=
  { mIndexSID := 1, mBodySID := 2, mFrameRate := ⟨25, 1⟩, mIsCBE := false, mHaveAVCI := false,
    mIndexElements :=
      [{ object_id := 0, track_index := 0, is_picture := true, is_cbe := false,
         apply_temporal_reordering := false, slice_offset := 0, element_size := 0,
         mIndexEntryCache := filledCache n }],
    mIndexElementsMap := [(0, 0)], mSliceCount := 0, mIndexEntrySize := 11,
    mAVCIFirstIndexSegment := none,
    mIndexSegments :=
      [{ mIndexEntrySize := 11, mEntries := [], index_sid := 1, body_sid := 2,
         index_edit_rate := ⟨25, 1⟩, index_start_position := 0, index_duration := 0,
         edit_unit_byte_count := 0, slice_count := 0, delta_entries := [] }],
    mDeltaEntries := [], mDuration := 0, mStreamOffset := 0 }

/-- The calls that cache the default entry for track 0 at each of the positions
`0 .. n-1`, in this order. -/
def cacheCalls (n : Nat) : List Call :=
  (List.range n).map (fun (i : Nat) => Call.AddIndexEntry 0 (i : Int) 0 0 0 true)

/-- The sum of the sizes of the elements before index `i` whose slice offset is `slice`. -/
def sizeBeforeInSlice (elements : List OP1AIndexTableElement) (sizes : List Nat)
    (i slice : Nat) : Nat :=
  ((((elements.zip sizes).take i).filter (fun p => p.1.slice_offset == slice)).map
    (fun p => p.2)).sum

/-- The delta entry that section 4.2 of the spec derives for element `e` at index `i`:
`pos_table_index` is -1 with temporal reordering and 0 without, `slice` is the slice offset,
`element_delta` the sum of the sizes of the preceding elements of the same slice. -/
def spec_delta_entry (elements : List OP1AIndexTableElement) (sizes : List Nat) (i : Nat)
    (e : OP1AIndexTableElement) : OP1ADeltaEntry :=
  { pos_table_index := if e.apply_temporal_reordering then -1 else 0,
    slice := e.slice_offset,
    element_delta := sizeBeforeInSlice elements sizes i e.slice_offset }

/-- The prepared table of a VBE picture track with temporal reordering (track index 0) and two
sound tracks (track indexes 1 and 2), registered sounds first: the picture is in slice 0, the
sounds are in slice 1, entries have 15 bytes. -/
def pictureTwoSoundsTable : OP1AIndexTable :=
  { mIndexSID := 1, mBodySID := 2, mFrameRate := ⟨25, 1⟩, mIsCBE := false, mHaveAVCI := false,
    mIndexElements :=
      [{ object_id := 2, track_index := 0, is_picture := true, is_cbe := false,
         apply_temporal_reordering := true, slice_offset := 0, element_size := 0,
         mIndexEntryCache := [] },
       { object_id := 0, track_index := 1, is_picture := false, is_cbe := true,
         apply_temporal_reordering := false, slice_offset := 1, element_size := 0,
         mIndexEntryCache := [] },
       { object_id := 1, track_index := 2, is_picture := false, is_cbe := true,
         apply_temporal_reordering := false, slice_offset := 1, element_size := 0,
         mIndexEntryCache := [] }],
    mIndexElementsMap := [(0, 2), (2, 1), (1, 0)], mSliceCount := 1, mIndexEntrySize := 15,
    mAVCIFirstIndexSegment := none,
    mIndexSegments :=
      [{ mIndexEntrySize := 15, mEntries := [], index_sid := 1, body_sid := 2,
         index_edit_rate := ⟨25, 1⟩, index_start_position := 0, index_duration := 0,
         edit_unit_byte_count := 0, slice_count := 1, delta_entries := [] }],
    mDeltaEntries := [], mDuration := 0, mStreamOffset := 0 }

/-- The table `pictureSoundTable` with the picture element's entry cache replaced. -/
def pictureSoundCached (cache : List (Int × OP1AIndexEntry)) : OP1AIndexTable :=
  { pictureSoundTable with
    mIndexElements :=
      [{ object_id := 1, track_index := 0, is_picture := true, is_cbe := false,
         apply_temporal_reordering := true, slice_offset := 0, element_size := 0,
         mIndexEntryCache := cache },
       { object_id := 0, track_index := 1, is_picture := false, is_cbe := true,
         apply_temporal_reordering := false, slice_offset := 1, element_size := 0,
         mIndexEntryCache := [] }] }

/-- The table `pictureSoundTable` after one edit unit of 200 bytes, 150 of picture and 50 of
sound, was indexed with the default entry, and with the given entry cache of the picture
element. -/
def pictureSoundIndexed (cache : List (Int × OP1AIndexEntry)) : OP1AIndexTable :=
  { pictureSoundTable with
    mIndexElements :=
      [{ object_id := 1, track_index := 0, is_picture := true, is_cbe := false,
         apply_temporal_reordering := true, slice_offset := 0, element_size := 0,
         mIndexEntryCache := cache },
       { object_id := 0, track_index := 1, is_picture := false, is_cbe := true,
         apply_temporal_reordering := false, slice_offset := 1, element_size := 50,
         mIndexEntryCache := [] }],
    mIndexSegments :=
      [{ mIndexEntrySize := 15, mEntries := [0, 0, 0, 0, 0, 0, 0, 0, 0, 0, 0, 0, 0, 0, 150],
         index_sid := 1, body_sid := 2, index_edit_rate := ⟨25, 1⟩, index_start_position := 0,
         index_duration := 1, edit_unit_byte_count := 0, slice_count := 1,
         delta_entries := [] }],
    mDeltaEntries := [⟨-1, 0, 0⟩, ⟨0, 1, 0⟩], mDuration := 1, mStreamOffset := 200 }

/-! ### Notions used in the statement about the compatibility of the cached entries -/

/-- The three fields of an index entry that are serialized. -/
def OP1AIndexEntry.fields (x : OP1AIndexEntry) : Int × Int × Nat :=
  (x.temporal_offset, x.key_frame_offset, x.flags)

/-- The non-default entry that an element has cached at position `d`, if it has one. -/
def nonDefaultAt (d : Int) (e : OP1AIndexTableElement) : Option OP1AIndexEntry :=
  match cacheFind d e.mIndexEntryCache with
  | some x => if x.IsDefault then none else some x
  | none => none

/-- The non-default entries that the elements have cached at position `d`, in the order of the
elements. -/
def nonDefaultEntries (d : Int) (elements : List OP1AIndexTableElement) : List OP1AIndexEntry :=
  elements.filterMap (nonDefaultAt d)

/-- Two elements have cached entries at position `d` that are both non-default and differ in
`temporal_offset`, `key_frame_offset` or `flags`. -/
def incompatibleEntries (d : Int) (elements : List OP1AIndexTableElement) : Prop :=
  ∃ x ∈ nonDefaultEntries d elements, ∃ y ∈ nonDefaultEntries d elements, x.fields ≠ y.fields

/-! ## Header metadata

The packages, tracks, sequences and components that the track and clip writers build with the
libMXF++ classes.  Only the properties that the writers compute with are kept: names, dates,
identifications and the data definitions of the components are left out. -/

/-- Modelled from the spec: a UMID, 32 bytes read as one number. -/
abbrev UMID := Nat

/-- Modelled from the spec: the constant `g_Null_UMID` of libMXF, 32 zero bytes. -/
def g_Null_UMID : UMID := 0

/-- Modelled from the spec: the data definition labels `MXF_DDEF_L(...)` that the writers
set. -/
inductive DataDefinition where
  | Picture
  | Sound
  | Timecode
  | DescriptiveMetadata
  deriving DecidableEq, Repr

/-- Modelled from the spec: the libMXF test `mxf_is_picture`. -/
def mxf_is_picture (d : DataDefinition) : Bool := d == DataDefinition.Picture

/-- Modelled from the spec: the libMXF test `mxf_is_sound`. -/
def mxf_is_sound (d : DataDefinition) : Bool := d == DataDefinition.Sound

/-- Modelled from the spec: the libMXF test `mxf_is_timecode`. -/
def mxf_is_timecode (d : DataDefinition) : Bool := d == DataDefinition.Timecode

/-- Modelled from the spec: the structural components that the writers put into a sequence of
a timeline track, each with its `int64_t` duration. -/
inductive StructuralComponent where
  | SourceClip (duration start_position : Int) (source_package_id : UMID)
      (source_track_id : Nat)
  | TimecodeComponent (duration : Int) (rounded_timecode_base : Nat) (drop_frame : Bool)
      (start_timecode : Int)
  deriving DecidableEq, Repr

/-- The getter `getDuration` of a structural component. -/
def StructuralComponent.getDuration : StructuralComponent → Int
  | StructuralComponent.SourceClip duration _ _ _ => duration
  | StructuralComponent.TimecodeComponent duration _ _ _ => duration

/-- The setter `setDuration` of a structural component. -/
def StructuralComponent.setDuration : StructuralComponent → Int → StructuralComponent
  | StructuralComponent.SourceClip _ start_position source_package_id source_track_id, d =>
    StructuralComponent.SourceClip d start_position source_package_id source_track_id
  | StructuralComponent.TimecodeComponent _ rounded_timecode_base drop_frame start_timecode, d =>
    StructuralComponent.TimecodeComponent d rounded_timecode_base drop_frame start_timecode

/-- Modelled from the spec: a `Sequence`. -/
structure Sequence where
  data_definition : DataDefinition
  duration : Int
  components : List StructuralComponent
  deriving DecidableEq, Repr

/-- Modelled from the spec: a timeline `Track`; every track of the model has a `Sequence`. -/
structure Track where
  track_id : Nat
  track_number : Nat
  edit_rate : Rational
  origin : Int
  sequence : Sequence
  deriving DecidableEq, Repr

/-- Modelled from the spec: a `DMSegment` as the clip writer fills it in: position, the three
colour values, the comment if there is one, and the described track ids. -/
structure DMSegment where
  event_start_position : Int
  red : Nat
  green : Nat
  blue : Nat
  event_comment : Option String
  track_ids : List Nat
  deriving DecidableEq, Repr

/-- Modelled from the spec: an `EventTrack` with the segments of its sequence. -/
structure EventTrack where
  track_id : Nat
  track_number : Nat
  event_edit_rate : Rational
  data_definition : DataDefinition
  segments : List DMSegment
  deriving DecidableEq, Repr

/-- Modelled from the spec: a `GenericTrack` is a timeline track or an event track;
`dynamic_cast<Track*>` succeeds on the first kind only. -/
inductive GenericTrack where
  | Track (track : Track)
  | EventTrack (track : EventTrack)
  deriving DecidableEq, Repr

/-- The track id of a generic track. -/
def GenericTrack.getTrackID : GenericTrack → Nat
  | GenericTrack.Track t => t.track_id
  | GenericTrack.EventTrack t => t.track_id

/-- Modelled from the spec: the descriptors that the writers attach to a source package. -/
inductive Descriptor where
  | FileDescriptor (container_duration : Int) (linked_track_id : Nat)
  | TapeDescriptor
  | ImportDescriptor
  deriving DecidableEq, Repr

/-- Modelled from the spec: a `GenericPackage`: a material package, or a source package
(`dynamic_cast<SourcePackage*>` succeeds) with or without a descriptor. -/
structure GenericPackage where
  is_source_package : Bool
  package_uid : UMID
  tracks : List GenericTrack
  descriptor : Option Descriptor
  deriving DecidableEq, Repr

/-- The timeline tracks of a package, in order. -/
def GenericPackage.timelineTracks (package : GenericPackage) : List Track :=
  package.tracks.filterMap fun
    | GenericTrack.Track t => some t
    | GenericTrack.EventTrack _ => none

/-- The durations of the sequences of the timeline tracks of a package, in track order. -/
def GenericPackage.sequenceDurations (package : GenericPackage) : List Int :=
  package.timelineTracks.map fun t => t.sequence.duration

/-- The durations of the components of each sequence of a package, in track order. -/
def GenericPackage.componentDurations (package : GenericPackage) : List (List Int) :=
  package.timelineTracks.map fun t => t.sequence.components.map StructuralComponent.getDuration

/-- The origins of the timeline tracks of a package, in track order. -/
def GenericPackage.origins (package : GenericPackage) : List Int :=
  package.timelineTracks.map fun t => t.origin

/-- The method `findTrack` of a package: the first track with the id. -/
def GenericPackage.findTrack (package : GenericPackage) (track_id : Nat) : Option GenericTrack :=
  package.tracks.find? fun t => t.getTrackID == track_id

/-- The method `findPackage` of a preface: the first package with the UMID. -/
def findPackage (packages : List GenericPackage) (uid : UMID) : Option GenericPackage :=
  packages.find? fun p => p.package_uid == uid

/-- The call returned: it neither threw nor left defined behaviour. -/
def Outcome.returned {σ : Type} : Outcome σ → Bool
  | Outcome.ok _ => true
  | _ => false

/-! ## AS02Track.cpp: the track file -/

/-- The static `TIMECODE_TRACK_ID`. -/
def TIMECODE_TRACK_ID : Nat := 901

/-- The static `VIDEO_TRACK_ID`. -/
def VIDEO_TRACK_ID : Nat := 1001

/-- The static `AUDIO_TRACK_ID`. -/
def AUDIO_TRACK_ID : Nat := 2001

/-- Modelled from the spec: the libMXF constant `mxfKey_extlen`, the 16 bytes of a key. -/
def mxfKey_extlen : Nat := 16

/-- Modelled from the spec: the keys `MXF_PP_K(...)` that the track writer gives a partition
pack. -/
inductive PartitionKey where
  | OpenIncompleteHeader
  | OpenIncompleteBody
  | ClosedCompleteHeader
  | ClosedCompleteBody
  | ClosedCompleteFooter
  deriving DecidableEq, Repr

/-- Modelled from the spec: the libMXF test `mxf_is_header_partition_pack`. -/
def mxf_is_header_partition_pack : PartitionKey → Bool
  | PartitionKey.OpenIncompleteHeader => true
  | PartitionKey.ClosedCompleteHeader => true
  | _ => false

/-- Modelled from the spec: the libMXF test `mxf_is_body_partition_pack`. -/
def mxf_is_body_partition_pack : PartitionKey → Bool
  | PartitionKey.OpenIncompleteBody => true
  | PartitionKey.ClosedCompleteBody => true
  | _ => false

/-- Modelled from the spec: a `Partition` with the properties that the track writer sets. -/
structure Partition where
  key : PartitionKey
  index_sid : Nat
  body_sid : Nat
  deriving DecidableEq, Repr

/-- Modelled from the spec: the `IndexTableSegment` of libMXF++ with the properties that
`WriteCBEIndexTable` sets; `edit_unit_byte_count` is a `uint32_t`. -/
structure IndexTableSegment where
  index_edit_rate : Rational
  index_duration : Int
  index_sid : Nat
  body_sid : Nat
  edit_unit_byte_count : Nat
  deriving DecidableEq, Repr

/-- One write to the track file, with the values written. -/
inductive FileWrite where
  | partition_pack (partition : Partition)
  | header_metadata (material_package file_source_package : Option GenericPackage)
  | index_table_segment (segment : IndexTableSegment)
  | rip
  | partition_packs (partitions : List Partition)
  deriving DecidableEq, Repr

/-- The data members of the class `AS02Track` that `PrepareWrite`, `CompleteWrite` and the
methods they call read or write, on top of those of the offset methods.  `mMXFFile` is the
file object, absent for a null pointer, given by its partitions; `written` lists what was
written to the file, which stays when the file object is deleted; `sample_size` is the value
of `mDescriptorHelper->GetSampleSize()` and `mStartTimecode` the clip's `mStartTimecode`. -/
structure AS02TrackState extends AS02Track where
  mMXFFile : Option (List Partition)
  written : List FileWrite
  sample_size : Nat
  mStartTimecode : Timecode
  mSampleSize : Nat
  mIsPicture : Bool
  mTrackNumber : Nat
  mIndexSID : Nat
  mBodySID : Nat
  mLLen : Nat
  mKAGSize : Nat
  mMaterialPackageUID : UMID
  mFileSourcePackageUID : UMID
  mCBEIndexSegment : Option IndexTableSegment
  mMaterialPackage : Option GenericPackage
  mFileSourcePackage : Option GenericPackage
  mHaveLowerLevelSourcePackage : Bool
  mLowerLevelSourcePackageUID : UMID
  mLowerLevelTrackId : Nat
  deriving DecidableEq, Repr

/-- The constructor `AS02Track::AS02Track` (lines 237-283), for a file object without
partitions; the two package UMIDs are generated. -/
def AS02TrackState.new (sample_rate clip_frame_rate : Rational) (sample_size : Nat)
    (start_timecode : Timecode) (material_package_uid file_source_package_uid : UMID) :
    AS02TrackState :=
  { toAS02Track := AS02Track.new sample_rate clip_frame_rate,
    mMXFFile := some [], written := [], sample_size := sample_size,
    mStartTimecode := start_timecode, mSampleSize := 0, mIsPicture := true, mTrackNumber := 0,
    mIndexSID := 1, mBodySID := 2, mLLen := 4, mKAGSize := 1,
    mMaterialPackageUID := material_package_uid,
    mFileSourcePackageUID := file_source_package_uid,
    mCBEIndexSegment := none, mMaterialPackage := none, mFileSourcePackage := none,
    mHaveLowerLevelSourcePackage := false, mLowerLevelSourcePackageUID := g_Null_UMID,
    mLowerLevelTrackId := 0 }

/-- Modelled from the spec: the members of `AS02Track` that the class header declares and
the essence subclasses define. -/
structure AS02TrackHooks where
  HaveCBEIndexTable : AS02TrackState → Bool
  HaveVBEIndexEntries : AS02TrackState → Bool
  WriteVBEIndexTable : AS02TrackState → Outcome AS02TrackState
  PreSampleWriting : AS02TrackState → Outcome AS02TrackState
  PostSampleWriting : AS02TrackState → Outcome AS02TrackState

/-- Modelled from the spec: a track with a CBE index table when the sample size is positive,
no VBE index entries and nothing to do before and after the samples. -/
def AS02TrackHooks.base : AS02TrackHooks :=
  { HaveCBEIndexTable := fun s => decide (s.mSampleSize > 0),
    HaveVBEIndexEntries := fun _ => false,
    WriteVBEIndexTable := fun s => Outcome.ok s,
    PreSampleWriting := fun s => Outcome.ok s,
    PostSampleWriting := fun s => Outcome.ok s }

/-- The body of the loop of `AS02Track::UpdatePackageMetadata` (lines 465-486) for one track
of the package; a failed check leaves the track as far as it was updated. -/
def AS02Track.updateTrack (self : AS02Track) (source_package : Bool) (track : GenericTrack) :
    Outcome GenericTrack :=
  match track with
  | GenericTrack.EventTrack t => Outcome.thrown Failure.is_track (GenericTrack.EventTrack t)
  | GenericTrack.Track t =>
    let t1 : Track := if source_package then { t with origin := self.mOutputStartOffset } else t
    if t1.sequence.duration < 0 then
      match (if source_package then self.GetDuration else self.GetOutputDuration false) with
      | none =>
        Outcome.thrown
          (if source_package then Failure.duration_nonneg else Failure.output_duration_nonneg)
          (GenericTrack.Track t1)
      | some duration =>
        let t2 : Track := { t1 with sequence := { t1.sequence with duration := duration } }
        match t2.sequence.components with
        | [component] =>
          Outcome.ok (GenericTrack.Track
            { t2 with sequence :=
                { t2.sequence with components := [component.setDuration duration] } })
        | _ => Outcome.thrown Failure.single_component (GenericTrack.Track t2)
    else Outcome.ok (GenericTrack.Track t1)

/-- The loop of `AS02Track::UpdatePackageMetadata` over the tracks of the package. -/
def AS02Track.updateTracks (self : AS02Track) (source_package : Bool) :
    List GenericTrack → Outcome (List GenericTrack)
  | [] => Outcome.ok []
  | track :: rest =>
    match self.updateTrack source_package track with
    | Outcome.ok t =>
      match self.updateTracks source_package rest with
      | Outcome.ok r => Outcome.ok (t :: r)
      | Outcome.thrown f r => Outcome.thrown f (t :: r)
      | Outcome.undefined => Outcome.undefined
    | Outcome.thrown f t => Outcome.thrown f (t :: rest)
    | Outcome.undefined => Outcome.undefined

/-- The method `AS02Track::UpdatePackageMetadata`. -/
def AS02Track.UpdatePackageMetadata (self : AS02Track) (package : GenericPackage) :
    Outcome GenericPackage :=
  match self.updateTracks package.is_source_package package.tracks with
  | Outcome.ok tracks =>
    Outcome.ok
      { package with
        tracks := tracks,
        descriptor :=
          if package.is_source_package then
            match package.descriptor with
            | some (Descriptor.FileDescriptor _ linked_track_id) =>
              some (Descriptor.FileDescriptor self.mContainerDuration linked_track_id)
            | d => d
          else package.descriptor }
  | Outcome.thrown f tracks => Outcome.thrown f { package with tracks := tracks }
  | Outcome.undefined => Outcome.undefined

/-- The method `AS02Track::CreateHeaderMetadata` (lines 591-755): the material package and the
file source package that it builds.  `AddOffset` is the method of the class `Timecode` of that
name, which is not among the sources. -/
def AS02TrackState.CreateHeaderMetadata (self : AS02TrackState)
    (AddOffset : Timecode → Int → Rational → Timecode) : AS02TrackState :=
  let essence_track_id := if self.mIsPicture then VIDEO_TRACK_ID else AUDIO_TRACK_ID
  let essence_data_def :=
    if self.mIsPicture then DataDefinition.Picture else DataDefinition.Sound
  let sp_start_timecode := AddOffset self.mStartTimecode (-self.mOutputStartOffset)
    self.sample_rate
  let material_package : GenericPackage :=
    { is_source_package := false, package_uid := self.mMaterialPackageUID,
      tracks :=
        [GenericTrack.Track
           { track_id := TIMECODE_TRACK_ID, track_number := 0, edit_rate := self.sample_rate,
             origin := 0,
             sequence :=
               { data_definition := DataDefinition.Timecode, duration := -1,
                 components :=
                   [StructuralComponent.TimecodeComponent (-1)
                      self.mStartTimecode.GetRoundedTCBase self.mStartTimecode.IsDropFrame
                      self.mStartTimecode.GetOffset] } },
         GenericTrack.Track
           { track_id := essence_track_id, track_number := 0, edit_rate := self.sample_rate,
             origin := 0,
             sequence :=
               { data_definition := essence_data_def, duration := -1,
                 components :=
                   [StructuralComponent.SourceClip (-1) 0 self.mFileSourcePackageUID
                      essence_track_id] } }],
      descriptor := none }
  let file_source_package : GenericPackage :=
    { is_source_package := true, package_uid := self.mFileSourcePackageUID,
      tracks :=
        [GenericTrack.Track
           { track_id := TIMECODE_TRACK_ID, track_number := 0, edit_rate := self.sample_rate,
             origin := 0,
             sequence :=
               { data_definition := DataDefinition.Timecode, duration := -1,
                 components :=
                   [StructuralComponent.TimecodeComponent (-1)
                      sp_start_timecode.GetRoundedTCBase sp_start_timecode.IsDropFrame
                      sp_start_timecode.GetOffset] } },
         GenericTrack.Track
           { track_id := essence_track_id, track_number := self.mTrackNumber,
             edit_rate := self.sample_rate, origin := 0,
             sequence :=
               { data_definition := essence_data_def, duration := -1,
                 components :=
                   [if self.mHaveLowerLevelSourcePackage then
                      StructuralComponent.SourceClip (-1) 0 self.mLowerLevelSourcePackageUID
                        self.mLowerLevelTrackId
                    else StructuralComponent.SourceClip (-1) 0 g_Null_UMID 0] } }],
      descriptor := some (Descriptor.FileDescriptor (-1) essence_track_id) }
  { self with
    mMaterialPackage := some material_package,
    mFileSourcePackage := some file_source_package }

/-- The calls `mMXFFile->createPartition()`, the setters and `write` on the new partition: no
defined behaviour without a file object. -/
def AS02TrackState.createPartition (self : AS02TrackState) (partition : Partition) :
    Outcome AS02TrackState :=
  match self.mMXFFile with
  | none => Outcome.undefined
  | some partitions =>
    Outcome.ok
      { self with
        mMXFFile := some (partitions ++ [partition]),
        written := self.written ++ [FileWrite.partition_pack partition] }

/-- The call `mHeaderMetadata->write(mMXFFile, ...)`. -/
def AS02TrackState.writeHeaderMetadata (self : AS02TrackState) : AS02TrackState :=
  { self with
    written :=
      self.written ++ [FileWrite.header_metadata self.mMaterialPackage self.mFileSourcePackage] }

/-- The method `AS02Track::WriteCBEIndexTable` (lines 554-581). -/
def AS02TrackState.WriteCBEIndexTable (self : AS02TrackState) : Outcome AS02TrackState :=
  if self.mSampleSize > 0 then
    let segment : IndexTableSegment :=
      match self.mCBEIndexSegment with
      | none =>
        { index_edit_rate := self.sample_rate, index_duration := 0,
          index_sid := self.mIndexSID, body_sid := self.mBodySID,
          edit_unit_byte_count :=
            if self.mIsPicture then wrapU32 (mxfKey_extlen + self.mLLen + self.mSampleSize)
            else self.mSampleSize }
      | some segment => { segment with index_duration := self.mContainerDuration }
    Outcome.ok
      { self with
        mCBEIndexSegment := some segment,
        written := self.written ++ [FileWrite.index_table_segment segment] }
  else Outcome.thrown Failure.sample_size_positive self

/-- The method `AS02Track::CreateFile` (lines 756-811). -/
def AS02TrackState.CreateFile (self : AS02TrackState) (hooks : AS02TrackHooks) :
    Outcome AS02TrackState :=
  (self.createPartition
      { key := PartitionKey.OpenIncompleteHeader, index_sid := 0, body_sid := 0 }).andThen
    fun s1 =>
  let s2 := s1.writeHeaderMetadata
  (if hooks.HaveCBEIndexTable s2 then
      (s2.createPartition
          { key := PartitionKey.OpenIncompleteBody, index_sid := s2.mIndexSID,
            body_sid := 0 }).andThen
        fun s => s.WriteCBEIndexTable
    else Outcome.ok s2).andThen fun s3 =>
  (s3.createPartition
      { key := PartitionKey.OpenIncompleteBody, index_sid := 0,
        body_sid := s3.mBodySID }).andThen fun s4 =>
  hooks.PreSampleWriting s4

/-- The method `AS02Track::PrepareWrite` (lines 354-362). -/
def AS02TrackState.PrepareWrite (self : AS02TrackState) (hooks : AS02TrackHooks)
    (AddOffset : Timecode → Int → Rational → Timecode) : Outcome AS02TrackState :=
  match self.mMXFFile with
  | none => Outcome.thrown Failure.mxf_file_set self
  | some _ =>
    let s1 := { self with mSampleSize := self.sample_size }
    (s1.CreateHeaderMetadata AddOffset).CreateFile hooks

/-- The two calls of `UpdatePackageMetadata` in `CompleteWrite`, on `mMaterialPackage` and on
`mFileSourcePackage`: no defined behaviour for a null pointer. -/
def AS02TrackState.updatePackages (self : AS02TrackState) : Outcome AS02TrackState :=
  match self.mMaterialPackage with
  | none => Outcome.undefined
  | some material_package =>
    match self.toAS02Track.UpdatePackageMetadata material_package with
    | Outcome.undefined => Outcome.undefined
    | Outcome.thrown f p => Outcome.thrown f { self with mMaterialPackage := some p }
    | Outcome.ok p =>
      let s1 := { self with mMaterialPackage := some p }
      match s1.mFileSourcePackage with
      | none => Outcome.undefined
      | some file_source_package =>
        match s1.toAS02Track.UpdatePackageMetadata file_source_package with
        | Outcome.undefined => Outcome.undefined
        | Outcome.thrown f q => Outcome.thrown f { s1 with mFileSourcePackage := some q }
        | Outcome.ok q => Outcome.ok { s1 with mFileSourcePackage := some q }

/-- The loop of `CompleteWrite` that sets the keys of the header and body partition packs to
closed and complete. -/
def closePartition (partition : Partition) : Partition :=
  if mxf_is_header_partition_pack partition.key then
    { partition with key := PartitionKey.ClosedCompleteHeader }
  else if mxf_is_body_partition_pack partition.key then
    { partition with key := PartitionKey.ClosedCompleteBody }
  else partition

/-- The end of `AS02Track::CompleteWrite` (lines 423-437): the partition packs are updated and
written again and the file object is deleted. -/
def AS02TrackState.closeFile (self : AS02TrackState) : Outcome AS02TrackState :=
  match self.mMXFFile with
  | none => Outcome.undefined
  | some partitions =>
    Outcome.ok
      { self with
        mMXFFile := none,
        written := self.written ++ [FileWrite.partition_packs (partitions.map closePartition)] }

/-- The method `AS02Track::CompleteWrite` (lines 364-451), up to the checksum of the
manifest. -/
def AS02TrackState.CompleteWrite (self : AS02TrackState) (hooks : AS02TrackHooks) :
    Outcome AS02TrackState :=
  match self.mMXFFile with
  | none => Outcome.thrown Failure.mxf_file_set self
  | some [] => Outcome.undefined
  | some (_ :: _) =>
    (hooks.PostSampleWriting self).andThen fun s1 =>
    (if !hooks.HaveCBEIndexTable s1 && hooks.HaveVBEIndexEntries s1 then
        (s1.createPartition
            { key := PartitionKey.OpenIncompleteBody, index_sid := s1.mIndexSID,
              body_sid := 0 }).andThen hooks.WriteVBEIndexTable
      else Outcome.ok s1).andThen fun s2 =>
    s2.updatePackages.andThen fun s3 =>
    (s3.createPartition
        { key := PartitionKey.ClosedCompleteFooter, index_sid := 0, body_sid := 0 }).andThen
      fun s4 =>
    let s5 := { s4 with written := s4.written ++ [FileWrite.rip] }
    let s6 := s5.writeHeaderMetadata
    (if hooks.HaveCBEIndexTable s6 then s6.WriteCBEIndexTable else Outcome.ok s6).andThen
      fun s7 =>
    s7.closeFile

/-! ### Example tracks -/

/-- The timecode 00:00:00:00 at 25 frames per second. -/
def zeroTimecode : Timecode :=
  { GetRoundedTCBase := 25, IsDropFrame := false, GetHour := 0, GetMin := 0, GetSec := 0,
    GetFrame := 0, GetOffset := 0 }

/-- A stand-in for `Timecode::AddOffset` where the offset added is 0: the timecode stays. -/
def keepTimecode (timecode : Timecode) (_offset : Int) (_rate : Rational) : Timecode :=
  timecode

/-- A new DV25 picture track at 25/1 with frames of 144000 bytes. -/
def dvTrack : AS02TrackState :=
  AS02TrackState.new ⟨25, 1⟩ ⟨25, 1⟩ 144000 zeroTimecode 1 2

/-- A new PCM sound track at 48000/1 with samples of 2 bytes. -/
def pcmTrack : AS02TrackState :=
  { AS02TrackState.new ⟨48000, 1⟩ ⟨25, 1⟩ 2 zeroTimecode 1 3 with mIsPicture := false }

/-- The track after `samples` samples were written and the end offset was set. -/
def AS02TrackState.afterSamples (self : AS02TrackState) (samples end_offset : Int) :
    AS02TrackState :=
  { self with mContainerDuration := samples, mOutputEndOffset := end_offset }

/-- The life of a track file: `PrepareWrite`, `samples` samples, the end offset,
`CompleteWrite`. -/
def recorded (track : AS02TrackState) (samples end_offset : Int) : Outcome AS02TrackState :=
  (track.PrepareWrite AS02TrackHooks.base keepTimecode).andThen fun s =>
    (s.afterSamples samples end_offset).CompleteWrite AS02TrackHooks.base

/-- The state in which a call left the object, or `other` when its behaviour is not
defined. -/
def Outcome.stateOr {σ : Type} (o : Outcome σ) (other : σ) : σ :=
  match o with
  | Outcome.ok s => s
  | Outcome.thrown _ s => s
  | Outcome.undefined => other

/-- The DV25 track after `PrepareWrite`. -/
def dvPrepared : AS02TrackState :=
  (dvTrack.PrepareWrite AS02TrackHooks.base keepTimecode).stateOr dvTrack

/-- The DV25 track after `PrepareWrite`, 100 frames and `CompleteWrite`. -/
def dvCompleted : AS02TrackState :=
  ((dvPrepared.afterSamples 100 0).CompleteWrite AS02TrackHooks.base).stateOr dvTrack

/-! ## Utils.cpp and AS02Bundle.cpp: file names

A `std::string` is the list of its characters. -/

/-- The call `filename.rfind(c)`: the position of the last `c`, none for `npos`. -/
def rfind (c : Char) : List Char → Option Nat
  | [] => none
  | x :: rest =>
    match rfind c rest with
    | some i => some (i + 1)
    | none => if x = c then some 0 else none

/-- The function `im::strip_suffix` (lines 139-146). -/
def strip_suffix (filename : List Char) : List Char :=
  match rfind '.' filename with
  | some suffix_index => filename.take suffix_index
  | none => filename

/-- The static `MEDIA_SUBDIR_NAME`. -/
def MEDIA_SUBDIR_NAME : List Char := "media".toList

/-- The data members of the class `AS02Bundle` that the file name methods read. -/
structure AS02Bundle where
  mRootFilepath : List Char
  mBundleName : List Char
  deriving DecidableEq, Repr

/-- The method `AS02Bundle::CreateEssenceComponentFilepath` (lines 177-197) for a `uint32_t`
track number: the file path it returns and the string it stores in `*rel_uri_out`.  `uri` is
what the class `URI`, which is not among the sources, makes of a file name with
`ParseFilename` and `ToString`. -/
def AS02Bundle.CreateEssenceComponentFilepath (self : AS02Bundle) (uri : List Char → List Char)
    (version_filename : List Char) (is_video : Bool) (track_number : Nat) :
    Except Failure (List Char × List Char) :=
  if track_number > 0 then
    let suffix := (if is_video then "_v" else "_a").toList ++
      Nat.toDigits 10 (track_number - 1) ++ ".mxf".toList
    let version_name := strip_suffix version_filename
    Except.ok
      (self.mRootFilepath ++ MEDIA_SUBDIR_NAME ++ "/".toList ++ version_name ++ suffix,
        uri (MEDIA_SUBDIR_NAME ++ "/".toList ++ version_name ++ suffix))
  else Except.error Failure.track_number_positive

/-! ## AvidClip.cpp: the clip writer -/

/-- The constant `MAX_LOCATORS`. -/
def MAX_LOCATORS : Nat := 4095

/-- The static `DM_TRACK_ID`. -/
def DM_TRACK_ID : Nat := 1000

/-- The static `DM_TRACK_NUMBER`. -/
def DM_TRACK_NUMBER : Nat := 1

/-- The enumeration `AvidRGBColor` of `AvidClip.h`. -/
inductive AvidRGBColor where
  | AVID_WHITE
  | AVID_RED
  | AVID_YELLOW
  | AVID_GREEN
  | AVID_CYAN
  | AVID_BLUE
  | AVID_MAGENTA
  | AVID_BLACK
  deriving DecidableEq, Repr

/-- The table `AVID_RGB_COLORS`, read at `color - AVID_WHITE`: red, green and blue. -/
def AVID_RGB_COLORS : AvidRGBColor → Nat × Nat × Nat
  | AvidRGBColor.AVID_WHITE => (65534, 65535, 65535)
  | AvidRGBColor.AVID_RED => (41471, 12134, 6564)
  | AvidRGBColor.AVID_YELLOW => (58981, 58981, 6553)
  | AvidRGBColor.AVID_GREEN => (13107, 52428, 13107)
  | AvidRGBColor.AVID_CYAN => (13107, 52428, 52428)
  | AvidRGBColor.AVID_BLUE => (13107, 13107, 52428)
  | AvidRGBColor.AVID_MAGENTA => (52428, 13107, 52428)
  | AvidRGBColor.AVID_BLACK => (0, 0, 0)

/-- The struct `AvidLocator` of `AvidClip.h`. -/
structure AvidLocator where
  position : Int
  color : AvidRGBColor
  comment : String
  deriving DecidableEq, Repr

/-- Modelled from the spec: the class `AvidTrack` is not among the sources.  The structure
holds what the clip writer reads from a track: the values of `IsPicture()`,
`GetTrackIndex()`, `GetSampleRate()`, `GetMaterialTrackId()` and `GetOutputDuration(false)`
(none when it throws), the packages of `GetHeaderMetadata()->getPreface()`, and the packages
that `GetMaterialPackage()`, `GetFileSourcePackage()` and `GetRefSourcePackage()` point to,
named by their UMID; a UMID that names no package stands for a null pointer. -/
structure AvidTrack where
  IsPicture : Bool
  GetTrackIndex : Nat
  GetSampleRate : Rational
  GetMaterialTrackId : Nat
  GetOutputDuration : Option Int
  packages : List GenericPackage
  GetMaterialPackage : UMID
  GetFileSourcePackage : UMID
  GetRefSourcePackage : Option UMID
  deriving DecidableEq, Repr

/-- Modelled from the spec: the track that `AvidTrack::OpenNew` opens: of the kind of the
essence type, with the track index given, and with no header metadata yet. -/
def AvidTrack.OpenNew (track_index : Nat) (is_picture : Bool) (sample_rate : Rational) :
    AvidTrack :=
  { IsPicture := is_picture, GetTrackIndex := track_index, GetSampleRate := sample_rate,
    GetMaterialTrackId := 0, GetOutputDuration := some 0, packages := [],
    GetMaterialPackage := g_Null_UMID, GetFileSourcePackage := g_Null_UMID,
    GetRefSourcePackage := none }

/-- A write through a package pointer: the first package with the UMID is replaced. -/
def setPackage (packages : List GenericPackage) (package : GenericPackage) :
    List GenericPackage :=
  match packages with
  | [] => []
  | p :: rest =>
    if p.package_uid == package.package_uid then package :: rest
    else p :: setPackage rest package

/-- A write through a track pointer: the first track of the package with the id is
replaced. -/
def setTrack (tracks : List GenericTrack) (track : Track) : List GenericTrack :=
  match tracks with
  | [] => []
  | t :: rest =>
    if t.getTrackID == track.track_id then GenericTrack.Track track :: rest
    else t :: setTrack rest track

/-- The static function `compare_track` (lines 76-80). -/
def compare_track (left right : AvidTrack) : Bool :=
  (left.IsPicture && !right.IsPicture) ||
  (left.IsPicture && decide (left.GetTrackIndex < right.GetTrackIndex))

/-- The data members of the class `AvidClip` that the methods below read or write. -/
structure AvidClip where
  mClipFrameRate : Rational
  mStartTimecode : Timecode
  mStartTimecodeSet : Bool
  mLocators : List AvidLocator
  mLocatorDescribedTrackId : Nat
  mTracks : List AvidTrack
  mTapeSourcePackages : List GenericPackage
  mImportSourcePackages : List GenericPackage
  deriving DecidableEq, Repr

/-- The check of the constructor `AvidClip::AvidClip` on the frame rate. -/
def supportedFrameRate (frame_rate : Rational) : Bool :=
  (frame_rate.numerator == 25 && frame_rate.denominator == 1) ||
  (frame_rate.numerator == 50 && frame_rate.denominator == 1) ||
  (frame_rate.numerator == 30000 && frame_rate.denominator == 1001) ||
  (frame_rate.numerator == 60000 && frame_rate.denominator == 1001)

/-- The constructor `AvidClip::AvidClip` (lines 84-108).  The start timecode
`Timecode(frame_rate, false)` is 00:00:00:00 at the rounded base of the frame rate. -/
def AvidClip.new (frame_rate : Rational) : Except Failure AvidClip :=
  if supportedFrameRate frame_rate then
    Except.ok
      { mClipFrameRate := frame_rate,
        mStartTimecode :=
          { GetRoundedTCBase := get_rounded_tc_base frame_rate, IsDropFrame := false,
            GetHour := 0, GetMin := 0, GetSec := 0, GetFrame := 0, GetOffset := 0 },
        mStartTimecodeSet := false, mLocators := [], mLocatorDescribedTrackId := 0,
        mTracks := [], mTapeSourcePackages := [], mImportSourcePackages := [] }
  else Except.error Failure.frame_rate_supported

/-- The method `AvidClip::SetStartTimecode`. -/
def AvidClip.SetStartTimecode (self : AvidClip) (start_timecode : Timecode) : AvidClip :=
  { self with mStartTimecode := start_timecode, mStartTimecodeSet := true }

/-- The method `AvidClip::AddLocator`. -/
def AvidClip.AddLocator (self : AvidClip) (locator : AvidLocator) : AvidClip :=
  { self with mLocators := self.mLocators ++ [locator] }

/-- The clip after a sequence of `AddLocator` calls. -/
def AvidClip.addLocators (self : AvidClip) : List AvidLocator → AvidClip
  | [] => self
  | locator :: rest => (self.AddLocator locator).addLocators rest

/-- The method `AvidClip::CreateTrack(essence_type, filename)`: the new track gets the number
of tracks so far as its track index. -/
def AvidClip.CreateTrack (self : AvidClip) (is_picture : Bool) (sample_rate : Rational) :
    AvidClip :=
  { self with
    mTracks := self.mTracks ++ [AvidTrack.OpenNew self.mTracks.length is_picture sample_rate] }

/-- The clip after a sequence of `CreateTrack` calls, each with the kind of its essence type
and its sample rate. -/
def AvidClip.createTracks (self : AvidClip) : List (Bool × Rational) → AvidClip
  | [] => self
  | (is_picture, sample_rate) :: rest =>
    (self.CreateTrack is_picture sample_rate).createTracks rest

/-- The first statement of `AvidClip::PrepareWrite`: the stable sort of the tracks. -/
def AvidClip.sortTracks (self : AvidClip) : AvidClip :=
  { self with mTracks := stable_sort compare_track self.mTracks }

/-- The value of `120 * 60 * 60 * get_rounded_tc_base(mClipFrameRate)`, a product of `int`
values none of which is negative: no defined behaviour when it does not fit 32 bits. -/
def tape_duration (clip_frame_rate : Rational) : Option Int :=
  let duration : Nat := 120 * 60 * 60 * get_rounded_tc_base clip_frame_rate
  if duration < 2147483648 then some (duration : Int) else none

/-- The loop of `AvidClip::CreateDefaultTapeSource` (lines 188-220) from the value `i` of its
counter on, for the `steps` rounds that are left: the tracks appended to the package and the
`track_id` after the loop.  The counters and numbers are `uint32_t` values. -/
def tapeTrackLoop (clip_frame_rate : Rational) (duration : Int) (num_video_tracks : Nat) :
    Nat → Nat → Nat → Nat → Nat → List GenericTrack → List GenericTrack × Nat
  | 0, _, track_id, _, _, tracks => (tracks, track_id)
  | steps + 1, i, track_id, video_track_number, audio_track_number, tracks =>
    let is_video := decide (i < num_video_tracks)
    let track : Track :=
      { track_id := track_id,
        track_number := if is_video then video_track_number else audio_track_number,
        edit_rate := clip_frame_rate, origin := 0,
        sequence :=
          { data_definition :=
              if is_video then DataDefinition.Picture else DataDefinition.Sound,
            duration := duration,
            components := [StructuralComponent.SourceClip duration 0 g_Null_UMID 0] } }
    tapeTrackLoop clip_frame_rate duration num_video_tracks steps (i + 1)
      (wrapU32 (track_id + 1))
      (if is_video then wrapU32 (video_track_number + 1) else video_track_number)
      (if is_video then audio_track_number else wrapU32 (audio_track_number + 1))
      (tracks ++ [GenericTrack.Track track])

/-- The method `AvidClip::CreateDefaultTapeSource` (lines 169-257) for `uint32_t` track
counts: the clip with the package registered, and the package.  The UMID of the package is
generated. -/
def AvidClip.CreateDefaultTapeSource (self : AvidClip) (tape_package_uid : UMID)
    (num_video_tracks num_audio_tracks : Nat) : Option (AvidClip × GenericPackage) :=
  match tape_duration self.mClipFrameRate with
  | none => none
  | some duration =>
    let r := tapeTrackLoop self.mClipFrameRate duration num_video_tracks
      (wrapU32 (num_video_tracks + num_audio_tracks)) 0 1 1 1 []
    let tc_track : Track :=
      { track_id := r.2, track_number := 1, edit_rate := self.mClipFrameRate, origin := 0,
        sequence :=
          { data_definition := DataDefinition.Timecode, duration := duration,
            components :=
              [StructuralComponent.TimecodeComponent duration
                 (get_rounded_tc_base self.mClipFrameRate) false 0] } }
    let tape_package : GenericPackage :=
      { is_source_package := true, package_uid := tape_package_uid,
        tracks := r.1 ++ [GenericTrack.Track tc_track],
        descriptor := some Descriptor.TapeDescriptor }
    some ({ self with mTapeSourcePackages := self.mTapeSourcePackages ++ [tape_package] },
      tape_package)

/-- What `AvidClip::GetStartTimecode` hands back: the arguments of its call
`timecode->Init(rounded_tc_base, drop_frame, offset)`, which are the values that the getters
of the timecode return afterwards. -/
structure StartTimecode where
  rounded_tc_base : Nat
  drop_frame : Bool
  offset : Int
  deriving DecidableEq, Repr

/-- The inner loop of `AvidClip::GetStartTimecode`: the first timecode component of a
sequence. -/
def firstTimecodeComponent : List StructuralComponent → Option StartTimecode
  | [] => none
  | StructuralComponent.TimecodeComponent _ rounded_timecode_base drop_frame start_timecode
      :: _ =>
    some { rounded_tc_base := rounded_timecode_base, drop_frame := drop_frame,
           offset := start_timecode }
  | _ :: rest => firstTimecodeComponent rest

/-- The outer loop of `AvidClip::GetStartTimecode` over the tracks of the package. -/
def findStartTimecode : List GenericTrack → Option StartTimecode
  | [] => none
  | GenericTrack.EventTrack _ :: rest => findStartTimecode rest
  | GenericTrack.Track track :: rest =>
    if mxf_is_timecode track.sequence.data_definition then
      match firstTimecodeComponent track.sequence.components with
      | some timecode => some timecode
      | none => findStartTimecode rest
    else findStartTimecode rest

/-- The method `AvidClip::GetStartTimecode` (lines 748-786): none when it returns false. -/
def GetStartTimecode (package : GenericPackage) : Option StartTimecode :=
  findStartTimecode package.tracks

/-- The inner loop of `AvidClip::SetTapeStartTimecode` (lines 561-585) over the tracks of the
file source package: the first picture or sound track gets the start position. -/
def setStartPosition (clip_frame_rate : Rational) (start_position : Int) :
    List GenericTrack → Outcome (List GenericTrack)
  | [] => Outcome.ok []
  | GenericTrack.EventTrack t :: rest =>
    match setStartPosition clip_frame_rate start_position rest with
    | Outcome.ok r => Outcome.ok (GenericTrack.EventTrack t :: r)
    | Outcome.thrown f r => Outcome.thrown f (GenericTrack.EventTrack t :: r)
    | Outcome.undefined => Outcome.undefined
  | GenericTrack.Track track :: rest =>
    if !mxf_is_picture track.sequence.data_definition &&
        !mxf_is_sound track.sequence.data_definition then
      match setStartPosition clip_frame_rate start_position rest with
      | Outcome.ok r => Outcome.ok (GenericTrack.Track track :: r)
      | Outcome.thrown f r => Outcome.thrown f (GenericTrack.Track track :: r)
      | Outcome.undefined => Outcome.undefined
    else
      match track.sequence.components with
      | [StructuralComponent.SourceClip duration _ source_package_id source_track_id] =>
        match convert_position_rate clip_frame_rate start_position track.edit_rate
            Rounding.ROUND_AUTO with
        | none => Outcome.undefined
        | some position =>
          Outcome.ok
            (GenericTrack.Track
              { track with sequence :=
                  { track.sequence with components :=
                      [StructuralComponent.SourceClip duration position source_package_id
                         source_track_id] } } :: rest)
      | [_] => Outcome.thrown Failure.is_source_clip (GenericTrack.Track track :: rest)
      | _ => Outcome.thrown Failure.single_component (GenericTrack.Track track :: rest)

/-- The body of the outer loop of `AvidClip::SetTapeStartTimecode` (lines 532-586) for one
track of the clip. -/
def AvidClip.setTapeStartTimecode (self : AvidClip) (track : AvidTrack) : Outcome AvidTrack :=
  match track.GetRefSourcePackage.bind (findPackage track.packages) with
  | none => Outcome.ok track
  | some ref_source_package =>
    if ref_source_package.descriptor ≠ some Descriptor.TapeDescriptor then Outcome.ok track
    else
      match GetStartTimecode ref_source_package with
      | none => Outcome.ok track
      | some tape_start_timecode =>
        let rounded_clip_tc_base : Int := (get_rounded_tc_base self.mClipFrameRate : Int)
        match convert_position tape_start_timecode.offset rounded_clip_tc_base
            (tape_start_timecode.rounded_tc_base : Int) Rounding.ROUND_AUTO,
          convert_position self.mStartTimecode.GetOffset rounded_clip_tc_base
            (self.mStartTimecode.GetRoundedTCBase : Int) Rounding.ROUND_AUTO with
        | some tape_tc_start_offset, some clip_tc_start_offset =>
          let start_position := sub64 clip_tc_start_offset tape_tc_start_offset
          if start_position < 0 then Outcome.ok track
          else
            match findPackage track.packages track.GetFileSourcePackage with
            | none => Outcome.undefined
            | some file_source_package =>
              match setStartPosition self.mClipFrameRate start_position
                  file_source_package.tracks with
              | Outcome.ok tracks =>
                Outcome.ok
                  { track with
                    packages :=
                      setPackage track.packages { file_source_package with tracks := tracks } }
              | Outcome.thrown f tracks =>
                Outcome.thrown f
                  { track with
                    packages :=
                      setPackage track.packages { file_source_package with tracks := tracks } }
              | Outcome.undefined => Outcome.undefined
        | _, _ => Outcome.undefined

/-- The outer loop of `AvidClip::SetTapeStartTimecode` over the tracks of the clip. -/
def setTapeStartTimecodes (clip : AvidClip) : List AvidTrack → Outcome (List AvidTrack)
  | [] => Outcome.ok []
  | track :: rest =>
    match clip.setTapeStartTimecode track with
    | Outcome.ok t =>
      match setTapeStartTimecodes clip rest with
      | Outcome.ok r => Outcome.ok (t :: r)
      | Outcome.thrown f r => Outcome.thrown f (t :: r)
      | Outcome.undefined => Outcome.undefined
    | Outcome.thrown f t => Outcome.thrown f (t :: rest)
    | Outcome.undefined => Outcome.undefined

/-- The method `AvidClip::SetTapeStartTimecode` (lines 528-587). -/
def AvidClip.SetTapeStartTimecode (self : AvidClip) : Outcome AvidClip :=
  match setTapeStartTimecodes self self.mTracks with
  | Outcome.ok tracks => Outcome.ok { self with mTracks := tracks }
  | Outcome.thrown f tracks => Outcome.thrown f { self with mTracks := tracks }
  | Outcome.undefined => Outcome.undefined

/-- The DM segment that `AvidClip::UpdateHeaderMetadata` makes of a locator (lines 622-635). -/
def AvidClip.locatorSegment (self : AvidClip) (locator : AvidLocator) : DMSegment :=
  { event_start_position := locator.position,
    red := (AVID_RGB_COLORS locator.color).1,
    green := (AVID_RGB_COLORS locator.color).2.1,
    blue := (AVID_RGB_COLORS locator.color).2.2,
    event_comment := if locator.comment.isEmpty then none else some locator.comment,
    track_ids :=
      if self.mLocatorDescribedTrackId > 0 then [self.mLocatorDescribedTrackId] else [] }

/-- The loop `for (j = 0; j < mLocators.size() && j < MAX_LOCATORS; j++)` of
`AvidClip::UpdateHeaderMetadata` from the value `j` of its counter on: `locators` are the
locators from index `j` on, `segments` the segments appended so far. -/
def AvidClip.appendLocatorSegments (self : AvidClip) :
    Nat → List AvidLocator → List DMSegment → List DMSegment
  | _, [], segments => segments
  | j, locator :: rest, segments =>
    if j < MAX_LOCATORS then
      self.appendLocatorSegments (j + 1) rest (segments ++ [self.locatorSegment locator])
    else segments

/-- The body of the first loop of `AvidClip::UpdateHeaderMetadata` (lines 592-637) for one
track of the clip, without the user comments: none when there are locators and the material
package pointer of the track is null. -/
def AvidClip.addLocatorTrack (self : AvidClip) (track : AvidTrack) : Option AvidTrack :=
  if self.mLocators ≠ [] then
    match findPackage track.packages track.GetMaterialPackage with
    | none => none
    | some track_material_package =>
      let event_track : EventTrack :=
        { track_id := DM_TRACK_ID, track_number := DM_TRACK_NUMBER,
          event_edit_rate := self.mClipFrameRate,
          data_definition := DataDefinition.DescriptiveMetadata,
          segments := self.appendLocatorSegments 0 self.mLocators [] }
      some
        { track with
          packages :=
            setPackage track.packages
              { track_material_package with
                tracks :=
                  track_material_package.tracks ++ [GenericTrack.EventTrack event_track] } }
  else some track

/-- The first loop of `AvidClip::UpdateHeaderMetadata` (lines 592-637) over the tracks of
the clip. -/
def AvidClip.addLocatorTracks (self : AvidClip) : List AvidTrack → Option (List AvidTrack)
  | [] => some []
  | track :: rest =>
    match self.addLocatorTrack track with
    | none => none
    | some t => (self.addLocatorTracks rest).map fun r => t :: r

/-- A track pointer: the track with the id `track_id` in the package with the UMID
`package_uid` of the header metadata of the clip track number `owner`. -/
structure TrackRef where
  owner : Nat
  package_uid : UMID
  track_id : Nat
  deriving DecidableEq, Repr

/-- The track that a track pointer points to. -/
def getTrackAt (tracks : List AvidTrack) (ref : TrackRef) : Option GenericTrack :=
  (tracks.get? ref.owner).bind fun owner =>
    (findPackage owner.packages ref.package_uid).bind fun package =>
      package.findTrack ref.track_id

/-- A write through a track pointer. -/
def setTrackAt (tracks : List AvidTrack) (ref : TrackRef) (track : Track) : List AvidTrack :=
  match tracks.get? ref.owner with
  | none => tracks
  | some owner =>
    match findPackage owner.packages ref.package_uid with
    | none => tracks
    | some package =>
      tracks.set ref.owner
        { owner with
          packages :=
            setPackage owner.packages { package with tracks := setTrack package.tracks track } }

/-- The method `AvidClip::UpdateTrackDurations` (lines 673-708) on the tracks of the clip:
`avid_track` is the index of the clip track whose preface resolves the references, `ref`
points to a timeline track.  The fuel counts the nested calls, one for each step down the
reference chain; the result is none when the fuel does not reach the end of the chain. -/
def UpdateTrackDurations : Nat → List AvidTrack → Nat → TrackRef → Rational → Int →
    Option (Outcome (List AvidTrack))
  | 0, _, _, _, _, _ => none
  | fuel + 1, tracks, avid_track, ref, edit_rate, duration =>
    match getTrackAt tracks ref with
    | some (GenericTrack.Track track) =>
      match convert_duration_rate edit_rate duration track.edit_rate Rounding.ROUND_AUTO with
      | none => some Outcome.undefined
      | some track_duration =>
        if track.sequence.duration ≥ 0 then some (Outcome.ok tracks)
        else
          let track1 : Track :=
            { track with sequence := { track.sequence with duration := track_duration } }
          match track.sequence.components with
          | [component] =>
            let track2 : Track :=
              { track1 with sequence :=
                  { track1.sequence with
                    components := [component.setDuration track_duration] } }
            let tracks2 := setTrackAt tracks ref track2
            match component with
            | StructuralComponent.SourceClip _ start_position source_package_id
                source_track_id =>
              if source_package_id ≠ g_Null_UMID then
                match (tracks2.get? avid_track).bind fun owner =>
                    findPackage owner.packages source_package_id with
                | none => some (Outcome.ok tracks2)
                | some ref_package =>
                  match ref_package.findTrack source_track_id with
                  | none => some (Outcome.ok tracks2)
                  | some (GenericTrack.EventTrack _) =>
                    some (Outcome.thrown Failure.is_track tracks2)
                  | some (GenericTrack.Track _) =>
                    UpdateTrackDurations fuel tracks2 avid_track
                      { owner := avid_track, package_uid := source_package_id,
                        track_id := source_track_id }
                      track.edit_rate (add64 start_position track_duration)
              else some (Outcome.ok tracks2)
            | _ => some (Outcome.ok tracks2)
          | _ => some (Outcome.thrown Failure.single_component (setTrackAt tracks ref track1))
    | _ => some Outcome.undefined

/-- The track is a timeline track whose sequence is picture or sound essence. -/
def isEssenceTrack : GenericTrack → Bool
  | GenericTrack.Track track =>
    mxf_is_picture track.sequence.data_definition || mxf_is_sound track.sequence.data_definition
  | GenericTrack.EventTrack _ => false

/-- The start positions of the source clips of a package, by track. -/
def GenericPackage.startPositions (package : GenericPackage) : List (List Int) :=
  package.timelineTracks.map fun t =>
    t.sequence.components.filterMap fun
      | StructuralComponent.SourceClip _ start_position _ _ => some start_position
      | StructuralComponent.TimecodeComponent _ _ _ _ => none

/-! ### Example clips -/

/-- A new clip at 25 frames per second. -/
def clip25 : AvidClip :=
  { mClipFrameRate := ⟨25, 1⟩,
    mStartTimecode :=
      { GetRoundedTCBase := 25, IsDropFrame := false, GetHour := 0, GetMin := 0, GetSec := 0,
        GetFrame := 0, GetOffset := 0 },
    mStartTimecodeSet := false, mLocators := [], mLocatorDescribedTrackId := 0,
    mTracks := [], mTapeSourcePackages := [], mImportSourcePackages := [] }

/-- The picture or sound track that the loop of `CreateDefaultTapeSource` is to make in its
round `i` (counted from 0) when the counters do not wrap: track id `i + 1`, and the number
among the tracks of its kind. -/
def tapeTrackAt (clip_frame_rate : Rational) (duration : Int) (num_video_tracks i : Nat) :
    GenericTrack :=
  GenericTrack.Track
    { track_id := i + 1,
      track_number := if i < num_video_tracks then i + 1 else i - num_video_tracks + 1,
      edit_rate := clip_frame_rate, origin := 0,
      sequence :=
        { data_definition :=
            if i < num_video_tracks then DataDefinition.Picture else DataDefinition.Sound,
          duration := duration,
          components := [StructuralComponent.SourceClip duration 0 g_Null_UMID 0] } }

/-- A tape source package with one picture track and a timecode track that starts at
01:00:00:00 at 25 frames per second. -/
def tapePackage : GenericPackage :=
  { is_source_package := true, package_uid := 3,
    tracks :=
      [GenericTrack.Track
         { track_id := 1, track_number := 1, edit_rate := ⟨25, 1⟩, origin := 0,
           sequence :=
             { data_definition := DataDefinition.Picture, duration := 10800000,
               components := [StructuralComponent.SourceClip 10800000 0 g_Null_UMID 0] } },
       GenericTrack.Track
         { track_id := 2, track_number := 1, edit_rate := ⟨25, 1⟩, origin := 0,
           sequence :=
             { data_definition := DataDefinition.Timecode, duration := 10800000,
               components :=
                 [StructuralComponent.TimecodeComponent 10800000 25 false 90000] } }],
    descriptor := some Descriptor.TapeDescriptor }

/-- The track of the file source package of a picture track at 25/1 that refers to the
tape. -/
def fileSourceTrack : Track :=
  { track_id := 1, track_number := 1, edit_rate := ⟨25, 1⟩, origin := 0,
    sequence :=
      { data_definition := DataDefinition.Picture, duration := -1,
        components := [StructuralComponent.SourceClip (-1) 0 3 1] } }

/-- The file source package of a picture track at 25/1 that refers to the tape. -/
def fileSourcePackage : GenericPackage :=
  { is_source_package := true, package_uid := 2,
    tracks := [GenericTrack.Track fileSourceTrack],
    descriptor := some (Descriptor.FileDescriptor (-1) 1) }

/-- The track of the material package of a clip with one picture track. -/
def materialTrack : Track :=
  { track_id := 1, track_number := 1, edit_rate := ⟨25, 1⟩, origin := 0,
    sequence :=
      { data_definition := DataDefinition.Picture, duration := -1,
        components := [StructuralComponent.SourceClip (-1) 0 2 1] } }

/-- The material package of a clip with one picture track. -/
def materialPackage : GenericPackage :=
  { is_source_package := false, package_uid := 1,
    tracks := [GenericTrack.Track materialTrack], descriptor := none }

/-- A picture track at 25/1 with 100 frames whose header metadata holds the three
packages. -/
def tapeTrack : AvidTrack :=
  { IsPicture := true, GetTrackIndex := 0, GetSampleRate := ⟨25, 1⟩, GetMaterialTrackId := 1,
    GetOutputDuration := some 100,
    packages := [materialPackage, fileSourcePackage, tapePackage],
    GetMaterialPackage := 1, GetFileSourcePackage := 2, GetRefSourcePackage := some 3 }

/-- A clip at 25/1 with the start timecode 01:00:05:00 and the track of the tape. -/
def tapeClip : AvidClip :=
  { (clip25.SetStartTimecode
      { GetRoundedTCBase := 25, IsDropFrame := false, GetHour := 1, GetMin := 0, GetSec := 5,
        GetFrame := 0, GetOffset := 90125 }) with
    mTracks := [tapeTrack], mLocatorDescribedTrackId := 1 }

/-- A red locator at the position given. -/
def redLocator (position : Int) : AvidLocator :=
  { position := position, color := AvidRGBColor.AVID_RED, comment := "" }

/-- The red locators at the positions `0 .. n - 1`. -/
def redLocators (n : Nat) : List AvidLocator :=
  (List.range n).map fun (i : Nat) => redLocator i

/-- The track with the duration of its sequence and of the one component that takes its place
set to `duration`. -/
def Track.withDuration (track : Track) (component : StructuralComponent) (duration : Int) :
    Track :=
  { track with sequence :=
      { track.sequence with
        duration := duration, components := [component.setDuration duration] } }

/-- The durations of the sequences and of their components, by package, of a clip track. -/
def AvidTrack.durations (track : AvidTrack) : List (List Int × List (List Int)) :=
  track.packages.map fun p => (p.sequenceDurations, p.componentDurations)

/-! ## AS02Track.cpp: essence types -/

/-- Modelled from the spec: the enumeration `AS02EssenceType` is declared in a header that is
not among the sources; its members are those that the `switch` of `AS02Track::OpenNew`
lists. -/
inductive AS02EssenceType where
  | AS02_UNKNOWN_ESSENCE
  | AS02_IEC_DV25
  | AS02_DVBASED_DV25
  | AS02_DV50
  | AS02_DV100_1080I
  | AS02_DV100_720P
  | AS02_D10_30
  | AS02_D10_40
  | AS02_D10_50
  | AS02_AVCI100_1080I
  | AS02_AVCI100_1080P
  | AS02_AVCI100_720P
  | AS02_AVCI50_1080I
  | AS02_AVCI50_1080P
  | AS02_AVCI50_720P
  | AS02_UNC_SD
  | AS02_UNC_HD_1080I
  | AS02_UNC_HD_1080P
  | AS02_UNC_HD_720P
  | AS02_MPEG2LG_422P_HL
  | AS02_MPEG2LG_MP_HL
  | AS02_MPEG2LG_MP_H14
  | AS02_PCM
  deriving DecidableEq, Repr

/-- Modelled from the spec: the enumeration `MXFDescriptorHelper::EssenceType` is declared in
a header that is not among the sources; its members named in `AS02Track.cpp` are listed, and
`other` stands for every member that the file does not name. -/
inductive EssenceType where
  | UNKNOWN_ESSENCE
  | IEC_DV25
  | DVBASED_DV25
  | DV50
  | DV100_1080I
  | DV100_720P
  | D10_30
  | D10_40
  | D10_50
  | AVCI100_1080I
  | AVCI100_1080P
  | AVCI100_720P
  | AVCI50_1080I
  | AVCI50_1080P
  | AVCI50_720P
  | UNC_SD
  | UNC_HD_1080I
  | UNC_HD_1080P
  | UNC_HD_720P
  | MPEG2LG_422P_HL
  | MPEG2LG_MP_HL
  | MPEG2LG_MP_H14
  | WAVE_PCM
  | other (member : Nat)
  deriving DecidableEq, Repr

/-- The table `ESSENCE_TYPE_MAP` (lines 75-99). -/
def ESSENCE_TYPE_MAP : List (AS02EssenceType × EssenceType) :=
  [(AS02EssenceType.AS02_IEC_DV25, EssenceType.IEC_DV25),
   (AS02EssenceType.AS02_DVBASED_DV25, EssenceType.DVBASED_DV25),
   (AS02EssenceType.AS02_DV50, EssenceType.DV50),
   (AS02EssenceType.AS02_DV100_1080I, EssenceType.DV100_1080I),
   (AS02EssenceType.AS02_DV100_720P, EssenceType.DV100_720P),
   (AS02EssenceType.AS02_D10_30, EssenceType.D10_30),
   (AS02EssenceType.AS02_D10_40, EssenceType.D10_40),
   (AS02EssenceType.AS02_D10_50, EssenceType.D10_50),
   (AS02EssenceType.AS02_AVCI100_1080I, EssenceType.AVCI100_1080I),
   (AS02EssenceType.AS02_AVCI100_1080P, EssenceType.AVCI100_1080P),
   (AS02EssenceType.AS02_AVCI100_720P, EssenceType.AVCI100_720P),
   (AS02EssenceType.AS02_AVCI50_1080I, EssenceType.AVCI50_1080I),
   (AS02EssenceType.AS02_AVCI50_1080P, EssenceType.AVCI50_1080P),
   (AS02EssenceType.AS02_AVCI50_720P, EssenceType.AVCI50_720P),
   (AS02EssenceType.AS02_UNC_SD, EssenceType.UNC_SD),
   (AS02EssenceType.AS02_UNC_HD_1080I, EssenceType.UNC_HD_1080I),
   (AS02EssenceType.AS02_UNC_HD_1080P, EssenceType.UNC_HD_1080P),
   (AS02EssenceType.AS02_UNC_HD_720P, EssenceType.UNC_HD_720P),
   (AS02EssenceType.AS02_MPEG2LG_422P_HL, EssenceType.MPEG2LG_422P_HL),
   (AS02EssenceType.AS02_MPEG2LG_MP_HL, EssenceType.MPEG2LG_MP_HL),
   (AS02EssenceType.AS02_MPEG2LG_MP_H14, EssenceType.MPEG2LG_MP_H14),
   (AS02EssenceType.AS02_PCM, EssenceType.WAVE_PCM)]

/-- A row of the table `AS02_SAMPLE_RATE_SUPPORT`: the array `sample_rate[10]` is given up to
its first `{0, 0}`, with which the initialiser ends and the rest of the array is filled. -/
structure AS02SampleRateSupport where
  essence_type : AS02EssenceType
  is_mpeg2lg_720p : Bool
  sample_rate : List Rational
  deriving DecidableEq, Repr

/-- The rates `{25, 1}, {30000, 1001}, {0, 0}` of a row. -/
def rates2 : List Rational := [⟨25, 1⟩, ⟨30000, 1001⟩, ⟨0, 0⟩]

/-- The rates `{25, 1}, {30000, 1001}, {50, 1}, {60000, 1001}, {0, 0}` of a row. -/
def rates4 : List Rational := [⟨25, 1⟩, ⟨30000, 1001⟩, ⟨50, 1⟩, ⟨60000, 1001⟩, ⟨0, 0⟩]

/-- The table `AS02_SAMPLE_RATE_SUPPORT` (lines 111-137). -/
def AS02_SAMPLE_RATE_SUPPORT : List AS02SampleRateSupport :=
  [⟨AS02EssenceType.AS02_IEC_DV25, false, rates2⟩,
   ⟨AS02EssenceType.AS02_DVBASED_DV25, false, rates2⟩,
   ⟨AS02EssenceType.AS02_DV50, false, rates2⟩,
   ⟨AS02EssenceType.AS02_DV100_1080I, false, rates2⟩,
   ⟨AS02EssenceType.AS02_DV100_720P, false, rates4⟩,
   ⟨AS02EssenceType.AS02_D10_30, false, rates2⟩,
   ⟨AS02EssenceType.AS02_D10_40, false, rates2⟩,
   ⟨AS02EssenceType.AS02_D10_50, false, rates2⟩,
   ⟨AS02EssenceType.AS02_AVCI100_1080I, false, rates2⟩,
   ⟨AS02EssenceType.AS02_AVCI100_1080P, false, rates2⟩,
   ⟨AS02EssenceType.AS02_AVCI100_720P, false, rates4⟩,
   ⟨AS02EssenceType.AS02_AVCI50_1080I, false, rates2⟩,
   ⟨AS02EssenceType.AS02_AVCI50_1080P, false, rates2⟩,
   ⟨AS02EssenceType.AS02_AVCI50_720P, false, rates4⟩,
   ⟨AS02EssenceType.AS02_UNC_SD, false, rates4⟩,
   ⟨AS02EssenceType.AS02_UNC_HD_1080I, false, rates4⟩,
   ⟨AS02EssenceType.AS02_UNC_HD_1080P, false, rates4⟩,
   ⟨AS02EssenceType.AS02_UNC_HD_720P, false, rates4⟩,
   ⟨AS02EssenceType.AS02_MPEG2LG_422P_HL, false, rates2⟩,
   ⟨AS02EssenceType.AS02_MPEG2LG_422P_HL, true, rates4⟩,
   ⟨AS02EssenceType.AS02_MPEG2LG_MP_HL, false, rates2⟩,
   ⟨AS02EssenceType.AS02_MPEG2LG_MP_HL, true, rates4⟩,
   ⟨AS02EssenceType.AS02_MPEG2LG_MP_H14, false, rates2⟩,
   ⟨AS02EssenceType.AS02_PCM, false, [⟨48000, 1⟩, ⟨0, 0⟩]⟩]

/-- The inner loop of `AS02Track::IsSupported` (lines 156-161): the rates of a row are walked
until one has the numerator 0. -/
def rateListed (sample_rate : Rational) : List Rational → Bool
  | [] => false
  | r :: rest =>
    if r.numerator = 0 then false
    else if sample_rate = r then true
    else rateListed sample_rate rest

/-- The outer loop of `AS02Track::IsSupported` over the rows of a table. -/
def isSupportedIn (essence_type : AS02EssenceType) (is_mpeg2lg_720p : Bool)
    (sample_rate : Rational) : List AS02SampleRateSupport → Bool
  | [] => false
  | row :: rest =>
    if essence_type = row.essence_type ∧ is_mpeg2lg_720p = row.is_mpeg2lg_720p ∧
        rateListed sample_rate row.sample_rate = true then true
    else isSupportedIn essence_type is_mpeg2lg_720p sample_rate rest

/-- The function `AS02Track::IsSupported` (lines 150-166). -/
def IsSupported (essence_type : AS02EssenceType) (is_mpeg2lg_720p : Bool)
    (sample_rate : Rational) : Bool :=
  isSupportedIn essence_type is_mpeg2lg_720p sample_rate AS02_SAMPLE_RATE_SUPPORT

/-- The loop of `AS02Track::ConvertEssenceType(AS02EssenceType)` over the rows of a table. -/
def convertAS02In (as02_essence_type : AS02EssenceType) :
    List (AS02EssenceType × EssenceType) → EssenceType
  | [] => EssenceType.UNKNOWN_ESSENCE
  | row :: rest =>
    if row.1 = as02_essence_type then row.2 else convertAS02In as02_essence_type rest

/-- The function `AS02Track::ConvertEssenceType(AS02EssenceType)` (lines 168-177). -/
def AS02EssenceType.ConvertEssenceType (as02_essence_type : AS02EssenceType) : EssenceType :=
  convertAS02In as02_essence_type ESSENCE_TYPE_MAP

/-- The loop of `AS02Track::ConvertEssenceType(MXFDescriptorHelper::EssenceType)` over the
rows of a table. -/
def convertMHIn (mh_essence_type : EssenceType) :
    List (AS02EssenceType × EssenceType) → AS02EssenceType
  | [] => AS02EssenceType.AS02_UNKNOWN_ESSENCE
  | row :: rest =>
    if row.2 = mh_essence_type then row.1 else convertMHIn mh_essence_type rest

/-- The function `AS02Track::ConvertEssenceType(MXFDescriptorHelper::EssenceType)`
(lines 179-188). -/
def EssenceType.ConvertEssenceType (mh_essence_type : EssenceType) : AS02EssenceType :=
  convertMHIn mh_essence_type ESSENCE_TYPE_MAP

/-! ## AS02Track.cpp: the manifest entry of a track -/

/-- Modelled from the spec: the roles of the files of a bundle (section 3); the enumeration is
declared in a header that is not among the sources. -/
inductive FileRole where
  | PRIMARY_VERSION_FILE_ROLE
  | VERSION_FILE_ROLE
  | ESSENCE_COMPONENT_FILE_ROLE
  | MANIFEST_FILE_ROLE
  | SHIM_FILE_ROLE
  | GRAPHIC_FILE_ROLE
  deriving DecidableEq, Repr

/-- Modelled from the spec: the kinds of media integrity check (section 4.2). -/
inductive MICType where
  | NONE_MIC_TYPE
  | CRC32_MIC_TYPE
  | MD5_MIC_TYPE
  | SHA1_MIC_TYPE
  deriving DecidableEq, Repr

/-- Modelled from the spec: the scopes of a media integrity check (section 4.2). -/
inductive MICScope where
  | ESSENCE_ONLY_MIC_SCOPE
  | ENTIRE_FILE_MIC_SCOPE
  deriving DecidableEq, Repr

/-- Modelled from the spec: the class of a manifest file entry is not among the sources; an
entry is the record `{relative_uri, role, id, mic_type, mic_scope, mic_value}` of section 3,
and each of its setters stores its argument in the field it names. -/
structure AS02ManifestFile where
  relative_uri : List Char
  role : FileRole
  id : UMID
  mic_type : MICType
  mic_scope : MICScope
  mic_value : List Char
  deriving DecidableEq, Repr

/-- Modelled from the spec: the entry that `AS02Manifest::RegisterFile` makes for a file: it
has the URI and the role given, no id and no integrity check yet. -/
def RegisterFile (rel_uri : List Char) (role : FileRole) : AS02ManifestFile :=
  { relative_uri := rel_uri, role := role, id := g_Null_UMID,
    mic_type := MICType.NONE_MIC_TYPE, mic_scope := MICScope.ENTIRE_FILE_MIC_SCOPE,
    mic_value := [] }

/-- Modelled from the spec: the setter `SetId` of a manifest file entry. -/
def AS02ManifestFile.SetId (self : AS02ManifestFile) (id : UMID) : AS02ManifestFile :=
  { self with id := id }

/-- Modelled from the spec: the setter `SetMICType` of a manifest file entry. -/
def AS02ManifestFile.SetMICType (self : AS02ManifestFile) (type : MICType) :
    AS02ManifestFile :=
  { self with mic_type := type }

/-- Modelled from the spec: the setter `SetMICScope` of a manifest file entry. -/
def AS02ManifestFile.SetMICScope (self : AS02ManifestFile) (scope : MICScope) :
    AS02ManifestFile :=
  { self with mic_scope := scope }

/-- The class `AS02Track` with its members `mRelativeURL` and `mManifestFile`; the latter is
given by the entry of the manifest that it points to. -/
structure AS02TrackWriter extends AS02TrackState where
  mRelativeURL : List Char
  mManifestFile : AS02ManifestFile
  deriving DecidableEq, Repr

/-- The constructor `AS02Track::AS02Track` (lines 237-283) with its last two statements on the
manifest: the file is registered as an essence component and gets the UMID of the file source
package as its id. -/
def AS02TrackWriter.new (sample_rate clip_frame_rate : Rational) (sample_size : Nat)
    (start_timecode : Timecode) (material_package_uid file_source_package_uid : UMID)
    (rel_uri : List Char) : AS02TrackWriter :=
  let track := AS02TrackState.new sample_rate clip_frame_rate sample_size start_timecode
    material_package_uid file_source_package_uid
  { toAS02TrackState := track, mRelativeURL := rel_uri,
    mManifestFile :=
      (RegisterFile rel_uri FileRole.ESSENCE_COMPONENT_FILE_ROLE).SetId
        track.mFileSourcePackageUID }

/-- The method `AS02Track::SetFileSourcePackageUID` (lines 294-299). -/
def AS02TrackWriter.SetFileSourcePackageUID (self : AS02TrackWriter) (package_uid : UMID) :
    AS02TrackWriter :=
  let s1 : AS02TrackWriter := { self with mFileSourcePackageUID := package_uid }
  { s1 with mManifestFile := s1.mManifestFile.SetId s1.mFileSourcePackageUID }

/-- The method `AS02Track::SetMICType`. -/
def AS02TrackWriter.SetMICType (self : AS02TrackWriter) (type : MICType) : AS02TrackWriter :=
  { self with mManifestFile := self.mManifestFile.SetMICType type }

/-- The method `AS02Track::SetMICScope`. -/
def AS02TrackWriter.SetMICScope (self : AS02TrackWriter) (scope : MICScope) :
    AS02TrackWriter :=
  { self with mManifestFile := self.mManifestFile.SetMICScope scope }

/-- The method `AS02Track::GetSourceReference` (lines 504-511). -/
def AS02TrackWriter.GetSourceReference (self : AS02TrackWriter) : UMID × Nat :=
  (self.mFileSourcePackageUID, if self.mIsPicture then VIDEO_TRACK_ID else AUDIO_TRACK_ID)

/-- A method of `AS02Track` on the members of the track state, run on the whole object. -/
def AS02TrackWriter.onState (self : AS02TrackWriter)
    (f : AS02TrackState → AS02TrackState) : AS02TrackWriter :=
  { self with toAS02TrackState := f self.toAS02TrackState }

/-- The method `AS02Track::CreateHeaderMetadata` on the whole object. -/
def AS02TrackWriter.CreateHeaderMetadata (self : AS02TrackWriter)
    (AddOffset : Timecode → Int → Rational → Timecode) : AS02TrackWriter :=
  self.onState fun s => s.CreateHeaderMetadata AddOffset

/-- A call of one of the setters of a track writer. -/
inductive SetterCall where
  | SetFileSourcePackageUID (package_uid : UMID)
  | SetMICType (type : MICType)
  | SetMICScope (scope : MICScope)
  | SetOutputStartOffset (offset : Int)
  | SetOutputEndOffset (offset : Int)
  deriving DecidableEq, Repr

/-- The track writer after one setter call; a setter whose check fails leaves the object as
it was. -/
def AS02TrackWriter.call (self : AS02TrackWriter) : SetterCall → AS02TrackWriter
  | SetterCall.SetFileSourcePackageUID package_uid => self.SetFileSourcePackageUID package_uid
  | SetterCall.SetMICType type => self.SetMICType type
  | SetterCall.SetMICScope scope => self.SetMICScope scope
  | SetterCall.SetOutputStartOffset offset =>
    self.onState fun s =>
      { s with toAS02Track := (s.toAS02Track.SetOutputStartOffset offset).stateOr s.toAS02Track }
  | SetterCall.SetOutputEndOffset offset =>
    self.onState fun s =>
      { s with toAS02Track := (s.toAS02Track.SetOutputEndOffset offset).stateOr s.toAS02Track }

/-- The track writer after a sequence of setter calls. -/
def AS02TrackWriter.run (self : AS02TrackWriter) : List SetterCall → AS02TrackWriter
  | [] => self
  | c :: rest => (self.call c).run rest

/-- A new DV25 picture track writer at 25/1 with the media file `media/clip_v0.mxf`. -/
def dvWriter : AS02TrackWriter :=
  AS02TrackWriter.new ⟨25, 1⟩ ⟨25, 1⟩ 144000 zeroTimecode 1 2 "media/clip_v0.mxf".toList

/-! ## Utils.cpp: the working directory -/

/-- The values of `errno` that `get_abs_cwd` tells apart after a failed `getcwd`. -/
inductive Errno where
  | ERANGE
  | EEXIST
  | other (code : Nat)
  deriving DecidableEq, Repr

/-- The macro `MAX_REASONABLE_PATH_SIZE` of `get_abs_cwd`. -/
def MAX_REASONABLE_PATH_SIZE : Nat := 10 * 1024

/-- How a call of `get_abs_cwd` ends: it returns the path, it throws one of its two
exceptions, or (after `errno == EEXIST`) it reads a buffer that `getcwd` did not fill. -/
inductive CwdResult where
  | returned (abs_cwd : List Char)
  | failed (errno : Errno)
  | max_path_size_exceeded
  | undefined
  deriving DecidableEq, Repr

/-- A run of `get_abs_cwd`: how it ends, and the sizes of the buffers it allocated with
`new char[path_size]`, in order. -/
structure CwdRun where
  result : CwdResult
  buffers : List Nat
  deriving DecidableEq, Repr

/-- The loop of `im::get_abs_cwd` (lines 155-169) from the buffer size `path_size` on;
`getcwd` is the platform call, given by what it does for each buffer size, and `buffers` are
the sizes allocated so far.  The fuel counts the passes through the loop. -/
def get_abs_cwd_fuel (getcwd : Nat → Except Errno (List Char)) :
    Nat → Nat → List Nat → Option CwdRun
  | 0, _, _ => none
  | fuel + 1, path_size, buffers =>
    match getcwd path_size with
    | Except.ok temp_path =>
      some { result := CwdResult.returned temp_path, buffers := buffers ++ [path_size] }
    | Except.error Errno.EEXIST =>
      some { result := CwdResult.undefined, buffers := buffers ++ [path_size] }
    | Except.error Errno.ERANGE =>
      if path_size ≥ MAX_REASONABLE_PATH_SIZE then
        some { result := CwdResult.max_path_size_exceeded, buffers := buffers ++ [path_size] }
      else get_abs_cwd_fuel getcwd fuel (path_size + 1024) (buffers ++ [path_size])
    | Except.error (Errno.other code) =>
      some { result := CwdResult.failed (Errno.other code), buffers := buffers ++ [path_size] }

/-- The function `im::get_abs_cwd` (lines 148-175): the loop starts with a buffer of 1024
bytes; ten passes take the buffer size to `MAX_REASONABLE_PATH_SIZE`, where the loop ends
whatever `getcwd` does. -/
def get_abs_cwd (getcwd : Nat → Except Errno (List Char)) : Option CwdRun :=
  get_abs_cwd_fuel getcwd 10 1024 []

/-- The platform call `getcwd(buf, size)` in a process whose working directory has the path
`cwd`: it succeeds when the path and its terminator fit the buffer and fails with `ERANGE`
otherwise. -/
def getcwd (cwd : List Char) (size : Nat) : Except Errno (List Char) :=
  if cwd.length + 1 ≤ size then Except.ok cwd else Except.error Errno.ERANGE

/-- The buffer sizes 1024, 2048, ... up to `1024 * count`. -/
def bufferSizes (count : Nat) : List Nat :=
  (List.range count).map fun (i : Nat) => 1024 * (i + 1)

/-! ## Utils.cpp: conversions without overflow -/

/-- The products and sums that `convert_position` computes for a position `p > 0` all have
their exact value in the range of `int64_t`: those of the direct formula for
`p <= MAX_INT32`, those of the split form for a larger position. -/
def positionFits (p t b : Int) (rounding : Rounding) : Prop :=
  (p ≤ MAX_INT32 →
    isInt64 (p * t) ∧ isInt64 (p * t + spec_round t b rounding)) ∧
  (MAX_INT32 < p →
    isInt64 (p / b * t) ∧ isInt64 (p % b * t) ∧
    isInt64 (p % b * t + spec_round t b rounding) ∧
    isInt64 (p / b * t + (p % b * t + spec_round t b rounding) / b))

instance (p t b : Int) (rounding : Rounding) : Decidable (positionFits p t b rounding) := by
  unfold positionFits
  infer_instance

/-- No operation of the call `convert_position(p, t, b, rounding)` overflows 64 bits: the call
returns at once (`p == 0` or `t == b`), or it computes on `p > 0`, or it negates `p < 0` and
computes on `-p`. -/
def convert_position_fits (p t b : Int) (rounding : Rounding) : Prop :=
  p = 0 ∨ t = b ∨ (0 < p ∧ positionFits p t b rounding) ∨
  (p < 0 ∧ isInt64 (-p) ∧ positionFits (-p) t b rounding)

instance (p t b : Int) (rounding : Rounding) :
    Decidable (convert_position_fits p t b rounding) := by
  unfold convert_position_fits
  infer_instance

/-! ## AvidClip.cpp: writing samples -/

/-- The method `AvidClip::WriteSamples` (lines 391-396): the track on which it calls
`WriteSamples`, none when `IM_CHECK(track_index < mTracks.size())` fails. -/
def AvidClip.WriteSamples (self : AvidClip) (track_index : Nat) : Option AvidTrack :=
  if track_index < self.mTracks.length then self.mTracks[track_index]? else none

/-! ## OP1AIndexTable.cpp: notions for the segments of a table -/

/-- The index durations of the segments that a table retains: the first AVC-Intra segment, if
the table has one, and the segments of `mIndexSegments`. -/
def OP1AIndexTable.retainedDurations (self : OP1AIndexTable) : List Int :=
  (match self.mAVCIFirstIndexSegment with
   | some first => [first.index_duration]
   | none => []) ++ self.mIndexSegments.map fun s => s.index_duration

/-- The prepared CBE table of one AVC-Intra track (track index 0). -/
def avciTable : OP1AIndexTable :=
  { mIndexSID := 1, mBodySID := 2, mFrameRate := ⟨25, 1⟩, mIsCBE := true, mHaveAVCI := true,
    mIndexElements :=
      [{ object_id := 0, track_index := 0, is_picture := true, is_cbe := true,
         apply_temporal_reordering := false, slice_offset := 0, element_size := 0,
         mIndexEntryCache := [] }],
    mIndexElementsMap := [(0, 0)], mSliceCount := 0, mIndexEntrySize := 11,
    mAVCIFirstIndexSegment :=
      some { mIndexEntrySize := 11, mEntries := [], index_sid := 1, body_sid := 2,
             index_edit_rate := ⟨25, 1⟩, index_start_position := 0, index_duration := 0,
             edit_unit_byte_count := 0, slice_count := 0, delta_entries := [] },
    mIndexSegments :=
      [{ mIndexEntrySize := 11, mEntries := [], index_sid := 1, body_sid := 2,
         index_edit_rate := ⟨25, 1⟩, index_start_position := 0, index_duration := 0,
         edit_unit_byte_count := 0, slice_count := 0, delta_entries := [] }],
    mDeltaEntries := [], mDuration := 0, mStreamOffset := 0 }

/-- What holds between the calls of a CBE table for which `PrepareWrite` allocated the first
AVC-Intra segment.  While the table has the first segment: before the first edit unit both
segments are empty; after it the first segment holds that edit unit and the main segment,
still empty, starts at 1; from the second edit unit on the main segment holds all edit units
but the first.  Once the first segment is discarded the main segment starts at 0 and holds
all edit units. -/
def avciSegments (t : OP1AIndexTable) : Prop :=
  t.mIsCBE = true ∧ ∃ seg, t.mIndexSegments = [seg] ∧
    match t.mAVCIFirstIndexSegment with
    | some first =>
      (t.mDuration = 0 ∧ first.index_duration = 0 ∧ first.edit_unit_byte_count = 0 ∧
        seg.index_duration = 0 ∧ seg.edit_unit_byte_count = 0) ∨
      (t.mDuration = 1 ∧ first.index_duration = 1 ∧ seg.index_duration = 0 ∧
        seg.edit_unit_byte_count = 0 ∧ seg.index_start_position = 1) ∨
      (2 ≤ t.mDuration ∧ first.index_duration = 1 ∧
        seg.index_duration = t.mDuration - 1 ∧ seg.index_start_position = 1)
    | none => seg.index_duration = t.mDuration ∧ seg.index_start_position = 0

/-! ## OP1AIndexTable.cpp: notions for the entry caches -/

/-- The keys of an entry cache ascend without repetition, as those of a `std::map` do. -/
def cacheOrdered (cache : List (Int × OP1AIndexEntry)) : Prop :=
  cache.Pairwise fun a b => a.1 < b.1

/-- The entry cache of an element holds no position below `d`. -/
def OP1AIndexTableElement.cachedFrom (self : OP1AIndexTableElement) (d : Int) : Prop :=
  cacheOrdered self.mIndexEntryCache ∧ ∀ kv ∈ self.mIndexEntryCache, d ≤ kv.1

/-- What holds of the entry caches of a table between calls: no element's cache holds a
position below the duration of the table. -/
def cachesDrained (t : OP1AIndexTable) : Prop :=
  ∀ e ∈ t.mIndexElements, e.cachedFrom t.mDuration

/-! ## Timing algebra: theorems -/

theorem wrap64_eq (x : Int) (h1 : -2 ^ 63 ≤ x) (h2 : x < 2 ^ 63) : wrap64 x = x := by
  unfold wrap64
  omega

theorem spec_round_nonneg (t b : Int) (hb : 0 < b) (r : Rounding) : 0 ≤ spec_round t b r := by
  cases r <;> simp only [spec_round]
  · split <;> omega
  · omega
  · omega
  · omega

theorem spec_round_lt (t b : Int) (hb : 0 < b) (r : Rounding) : spec_round t b r < b := by
  cases r <;> simp only [spec_round]
  · split <;> omega
  · omega
  · omega
  · omega

theorem round_num_eq (t b : Int) (hb : 0 < b) (hb2 : b < 2 ^ 63) (r : Rounding) :
    round_num t b r = spec_round t b r := by
  have hs : sub64 b 1 = b - 1 := wrap64_eq _ (by omega) (by omega)
  have hd : wrap64 (Int.tdiv b 2) = b / 2 := by
    rw [Int.tdiv_eq_ediv (by omega) (by omega)]
    exact wrap64_eq _ (by omega) (by omega)
  cases r <;> simp [round_num, spec_round, hs, hd]

/-- Splitting the dividend: the identity behind the two-part computation. -/
theorem split_div (p t b r : Int) (hb : 0 < b) :
    (p / b) * t + ((p % b) * t + r) / b = (p * t + r) / b := by
  have h : p * t + r = (p % b) * t + r + b * ((p / b) * t) := by
    have := Int.emod_add_ediv p b
    calc p * t + r = (p % b + b * (p / b)) * t + r := by rw [this]
      _ = _ := by ring
  rw [h, Int.add_mul_ediv_left _ _ (ne_of_gt hb)]
  ring


theorem convert_position_nonneg (p t b : Int) (r : Rounding)
    (hp0 : 0 ≤ p) (hp : p < 2 ^ 63) (ht0 : 0 ≤ t) (ht : t ≤ MAX_INT32)
    (hb0 : 0 < b) (hb : b ≤ MAX_INT32) (hres : spec_convert p t b r < 2 ^ 63) :
    convert_position p t b r = some (spec_convert p t b r) := by
  have hM : MAX_INT32 = 2147483647 := rfl
  rw [hM] at ht hb
  have hr0 := spec_round_nonneg t b hb0 r
  have hr1 := spec_round_lt t b hb0 r
  have hrn := round_num_eq t b hb0 (by omega) r
  unfold convert_position convert_position_fuel
  by_cases h0 : p = 0 ∨ t = b
  · rw [if_pos h0]
    rcases h0 with h0 | h0
    · subst h0
      simp only [spec_convert, zero_mul, zero_add]
      rw [Int.ediv_eq_zero_of_lt hr0 hr1]
    · subst h0
      simp only [spec_convert]
      rw [Int.add_comm, Int.add_mul_ediv_right _ _ (ne_of_gt hb0), Int.ediv_eq_zero_of_lt hr0 hr1]
      simp
  · rw [if_neg h0, if_neg (by omega)]
    have hbne : ¬ b = 0 := by omega
    by_cases h1 : p ≤ MAX_INT32
    · rw [if_pos h1, hrn]
      rw [hM] at h1
      have hpt0 : 0 ≤ p * t := Int.mul_nonneg hp0 ht0
      have hpt1 : p * t ≤ 2147483647 * 2147483647 := Int.mul_le_mul h1 ht ht0 (by omega)
      have e1 : mul64 p t = p * t := wrap64_eq _ (by omega) (by omega)
      have e2 : add64 (p * t) (spec_round t b r) = p * t + spec_round t b r :=
        wrap64_eq _ (by omega) (by omega)
      rw [e1, e2]
      simp only [div64, if_neg hbne]
      rw [Int.tdiv_eq_ediv (by omega) (by omega)]
      have hq0 : 0 ≤ (p * t + spec_round t b r) / b := Int.ediv_nonneg (by omega) (by omega)
      rw [wrap64_eq _ (by omega) (by simpa [spec_convert] using hres)]
      rfl
    · rw [if_neg h1]
      have hq0 : 0 ≤ p / b := Int.ediv_nonneg hp0 (by omega)
      have hq1 : p / b ≤ p := Int.ediv_le_self _ hp0
      have hm0 : 0 ≤ p % b := Int.emod_nonneg _ (by omega)
      have hm1 : p % b < b := Int.emod_lt_of_pos _ hb0
      have d1 : div64 p b = some (p / b) := by
        simp only [div64, if_neg hbne]
        rw [Int.tdiv_eq_ediv hp0 (by omega), wrap64_eq _ (by omega) (by omega)]
      have d2 : mod64 p b = some (p % b) := by
        simp only [mod64, if_neg hbne]
        rw [Int.tmod_eq_emod hp0 (by omega), wrap64_eq _ (by omega) (by omega)]
      have hmt0 : 0 ≤ p % b * t := Int.mul_nonneg hm0 ht0
      have hmt1 : p % b * t ≤ 2147483647 * 2147483647 :=
        Int.mul_le_mul (by omega) ht ht0 (by omega)
      have e1 : mul64 (p % b) t = p % b * t := wrap64_eq _ (by omega) (by omega)
      have e2 : add64 (p % b * t) (spec_round t b r) = p % b * t + spec_round t b r :=
        wrap64_eq _ (by omega) (by omega)
      have hd0 : 0 ≤ (p % b * t + spec_round t b r) / b := Int.ediv_nonneg (by omega) (by omega)
      have hd1 : (p % b * t + spec_round t b r) / b ≤ p % b * t + spec_round t b r :=
        Int.ediv_le_self _ (by omega)
      have d3 : div64 (p % b * t + spec_round t b r) b
          = some ((p % b * t + spec_round t b r) / b) := by
        simp only [div64, if_neg hbne]
        rw [Int.tdiv_eq_ediv (by omega) (by omega), wrap64_eq _ (by omega) (by omega)]
      have hsplit := split_div p t b (spec_round t b r) hb0
      have hqt0 : 0 ≤ p / b * t := Int.mul_nonneg hq0 ht0
      have hres2 : (p * t + spec_round t b r) / b < 2 ^ 63 := by
        simpa [spec_convert] using hres
      have e3 : mul64 (p / b) t = p / b * t := wrap64_eq _ (by omega) (by omega)
      rw [d1, d2, hrn]
      simp only [Option.some_bind]
      rw [e1, e2, d3]
      simp only [Option.some_bind, e3]
      have e4 : add64 (p / b * t) ((p % b * t + spec_round t b r) / b)
          = p / b * t + (p % b * t + spec_round t b r) / b := wrap64_eq _ (by omega) (by omega)
      rw [e4, hsplit]
      rfl


theorem convert_position_fuel_nonneg (n : Nat) (p t b : Int) (r : Rounding) (hp0 : 0 ≤ p) :
    convert_position_fuel (n + 1) p t b r = convert_position_fuel 1 p t b r := by
  unfold convert_position_fuel
  by_cases h0 : p = 0 ∨ t = b
  · rw [if_pos h0, if_pos h0]
  · have hneg : ¬ p < 0 := by omega
    simp only [if_neg h0, if_neg hneg]

theorem convert_position_neg (p t b : Int) (r : Rounding)
    (hp0 : p < 0) (hp : -2 ^ 63 < p) (ht0 : 0 ≤ t) (ht : t ≤ MAX_INT32)
    (hb0 : 0 < b) (hb : b ≤ MAX_INT32) (hres : spec_convert (-p) t b r < 2 ^ 63) :
    convert_position p t b r = some (-(spec_convert (-p) t b r)) := by
  have hpos := convert_position_nonneg (-p) t b r (by omega) (by omega) ht0 ht hb0 hb hres
  have hn : neg64 p = -p := wrap64_eq _ (by omega) (by omega)
  by_cases h0 : t = b
  · subst h0
    have e : convert_position (-p) t t r = some (-p) := by
      unfold convert_position convert_position_fuel
      rw [if_pos (Or.inr rfl)]
    rw [e] at hpos
    have e2 : spec_convert (-p) t t r = -p := (Option.some.inj hpos).symm
    rw [e2]
    unfold convert_position convert_position_fuel
    rw [if_pos (Or.inr rfl)]
    simp
  · have hs0 : 0 ≤ spec_convert (-p) t b r := by
      unfold spec_convert
      have := spec_round_nonneg t b hb0 r
      exact Int.ediv_nonneg (by have := Int.mul_nonneg (show 0 ≤ -p by omega) ht0; omega)
        (by omega)
    unfold convert_position at hpos ⊢
    rw [convert_position_fuel_nonneg 1 (-p) t b r (by omega)] at hpos
    rw [convert_position_fuel, if_neg (by intro h; rcases h with h | h <;> omega), if_pos hp0,
      hn, hpos]
    simp only [Option.map_some']
    rw [show neg64 (spec_convert (-p) t b r) = -(spec_convert (-p) t b r) from
      wrap64_eq _ (by omega) (by omega)]

/-- C1 (amended): on every code path (early return, direct formula, split form) a non-negative
position within the ranges the code is written for (factors at most `MAX_INT32`, result
representable in 64 bits) converts to the floor of `(in_position * factor_top + round) /
factor_bottom`; the edit-rate overload uses the factors `out.num * in.den` and
`out.den * in.num`. -/
theorem convert_position_refines_spec (p t b : Int) (r : Rounding) (in_rate out_rate : Rational)
    (hp0 : 0 ≤ p) (hp : p < 2 ^ 63) (ht0 : 0 ≤ t) (ht : t ≤ MAX_INT32)
    (hb0 : 0 < b) (hb : b ≤ MAX_INT32) (hres : spec_convert p t b r < 2 ^ 63)
    (hin : in_rate.positive) (hout : out_rate.positive) :
    convert_position p t b r = some (spec_convert p t b r) ∧
    spec_convert p t b r * b ≤ p * t + spec_round t b r ∧
    p * t + spec_round t b r < (spec_convert p t b r + 1) * b ∧
    convert_position_rate in_rate p out_rate r =
      convert_position p (out_rate.numerator * in_rate.denominator)
        (out_rate.denominator * in_rate.numerator) r := by
  refine ⟨convert_position_nonneg p t b r hp0 hp ht0 ht hb0 hb hres, ?_, ?_, ?_⟩
  · exact Int.ediv_mul_le _ (ne_of_gt hb0)
  · exact Int.lt_ediv_add_one_mul_self _ hb0
  · obtain ⟨a1, a2, a3, a4⟩ := hin
    obtain ⟨b1, b2, b3, b4⟩ := hout
    have hM : MAX_INT32 = 2147483647 := rfl
    rw [hM] at a2 a4 b2 b4
    have e1 : mul64 out_rate.numerator in_rate.denominator
        = out_rate.numerator * in_rate.denominator := by
      have h0 := Int.mul_nonneg (le_of_lt b1) (le_of_lt a3)
      have h1 : out_rate.numerator * in_rate.denominator ≤ 2147483647 * 2147483647 :=
        Int.mul_le_mul b2 a4 (le_of_lt a3) (by omega)
      exact wrap64_eq _ (by omega) (by omega)
    have e2 : mul64 out_rate.denominator in_rate.numerator
        = out_rate.denominator * in_rate.numerator := by
      have h0 := Int.mul_nonneg (le_of_lt b3) (le_of_lt a1)
      have h1 : out_rate.denominator * in_rate.numerator ≤ 2147483647 * 2147483647 :=
        Int.mul_le_mul b4 a2 (le_of_lt a1) (by omega)
      exact wrap64_eq _ (by omega) (by omega)
    unfold convert_position_rate
    rw [e1, e2]

/-- C1 (witness): position `2^40` (split form) from factor 30000 to 48000, rounded to the
nearest, and the edit rates 30000/1001 and 48000/1. -/
theorem convert_position_refines_spec_witness :
    convert_position 1099511627776 48000 30000 Rounding.ROUND_NEAREST = some 1759218604442 ∧
    convert_position_rate ⟨30000, 1001⟩ 5 ⟨48000, 1⟩ Rounding.ROUND_UP =
      convert_position 5 (48000 * 1001) (1 * 30000) Rounding.ROUND_UP := by
  have h := convert_position_refines_spec 1099511627776 48000 30000 Rounding.ROUND_NEAREST
    ⟨30000, 1001⟩ ⟨48000, 1⟩ (by decide) (by decide) (by decide) (by decide) (by decide)
    (by decide) (by decide) (by decide) (by decide)
  have h5 := convert_position_refines_spec 5 48000 30000 Rounding.ROUND_UP
    ⟨30000, 1001⟩ ⟨48000, 1⟩ (by decide) (by decide) (by decide) (by decide) (by decide)
    (by decide) (by decide) (by decide) (by decide)
  exact ⟨h.1.trans (by decide), h5.2.2.2⟩

/-- C1 (counterexample): with `factor_top = 2^62` and `factor_bottom = 2^62 + 1` the product
`3 * 2^62` leaves the 64-bit range and the code returns `0`, where the floor is `2`; and with
factors 4 and 1 the position `2^62` has the floor `2^64`, which no 64-bit result can be: the
code returns `0`. -/
theorem convert_position_overflow_counterexample :
    ((0 : Int) ≤ 3 ∧ (0 : Int) ≤ 2 ^ 62 ∧ (0 : Int) < 2 ^ 62 + 1 ∧ (2 ^ 62 + 1 : Int) < 2 ^ 63 ∧
      convert_position 3 (2 ^ 62) (2 ^ 62 + 1) Rounding.ROUND_DOWN = some 0 ∧
      spec_convert 3 (2 ^ 62) (2 ^ 62 + 1) Rounding.ROUND_DOWN = 2) ∧
    (convert_position (2 ^ 62) 4 1 Rounding.ROUND_DOWN = some 0 ∧
      spec_convert (2 ^ 62) 4 1 Rounding.ROUND_DOWN = 2 ^ 64) := by
  decide

/-- The factors derived from two positive edit rates are exact and positive. -/
theorem rate_factor (a c : Rational) (ha : a.positive) (hc : c.positive) :
    mul64 a.numerator c.denominator = a.numerator * c.denominator ∧
    0 < a.numerator * c.denominator := by
  obtain ⟨a1, a2, -, -⟩ := ha
  obtain ⟨-, -, c3, c4⟩ := hc
  have hM : MAX_INT32 = 2147483647 := rfl
  rw [hM] at a2 c4
  have h0 : 0 < a.numerator * c.denominator := Int.mul_pos a1 c3
  have h1 : a.numerator * c.denominator ≤ 2147483647 * 2147483647 :=
    Int.mul_le_mul a2 c4 (le_of_lt c3) (by omega)
  exact ⟨wrap64_eq _ (by omega) (by omega), h0⟩

theorem spec_convert_nonneg (p t b : Int) (r : Rounding) (hp : 0 ≤ p) (ht : 0 ≤ t) (hb : 0 < b) :
    0 ≤ spec_convert p t b r := by
  unfold spec_convert
  have := spec_round_nonneg t b hb r
  have := Int.mul_nonneg hp ht
  exact Int.ediv_nonneg (by omega) (by omega)

theorem spec_convert_down_le_nearest (p t b : Int) (hb : 0 < b) :
    spec_convert p t b Rounding.ROUND_DOWN ≤ spec_convert p t b Rounding.ROUND_NEAREST := by
  simp only [spec_convert, spec_round]
  exact Int.ediv_le_ediv hb (by omega)

theorem spec_convert_nearest_le_up (p t b : Int) (hb : 0 < b) :
    spec_convert p t b Rounding.ROUND_NEAREST ≤ spec_convert p t b Rounding.ROUND_UP := by
  simp only [spec_convert, spec_round]
  exact Int.ediv_le_ediv hb (by omega)

/-- Any position strictly inside the 64-bit range converts to the sign-symmetric formula. -/
theorem convert_position_abs (p t b : Int) (r : Rounding)
    (hpl : -2 ^ 63 < p) (hpu : p < 2 ^ 63) (ht0 : 0 ≤ t) (ht : t ≤ MAX_INT32)
    (hb0 : 0 < b) (hb : b ≤ MAX_INT32) (hres : spec_convert |p| t b r < 2 ^ 63) :
    convert_position p t b r =
      some (if 0 ≤ p then spec_convert p t b r else -(spec_convert (-p) t b r)) := by
  by_cases h : 0 ≤ p
  · rw [if_pos h]
    rw [abs_of_nonneg h] at hres
    exact convert_position_nonneg p t b r h hpu ht0 ht hb0 hb hres
  · rw [if_neg h]
    rw [abs_of_neg (by omega)] at hres
    exact convert_position_neg p t b r (by omega) hpl ht0 ht hb0 hb hres

/-- C3 (amended): for edit rates whose factors stay within `MAX_INT32` and results that fit
64 bits, `DOWN <= NEAREST <= UP` holds for positions `p >= 0`; for `p <= 0` the order is the
reverse one, `UP <= NEAREST <= DOWN`, because the code rounds the magnitude and negates. -/
theorem convert_position_rounding_order (r1 r2 : Rational) (p : Int)
    (h1 : r1.positive) (h2 : r2.positive) (hpl : -2 ^ 63 < p) (hpu : p < 2 ^ 63)
    (ht : r2.numerator * r1.denominator ≤ MAX_INT32)
    (hb : r2.denominator * r1.numerator ≤ MAX_INT32)
    (hfit : spec_convert |p| (r2.numerator * r1.denominator) (r2.denominator * r1.numerator)
      Rounding.ROUND_UP < 2 ^ 63) :
    ∃ d n u : Int,
      convert_position_rate r1 p r2 Rounding.ROUND_DOWN = some d ∧
      convert_position_rate r1 p r2 Rounding.ROUND_NEAREST = some n ∧
      convert_position_rate r1 p r2 Rounding.ROUND_UP = some u ∧
      (0 ≤ p → d ≤ n ∧ n ≤ u) ∧ (p ≤ 0 → u ≤ n ∧ n ≤ d) := by
  obtain ⟨et, ht0⟩ := rate_factor r2 r1 h2 h1
  obtain ⟨eb, hb0⟩ := rate_factor ⟨r2.denominator, r2.numerator⟩ ⟨r1.denominator, r1.numerator⟩
    ⟨h2.2.2.1, h2.2.2.2, h2.1, h2.2.1⟩ ⟨h1.2.2.1, h1.2.2.2, h1.1, h1.2.1⟩
  simp only at eb hb0
  unfold convert_position_rate
  rw [et, eb]
  generalize r2.numerator * r1.denominator = t at *
  generalize r2.denominator * r1.numerator = b at *
  have m1 := spec_convert_down_le_nearest |p| t b hb0
  have m2 := spec_convert_nearest_le_up |p| t b hb0
  have ed := convert_position_abs p t b Rounding.ROUND_DOWN hpl hpu (le_of_lt ht0) ht hb0 hb
    (by omega)
  have en := convert_position_abs p t b Rounding.ROUND_NEAREST hpl hpu (le_of_lt ht0) ht hb0 hb
    (by omega)
  have eu := convert_position_abs p t b Rounding.ROUND_UP hpl hpu (le_of_lt ht0) ht hb0 hb hfit
  refine ⟨_, _, _, ed, en, eu, ?_, ?_⟩
  · intro hp
    rw [abs_of_nonneg hp] at m1 m2
    simp only [if_pos hp]
    exact ⟨m1, m2⟩
  · intro hp
    by_cases h0 : p = 0
    · subst h0
      simp [spec_convert, spec_round]
      have e1 : (b - 1) / b = 0 := Int.ediv_eq_zero_of_lt (by omega) (by omega)
      have e2 : b / 2 / b = 0 := Int.ediv_eq_zero_of_lt (by omega) (by omega)
      omega
    · have hneg : ¬ 0 ≤ p := by omega
      rw [abs_of_neg (by omega)] at m1 m2
      simp only [if_neg hneg]
      omega

/-- C3 (witness): position -1 from 50/1 to 25/1, where the order is the reverse one. -/
theorem convert_position_rounding_order_witness :
    convert_position_rate ⟨50, 1⟩ (-1) ⟨25, 1⟩ Rounding.ROUND_UP = some (-1) ∧
    convert_position_rate ⟨50, 1⟩ (-1) ⟨25, 1⟩ Rounding.ROUND_DOWN = some 0 ∧
    ∃ d n u : Int,
      convert_position_rate ⟨50, 1⟩ (-1) ⟨25, 1⟩ Rounding.ROUND_DOWN = some d ∧
      convert_position_rate ⟨50, 1⟩ (-1) ⟨25, 1⟩ Rounding.ROUND_NEAREST = some n ∧
      convert_position_rate ⟨50, 1⟩ (-1) ⟨25, 1⟩ Rounding.ROUND_UP = some u ∧
      (0 ≤ (-1 : Int) → d ≤ n ∧ n ≤ u) ∧ ((-1 : Int) ≤ 0 → u ≤ n ∧ n ≤ d) :=
  ⟨by decide, by decide,
    convert_position_rounding_order ⟨50, 1⟩ ⟨25, 1⟩ (-1) (by decide) (by decide) (by decide)
      (by decide) (by decide) (by decide) (by decide)⟩

/-- C3 (counterexample): at `p = -1` from 50/1 to 25/1 `ROUND_DOWN` gives `0` and
`ROUND_NEAREST` gives `-1`.  For `p >= 0` the order fails only where 64 bits overflow: at
`p = 2` with factors beyond `MAX_INT32` (`ROUND_DOWN` gives `8388607`, `ROUND_NEAREST` gives
`-8388607`), and from 2/1 to 3/1 at a position whose rounded-up result is `2^63`
(`ROUND_DOWN` gives `2^63 - 1`, `ROUND_NEAREST` gives `-2^63`). -/
theorem convert_position_rounding_order_counterexample :
    (convert_position_rate ⟨50, 1⟩ (-1) ⟨25, 1⟩ Rounding.ROUND_DOWN = some 0 ∧
     convert_position_rate ⟨50, 1⟩ (-1) ⟨25, 1⟩ Rounding.ROUND_NEAREST = some (-1) ∧
     ¬ ((0 : Int) ≤ -1)) ∧
    (convert_position_rate ⟨1048576, 2147483647⟩ 2 ⟨2147483647, 1048576⟩ Rounding.ROUND_DOWN
        = some 8388607 ∧
     convert_position_rate ⟨1048576, 2147483647⟩ 2 ⟨2147483647, 1048576⟩ Rounding.ROUND_NEAREST
        = some (-8388607) ∧
     ¬ ((8388607 : Int) ≤ -8388607)) ∧
    (convert_position_rate ⟨2, 1⟩ 6148914691236517205 ⟨3, 1⟩ Rounding.ROUND_DOWN
        = some 9223372036854775807 ∧
     convert_position_rate ⟨2, 1⟩ 6148914691236517205 ⟨3, 1⟩ Rounding.ROUND_NEAREST
        = some (-9223372036854775808) ∧
     ¬ ((9223372036854775807 : Int) ≤ -9223372036854775808)) := by
  decide

/-- Round trip of the formula with `ROUND_AUTO` in both directions, over the integers. -/
theorem spec_round_trip (p t b : Int) (ht : 0 < t) (hb : 0 < b) :
    p ≤ spec_convert (spec_convert p t b Rounding.ROUND_AUTO) b t Rounding.ROUND_AUTO ∧
    (spec_convert (spec_convert p t b Rounding.ROUND_AUTO) b t Rounding.ROUND_AUTO - p) * t < b := by
  simp only [spec_convert, spec_round]
  rcases lt_trichotomy t b with h | h | h
  · rw [if_pos h, if_neg (by omega)]
    generalize hs : (p * t + (b - 1)) / b = s
    have s1 : s * b ≤ p * t + (b - 1) := hs ▸ Int.ediv_mul_le _ (ne_of_gt hb)
    have s2 : p * t + (b - 1) < (s + 1) * b := hs ▸ Int.lt_ediv_add_one_mul_self _ hb
    generalize hq : (s * b + 0) / t = q
    have q1 : q * t ≤ s * b + 0 := hq ▸ Int.ediv_mul_le _ (ne_of_gt ht)
    have q2 : s * b + 0 < (q + 1) * t := hq ▸ Int.lt_ediv_add_one_mul_self _ ht
    constructor
    · by_contra hc
      have : (q + 1) * t ≤ p * t := Int.mul_le_mul_of_nonneg_right (by omega) (le_of_lt ht)
      nlinarith
    · nlinarith
  · subst h
    rw [if_neg (by omega)]
    have e1 : (p * t + 0) / t = p := by simp [Int.mul_ediv_cancel _ (ne_of_gt ht)]
    rw [e1, e1]
    constructor
    · omega
    · simpa using hb
  · rw [if_neg (by omega), if_pos h]
    generalize hs : (p * t + 0) / b = s
    have s1 : s * b ≤ p * t + 0 := hs ▸ Int.ediv_mul_le _ (ne_of_gt hb)
    have s2 : p * t + 0 < (s + 1) * b := hs ▸ Int.lt_ediv_add_one_mul_self _ hb
    generalize hq : (s * b + (t - 1)) / t = q
    have q1 : q * t ≤ s * b + (t - 1) := hq ▸ Int.ediv_mul_le _ (ne_of_gt ht)
    have q2 : s * b + (t - 1) < (q + 1) * t := hq ▸ Int.lt_ediv_add_one_mul_self _ ht
    have hqp : q = p := by
      have hle : q ≤ p := by
        by_contra hc
        have : (p + 1) * t ≤ q * t := Int.mul_le_mul_of_nonneg_right (by omega) (le_of_lt ht)
        nlinarith
      have hge : p ≤ q := by
        by_contra hc
        have : (q + 1) * t ≤ (p - 1 + 1) * t :=
          Int.mul_le_mul_of_nonneg_right (by omega) (le_of_lt ht)
        nlinarith
      omega
    rw [hqp]
    constructor
    · omega
    · simpa using hb

/-- C2 (amended): for positive edit rates whose factors stay within `MAX_INT32` and
conversions that fit 64 bits, converting `p >= 0` from `r1` to `r2` and back with `ROUND_AUTO`
gives `q >= p` with `(q - p) * factor_top < factor_bottom`; so `q = p` when `r2 >= r1`, and
`|q - p| <= 1` when `r1 <= 2 * r2`. -/
theorem convert_position_round_trip (r1 r2 : Rational) (p : Int)
    (h1 : r1.positive) (h2 : r2.positive) (hp0 : 0 ≤ p) (hpu : p < 2 ^ 63)
    (ht : r2.numerator * r1.denominator ≤ MAX_INT32)
    (hb : r2.denominator * r1.numerator ≤ MAX_INT32)
    (hfit1 : spec_convert p (r2.numerator * r1.denominator) (r2.denominator * r1.numerator)
      Rounding.ROUND_AUTO < 2 ^ 63)
    (hfit2 : spec_convert
      (spec_convert p (r2.numerator * r1.denominator) (r2.denominator * r1.numerator)
        Rounding.ROUND_AUTO)
      (r2.denominator * r1.numerator) (r2.numerator * r1.denominator)
      Rounding.ROUND_AUTO < 2 ^ 63) :
    ∃ q1 q : Int,
      convert_position_rate r1 p r2 Rounding.ROUND_AUTO = some q1 ∧
      convert_position_rate r2 q1 r1 Rounding.ROUND_AUTO = some q ∧
      p ≤ q ∧
      (q - p) * (r2.numerator * r1.denominator) < r2.denominator * r1.numerator ∧
      (r2.denominator * r1.numerator ≤ r2.numerator * r1.denominator → q = p) ∧
      (r2.denominator * r1.numerator ≤ 2 * (r2.numerator * r1.denominator) → |q - p| ≤ 1) := by
  obtain ⟨et, ht0⟩ := rate_factor r2 r1 h2 h1
  obtain ⟨eb, hb0⟩ := rate_factor ⟨r2.denominator, r2.numerator⟩ ⟨r1.denominator, r1.numerator⟩
    ⟨h2.2.2.1, h2.2.2.2, h2.1, h2.2.1⟩ ⟨h1.2.2.1, h1.2.2.2, h1.1, h1.2.1⟩
  simp only at eb hb0
  have et2 : mul64 r1.denominator r2.numerator = r2.numerator * r1.denominator := by
    rw [← et]; unfold mul64; rw [Int.mul_comm]
  have eb2 : mul64 r1.numerator r2.denominator = r2.denominator * r1.numerator := by
    rw [← eb]; unfold mul64; rw [Int.mul_comm]
  unfold convert_position_rate
  rw [et, eb, et2, eb2]
  generalize r2.numerator * r1.denominator = t at *
  generalize r2.denominator * r1.numerator = b at *
  have hs0 := spec_convert_nonneg p t b Rounding.ROUND_AUTO hp0 (le_of_lt ht0) hb0
  have e1 := convert_position_nonneg p t b Rounding.ROUND_AUTO hp0 hpu (le_of_lt ht0) ht hb0 hb
    hfit1
  have e2 := convert_position_nonneg (spec_convert p t b Rounding.ROUND_AUTO) b t
    Rounding.ROUND_AUTO hs0 hfit1 (le_of_lt hb0) hb ht0 ht hfit2
  obtain ⟨m1, m2⟩ := spec_round_trip p t b ht0 hb0
  refine ⟨_, _, e1, e2, m1, m2, ?_, ?_⟩
  · intro hbt
    generalize spec_convert (spec_convert p t b Rounding.ROUND_AUTO) b t Rounding.ROUND_AUTO = q
      at m1 m2
    by_contra hc
    have : 1 * t ≤ (q - p) * t := Int.mul_le_mul_of_nonneg_right (by omega) (le_of_lt ht0)
    omega
  · intro hbt
    generalize spec_convert (spec_convert p t b Rounding.ROUND_AUTO) b t Rounding.ROUND_AUTO = q
      at m1 m2
    rw [abs_of_nonneg (by omega)]
    by_contra hc
    have : 2 * t ≤ (q - p) * t := Int.mul_le_mul_of_nonneg_right (by omega) (le_of_lt ht0)
    omega

/-- C2 (witness): position 1 from 48000/1 to 25/1 and back: the result 1920 lies less than
one 25/1 sample (1920 samples of 48000/1) after position 1. -/
theorem convert_position_round_trip_witness :
    ∃ q1 q : Int,
      convert_position_rate ⟨48000, 1⟩ 1 ⟨25, 1⟩ Rounding.ROUND_AUTO = some q1 ∧
      convert_position_rate ⟨25, 1⟩ q1 ⟨48000, 1⟩ Rounding.ROUND_AUTO = some q ∧
      (1 : Int) ≤ q ∧
      (q - 1) * (25 * 1) < (1 * 48000 : Int) ∧
      ((1 * 48000 : Int) ≤ 25 * 1 → q = 1) ∧
      ((1 * 48000 : Int) ≤ 2 * (25 * 1) → |q - 1| ≤ 1) :=
  convert_position_round_trip ⟨48000, 1⟩ ⟨25, 1⟩ 1 (by decide) (by decide) (by decide)
    (by decide) (by decide) (by decide) (by decide) (by decide)

/-- C2 (counterexample): position 1 at 48000/1 converts to 1 at 25/1 and back to 1920.
Where 64 bits overflow the result is arbitrary: for rates within 32 bits whose factors exceed
`MAX_INT32` position 3 comes back as -1, and from 2/1 to 1/1 position `2^63 - 1` converts to
`2^62` and back to `-2^63`. -/
theorem convert_position_round_trip_counterexample :
    (convert_position_rate ⟨48000, 1⟩ 1 ⟨25, 1⟩ Rounding.ROUND_AUTO = some 1 ∧
     convert_position_rate ⟨25, 1⟩ 1 ⟨48000, 1⟩ Rounding.ROUND_AUTO = some 1920 ∧
     ¬ (|(1920 : Int) - 1| ≤ 1)) ∧
    (convert_position_rate ⟨2147483646, 2147483647⟩ 3 ⟨2147483647, 2147483646⟩
        Rounding.ROUND_AUTO = some (-1) ∧
     convert_position_rate ⟨2147483647, 2147483646⟩ (-1) ⟨2147483646, 2147483647⟩
        Rounding.ROUND_AUTO = some (-1) ∧
     ¬ (|(-1 : Int) - 3| ≤ 1)) ∧
    (convert_position_rate ⟨2, 1⟩ 9223372036854775807 ⟨1, 1⟩ Rounding.ROUND_AUTO
        = some 4611686018427387904 ∧
     convert_position_rate ⟨1, 1⟩ 4611686018427387904 ⟨2, 1⟩ Rounding.ROUND_AUTO
        = some (-9223372036854775808) ∧
     ¬ (|(-9223372036854775808 : Int) - 9223372036854775807| ≤ 1)) := by
  decide

/-- C4 (amended): for `p >= 0` and factors `0 < factor_top < factor_bottom <= MAX_INT32`,
`ROUND_AUTO` converts `p` to the ceiling of `p * factor_top / factor_bottom`, and, when the
way back fits 64 bits, converting that back to the higher rate gives a position `>= p`. -/
theorem convert_position_auto_lower_rate (p t b : Int)
    (hp0 : 0 ≤ p) (hpu : p < 2 ^ 63) (ht0 : 0 < t) (htb : t < b) (hb : b ≤ MAX_INT32)
    (hfit : spec_convert (spec_convert p t b Rounding.ROUND_AUTO) b t Rounding.ROUND_AUTO
      < 2 ^ 63) :
    ∃ q q2 : Int,
      convert_position p t b Rounding.ROUND_AUTO = some q ∧
      q = ⌈((p * t : Int) : ℚ) / ((b : Int) : ℚ)⌉ ∧
      convert_position q b t Rounding.ROUND_AUTO = some q2 ∧
      p ≤ q2 := by
  have hb0 : 0 < b := by omega
  have hM : MAX_INT32 = 2147483647 := rfl
  have hs0 := spec_convert_nonneg p t b Rounding.ROUND_AUTO hp0 (le_of_lt ht0) hb0
  have hq : spec_convert p t b Rounding.ROUND_AUTO = (p * t + (b - 1)) / b := by
    simp only [spec_convert, spec_round, if_pos htb]
  have s1 : (p * t + (b - 1)) / b * b ≤ p * t + (b - 1) := Int.ediv_mul_le _ (ne_of_gt hb0)
  have s2 : p * t + (b - 1) < ((p * t + (b - 1)) / b + 1) * b :=
    Int.lt_ediv_add_one_mul_self _ hb0
  rw [← hq] at s1 s2
  have hsp : spec_convert p t b Rounding.ROUND_AUTO ≤ p := by
    by_contra hc
    have h3 : (p + 1) * b ≤ spec_convert p t b Rounding.ROUND_AUTO * b :=
      Int.mul_le_mul_of_nonneg_right (by omega) (le_of_lt hb0)
    have h4 : p * t ≤ p * b := Int.mul_le_mul_of_nonneg_left (le_of_lt htb) hp0
    nlinarith
  have e1 := convert_position_nonneg p t b Rounding.ROUND_AUTO hp0 hpu (le_of_lt ht0)
    (by omega) hb0 hb (by omega)
  have e2 := convert_position_nonneg (spec_convert p t b Rounding.ROUND_AUTO) b t
    Rounding.ROUND_AUTO hs0 (by omega) (le_of_lt hb0) hb ht0 (by omega) hfit
  refine ⟨_, _, e1, ?_, e2, (spec_round_trip p t b ht0 hb0).1⟩
  symm
  rw [Int.ceil_eq_iff]
  have hbq : (0 : ℚ) < ((b : Int) : ℚ) := by exact_mod_cast hb0
  constructor
  · rw [lt_div_iff₀ hbq]
    have : (spec_convert p t b Rounding.ROUND_AUTO - 1) * b < p * t := by nlinarith
    exact_mod_cast this
  · rw [div_le_iff₀ hbq]
    have : p * t ≤ spec_convert p t b Rounding.ROUND_AUTO * b := by nlinarith
    exact_mod_cast this

/-- C4 (witness): position 1 with the factors 25 and 48000. -/
theorem convert_position_auto_lower_rate_witness :
    ∃ q q2 : Int,
      convert_position 1 25 48000 Rounding.ROUND_AUTO = some q ∧
      q = ⌈(((1 : Int) * 25 : Int) : ℚ) / ((48000 : Int) : ℚ)⌉ ∧
      convert_position q 48000 25 Rounding.ROUND_AUTO = some q2 ∧
      1 ≤ q2 :=
  convert_position_auto_lower_rate 1 25 48000 (by decide) (by decide) (by decide) (by decide)
    (by decide) (by decide)

/-- C4 (counterexample): with `factor_top = 2^62 < factor_bottom = 2^62 + 1` the product
`3 * 2^62` leaves the 64-bit range and `ROUND_AUTO` returns `0`, where the ceiling of
`3 * 2^62 / (2^62 + 1)` is `3`; and with the factors 1 and 2 position `2^63 - 1` converts to
`2^62`, whose conversion back, `2^63`, does not fit 64 bits: the code returns `-2^63`, which is
below the position. -/
theorem convert_position_auto_lower_rate_counterexample :
    ((0 : Int) ≤ 3 ∧ (0 : Int) < 2 ^ 62 ∧ (2 ^ 62 : Int) < 2 ^ 62 + 1 ∧
      convert_position 3 (2 ^ 62) (2 ^ 62 + 1) Rounding.ROUND_AUTO = some 0 ∧
      ⌈(((3 : Int) * 2 ^ 62 : Int) : ℚ) / ((2 ^ 62 + 1 : Int) : ℚ)⌉ = 3) ∧
    (convert_position 9223372036854775807 1 2 Rounding.ROUND_AUTO = some 4611686018427387904 ∧
      convert_position 4611686018427387904 2 1 Rounding.ROUND_AUTO
        = some (-9223372036854775808) ∧
      ¬ ((9223372036854775807 : Int) ≤ -9223372036854775808)) := by
  refine ⟨⟨by decide, by decide, by decide, by decide, ?_⟩, by decide⟩
  rw [Int.ceil_eq_iff]
  norm_num

/-! ### convert_duration with wrap-around -/

theorem wrap64_range (x : Int) : -2 ^ 63 ≤ wrap64 x ∧ wrap64 x < 2 ^ 63 := by
  unfold wrap64
  omega

theorem wrap64_le_of_nonneg (x : Int) (h : 0 ≤ x) : wrap64 x ≤ x := by
  unfold wrap64
  omega

theorem wrap64_add_left (x y : Int) : wrap64 (wrap64 x + y) = wrap64 (x + y) := by
  unfold wrap64
  omega

theorem tdiv_le_of_le (z x c : Int) (hc : 0 < c) (hx : 0 ≤ x) (hz : z ≤ x) :
    Int.tdiv z c ≤ x / c := by
  by_cases h : 0 ≤ z
  · rw [Int.tdiv_eq_ediv h (le_of_lt hc)]
    exact Int.ediv_le_ediv hc hz
  · have h1 : Int.tdiv z c ≤ 0 := by
      have : z = -(-z) := by ring
      rw [this, Int.neg_tdiv]
      have : 0 ≤ Int.tdiv (-z) c := Int.tdiv_nonneg (by omega) (le_of_lt hc)
      omega
    have h2 : 0 ≤ x / c := Int.ediv_nonneg hx (le_of_lt hc)
    omega

theorem tdiv_ge_neg (z c : Int) (hc : 0 < c) (hz : -2 ^ 63 ≤ z) :
    -(2 ^ 63 / c) ≤ Int.tdiv z c := by
  by_cases h : 0 ≤ z
  · have h1 : 0 ≤ Int.tdiv z c := Int.tdiv_nonneg h (le_of_lt hc)
    have h2 : (0 : Int) ≤ 2 ^ 63 / c := Int.ediv_nonneg (by norm_num) (le_of_lt hc)
    omega
  · have : z = -(-z) := by ring
    rw [this, Int.neg_tdiv, Int.tdiv_eq_ediv (by omega) (le_of_lt hc)]
    have : -z / c ≤ 2 ^ 63 / c := Int.ediv_le_ediv hc (by omega)
    omega

theorem tdiv_range (z c : Int) (hc : 0 < c) (hz1 : -2 ^ 63 ≤ z) (hz2 : z < 2 ^ 63) :
    -2 ^ 63 ≤ Int.tdiv z c ∧ Int.tdiv z c < 2 ^ 63 := by
  have h1 := tdiv_ge_neg z c hc hz1
  have h2 : (2 : Int) ^ 63 / c ≤ 2 ^ 63 := Int.ediv_le_self _ (by norm_num)
  have h3 := tdiv_le_of_le z (2 ^ 63 - 1) c hc (by norm_num) (by omega)
  have h4 : ((2 : Int) ^ 63 - 1) / c ≤ 2 ^ 63 - 1 := Int.ediv_le_self _ (by norm_num)
  omega

theorem round_num_range (T B : Int) (rd : Rounding) (hB : 0 < B) (hB2 : B < 2 ^ 63) :
    round_num T B rd = spec_round T B rd ∧ 0 ≤ spec_round T B rd ∧ spec_round T B rd < B :=
  ⟨round_num_eq T B hB hB2 rd, spec_round_nonneg T B hB rd, spec_round_lt T B hB rd⟩

/-- The direct formula with its wrap-arounds, for a small positive position. -/
theorem convert_position_direct (p T B : Int) (rd : Rounding) (hp : 0 < p)
    (hpM : p ≤ MAX_INT32) (hTB : T ≠ B) (hB : 0 < B) (hB2 : B < 2 ^ 63) :
    convert_position p T B rd
      = some (Int.tdiv (wrap64 (p * T + spec_round T B rd)) B) := by
  unfold convert_position convert_position_fuel
  rw [if_neg (by intro h; rcases h with h | h; exact absurd h (by omega); exact hTB h),
    if_neg (by omega), if_pos hpM, (round_num_range T B rd hB hB2).1]
  simp only [div64, if_neg (show ¬ B = 0 by omega), add64, mul64, wrap64_add_left]
  have r := wrap64_range (p * T + spec_round T B rd)
  have := tdiv_range _ B hB r.1 r.2
  rw [wrap64_eq _ this.1 this.2]

/-- The split form with its wrap-arounds, for a large position. -/
theorem convert_position_split (p T B : Int) (rd : Rounding) (hpM : MAX_INT32 < p)
    (hp2 : p < 2 ^ 63) (hTB : T ≠ B) (hB : 0 < B) (hB2 : B < 2 ^ 63) :
    convert_position p T B rd
      = some (wrap64 (wrap64 (p / B * T)
          + Int.tdiv (wrap64 (p % B * T + spec_round T B rd)) B)) := by
  have hM : MAX_INT32 = 2147483647 := rfl
  rw [hM] at hpM
  have hp0 : 0 ≤ p := by omega
  unfold convert_position convert_position_fuel
  rw [if_neg (by intro h; rcases h with h | h; exact absurd h (by omega); exact hTB h),
    if_neg (by omega), if_neg (by rw [hM]; omega), (round_num_range T B rd hB hB2).1]
  have hq0 : 0 ≤ p / B := Int.ediv_nonneg hp0 (by omega)
  have hq1 : p / B ≤ p := Int.ediv_le_self _ hp0
  have hm0 : 0 ≤ p % B := Int.emod_nonneg _ (by omega)
  have hm1 : p % B < B := Int.emod_lt_of_pos _ hB
  have d1 : div64 p B = some (p / B) := by
    simp only [div64, if_neg (show ¬ B = 0 by omega)]
    rw [Int.tdiv_eq_ediv hp0 (by omega), wrap64_eq _ (by omega) (by omega)]
  have d2 : mod64 p B = some (p % B) := by
    simp only [mod64, if_neg (show ¬ B = 0 by omega)]
    rw [Int.tmod_eq_emod hp0 (by omega), wrap64_eq _ (by omega) (by omega)]
  rw [d1, d2]
  simp only [Option.some_bind, div64, if_neg (show ¬ B = 0 by omega), add64, mul64,
    wrap64_add_left]
  have r := wrap64_range (p % B * T + spec_round T B rd)
  have := tdiv_range _ B hB r.1 r.2
  rw [wrap64_eq (Int.tdiv _ B) this.1 this.2]

/-- A negative position: the magnitude is converted and the result negated. -/
theorem convert_position_of_neg (p T B : Int) (rd : Rounding) (hp : p < 0)
    (hp2 : -2 ^ 63 < p) (hTB : T ≠ B) :
    convert_position p T B rd = (convert_position (-p) T B rd).map neg64 := by
  have hn : neg64 p = -p := wrap64_eq _ (by omega) (by omega)
  unfold convert_position
  rw [convert_position_fuel_nonneg 1 (-p) T B rd (by omega)]
  rw [convert_position_fuel, if_neg (by intro h; rcases h with h | h; omega; exact hTB h),
    if_pos hp, hn]

theorem mul_ediv_le_of_le (a c x : Int) (hc : 0 < c) (h : a * c ≤ x) : a ≤ x / c :=
  (Int.le_ediv_iff_mul_le hc).mpr h

theorem wrap64_neg_overflow (x : Int) (h0 : 0 ≤ x) (h : wrap64 x < 0) : 2 ^ 63 ≤ x := by
  unfold wrap64 at h
  omega

theorem pow63_ediv_le (c : Int) (hc : 2 ≤ c) : (2 : Int) ^ 63 / c ≤ 2 ^ 62 :=
  Int.ediv_le_of_le_mul (by omega) (by omega)

/-- Converting a duration down to a lower rate: the result is either a floor that wrap-around
can only have lowered, or negative after an overflow, and then small. -/
theorem duration_forward (d t b : Int) (hd0 : 0 < d) (hd : d < 2 ^ 63) (ht : 0 < t)
    (htb : t < b) (hb : b < 2 ^ 63) :
    ∃ q, convert_position d t b Rounding.ROUND_DOWN = some q ∧ -2 ^ 63 < q ∧ q < 2 ^ 63 ∧
      ((0 ≤ q ∧ q * b ≤ d * t) ∨ (q < 0 ∧ -q * b ≤ 2 ^ 63 ∧ 2 ^ 63 ≤ d * t)) := by
  have hb0 : 0 < b := by omega
  have hHb := pow63_ediv_le b (by omega)
  have hdt0 : 0 ≤ d * t := Int.mul_nonneg (le_of_lt hd0) (le_of_lt ht)
  by_cases hM : d ≤ MAX_INT32
  · rw [convert_position_direct d t b _ hd0 hM (by omega) hb0 hb]
    simp only [spec_round, add_zero]
    have r := wrap64_range (d * t)
    have hle := wrap64_le_of_nonneg (d * t) hdt0
    have hov := wrap64_neg_overflow (d * t) hdt0
    generalize wrap64 (d * t) = x at r hle hov
    have rng := tdiv_range x b hb0 r.1 r.2
    have hlow := tdiv_ge_neg x b hb0 r.1
    refine ⟨_, rfl, by omega, rng.2, ?_⟩
    by_cases hx : 0 ≤ x
    · left
      rw [Int.tdiv_eq_ediv hx (le_of_lt hb0)]
      refine ⟨Int.ediv_nonneg hx (le_of_lt hb0), ?_⟩
      have := Int.ediv_mul_le x (ne_of_gt hb0)
      omega
    · have hneg : x = -(-x) := by ring
      have e : Int.tdiv x b = -((-x) / b) := by
        rw [hneg, Int.neg_tdiv, Int.tdiv_eq_ediv (by omega) (le_of_lt hb0)]
        simp
      rw [e]
      have h1 : 0 ≤ (-x) / b := Int.ediv_nonneg (by omega) (le_of_lt hb0)
      have h2 := Int.ediv_mul_le (-x) (ne_of_gt hb0)
      by_cases hz : (-x) / b = 0
      · left
        rw [hz]
        simpa using hdt0
      · right
        refine ⟨by omega, ?_, hov (by omega)⟩
        simp only [neg_neg]
        omega
  · have hM2 : MAX_INT32 < d := by omega
    rw [convert_position_split d t b _ hM2 hd (by omega) hb0 hb]
    simp only [spec_round, add_zero]
    have hq0 : 0 ≤ d / b := Int.ediv_nonneg (le_of_lt hd0) (le_of_lt hb0)
    have hm0 : 0 ≤ d % b := Int.emod_nonneg _ (by omega)
    have hm1 : d % b < b := Int.emod_lt_of_pos _ hb0
    have hdecomp := Int.emod_add_ediv d b
    rw [Int.mul_comm b (d / b)] at hdecomp
    have hA0 : 0 ≤ d / b * t := Int.mul_nonneg hq0 (le_of_lt ht)
    have hA1 : d / b * t ≤ d / b * b := Int.mul_le_mul_of_nonneg_left (le_of_lt htb) hq0
    have hA2 : d / b * b ≤ d := Int.ediv_mul_le d (ne_of_gt hb0)
    have hmt0 : 0 ≤ d % b * t := Int.mul_nonneg hm0 (le_of_lt ht)
    have hAb : d / b * t * b + d % b * t = d * t := by
      have : d * t = (d % b + d / b * b) * t := by rw [hdecomp]
      rw [this]; ring
    rw [wrap64_eq (d / b * t) (by omega) (by omega)]
    have r := wrap64_range (d % b * t)
    have hle := wrap64_le_of_nonneg (d % b * t) hmt0
    have hov := wrap64_neg_overflow (d % b * t) hmt0
    generalize wrap64 (d % b * t) = x at r hle hov
    have rng := tdiv_range x b hb0 r.1 r.2
    have hlow := tdiv_ge_neg x b hb0 r.1
    by_cases hx : 0 ≤ x
    · have e : Int.tdiv x b = x / b := Int.tdiv_eq_ediv hx (le_of_lt hb0)
      rw [e]
      have h1 : 0 ≤ x / b := Int.ediv_nonneg hx (le_of_lt hb0)
      have h2 := Int.ediv_mul_le x (ne_of_gt hb0)
      have hsum : (d / b * t + x / b) * b ≤ d * t := by
        rw [← hAb, add_mul]; omega
      have hlt : d / b * t + x / b < 2 ^ 63 := by
        by_contra hc
        have h3 : d * b ≤ (d / b * t + x / b) * b :=
          Int.mul_le_mul_of_nonneg_right (by omega) (le_of_lt hb0)
        have h4 : d * t < d * b := Int.mul_lt_mul_of_pos_left htb hd0
        omega
      rw [wrap64_eq _ (by omega) hlt]
      exact ⟨_, rfl, by omega, hlt, Or.inl ⟨by omega, hsum⟩⟩
    · have hneg : x = -(-x) := by ring
      have e : Int.tdiv x b = -((-x) / b) := by
        rw [hneg, Int.neg_tdiv, Int.tdiv_eq_ediv (by omega) (le_of_lt hb0)]
        simp
      rw [e]
      have h1 : 0 ≤ (-x) / b := Int.ediv_nonneg (by omega) (le_of_lt hb0)
      have h2 := Int.ediv_mul_le (-x) (ne_of_gt hb0)
      have h3 : (-x) / b ≤ 2 ^ 63 / b := Int.ediv_le_ediv hb0 (by omega)
      rw [wrap64_eq _ (by omega) (by omega)]
      refine ⟨_, rfl, by omega, by omega, ?_⟩
      by_cases hq : 0 ≤ d / b * t + -(-x / b)
      · left
        refine ⟨hq, ?_⟩
        have h4 : (d / b * t + -(-x / b)) * b ≤ d / b * t * b := by
          apply Int.mul_le_mul_of_nonneg_right _ (le_of_lt hb0)
          omega
        omega
      · right
        have hmd : d % b * t ≤ d * t := by
          apply Int.mul_le_mul_of_nonneg_right _ (le_of_lt ht)
          omega
        refine ⟨by omega, ?_, by have := hov (by omega); omega⟩
        have h5 : 0 ≤ d / b * t * b := Int.mul_nonneg hA0 (le_of_lt hb0)
        have h6 : -(d / b * t + -(-x / b)) * b = (-x / b) * b - d / b * t * b := by ring
        rw [h6]
        omega

/-- Converting a positive duration back up: wrap-around can only lower the rounded-up
quotient. -/
theorem duration_back_pos (q d t b : Int) (hq : 0 < q) (hqb : q * b ≤ d * t)
    (hd : d < 2 ^ 63) (ht : 0 < t) (htb : t < b) (hb : b < 2 ^ 63) :
    ∃ r, convert_position q b t Rounding.ROUND_UP = some r ∧ r ≤ d := by
  have hb0 : 0 < b := by omega
  have hqb0 : 0 < q * b := Int.mul_pos hq hb0
  have hd0 : 0 < d := by
    by_contra hc
    have : d * t ≤ 0 * t := Int.mul_le_mul_of_nonneg_right (by omega) (le_of_lt ht)
    omega
  have hqd : q < d := by
    by_contra hc
    have h1 : d * b ≤ q * b := Int.mul_le_mul_of_nonneg_right (by omega) (le_of_lt hb0)
    have h2 : d * t < d * b := Int.mul_lt_mul_of_pos_left htb hd0
    omega
  have hup : (d * t + (t - 1)) / t = d := by
    rw [Int.add_comm, Int.add_mul_ediv_right _ _ (ne_of_gt ht),
      Int.ediv_eq_zero_of_lt (by omega) (by omega)]
    simp
  by_cases hM : q ≤ MAX_INT32
  · rw [convert_position_direct q b t _ hq hM (by omega) ht (by omega)]
    simp only [spec_round]
    refine ⟨_, rfl, ?_⟩
    have h1 := wrap64_le_of_nonneg (q * b + (t - 1)) (by omega)
    have h2 := tdiv_le_of_le _ (q * b + (t - 1)) t ht (by omega) h1
    have h3 : (q * b + (t - 1)) / t ≤ (d * t + (t - 1)) / t := Int.ediv_le_ediv ht (by omega)
    omega
  · rw [convert_position_split q b t _ (by omega) (by omega) (by omega) ht (by omega)]
    simp only [spec_round]
    have hq0 : 0 ≤ q / t := Int.ediv_nonneg (le_of_lt hq) (le_of_lt ht)
    have hm0 : 0 ≤ q % t := Int.emod_nonneg _ (by omega)
    have hA0 : 0 ≤ q / t * b := Int.mul_nonneg hq0 (le_of_lt hb0)
    have hmb0 : 0 ≤ q % t * b := Int.mul_nonneg hm0 (le_of_lt hb0)
    have hsplit := split_div q b t (t - 1) ht
    have hB0 : 0 ≤ (q % t * b + (t - 1)) / t := Int.ediv_nonneg (by omega) (le_of_lt ht)
    have htot : (q * b + (t - 1)) / t ≤ d := by
      have : (q * b + (t - 1)) / t ≤ (d * t + (t - 1)) / t := Int.ediv_le_ediv ht (by omega)
      omega
    rw [wrap64_eq (q / t * b) (by omega) (by omega)]
    have r := wrap64_range (q % t * b + (t - 1))
    have h1 := wrap64_le_of_nonneg (q % t * b + (t - 1)) (by omega)
    have h2 := tdiv_le_of_le _ (q % t * b + (t - 1)) t ht (by omega) h1
    have rng := tdiv_range _ t ht r.1 r.2
    rw [wrap64_eq _ (by omega) (by omega)]
    exact ⟨_, rfl, by omega⟩

/-- Converting back the magnitude of a duration that went negative by overflow: the result
stays above `-d`. -/
theorem duration_back_neg (n d t b : Int) (hn : 0 < n) (hnb : n * b ≤ 2 ^ 63)
    (hdt : 2 ^ 63 ≤ d * t) (hd : d < 2 ^ 63) (ht : 0 < t) (htb : t < b) (hb : b < 2 ^ 63) :
    ∃ r, convert_position n b t Rounding.ROUND_UP = some r ∧ -d ≤ r ∧ r < 2 ^ 63 := by
  have hb0 : 0 < b := by omega
  have hd0 : 0 < d := by
    by_contra hc
    have : d * t ≤ 0 * t := Int.mul_le_mul_of_nonneg_right (by omega) (le_of_lt ht)
    omega
  have ht2 : 2 ≤ t := by
    by_contra hc
    have : t = 1 := by omega
    subst this
    omega
  have hHt : (2 : Int) ^ 63 / t ≤ d := Int.ediv_le_of_le_mul ht hdt
  have hn2 : n * 2 ≤ n * b := Int.mul_le_mul_of_nonneg_left (by omega) (le_of_lt hn)
  by_cases hM : n ≤ MAX_INT32
  · rw [convert_position_direct n b t _ hn hM (by omega) ht (by omega)]
    have r := wrap64_range (n * b + spec_round b t Rounding.ROUND_UP)
    have rng := tdiv_range _ t ht r.1 r.2
    have hlow := tdiv_ge_neg _ t ht r.1
    exact ⟨_, rfl, by omega, rng.2⟩
  · rw [convert_position_split n b t _ (by omega) (by omega) (by omega) ht (by omega)]
    have hq0 : 0 ≤ n / t := Int.ediv_nonneg (le_of_lt hn) (le_of_lt ht)
    have hA0 : 0 ≤ n / t * b := Int.mul_nonneg hq0 (le_of_lt hb0)
    have h1 : n / t * t ≤ n := Int.ediv_mul_le n (ne_of_gt ht)
    have h2 : n / t * 2 ≤ n / t * t := Int.mul_le_mul_of_nonneg_left ht2 hq0
    have h3 : n / t * 2 * b ≤ n * b := Int.mul_le_mul_of_nonneg_right (by omega) (le_of_lt hb0)
    have h4 : n / t * 2 * b = 2 * (n / t * b) := by ring
    rw [wrap64_eq (n / t * b) (by omega) (by omega)]
    have r := wrap64_range (n % t * b + spec_round b t Rounding.ROUND_UP)
    have rng := tdiv_range _ t ht r.1 r.2
    have hlow := tdiv_ge_neg _ t ht r.1
    have hup := tdiv_le_of_le (wrap64 (n % t * b + spec_round b t Rounding.ROUND_UP))
      (2 ^ 63 - 1) t ht (by norm_num) (by omega)
    have hup2 : ((2 : Int) ^ 63 - 1) / t < 2 ^ 62 := by
      apply Int.ediv_lt_of_lt_mul ht
      omega
    rw [wrap64_eq _ (by omega) (by omega)]
    exact ⟨_, rfl, by omega, by omega⟩

/-- C5: `convert_duration` with `ROUND_AUTO` rounds down when `factor_top < factor_bottom`
and up otherwise (the opposite of the position rule), and behaves as `convert_position` for
the explicit modes; and for every 64-bit duration `d >= 0` and factors
`0 < factor_top < factor_bottom`, converting `d` to the lower rate and the result back to the
higher rate gives a duration `<= d`, also where the 64-bit arithmetic wraps around. -/
theorem convert_duration_auto_round_trip (x T B : Int) (rd : Rounding) (d t b : Int)
    (hd0 : 0 ≤ d) (hd : d < 2 ^ 63) (ht : 0 < t) (htb : t < b) (hb : b < 2 ^ 63) :
    (convert_duration x T B Rounding.ROUND_AUTO =
      convert_position x T B (if T < B then Rounding.ROUND_DOWN else Rounding.ROUND_UP)) ∧
    (rd ≠ Rounding.ROUND_AUTO → convert_duration x T B rd = convert_position x T B rd) ∧
    ∃ q r, convert_duration d t b Rounding.ROUND_AUTO = some q ∧
      convert_duration q b t Rounding.ROUND_AUTO = some r ∧ r ≤ d := by
  refine ⟨by simp [convert_duration], by intro h; simp [convert_duration, h], ?_⟩
  have e1 : ∀ y, convert_duration y t b Rounding.ROUND_AUTO
      = convert_position y t b Rounding.ROUND_DOWN := by
    intro y; simp [convert_duration, htb]
  have e2 : ∀ y, convert_duration y b t Rounding.ROUND_AUTO
      = convert_position y b t Rounding.ROUND_UP := by
    intro y
    have : ¬ b < t := by omega
    simp [convert_duration, this]
  have zero : ∀ T1 B1 r1, convert_position 0 T1 B1 r1 = some 0 := by
    intro T1 B1 r1
    simp [convert_position, convert_position_fuel]
  rw [e1]
  by_cases hz : d = 0
  · subst hz
    exact ⟨0, 0, zero _ _ _, by rw [e2]; exact zero _ _ _, le_refl _⟩
  · obtain ⟨q, hq, q1, q2, hcase⟩ := duration_forward d t b (by omega) hd ht htb hb
    refine ⟨q, ?_⟩
    rw [e2]
    rcases hcase with ⟨c1, c2⟩ | ⟨c1, c2, c3⟩
    · by_cases hq0 : q = 0
      · subst hq0
        exact ⟨0, hq, zero _ _ _, hd0⟩
      · obtain ⟨r, hr, hle⟩ := duration_back_pos q d t b (by omega) c2 hd ht htb hb
        exact ⟨r, hq, hr, hle⟩
    · obtain ⟨r, hr, h1, h2⟩ := duration_back_neg (-q) d t b (by omega) c2 c3 hd ht htb hb
      refine ⟨neg64 r, hq, ?_, ?_⟩
      · rw [convert_position_of_neg q b t _ c1 q1 (by omega), hr]
        rfl
      · rw [show neg64 r = -r from wrap64_eq _ (by omega) (by omega)]
        omega

/-- C5 (witness): a duration of 1000 samples with the factors 25 and 48000. -/
theorem convert_duration_auto_round_trip_witness :
    ∃ q r, convert_duration 1000 25 48000 Rounding.ROUND_AUTO = some q ∧
      convert_duration q 48000 25 Rounding.ROUND_AUTO = some r ∧ r ≤ 1000 :=
  (convert_duration_auto_round_trip 0 0 0 Rounding.ROUND_AUTO 1000 25 48000 (by decide)
    (by decide) (by decide) (by decide) (by decide)).2.2

/-! ## Index table: theorems -/

theorem bigEndian_length (n v : Nat) : (bigEndian n v).length = n := by
  induction n generalizing v with
  | zero => rfl
  | succ n ih => simp [bigEndian, ih]

theorem flatten_uint32_length (l : List Nat) : (l.map mxf_set_uint32).flatten.length = 4 * l.length := by
  induction l with
  | nil => rfl
  | cons a l ih =>
    simp only [List.map_cons, List.flatten_cons, List.length_append, ih, List.length_cons]
    simp only [mxf_set_uint32, bigEndian_length]
    omega

theorem entryBytes_length (e : OP1AIndexEntry) (so : Int) (offs : List Nat) :
    (entryBytes e so offs).length = 11 + 4 * offs.length := by
  simp only [entryBytes, List.length_append, flatten_uint32_length, mxf_set_int64,
    bigEndian_length, List.length_cons, List.length_nil]

/-! ### The slice offsets -/

theorem replaceElement_map_slice (e e1 : OP1AIndexTableElement) (l : List OP1AIndexTableElement)
    (id : Nat) (hf : l.find? (fun x => x.object_id == id) = some e)
    (hid : e1.object_id = id) (hs : e1.slice_offset = e.slice_offset) :
    (replaceElement e1 l).map (fun x => x.slice_offset) = l.map (fun x => x.slice_offset) := by
  induction l with
  | nil => rfl
  | cons x rest ih =>
    simp only [replaceElement]
    by_cases hx : x.object_id = id
    · have hb : (x.object_id == id) = true := by simp [hx]
      have : x = e := by
        simp only [List.find?_cons, hb] at hf
        exact Option.some.inj hf
      subst this
      rw [if_pos (by rw [hx, hid])]
      simp [hs]
    · have hb : (x.object_id == id) = false := by simp [hx]
      have hf2 : rest.find? (fun x => x.object_id == id) = some e := by
        simp only [List.find?_cons, hb] at hf
        exact hf
      rw [if_neg (by rw [hid]; exact hx)]
      simp [ih hf2]

theorem createDeltaEntries_map_slice (prev delta : Nat) (l : List OP1AIndexTableElement)
    (sizes : List Nat) :
    (createDeltaEntries prev delta l sizes).2.map (fun x => x.slice_offset)
      = l.map (fun x => x.slice_offset) := by
  induction l generalizing prev delta sizes with
  | nil => simp [createDeltaEntries]
  | cons e rest ih =>
    cases sizes with
    | nil => simp [createDeltaEntries]
    | cons sz sizes =>
      simp only [createDeltaEntries, List.map_cons, ih]
      split <;> rfl

theorem TakeIndexEntry_slice (e : OP1AIndexTableElement) (d : Int) :
    (e.TakeIndexEntry d).2.slice_offset = e.slice_offset := by
  unfold OP1AIndexTableElement.TakeIndexEntry
  split <;> rfl

theorem takeIndexEntries_map_slice (d : Int) (l : List OP1AIndexTableElement)
    (sizes : List Nat) (st : VBELoopState) :
    (takeIndexEntries d l sizes st).1.map (fun x => x.slice_offset)
      = l.map (fun x => x.slice_offset) := by
  induction l generalizing sizes st with
  | nil => simp [takeIndexEntries]
  | cons e rest ih =>
    cases sizes with
    | nil => simp [takeIndexEntries]
    | cons sz sizes =>
      simp only [takeIndexEntries]
      split
      · split
        · simp [ih, TakeIndexEntry_slice]
        · simp [TakeIndexEntry_slice]
      · simp [ih, TakeIndexEntry_slice]

/-- The number of slice offsets that the VBE loop builds is the number of changes in the
sequence of the elements' slice offsets. -/
theorem takeIndexEntries_offsets (d : Int) (l : List OP1AIndexTableElement)
    (sizes : List Nat) (st st1 : VBELoopState) (hlen : sizes.length = l.length)
    (h : (takeIndexEntries d l sizes st).2 = some st1) :
    st1.slice_cp_offsets.length = st.slice_cp_offsets.length +
      countChanges st.prev_slice_offset (l.map (fun x => x.slice_offset)) := by
  induction l generalizing sizes st with
  | nil =>
    simp [takeIndexEntries] at h
    subst h
    simp [countChanges]
  | cons e rest ih =>
    cases sizes with
    | nil => simp at hlen
    | cons sz sizes =>
      simp only [List.length_cons, Nat.add_right_cancel_iff] at hlen
      simp only [takeIndexEntries] at h
      simp only [List.map_cons, countChanges]
      split at h
      · split at h
        · have := ih sizes _ hlen h
          rw [this]
          simp only
          split <;> (simp; try omega)
        · exact absurd h (by simp)
      · have := ih sizes _ hlen h
        rw [this]
        simp only
        split <;> (simp; try omega)

/-! ### What no call changes -/

theorem andThen_state {σ : Type} {o : Outcome σ} {next : σ → Outcome σ} {t1 : σ}
    (h : (o.andThen next).state = some t1) :
    (∃ e, o = Outcome.thrown e t1) ∨ ∃ t2, o = Outcome.ok t2 ∧ (next t2).state = some t1 := by
  cases o with
  | ok s => exact Or.inr ⟨s, rfl, h⟩
  | thrown f s =>
    simp [Outcome.andThen, Outcome.state] at h
    subst h
    exact Or.inl ⟨f, rfl⟩
  | undefined => simp [Outcome.andThen, Outcome.state] at h


theorem sameShape_refl (t : OP1AIndexTable) : sameShape t t := ⟨rfl, rfl, rfl, rfl⟩

theorem sameShape_trans {a b c : OP1AIndexTable} (h1 : sameShape a b) (h2 : sameShape b c) :
    sameShape a c :=
  ⟨h2.1.trans h1.1, h2.2.1.trans h1.2.1, h2.2.2.1.trans h1.2.2.1, h2.2.2.2.trans h1.2.2.2⟩

theorem sameShape_storeElement (t : OP1AIndexTable) (track : Nat) (e e1 : OP1AIndexTableElement)
    (hf : t.findElement track = some e) (hid : e1.object_id = e.object_id)
    (hs : e1.slice_offset = e.slice_offset) : sameShape t (t.storeElement e1) := by
  refine ⟨rfl, rfl, rfl, ?_⟩
  unfold OP1AIndexTable.findElement at hf
  split at hf
  · exact absurd hf (by simp)
  · rename_i id _
    have hid2 : e.object_id = id := by
      have := List.find?_some hf
      simpa using this
    exact replaceElement_map_slice e e1 _ id hf (hid.trans hid2) hs

theorem CacheIndexEntry_ok {e e1 : OP1AIndexTableElement} {p a b : Int} {f : Nat} {c : Bool}
    (h : e.CacheIndexEntry p a b f c = Outcome.ok e1) :
    e1.object_id = e.object_id ∧ e1.slice_offset = e.slice_offset := by
  unfold OP1AIndexTableElement.CacheIndexEntry at h
  split at h
  · injection h with h; subst h; exact ⟨rfl, rfl⟩
  · exact absurd h (by simp)

theorem CacheIndexEntry_thrown {e e1 : OP1AIndexTableElement} {p a b : Int} {f : Nat} {c : Bool}
    {x : Failure} (h : e.CacheIndexEntry p a b f c = Outcome.thrown x e1) : e1 = e := by
  unfold OP1AIndexTableElement.CacheIndexEntry at h
  split at h
  · exact absurd h (by simp)
  · injection h with _ h; exact h.symm

theorem Element_UpdateIndexEntry_ok {e e1 : OP1AIndexTableElement} {p a : Int}
    (h : e.UpdateIndexEntry p a = Outcome.ok e1) :
    e1.object_id = e.object_id ∧ e1.slice_offset = e.slice_offset := by
  unfold OP1AIndexTableElement.UpdateIndexEntry at h
  split at h
  · exact absurd h (by simp)
  · injection h with h; subst h; exact ⟨rfl, rfl⟩

theorem Element_UpdateIndexEntry_thrown {e e1 : OP1AIndexTableElement} {p a : Int}
    {x : Failure} (h : e.UpdateIndexEntry p a = Outcome.thrown x e1) : e1 = e := by
  unfold OP1AIndexTableElement.UpdateIndexEntry at h
  split at h
  · injection h with _ h; exact h.symm
  · exact absurd h (by simp)

theorem sameShape_AddIndexEntry (t t1 : OP1AIndexTable) (track : Nat) (p tmp k : Int) (f : Nat)
    (c : Bool) (h : (t.AddIndexEntry track p tmp k f c).state = some t1) : sameShape t t1 := by
  unfold OP1AIndexTable.AddIndexEntry at h
  split at h
  · simp [Outcome.state] at h; subst h; exact sameShape_refl t
  split at h
  · simp [Outcome.state] at h; subst h; exact sameShape_refl t
  split at h
  · simp [Outcome.state] at h; subst h; exact sameShape_refl t
  split at h
  · simp [Outcome.state] at h
  rename_i e hfe
  split at h
  · rename_i e1 he
    simp [Outcome.state] at h; subst h
    exact sameShape_storeElement t track e _ hfe (CacheIndexEntry_ok he).1 (CacheIndexEntry_ok he).2
  · rename_i e1 he
    simp [Outcome.state] at h; subst h
    rw [CacheIndexEntry_thrown he]
    exact sameShape_storeElement t track e _ hfe rfl rfl
  · simp [Outcome.state] at h

theorem sameShape_UpdateIndexEntry (t t1 : OP1AIndexTable) (track : Nat) (p tmp : Int)
    (h : (t.UpdateIndexEntry track p tmp).state = some t1) : sameShape t t1 := by
  unfold OP1AIndexTable.UpdateIndexEntry at h
  split at h
  · simp [Outcome.state] at h; subst h; exact sameShape_refl t
  split at h
  · simp [Outcome.state] at h; subst h; exact sameShape_refl t
  split at h
  · simp [Outcome.state] at h; subst h; exact sameShape_refl t
  split at h
  · split at h
    · simp [Outcome.state] at h
    rename_i e hfe
    split at h
    · rename_i e1 he
      simp [Outcome.state] at h; subst h
      exact sameShape_storeElement t track e _ hfe (Element_UpdateIndexEntry_ok he).1
        (Element_UpdateIndexEntry_ok he).2
    · rename_i e1 he
      simp [Outcome.state] at h; subst h
      rw [Element_UpdateIndexEntry_thrown he]
      exact sameShape_storeElement t track e _ hfe rfl rfl
    · simp [Outcome.state] at h
  · split at h
    · simp [Outcome.state] at h
    split at h
    · simp [Outcome.state] at h
    split at h
    · simp [Outcome.state] at h
    split at h
    · simp [Outcome.state] at h; subst h; exact ⟨rfl, rfl, rfl, rfl⟩
    · simp [Outcome.state] at h; subst h; exact ⟨rfl, rfl, rfl, rfl⟩
    · simp [Outcome.state] at h

theorem sameShape_onFirstSegment (t t1 : OP1AIndexTable)
    (f : OP1AIndexTableSegment → Outcome OP1AIndexTableSegment)
    (h : (t.onFirstSegment f).state = some t1) : sameShape t t1 := by
  unfold OP1AIndexTable.onFirstSegment at h
  split at h
  · simp [Outcome.state] at h
  split at h
  · simp [Outcome.state] at h; subst h; exact ⟨rfl, rfl, rfl, rfl⟩
  · simp [Outcome.state] at h; subst h; exact ⟨rfl, rfl, rfl, rfl⟩
  · simp [Outcome.state] at h

theorem sameShape_updateDeltaEntries (t t1 : OP1AIndexTable) (sizes : List Nat)
    (h : (t.updateDeltaEntries sizes).state = some t1) : sameShape t t1 := by
  unfold OP1AIndexTable.updateDeltaEntries at h
  have key := createDeltaEntries_map_slice 0 0 t.mIndexElements sizes
  split at h
  · simp only at h
    repeat' split at h
    all_goals
      simp [Outcome.state] at h <;> subst h <;> exact ⟨rfl, rfl, rfl, key⟩
  · split at h <;> simp [Outcome.state] at h <;> subst h <;> exact sameShape_refl t

theorem sameShape_updateCBE (t t1 : OP1AIndexTable) (size : Nat) (sizes : List Nat)
    (h : (t.updateCBE size sizes).state = some t1) : sameShape t t1 := by
  unfold OP1AIndexTable.updateCBE at h
  split at h
  · split at h
    · obtain ⟨a, b, c, d⟩ := sameShape_onFirstSegment _ _ _ h
      exact ⟨a, b, c, d⟩
    · simp [Outcome.state] at h; subst h; exact ⟨rfl, rfl, rfl, rfl⟩
    · simp [Outcome.state] at h
  · simp only at h
    split at h
    · rcases andThen_state h with ⟨e, h1⟩ | ⟨t2, h1, h2⟩
      · obtain ⟨a, b, c, d⟩ := sameShape_onFirstSegment _ t1 _ (by rw [h1]; rfl)
        exact ⟨a, b, c, d⟩
      · obtain ⟨a, b, c, d⟩ := sameShape_onFirstSegment _ t2 _ (by rw [h1]; rfl)
        exact sameShape_trans (b := t2) ⟨a, b, c, d⟩ (sameShape_onFirstSegment _ _ _ h2)
    · exact sameShape_onFirstSegment _ _ _ h

theorem openSegment_shape (t : OP1AIndexTable) (c : Bool) :
    (t.openSegment c).mIsCBE = t.mIsCBE ∧ (t.openSegment c).mSliceCount = t.mSliceCount ∧
    (t.openSegment c).mIndexEntrySize = t.mIndexEntrySize ∧
    (t.openSegment c).mIndexElements = t.mIndexElements ∧
    (t.openSegment c).mDuration = t.mDuration ∧
    (t.openSegment c).mStreamOffset = t.mStreamOffset := by
  unfold OP1AIndexTable.openSegment
  split
  · exact ⟨rfl, rfl, rfl, rfl, rfl, rfl⟩
  · split <;> exact ⟨rfl, rfl, rfl, rfl, rfl, rfl⟩

theorem sameShape_updateVBE (t t1 : OP1AIndexTable) (sizes : List Nat)
    (h : (t.updateVBE sizes).state = some t1) : sameShape t t1 := by
  unfold OP1AIndexTable.updateVBE at h
  have key := takeIndexEntries_map_slice t.mDuration t.mIndexElements sizes
    { slice_cp_offset := 0, slice_cp_offsets := [], prev_slice_offset := 0,
      entry := OP1AIndexEntry.new }
  split at h
  · simp [Outcome.state] at h; subst h; exact sameShape_refl t
  · simp only at h
    split at h
    · simp [Outcome.state] at h; subst h; exact ⟨rfl, rfl, rfl, key⟩
    · split at h
      · simp [Outcome.state] at h
      · obtain ⟨o1, o2, o3, o4, -, -⟩ := openSegment_shape
          { t with mIndexElements := (takeIndexEntries t.mDuration t.mIndexElements sizes
            { slice_cp_offset := 0, slice_cp_offsets := [], prev_slice_offset := 0,
              entry := OP1AIndexEntry.new }).1 } (by assumption)
        split at h
        · simp [Outcome.state] at h; subst h
          exact ⟨o1, o2, o3, by simp only [o4]; exact key⟩
        · simp [Outcome.state] at h; subst h
          exact ⟨o1, o2, o3, by simp only [o4]; exact key⟩
        · simp [Outcome.state] at h

theorem sameShape_UpdateIndex (t t1 : OP1AIndexTable) (size : Nat) (sizes : List Nat)
    (h : (t.UpdateIndex size sizes).state = some t1) : sameShape t t1 := by
  unfold OP1AIndexTable.UpdateIndex at h
  split at h
  · simp [Outcome.state] at h; subst h; exact sameShape_refl t
  have branch : ∀ t2 t3 : OP1AIndexTable,
      (if t2.mIsCBE = true then t2.updateCBE size sizes else t2.updateVBE sizes).state = some t3 →
      sameShape t2 t3 := by
    intro t2 t3 h3
    by_cases hc : t2.mIsCBE = true
    · rw [if_pos hc] at h3; exact sameShape_updateCBE t2 t3 size sizes h3
    · rw [if_neg hc] at h3; exact sameShape_updateVBE t2 t3 sizes h3
  rcases andThen_state h with ⟨e, h1⟩ | ⟨t3, h1, h2⟩
  · rcases andThen_state (show (Outcome.andThen _ _).state = some t1 by rw [h1]; rfl) with
      ⟨e2, h3⟩ | ⟨t2, h3, h4⟩
    · exact sameShape_updateDeltaEntries t t1 sizes (by rw [h3]; rfl)
    · exact sameShape_trans (sameShape_updateDeltaEntries t t2 sizes (by rw [h3]; rfl))
        (branch t2 t1 h4)
  · simp [Outcome.state] at h2; subst h2
    rcases andThen_state (show (Outcome.andThen _ _).state = some t3 by rw [h1]; rfl) with
      ⟨e2, h3⟩ | ⟨t2, h3, h4⟩
    · exact sameShape_trans (sameShape_updateDeltaEntries t t3 sizes (by rw [h3]; rfl))
        ⟨rfl, rfl, rfl, rfl⟩
    · exact sameShape_trans (sameShape_updateDeltaEntries t t2 sizes (by rw [h3]; rfl))
        (sameShape_trans (branch t2 t3 h4) ⟨rfl, rfl, rfl, rfl⟩)

theorem sameShape_call (t t1 : OP1AIndexTable) (c : Call) (h : (t.call c).state = some t1) :
    sameShape t t1 := by
  cases c with
  | AddIndexEntry a b c d e f => exact sameShape_AddIndexEntry t t1 a b c d e f h
  | UpdateIndexEntry a b c => exact sameShape_UpdateIndexEntry t t1 a b c h
  | UpdateIndex a b => exact sameShape_UpdateIndex t t1 a b h

theorem sameShape_run (t t1 : OP1AIndexTable) (calls : List Call) (h : t.run calls = some t1) :
    sameShape t t1 := by
  induction calls generalizing t with
  | nil => simp [OP1AIndexTable.run] at h; subst h; exact sameShape_refl t
  | cons c rest ih =>
    simp only [OP1AIndexTable.run] at h
    split at h
    · exact absurd h (by simp)
    · rename_i t2 h2
      exact sameShape_trans (sameShape_call t t2 c h2) (ih t2 h)

/-! ### The segments of a VBE table -/

theorem contiguous_snoc (a m : Int) (l : List OP1AIndexTableSegment) (x : OP1AIndexTableSegment)
    (h : contiguous a l m) (hx : x.index_start_position = m) :
    contiguous a (l ++ [x]) (m + x.index_duration) := by
  induction l generalizing a with
  | nil =>
    simp only [contiguous] at h
    subst h
    exact ⟨hx, rfl⟩
  | cons s rest ih => exact ⟨h.1, ih _ h.2⟩

theorem contiguous_snoc_inv (a e : Int) (l : List OP1AIndexTableSegment)
    (x : OP1AIndexTableSegment) (h : contiguous a (l ++ [x]) e) :
    contiguous a l x.index_start_position ∧ e = x.index_start_position + x.index_duration := by
  induction l generalizing a with
  | nil =>
    obtain ⟨h1, h2⟩ := h
    simp only [contiguous] at h2
    exact ⟨h1.symm, by rw [h1]; exact h2.symm⟩
  | cons s rest ih =>
    obtain ⟨h1, h2⟩ := h
    obtain ⟨i1, i2⟩ := ih _ h2
    exact ⟨⟨h1, i1⟩, i2⟩

theorem VBEInvariant_of_same_segments {t t1 : OP1AIndexTable} (h : VBEInvariant t)
    (h1 : t1.mIsCBE = t.mIsCBE) (h2 : t1.mSliceCount = t.mSliceCount)
    (h3 : t1.mIndexEntrySize = t.mIndexEntrySize) (h4 : t1.mIndexSegments = t.mIndexSegments)
    (h5 : t1.mDuration = t.mDuration) : VBEInvariant t1 :=
  { vbe := h1.trans h.vbe
    entry_size_pos := h3 ▸ h.entry_size_pos
    nonempty := h4 ▸ h.nonempty
    segments := by rw [h4, h2, h3]; exact h.segments
    cover := by rw [h4, h5]; exact h.cover }

theorem storeElement_fields (t : OP1AIndexTable) (e : OP1AIndexTableElement) :
    (t.storeElement e).mIsCBE = t.mIsCBE ∧ (t.storeElement e).mSliceCount = t.mSliceCount ∧
    (t.storeElement e).mIndexEntrySize = t.mIndexEntrySize ∧
    (t.storeElement e).mIndexSegments = t.mIndexSegments ∧
    (t.storeElement e).mDuration = t.mDuration :=
  ⟨rfl, rfl, rfl, rfl, rfl⟩

theorem VBEInvariant_storeElement {t : OP1AIndexTable} (h : VBEInvariant t)
    (e : OP1AIndexTableElement) : VBEInvariant (t.storeElement e) :=
  VBEInvariant_of_same_segments h rfl rfl rfl rfl rfl

theorem VBEInvariant_AddIndexEntry (t t1 : OP1AIndexTable) (track : Nat) (p tmp k : Int)
    (f : Nat) (c : Bool) (hinv : VBEInvariant t)
    (h : (t.AddIndexEntry track p tmp k f c).state = some t1) : VBEInvariant t1 := by
  unfold OP1AIndexTable.AddIndexEntry at h
  repeat' split at h
  all_goals
    simp [Outcome.state] at h <;> subst h <;>
      first | exact hinv | exact VBEInvariant_storeElement hinv _

theorem contiguous_set (a e : Int) (l : List OP1AIndexTableSegment) (i : Nat)
    (s s1 : OP1AIndexTableSegment) (hs : l[i]? = some s)
    (h1 : s1.index_start_position = s.index_start_position)
    (h2 : s1.index_duration = s.index_duration) (h : contiguous a l e) :
    contiguous a (l.set i s1) e := by
  induction l generalizing a i with
  | nil => simp at hs
  | cons x rest ih =>
    cases i with
    | zero =>
      simp at hs
      subst hs
      simp only [List.set_cons_zero]
      exact ⟨h1.trans h.1, by rw [h2]; exact h.2⟩
    | succ j =>
      simp at hs
      simp only [List.set_cons_succ]
      exact ⟨h.1, ih _ _ hs h.2⟩

theorem Segment_UpdateIndexEntry_state {s s1 : OP1AIndexTableSegment} {p tmp : Int}
    (h : (s.UpdateIndexEntry p tmp).state = some s1) :
    s1.mIndexEntrySize = s.mIndexEntrySize ∧ s1.slice_count = s.slice_count ∧
    s1.mEntries.length = s.mEntries.length ∧ s1.index_duration = s.index_duration ∧
    s1.index_start_position = s.index_start_position := by
  unfold OP1AIndexTableSegment.UpdateIndexEntry at h
  repeat' split at h
  all_goals
    simp [Outcome.state] at h <;> subst h <;> simp

theorem VBEInvariant_set {t : OP1AIndexTable} (hinv : VBEInvariant t) (i : Nat)
    (s s1 : OP1AIndexTableSegment) (hs : t.mIndexSegments[i]? = some s)
    (h : s1.mIndexEntrySize = s.mIndexEntrySize ∧ s1.slice_count = s.slice_count ∧
      s1.mEntries.length = s.mEntries.length ∧ s1.index_duration = s.index_duration ∧
      s1.index_start_position = s.index_start_position) :
    VBEInvariant { t with mIndexSegments := t.mIndexSegments.set i s1 } := by
  have hmem : s ∈ t.mIndexSegments := List.getElem?_mem hs
  refine { vbe := hinv.vbe, entry_size_pos := hinv.entry_size_pos, nonempty := ?_,
           segments := ?_, cover := ?_ }
  · intro hc
    have := congrArg List.length hc
    simp at this
    exact hinv.nonempty this
  · intro x hx
    simp only at hx ⊢
    rcases List.mem_or_eq_of_mem_set hx with hx | hx
    · exact hinv.segments x hx
    · subst hx
      obtain ⟨a, b, c, d, e⟩ := hinv.segments s hmem
      obtain ⟨h1, h2, h3, h4, h5⟩ := h
      exact ⟨h1.trans a, h2.trans b, by rw [h3, h4]; exact c, by rw [h4]; exact d,
        by rw [h4]; exact e⟩
  · exact contiguous_set 0 _ _ i s s1 hs h.2.2.2.2 h.2.2.2.1 hinv.cover

theorem VBEInvariant_UpdateIndexEntry (t t1 : OP1AIndexTable) (track : Nat) (p tmp : Int)
    (hinv : VBEInvariant t) (h : (t.UpdateIndexEntry track p tmp).state = some t1) :
    VBEInvariant t1 := by
  unfold OP1AIndexTable.UpdateIndexEntry at h
  split at h
  · simp [Outcome.state] at h; subst h; exact hinv
  split at h
  · simp [Outcome.state] at h; subst h; exact hinv
  split at h
  · simp [Outcome.state] at h; subst h; exact hinv
  split at h
  · repeat' split at h
    all_goals
      simp [Outcome.state] at h <;> subst h <;> exact VBEInvariant_storeElement hinv _
  · split at h
    · simp [Outcome.state] at h
    split at h
    · simp [Outcome.state] at h
    split at h
    · simp [Outcome.state] at h
    rename_i s hs
    split at h
    · rename_i s1 h1
      simp [Outcome.state] at h; subst h
      exact VBEInvariant_set hinv _ s s1 hs (Segment_UpdateIndexEntry_state (by rw [h1]; rfl))
    · rename_i f s1 h1
      simp [Outcome.state] at h; subst h
      exact VBEInvariant_set hinv _ s s1 hs (Segment_UpdateIndexEntry_state (by rw [h1]; rfl))
    · simp [Outcome.state] at h

theorem getLast?_snoc_decomp {α : Type} (l : List α) (x : α) (h : l.getLast? = some x) :
    l = l.dropLast ++ [x] :=
  (List.dropLast_append_getLast? x (by simp [h])).symm

/-- After lines 466-469 the last segment has room: its byte array is below
`MAX_INDEX_SEGMENT_SIZE`. -/
theorem openSegment_spec (t : OP1AIndexTable) (c : Bool) (hinv : VBEInvariant t) :
    VBEInvariant (t.openSegment c) ∧
    ∃ last, (t.openSegment c).mIndexSegments.getLast? = some last ∧
      last.mEntries.length < MAX_INDEX_SEGMENT_SIZE := by
  unfold OP1AIndexTable.openSegment
  split
  · rename_i hnone
    exact absurd (List.getLast?_eq_none_iff.mp hnone) hinv.nonempty
  · rename_i last hlast
    split
    · constructor
      · refine { vbe := hinv.vbe, entry_size_pos := hinv.entry_size_pos, nonempty := by simp,
                 segments := ?_, cover := ?_ }
        · intro x hx
          simp only [List.mem_append, List.mem_singleton] at hx
          rcases hx with hx | hx
          · exact hinv.segments x hx
          · subst hx
            simp [OP1AIndexTableSegment.new]
        · have := contiguous_snoc 0 t.mDuration t.mIndexSegments
            (OP1AIndexTableSegment.new t.mIndexSID t.mBodySID t.mFrameRate t.mDuration
              t.mIndexEntrySize t.mSliceCount) hinv.cover rfl
          simpa [OP1AIndexTableSegment.new] using this
      · exact ⟨OP1AIndexTableSegment.new t.mIndexSID t.mBodySID t.mFrameRate t.mDuration
            t.mIndexEntrySize t.mSliceCount, by simp,
          by simp [OP1AIndexTableSegment.new, MAX_INDEX_SEGMENT_SIZE]⟩
    · rename_i hreq
      refine ⟨hinv, last, hlast, ?_⟩
      unfold OP1AIndexTableSegment.RequireNewSegment at hreq
      simp only [Bool.or_eq_true, decide_eq_true_eq, not_or] at hreq
      omega

theorem VBEInvariant_updateVBE (t : OP1AIndexTable) (sizes : List Nat) (so : Int)
    (hinv : VBEInvariant t) :
    (∀ t1, t.updateVBE sizes = Outcome.ok t1 →
      VBEInvariant { t1 with mDuration := t1.mDuration + 1, mStreamOffset := so }) ∧
    (∀ f t1, t.updateVBE sizes = Outcome.thrown f t1 → VBEInvariant t1) ∧
    t.updateVBE sizes ≠ Outcome.undefined := by
  unfold OP1AIndexTable.updateVBE
  split
  · exact ⟨by intro t1 h; simp at h, by intro f t1 h; simp at h; rw [← h.2]; exact hinv,
      by simp⟩
  · rename_i csp hcsp
    simp only
    generalize hr : takeIndexEntries t.mDuration t.mIndexElements sizes
      { slice_cp_offset := 0, slice_cp_offsets := [], prev_slice_offset := 0,
        entry := OP1AIndexEntry.new } = r
    have hinv1 : VBEInvariant { t with mIndexElements := r.1 } :=
      VBEInvariant_of_same_segments hinv rfl rfl rfl rfl rfl
    split
    · exact ⟨by intro t1 h; simp at h, by intro f t1 h; simp at h; rw [← h.2]; exact hinv1,
        by simp⟩
    · rename_i st hst
      obtain ⟨hinv2, last, hlast, hroom⟩ := openSegment_spec _ csp hinv1
      generalize ht2 : OP1AIndexTable.openSegment { t with mIndexElements := r.1 } csp = t2
        at hinv2 hlast
      rw [hlast]
      simp only
      have hdecomp := getLast?_snoc_decomp _ _ hlast
      have hmem : last ∈ t2.mIndexSegments := by
        rw [hdecomp]; simp
      obtain ⟨s1, s2, s3, s4, s5⟩ := hinv2.segments last hmem
      have hcov := hinv2.cover
      rw [hdecomp] at hcov
      obtain ⟨c1, c2⟩ := contiguous_snoc_inv _ _ _ _ hcov
      unfold OP1AIndexTableSegment.AddIndexEntry
      by_cases hsize : last.mIndexEntrySize = 11 + st.slice_cp_offsets.length * 4
      · rw [if_pos hsize]
        refine ⟨?_, by intro f t1 h; simp at h, by simp⟩
        intro t1 h
        simp at h
        subst h
        refine { vbe := hinv2.vbe, entry_size_pos := hinv2.entry_size_pos, nonempty := by simp,
                 segments := ?_, cover := ?_ }
        · intro x hx
          simp only [List.mem_append, List.mem_singleton] at hx
          rcases hx with hx | hx
          · exact hinv2.segments x (List.mem_of_mem_dropLast hx)
          · subst hx
            have hpos := hinv2.entry_size_pos
            have hlen : (entryBytes st.entry t2.mStreamOffset st.slice_cp_offsets).length
                = t2.mIndexEntrySize := by
              rw [entryBytes_length, ← s1, hsize]; omega
            refine ⟨s1, s2, ?_, by simp only; omega, ?_⟩
            · simp only [List.length_append, hlen]
              push_cast
              rw [s3]
              ring
            · simp only
              have h1 : last.index_duration * 1 ≤ last.index_duration * (t2.mIndexEntrySize : Int) :=
                Int.mul_le_mul_of_nonneg_left (by omega) s4
              have h2 : (last.mEntries.length : Int) < 65000 := by
                have := hroom
                simp only [MAX_INDEX_SEGMENT_SIZE] at this
                omega
              omega
        · have := contiguous_snoc 0 last.index_start_position t2.mIndexSegments.dropLast
            { last with
              mEntries := last.mEntries ++ entryBytes st.entry t2.mStreamOffset st.slice_cp_offsets,
              index_duration := last.index_duration + 1 } c1 rfl
          simp only at this ⊢
          rw [c2]
          rw [show last.index_start_position + last.index_duration + 1
            = last.index_start_position + (last.index_duration + 1) by ring]
          exact this
      · rw [if_neg hsize]
        refine ⟨by intro t1 h; simp at h, ?_, by simp⟩
        intro f t1 h
        simp at h
        rw [← h.2, ← hdecomp]
        exact hinv2

theorem updateDeltaEntries_vbe (t : OP1AIndexTable) (sizes : List Nat) (hvbe : t.mIsCBE = false) :
    (∃ t1, (t.updateDeltaEntries sizes = Outcome.ok t1 ∨
        t.updateDeltaEntries sizes = Outcome.thrown Failure.element_size_constant t1) ∧
      t1.mIsCBE = t.mIsCBE ∧ t1.mSliceCount = t.mSliceCount ∧
      t1.mIndexEntrySize = t.mIndexEntrySize ∧ t1.mIndexSegments = t.mIndexSegments ∧
      t1.mDuration = t.mDuration ∧ t1.mStreamOffset = t.mStreamOffset) := by
  unfold OP1AIndexTable.updateDeltaEntries
  split
  · simp only [hvbe]
    exact ⟨_, Or.inl rfl, rfl, rfl, rfl, rfl, rfl, rfl⟩
  · split
    · exact ⟨_, Or.inl rfl, rfl, rfl, rfl, rfl, rfl, rfl⟩
    · exact ⟨_, Or.inr rfl, rfl, rfl, rfl, rfl, rfl, rfl⟩

theorem VBEInvariant_UpdateIndex (t t1 : OP1AIndexTable) (size : Nat) (sizes : List Nat)
    (hinv : VBEInvariant t) (h : (t.UpdateIndex size sizes).state = some t1) :
    VBEInvariant t1 := by
  unfold OP1AIndexTable.UpdateIndex at h
  split at h
  · simp [Outcome.state] at h; subst h; exact hinv
  obtain ⟨t2, hd, d1, d2, d3, d4, d5, d6⟩ := updateDeltaEntries_vbe t sizes hinv.vbe
  have hinv2 : VBEInvariant t2 := VBEInvariant_of_same_segments hinv d1 d2 d3 d4 d5
  rcases hd with hd | hd
  · rw [hd] at h
    simp only [Outcome.andThen, d1, hinv.vbe] at h
    have v := fun so => VBEInvariant_updateVBE t2 sizes so hinv2
    generalize hO : t2.updateVBE sizes = O at h v
    cases O with
    | ok t3 =>
      simp [Outcome.state] at h
      subst h
      exact (v _).1 t3 rfl
    | thrown f t3 =>
      simp [Outcome.state] at h
      subst h
      exact (v 0).2.1 f t3 rfl
    | undefined => exact absurd rfl (v 0).2.2
  · rw [hd] at h
    simp [Outcome.andThen, Outcome.state] at h
    subst h
    exact hinv2

theorem VBEInvariant_call (t t1 : OP1AIndexTable) (c : Call) (hinv : VBEInvariant t)
    (h : (t.call c).state = some t1) : VBEInvariant t1 := by
  cases c with
  | AddIndexEntry a b c d e f => exact VBEInvariant_AddIndexEntry t t1 a b c d e f hinv h
  | UpdateIndexEntry a b c => exact VBEInvariant_UpdateIndexEntry t t1 a b c hinv h
  | UpdateIndex a b => exact VBEInvariant_UpdateIndex t t1 a b hinv h

theorem VBEInvariant_run (t t1 : OP1AIndexTable) (calls : List Call) (hinv : VBEInvariant t)
    (h : t.run calls = some t1) : VBEInvariant t1 := by
  induction calls generalizing t with
  | nil => simp [OP1AIndexTable.run] at h; subst h; exact hinv
  | cons c rest ih =>
    simp only [OP1AIndexTable.run] at h
    split at h
    · exact absurd h (by simp)
    · rename_i t2 h2
      exact ih t2 (VBEInvariant_call t t2 c hinv h2) h

/-! ### PrepareWrite -/

theorem countSlices_congr (b : Bool) (l l1 : List OP1AIndexTableElement)
    (h : l1.map (fun x => x.is_cbe) = l.map (fun x => x.is_cbe)) :
    countSlices b l1 = countSlices b l := by
  induction l generalizing b l1 with
  | nil =>
    simp at h
    subst h
    rfl
  | cons e rest ih =>
    cases l1 with
    | nil => simp at h
    | cons e1 rest1 =>
      simp only [List.map_cons, List.cons.injEq] at h
      simp only [countSlices, h.1, ih _ _ h.2]

theorem assignSliceOffsets_is_cbe (b : Bool) (sc es : Nat) (l : List OP1AIndexTableElement) :
    (assignSliceOffsets b sc es l).1.map (fun x => x.is_cbe) = l.map (fun x => x.is_cbe) := by
  induction l generalizing b sc es with
  | nil => rfl
  | cons e rest ih => simp [assignSliceOffsets, ih]

theorem assignSliceOffsets_mod4 (b : Bool) (sc es : Nat) (l : List OP1AIndexTableElement) :
    (assignSliceOffsets b sc es l).2.2 % 4 = es % 4 := by
  induction l generalizing b sc es with
  | nil => rfl
  | cons e rest ih =>
    simp only [assignSliceOffsets, ih]
    split
    · simp only [wrapU32]; omega
    · rfl

theorem assignSliceOffsets_spec (b : Bool) (sc es : Nat) (l : List OP1AIndexTableElement)
    (h1 : sc + countSlices b l ≤ 255) (h2 : es + 4 * countSlices b l < 4294967296) :
    (assignSliceOffsets b sc es l).2.1 = sc + countSlices b l ∧
    (assignSliceOffsets b sc es l).2.2 = es + 4 * countSlices b l ∧
    countChanges sc ((assignSliceOffsets b sc es l).1.map (fun x => x.slice_offset))
      = countSlices b l := by
  induction l generalizing b sc es with
  | nil => exact ⟨rfl, rfl, rfl⟩
  | cons e rest ih =>
    simp only [countSlices] at h1 h2 ⊢
    simp only [assignSliceOffsets, List.map_cons, countChanges]
    cases b with
    | true =>
      simp only [if_true] at h1 h2 ⊢
      have e1 : wrapU8 (sc + 1) = sc + 1 := by simp only [wrapU8]; omega
      have e2 : wrapU32 (es + 4) = es + 4 := by simp only [wrapU32]; omega
      rw [e1, e2]
      obtain ⟨i1, i2, i3⟩ := ih (!e.is_cbe) (sc + 1) (es + 4) (by omega) (by omega)
      rw [i1, i2, i3]
      refine ⟨by omega, by omega, ?_⟩
      simp
    | false =>
      simp only [Bool.false_eq_true, if_false] at h1 h2 ⊢
      obtain ⟨i1, i2, i3⟩ := ih (!e.is_cbe) sc es (by omega) (by omega)
      rw [i1, i2, i3]
      refine ⟨by omega, by omega, ?_⟩
      simp

theorem register_fresh (regs : List Registration) (t : OP1AIndexTable)
    (h1 : t.mIndexSegments = []) (h2 : t.mDuration = 0) :
    (regs.foldl OP1AIndexTable.register t).mIndexSegments = [] ∧
    (regs.foldl OP1AIndexTable.register t).mDuration = 0 := by
  induction regs generalizing t with
  | nil => exact ⟨h1, h2⟩
  | cons r rest ih =>
    simp only [List.foldl_cons]
    apply ih
    · cases r <;> exact h1
    · cases r <;> exact h2

/-- What `PrepareWrite` leaves behind for a VBE table. -/
theorem prepared_spec (sid bsid : Nat) (rate : Rational) (regs : List Registration)
    (t0 : OP1AIndexTable) (h : prepared sid bsid rate regs = Outcome.ok t0)
    (hvbe : t0.mIsCBE = false) :
    VBEInvariant t0 ∧
    (countSlices false t0.mIndexElements ≤ 255 →
      t0.mSliceCount = countSlices false t0.mIndexElements ∧
      t0.mIndexEntrySize = 11 + 4 * t0.mSliceCount ∧
      countChanges 0 (t0.mIndexElements.map (fun x => x.slice_offset)) = t0.mSliceCount) := by
  unfold prepared OP1AIndexTable.PrepareWrite at h
  obtain ⟨f1, f2⟩ := register_fresh regs (OP1AIndexTable.new sid bsid rate) rfl rfl
  generalize List.foldl OP1AIndexTable.register (OP1AIndexTable.new sid bsid rate) regs = T
    at h f1 f2
  simp only at h
  split at h
  · exact absurd h (by simp)
  · injection h with h
    subst h
    simp only at hvbe
    generalize hl : stable_sort compare_element T.mIndexElements = l
    have hmod := assignSliceOffsets_mod4 false 0 11 l
    constructor
    · refine { vbe := hvbe, entry_size_pos := ?_, nonempty := by simp, segments := ?_,
               cover := ?_ }
      · simp only; omega
      · intro s hs
        simp only [f1, List.nil_append, List.mem_singleton] at hs
        subst hs
        simp [OP1AIndexTableSegment.new]
      · simp only [f1, List.nil_append, f2]
        exact ⟨rfl, rfl⟩
    · intro hc
      simp only at hc ⊢
      have hcongr := countSlices_congr false l _ (assignSliceOffsets_is_cbe false 0 11 l)
      rw [hcongr] at hc ⊢
      obtain ⟨a, b, c⟩ := assignSliceOffsets_spec false 0 11 l (by omega) (by omega)
      rw [a, b, c]
      exact ⟨by omega, by omega, by omega⟩

/-! ### The entry size -/

theorem updateVBE_ok_duration (t t1 : OP1AIndexTable) (sizes : List Nat)
    (h : t.updateVBE sizes = Outcome.ok t1) : t1.mDuration = t.mDuration := by
  unfold OP1AIndexTable.updateVBE at h
  split at h
  · exact absurd h (by simp)
  · simp only at h
    split at h
    · exact absurd h (by simp)
    · split at h
      · exact absurd h (by simp)
      · split at h
        · injection h with h
          subst h
          exact (openSegment_shape _ _).2.2.2.2.1
        · exact absurd h (by simp)
        · exact absurd h (by simp)

theorem updateVBE_entry_size (t : OP1AIndexTable) (sizes : List Nat) (n : Nat)
    (hinv : VBEInvariant t) (hes : t.mIndexEntrySize = 11 + 4 * n)
    (hch : countChanges 0 (t.mIndexElements.map (fun x => x.slice_offset)) = n)
    (hlen : sizes.length = t.mIndexElements.length) (t1 : OP1AIndexTable) :
    t.updateVBE sizes ≠ Outcome.thrown Failure.entry_size_matches_slices t1 := by
  intro h
  unfold OP1AIndexTable.updateVBE at h
  split at h
  · simp at h
  · rename_i csp hcsp
    simp only at h
    generalize hr : takeIndexEntries t.mDuration t.mIndexElements sizes
      { slice_cp_offset := 0, slice_cp_offsets := [], prev_slice_offset := 0,
        entry := OP1AIndexEntry.new } = r at h
    have hinv1 : VBEInvariant { t with mIndexElements := r.1 } :=
      VBEInvariant_of_same_segments hinv rfl rfl rfl rfl rfl
    split at h
    · simp at h
    · rename_i st hst
      have hoff := takeIndexEntries_offsets t.mDuration t.mIndexElements sizes _ st hlen
        (by rw [hr]; exact hst)
      simp only [List.length_nil, Nat.zero_add] at hoff
      rw [hch] at hoff
      obtain ⟨hinv2, last, hlast, hroom⟩ := openSegment_spec _ csp hinv1
      have hes2 := (openSegment_shape { t with mIndexElements := r.1 } csp).2.2.1
      generalize ht2 : OP1AIndexTable.openSegment { t with mIndexElements := r.1 } csp = t2
        at hinv2 hlast h hes2
      rw [hlast] at h
      simp only at h
      have hmem : last ∈ t2.mIndexSegments := by
        rw [getLast?_snoc_decomp _ _ hlast]; simp
      obtain ⟨s1, -⟩ := hinv2.segments last hmem
      have hsize : last.mIndexEntrySize = 11 + st.slice_cp_offsets.length * 4 := by
        rw [s1, hes2, hoff]; simp only; omega
      unfold OP1AIndexTableSegment.AddIndexEntry at h
      rw [if_pos hsize] at h
      simp at h

theorem UpdateIndex_ok_duration (t t1 : OP1AIndexTable) (size : Nat) (sizes : List Nat)
    (hvbe : t.mIsCBE = false) (h : t.UpdateIndex size sizes = Outcome.ok t1) :
    t1.mDuration = t.mDuration + 1 := by
  unfold OP1AIndexTable.UpdateIndex at h
  split at h
  · exact absurd h (by simp)
  obtain ⟨t2, hd, d1, d2, d3, d4, d5, d6⟩ := updateDeltaEntries_vbe t sizes hvbe
  rcases hd with hd | hd
  · rw [hd] at h
    simp only [Outcome.andThen, d1, hvbe] at h
    generalize hO : t2.updateVBE sizes = O at h
    cases O with
    | ok t3 =>
      simp at h
      subst h
      simp only [updateVBE_ok_duration t2 t3 sizes hO, d5]
    | thrown f t3 => simp at h
    | undefined => simp at h
  · rw [hd] at h
    simp [Outcome.andThen] at h

theorem UpdateIndex_entry_size (t : OP1AIndexTable) (size : Nat) (sizes : List Nat) (n : Nat)
    (hinv : VBEInvariant t) (hes : t.mIndexEntrySize = 11 + 4 * n)
    (hch : countChanges 0 (t.mIndexElements.map (fun x => x.slice_offset)) = n)
    (t1 : OP1AIndexTable) :
    t.UpdateIndex size sizes ≠ Outcome.thrown Failure.entry_size_matches_slices t1 := by
  intro h
  unfold OP1AIndexTable.UpdateIndex at h
  split at h
  · simp at h
  rename_i hlen
  simp only [ne_eq, Decidable.not_not] at hlen
  have hshape : ∀ t2, (t.updateDeltaEntries sizes).state = some t2 → sameShape t t2 :=
    fun t2 => sameShape_updateDeltaEntries t t2 sizes
  obtain ⟨t2, hd, d1, d2, d3, d4, d5, d6⟩ := updateDeltaEntries_vbe t sizes hinv.vbe
  have hinv2 : VBEInvariant t2 := VBEInvariant_of_same_segments hinv d1 d2 d3 d4 d5
  rcases hd with hd | hd
  · have hs := hshape t2 (by rw [hd]; rfl)
    rw [hd] at h
    simp only [Outcome.andThen, d1, hinv.vbe] at h
    have hlen2 : sizes.length = t2.mIndexElements.length := by
      have := congrArg List.length hs.2.2.2
      simp only [List.length_map] at this
      omega
    have key := updateVBE_entry_size t2 sizes n hinv2 (by rw [d3]; exact hes)
      (by rw [hs.2.2.2]; exact hch) hlen2
    generalize hO : t2.updateVBE sizes = O at h key
    cases O with
    | ok t3 => simp at h
    | thrown f t3 =>
      simp at h
      exact key t3 (by rw [h.1, h.2])
    | undefined => simp at h
  · rw [hd] at h
    simp [Outcome.andThen] at h

theorem contiguous_sum (a e : Int) (l : List OP1AIndexTableSegment) (h : contiguous a l e) :
    (l.map (fun s => s.index_duration)).sum = e - a := by
  induction l generalizing a with
  | nil =>
    simp only [contiguous] at h
    simp [h]
  | cons s rest ih =>
    simp only [List.map_cons, List.sum_cons, ih _ h.2]
    ring

/-- The bytes held by all segments of a VBE table: one entry per edit unit indexed. -/
theorem VBEInvariant_total_bytes (t : OP1AIndexTable) (hinv : VBEInvariant t) :
    (((t.mIndexSegments.map (fun s => s.mEntries.length)).sum : Nat) : Int)
      = t.mDuration * (t.mIndexEntrySize : Int) := by
  have hsum := contiguous_sum 0 t.mDuration t.mIndexSegments hinv.cover
  have hseg := hinv.segments
  generalize t.mIndexSegments = l at hsum hseg
  simp only [sub_zero] at hsum
  rw [← hsum]
  clear hsum
  induction l with
  | nil => simp
  | cons s rest ih =>
    simp only [List.map_cons, List.sum_cons, Nat.cast_add]
    rw [ih (fun x hx => hseg x (List.mem_cons_of_mem _ hx)),
      (hseg s (List.mem_cons_self _ _)).2.2.1]
    ring

/-- C6 (amended): for a VBE table prepared from any registered elements that make at most 255
slices (VBE elements followed by another element), after any sequence of calls: the number of
slice offsets built for an entry equals `slice_count`, the size assertion of
`OP1AIndexTableSegment::AddIndexEntry` never fails, each successful `UpdateIndex` adds exactly
`11 + 4 * slice_count` bytes, and each segment's byte array has its index duration times
`11 + 4 * slice_count` bytes. -/
theorem index_entry_size (sid bsid : Nat) (rate : Rational) (regs : List Registration)
    (t0 t : OP1AIndexTable) (calls : List Call)
    (hprep : prepared sid bsid rate regs = Outcome.ok t0) (hvbe : t0.mIsCBE = false)
    (hslices : countSlices false t0.mIndexElements ≤ 255)
    (hrun : t0.run calls = some t) :
    (∀ sizes st, sizes.length = t.mIndexElements.length →
      (takeIndexEntries t.mDuration t.mIndexElements sizes VBELoopState.init).2 = some st →
      st.slice_cp_offsets.length = t.mSliceCount) ∧
    (∀ size sizes t1,
      t.UpdateIndex size sizes ≠ Outcome.thrown Failure.entry_size_matches_slices t1) ∧
    (∀ size sizes t1, t.UpdateIndex size sizes = Outcome.ok t1 →
      (t1.mIndexSegments.map (fun s => s.mEntries.length)).sum
        = (t.mIndexSegments.map (fun s => s.mEntries.length)).sum + (11 + 4 * t.mSliceCount)) ∧
    (∀ s ∈ t.mIndexSegments,
      s.slice_count = t.mSliceCount ∧ s.mIndexEntrySize = 11 + 4 * s.slice_count ∧
      (s.mEntries.length : Int) = s.index_duration * (11 + 4 * (s.slice_count : Int))) := by
  obtain ⟨hinv0, hshape0⟩ := prepared_spec sid bsid rate regs t0 hprep hvbe
  obtain ⟨p1, p2, p3⟩ := hshape0 hslices
  have hinv := VBEInvariant_run t0 t calls hinv0 hrun
  obtain ⟨q1, q2, q3, q4⟩ := sameShape_run t0 t calls hrun
  have hes : t.mIndexEntrySize = 11 + 4 * t.mSliceCount := by rw [q3, q2]; exact p2
  have hch : countChanges 0 (t.mIndexElements.map (fun x => x.slice_offset)) = t.mSliceCount := by
    rw [q4, q2]; exact p3
  refine ⟨?_, ?_, ?_, ?_⟩
  · intro sizes st hlen hst
    have := takeIndexEntries_offsets t.mDuration t.mIndexElements sizes _ st hlen hst
    simp only [VBELoopState.init, List.length_nil, Nat.zero_add] at this
    rw [this, hch]
  · intro size sizes t1
    exact UpdateIndex_entry_size t size sizes t.mSliceCount hinv hes hch t1
  · intro size sizes t1 h1
    have hinv1 := VBEInvariant_UpdateIndex t t1 size sizes hinv (by rw [h1]; rfl)
    have hd := UpdateIndex_ok_duration t t1 size sizes hinv.vbe h1
    obtain ⟨-, -, r3, -⟩ := sameShape_UpdateIndex t t1 size sizes (by rw [h1]; rfl)
    have b0 := VBEInvariant_total_bytes t hinv
    have b1 := VBEInvariant_total_bytes t1 hinv1
    rw [hd, r3] at b1
    have : (((t1.mIndexSegments.map (fun s => s.mEntries.length)).sum : Nat) : Int)
        = (((t.mIndexSegments.map (fun s => s.mEntries.length)).sum + (11 + 4 * t.mSliceCount)
            : Nat) : Int) := by
      rw [b1, Nat.cast_add, b0, hes]
      push_cast
      ring
    exact_mod_cast this
  · intro s hs
    obtain ⟨a, b, c, -, -⟩ := hinv.segments s hs
    refine ⟨b, by rw [a, b, hes], ?_⟩
    rw [c, b, hes]
    push_cast
    ring

/-- C6 (witness): a VBE picture element followed by a sound element, and one edit unit
indexed: one slice, one entry of 15 bytes. -/
theorem index_entry_size_witness :
    prepared 1 2 ⟨25, 1⟩ [Registration.sound 1, Registration.picture 0 false true]
      = Outcome.ok pictureSoundTable ∧
    ∃ t, pictureSoundTable.run
        [Call.AddIndexEntry 0 0 0 0 0 true, Call.UpdateIndex 200 [150, 50]] = some t ∧
      t.mIndexSegments.map (fun s => (s.slice_count, s.index_duration, s.mEntries.length))
        = [(1, 1, 15)] ∧
      t.mIndexSegments.all (fun s =>
        decide (s.slice_count = t.mSliceCount ∧ s.mIndexEntrySize = 11 + 4 * s.slice_count ∧
          (s.mEntries.length : Int) = s.index_duration * (11 + 4 * (s.slice_count : Int))))
        = true := by
  refine ⟨by decide, _, rfl, by decide, ?_⟩
  have h := (index_entry_size 1 2 ⟨25, 1⟩
    [Registration.sound 1, Registration.picture 0 false true] pictureSoundTable _
    [Call.AddIndexEntry 0 0 0 0 0 true, Call.UpdateIndex 200 [150, 50]]
    (by decide) (by decide) (by decide) rfl).2.2.2
  rw [List.all_eq_true]
  intro s hs
  exact decide_eq_true (h s hs)

set_option maxRecDepth 1000000 in
/-- C6 (counterexample): with 257 VBE picture elements the 8-bit slice count wraps to 0 while
the entry size is `11 + 4 * 256 = 1035`: the segment has `slice_count = 0` and entries of 1035
bytes, and the slice offsets of the elements change 256 times, which is the number of slice
offsets that the loop of `UpdateIndex` builds for an entry. -/
theorem index_entry_size_counterexample :
    ((prepared 1 2 ⟨25, 1⟩
        ((List.range 257).map (fun i => Registration.picture i false false))).state.map
      (fun t0 => (t0.mIsCBE, t0.mSliceCount, t0.mIndexEntrySize,
        countChanges 0 (t0.mIndexElements.map (fun e => e.slice_offset)))))
      = some (false, 0, 1035, 256) ∧
    ((prepared 1 2 ⟨25, 1⟩
        ((List.range 257).map (fun i => Registration.picture i false false))).state.map
      (fun t0 => t0.mIndexSegments.map (fun s => (s.slice_count, s.mIndexEntrySize))))
      = some [(0, 1035)] := by
  refine ⟨by decide!, by decide!⟩

/-! ### The size of a segment -/

theorem singleSegmentTable_step (n : Nat) (bytes : List Nat) (h : bytes.length < 65000) :
    (singleSegmentTable n bytes).runOk
        [Call.AddIndexEntry 0 (n : Int) 0 0 0 false, Call.UpdateIndex 100 [100]]
      = some (singleSegmentTable (n + 1)
          (bytes ++ entryBytes OP1AIndexEntry.new (100 * (n : Int)) [])) := by
  have h1 : ¬ (65000 ≤ bytes.length) := by omega
  rcases Nat.eq_zero_or_pos n with hn | hn
  · subst hn
    simp [OP1AIndexTable.runOk, OP1AIndexTable.call, singleSegmentTable,
      OP1AIndexTable.AddIndexEntry, elementsMapFind, List.lookup, OP1AIndexTable.findElement,
      OP1AIndexTableElement.CacheIndexEntry, MAX_CACHE_ENTRIES, OP1AIndexTable.storeElement,
      replaceElement, cacheSet, OP1AIndexTable.UpdateIndex, OP1AIndexTable.updateDeltaEntries,
      createDeltaEntries, singleZeroDeltaEntry, Outcome.andThen, OP1AIndexTable.updateVBE,
      OP1AIndexTable.CanStartPartition, canStartPartitionLoop,
      OP1AIndexTableElement.CanStartPartition, cacheFind, takeIndexEntries,
      OP1AIndexTableElement.TakeIndexEntry, cacheErase, OP1AIndexEntry.IsDefault,
      OP1AIndexTable.openSegment, OP1AIndexTableSegment.RequireNewSegment,
      MAX_INDEX_SEGMENT_SIZE, h1, OP1AIndexTableSegment.AddIndexEntry, wrapU32]
  · have hn0 : ¬ ((n : Int) = 0) := by omega
    simp [OP1AIndexTable.runOk, OP1AIndexTable.call, singleSegmentTable,
      OP1AIndexTable.AddIndexEntry, elementsMapFind, List.lookup, OP1AIndexTable.findElement,
      OP1AIndexTableElement.CacheIndexEntry, MAX_CACHE_ENTRIES, OP1AIndexTable.storeElement,
      replaceElement, cacheSet, OP1AIndexTable.UpdateIndex, OP1AIndexTable.updateDeltaEntries,
      elementSizesUnchanged, Outcome.andThen, OP1AIndexTable.updateVBE,
      OP1AIndexTable.CanStartPartition, canStartPartitionLoop,
      OP1AIndexTableElement.CanStartPartition, cacheFind, takeIndexEntries,
      OP1AIndexTableElement.TakeIndexEntry, cacheErase, OP1AIndexEntry.IsDefault,
      OP1AIndexTable.openSegment, OP1AIndexTableSegment.RequireNewSegment,
      MAX_INDEX_SEGMENT_SIZE, h1, OP1AIndexTableSegment.AddIndexEntry, wrapU32, hn0]
    ring

theorem runOk_append (t : OP1AIndexTable) (a b : List Call) :
    t.runOk (a ++ b) = (t.runOk a).bind (fun t1 => t1.runOk b) := by
  induction a generalizing t with
  | nil => rfl
  | cons c rest ih =>
    simp only [List.cons_append, OP1AIndexTable.runOk]
    split
    · exact ih _
    · rfl

theorem singleSegmentTable_frames (k n : Nat) (bytes : List Nat)
    (h : bytes.length + 11 * k ≤ 65010) :
    ∃ bytes1, (singleSegmentTable n bytes).runOk (indexFrames 0 k (n : Int))
        = some (singleSegmentTable (n + k) bytes1) ∧
      bytes1.length = bytes.length + 11 * k := by
  induction k generalizing n bytes with
  | zero => exact ⟨bytes, rfl, rfl⟩
  | succ k ih =>
    have hstep := singleSegmentTable_step n bytes (by omega)
    obtain ⟨bytes1, h1, h2⟩ := ih (n + 1)
      (bytes ++ entryBytes OP1AIndexEntry.new (100 * (n : Int)) [])
      (by rw [List.length_append, entryBytes_length]; simp only [List.length_nil]; omega)
    refine ⟨bytes1, ?_, ?_⟩
    · have e : indexFrames 0 (k + 1) (n : Int)
          = [Call.AddIndexEntry 0 (n : Int) 0 0 0 false, Call.UpdateIndex 100 [100]]
            ++ indexFrames 0 k (((n + 1 : Nat) : Int)) := by
        simp [indexFrames]
      rw [e, runOk_append, hstep]
      simp only [Option.some_bind]
      rw [h1]
      congr 2
      omega
    · rw [h2, List.length_append, entryBytes_length]
      simp only [List.length_nil]
      omega

/-- C7 (the code at the failing input): one VBE picture track, entry size 11, 5910 edit
units whose cached entries all have `can_start_partition = false`: every call succeeds and the
single segment holds `5910 * 11 = 65010` bytes, more than `MAX_INDEX_SEGMENT_SIZE`. -/
theorem segment_size_exceeds_max :
    ∃ t0 t s,
      prepared 1 2 ⟨25, 1⟩ [Registration.picture 0 false false] = Outcome.ok t0 ∧
      t0.mIndexEntrySize = 11 ∧
      t0.runOk (indexFrames 0 5910 0) = some t ∧
      t.mIndexSegments = [s] ∧ s.index_duration = 5910 ∧ s.mEntries.length = 65010 ∧
      MAX_INDEX_SEGMENT_SIZE < s.mEntries.length := by
  obtain ⟨bytes, h1, h2⟩ := singleSegmentTable_frames 5910 0 [] (by simp)
  refine ⟨singleSegmentTable 0 [], singleSegmentTable (0 + 5910) bytes, _, by decide, rfl, ?_,
    rfl, ?_, ?_, ?_⟩
  · exact h1
  · simp
  · simpa using h2
  · simp only [MAX_INDEX_SEGMENT_SIZE]
    simp at h2
    omega

/-! ### UpdateIndexEntry -/

/-- C8 (the code at the failing input): duration 0 and `AddIndexEntry(track, 0, ...)`; then
`UpdateIndexEntry(track, 0, 2)`, whose entry is cached, takes the branch for serialized entries
(`position > mDuration` is false) and throws at the assertion of
`OP1AIndexTableSegment::UpdateIndexEntry`, leaving the cached entry with
`temporal_offset = 0`.  After `AddIndexEntry(track, 1, ...)` the call
`UpdateIndexEntry(track, 1, 2)` does update the cached entry at position 1. -/
theorem update_cached_entry_at_duration_fails :
    ∃ t0 t1 t2 t3,
      prepared 1 2 ⟨25, 1⟩ [Registration.picture 0 false true] = Outcome.ok t0 ∧
      t0.mDuration = 0 ∧
      t0.AddIndexEntry 0 0 0 0 0 true = Outcome.ok t1 ∧
      t1.mIndexElements.map
          (fun e => e.mIndexEntryCache.map (fun kv => (kv.1, kv.2.temporal_offset)))
        = [[(0, 0)]] ∧
      t1.UpdateIndexEntry 0 0 2 = Outcome.thrown Failure.segment_position_in_entries t1 ∧
      t1.AddIndexEntry 0 1 0 0 0 true = Outcome.ok t2 ∧
      t2.UpdateIndexEntry 0 1 2 = Outcome.ok t3 ∧
      t3.mIndexElements.map
          (fun e => e.mIndexEntryCache.map (fun kv => (kv.1, kv.2.temporal_offset)))
        = [[(0, 0), (1, 2)]] ∧
      t2.UpdateIndexEntry 0 0 2 = Outcome.thrown Failure.segment_position_in_entries t2 :=
  ⟨_, _, _, _, rfl, by decide, rfl, by decide, by decide, rfl, rfl, by decide, by decide⟩

theorem contiguous_getElem_zero (a d : Int) (l : List OP1AIndexTableSegment)
    (s : OP1AIndexTableSegment) (h : contiguous a l d) (hs : l[0]? = some s) :
    s.index_start_position = a := by
  cases l with
  | nil => simp at hs
  | cons x rest =>
    simp at hs
    subst hs
    exact h.1

theorem contiguous_getElem_succ (a d : Int) (l : List OP1AIndexTableSegment) (i : Nat)
    (s s1 : OP1AIndexTableSegment) (h : contiguous a l d) (hs : l[i]? = some s)
    (hs1 : l[i + 1]? = some s1) :
    s1.index_start_position = s.index_start_position + s.index_duration := by
  induction l generalizing a i with
  | nil => simp at hs
  | cons x rest ih =>
    cases i with
    | zero =>
      simp at hs
      subst hs
      simp only [zero_add, List.getElem?_cons_succ] at hs1
      rw [contiguous_getElem_zero _ _ _ _ h.2 hs1, h.1]
    | succ j =>
      simp only [List.getElem?_cons_succ] at hs hs1
      exact ih _ _ h.2 hs hs1

theorem contiguous_getLast (a d : Int) (l : List OP1AIndexTableSegment)
    (s : OP1AIndexTableSegment) (h : contiguous a l d) (hs : l[l.length - 1]? = some s) :
    s.index_start_position + s.index_duration = d := by
  induction l generalizing a with
  | nil => simp at hs
  | cons x rest ih =>
    cases rest with
    | nil =>
      simp at hs
      subst hs
      have := h.2
      simp only [contiguous] at this
      rw [h.1]; exact this
    | cons y rest2 =>
      simp only [List.length_cons, Nat.add_sub_cancel, List.getElem?_cons_succ] at hs
      apply ih _ h.2
      simpa using hs

theorem GetDuration_eq (s : OP1AIndexTableSegment) (h0 : 0 ≤ s.index_duration)
    (h1 : s.index_duration ≤ 65000) : s.GetDuration = s.index_duration := by
  unfold OP1AIndexTableSegment.GetDuration
  omega

/-- The backward walk of `UpdateIndexEntry` stops at the segment that contains `p`. -/
theorem walkSegments_spec (a d : Int) (l : List OP1AIndexTableSegment)
    (hc : contiguous a l d)
    (hdur : ∀ s ∈ l, 0 ≤ s.index_duration ∧ s.index_duration ≤ 65000)
    (p : Int) (hp : a ≤ p) (i : Nat) (si : OP1AIndexTableSegment) (hi : l[i]? = some si)
    (hlt : p < si.index_start_position + si.index_duration) :
    ∃ k s, walkSegments l i (si.index_start_position + si.index_duration - p)
        = some (k, s.index_start_position + s.index_duration - p) ∧
      l[k]? = some s ∧ s.index_start_position ≤ p ∧
      p < s.index_start_position + s.index_duration := by
  induction i generalizing si with
  | zero =>
    have hstart := contiguous_getElem_zero a d l si hc hi
    have hd := hdur si (List.getElem?_mem hi)
    refine ⟨0, si, ?_, hi, by omega, hlt⟩
    simp only [walkSegments, hi, GetDuration_eq si hd.1 hd.2]
    rw [if_neg (by omega)]
  | succ j ih =>
    have hd := hdur si (List.getElem?_mem hi)
    simp only [walkSegments, hi, GetDuration_eq si hd.1 hd.2]
    by_cases hcase : si.index_start_position ≤ p
    · rw [if_neg (by omega)]
      exact ⟨j + 1, si, rfl, hi, hcase, hlt⟩
    · rw [if_pos (by omega)]
      have hj : j < l.length := by
        have := (List.getElem?_eq_some.mp hi).1
        omega
      obtain ⟨sj, hsj⟩ : ∃ sj, l[j]? = some sj := ⟨l[j], by simp [hj]⟩
      have hnext := contiguous_getElem_succ a d l j sj si hc hsj hi
      obtain ⟨k, s, h1, h2, h3, h4⟩ := ih sj hsj (by omega)
      refine ⟨k, s, ?_, h2, h3, h4⟩
      rw [← h1]
      congr 1
      omega

/-- C9: on a VBE table whose segments were not written out, `UpdateIndexEntry(track, p, t)` for
a registered track and `0 <= p < mDuration` returns normally; it finds the segment whose range
`[start_position, start_position + duration)` contains `p`, sets the first byte of the entry
at index `p - start_position` of that segment to `t`, and changes nothing else in the table.
After four frames I B B P and the patches 2, -1, -1, 2 the first bytes of the entries 0..3 read
2, -1, -1, 2. -/
theorem update_serialized_entry (sid bsid : Nat) (rate : Rational) (regs : List Registration)
    (t0 t : OP1AIndexTable) (calls : List Call) (track : Nat) (p tmp : Int)
    (hprep : prepared sid bsid rate regs = Outcome.ok t0) (hvbe : t0.mIsCBE = false)
    (hrun : t0.run calls = some t)
    (htrack : elementsMapFind track t.mIndexElementsMap ≠ none)
    (hp0 : 0 ≤ p) (hp : p < t.mDuration) :
    (∃ i s,
      t.mIndexSegments[i]? = some s ∧
      s.index_start_position ≤ p ∧ p < s.index_start_position + s.index_duration ∧
      ((p - s.index_start_position) * (s.mIndexEntrySize : Int)).toNat + s.mIndexEntrySize
        ≤ s.mEntries.length ∧
      t.UpdateIndexEntry track p tmp = Outcome.ok
        { t with
          mIndexSegments := t.mIndexSegments.set i
                              { s with
                                mEntries := s.mEntries.set
                                  ((p - s.index_start_position) * (s.mIndexEntrySize : Int)).toNat
                                  (mxf_set_int8 tmp) } }) ∧
    ((prepared 1 2 ⟨25, 1⟩ [Registration.picture 0 false true]).state.bind (fun t0 =>
      (t0.runOk (indexFrames 0 4 0 ++
        [Call.UpdateIndexEntry 0 0 2, Call.UpdateIndexEntry 0 1 (-1),
         Call.UpdateIndexEntry 0 2 (-1), Call.UpdateIndexEntry 0 3 2])).map (fun t1 =>
        t1.mIndexSegments.map (fun s =>
          (s.index_duration, (List.range 4).map (fun k => (s.mEntries.get? (11 * k)).map
            mxf_get_int8))))))
      = some [(4, [some 2, some (-1), some (-1), some 2])] := by
  refine ⟨?_, by decide⟩
  obtain ⟨hinv0, -⟩ := prepared_spec sid bsid rate regs t0 hprep hvbe
  have hinv := VBEInvariant_run t0 t calls hinv0 hrun
  have hne := hinv.nonempty
  have hlen : t.mIndexSegments.length - 1 < t.mIndexSegments.length := by
    have : t.mIndexSegments.length ≠ 0 := fun h => hne (List.length_eq_zero.mp h)
    omega
  obtain ⟨sl, hsl⟩ : ∃ sl, t.mIndexSegments[t.mIndexSegments.length - 1]? = some sl :=
    ⟨t.mIndexSegments[t.mIndexSegments.length - 1], by simp [hlen]⟩
  have hend := contiguous_getLast 0 t.mDuration t.mIndexSegments sl hinv.cover hsl
  obtain ⟨k, s, hw, hk, hs1, hs2⟩ := walkSegments_spec 0 t.mDuration t.mIndexSegments hinv.cover
    (fun s hs => (hinv.segments s hs).2.2.2) p hp0 _ sl hsl (by omega)
  rw [hend] at hw
  obtain ⟨g1, g2, g3, g4, g5⟩ := hinv.segments s (List.getElem?_mem hk)
  have hpos := hinv.entry_size_pos
  have hgd := GetDuration_eq s g4 g5
  have hidx : s.GetDuration - (s.index_start_position + s.index_duration - p)
      = p - s.index_start_position := by rw [hgd]; ring
  have hnn : 0 ≤ (p - s.index_start_position) * (s.mIndexEntrySize : Int) :=
    Int.mul_nonneg (by omega) (by omega)
  have hbound : (p - s.index_start_position) * (s.mIndexEntrySize : Int)
      + (s.mIndexEntrySize : Int) ≤ (s.mEntries.length : Int) := by
    rw [g3, g1]
    have : (p - s.index_start_position + 1) * (t.mIndexEntrySize : Int)
        ≤ s.index_duration * (t.mIndexEntrySize : Int) :=
      Int.mul_le_mul_of_nonneg_right (by omega) (by omega)
    linarith
  refine ⟨k, s, hk, hs1, hs2, by omega, ?_⟩
  unfold OP1AIndexTable.UpdateIndexEntry
  rw [if_neg (by simp [hinv.vbe]), if_neg (by omega)]
  cases hfind : elementsMapFind track t.mIndexElementsMap with
  | none => exact absurd hfind htrack
  | some id =>
    simp only
    rw [if_neg (by omega), if_neg (fun h => hne (List.length_eq_zero.mp h)), hw]
    simp only [hk, hidx]
    unfold OP1AIndexTableSegment.UpdateIndexEntry
    rw [if_pos (by rw [g1] at hbound ⊢; omega), if_neg (by omega)]

/-- C9 (witness): one VBE picture track, one edit unit indexed, the entry at position 0
patched with temporal offset 2. -/
theorem update_serialized_entry_witness :
    ∃ i s,
      (singleSegmentTable 1 (entryBytes OP1AIndexEntry.new 0 [])).mIndexSegments[i]? = some s ∧
      s.index_start_position ≤ 0 ∧ 0 < s.index_start_position + s.index_duration ∧
      (singleSegmentTable 1 (entryBytes OP1AIndexEntry.new 0 [])).UpdateIndexEntry 0 0 2
        = Outcome.ok
          { singleSegmentTable 1 (entryBytes OP1AIndexEntry.new 0 []) with
            mIndexSegments :=
              (singleSegmentTable 1 (entryBytes OP1AIndexEntry.new 0 [])).mIndexSegments.set i
                { s with
                  mEntries := s.mEntries.set
                    ((0 - s.index_start_position) * (s.mIndexEntrySize : Int)).toNat
                    (mxf_set_int8 2) } } := by
  obtain ⟨i, s, h1, h2, h3, -, h5⟩ :=
    (update_serialized_entry 1 2 ⟨25, 1⟩ [Registration.picture 0 false false]
      (singleSegmentTable 0 []) (singleSegmentTable 1 (entryBytes OP1AIndexEntry.new 0 []))
      [Call.AddIndexEntry 0 0 0 0 0 false, Call.UpdateIndex 100 [100]] 0 0 2
      (by decide) (by decide) (by decide) (by decide) (by decide) (by decide)).1
  exact ⟨i, s, h1, h2, h3, h5⟩

/-! ### The CBE table -/

theorem UpdateIndex_cbe_step (t t1 : OP1AIndexTable) (seg : OP1AIndexTableSegment)
    (rest : List OP1AIndexTableSegment) (size : Nat) (sizes : List Nat)
    (hcbe : t.mIsCBE = true) (havci : t.mAVCIFirstIndexSegment = none)
    (hsegs : t.mIndexSegments = seg :: rest)
    (h : t.UpdateIndex size sizes = Outcome.ok t1) :
    t1.mIsCBE = true ∧ t1.mAVCIFirstIndexSegment = none ∧ t1.mDuration = t.mDuration + 1 ∧
    ∃ seg1, t1.mIndexSegments = seg1 :: rest ∧
      seg1.index_duration = seg.index_duration + 1 ∧
      ((seg.edit_unit_byte_count = 0 ∧ seg1.edit_unit_byte_count = size) ∨
       (seg.edit_unit_byte_count ≠ 0 ∧ seg.edit_unit_byte_count = size ∧
        seg1.edit_unit_byte_count = size)) := by
  unfold OP1AIndexTable.UpdateIndex at h
  split at h
  · exact absurd h (by simp)
  -- the delta entries: only `delta_entries` of the first segment can change
  have hdelta : ∃ t2 seg2, (t.updateDeltaEntries sizes = Outcome.ok t2 ∨
        ∃ f, t.updateDeltaEntries sizes = Outcome.thrown f t2) ∧
      t2.mIsCBE = true ∧ t2.mAVCIFirstIndexSegment = none ∧ t2.mDuration = t.mDuration ∧
      t2.mIndexSegments = seg2 :: rest ∧ seg2.index_duration = seg.index_duration ∧
      seg2.edit_unit_byte_count = seg.edit_unit_byte_count := by
    unfold OP1AIndexTable.updateDeltaEntries
    split
    · simp only [hcbe, if_true, havci, hsegs]
      repeat' split
      all_goals
        first
        | exact ⟨_, seg, Or.inl rfl, rfl, rfl, rfl, rfl, rfl, rfl⟩
        | exact ⟨_, _, Or.inl rfl, rfl, rfl, rfl, rfl, rfl, rfl⟩
    · split
      · exact ⟨_, seg, Or.inl rfl, hcbe, havci, rfl, hsegs, rfl, rfl⟩
      · exact ⟨_, seg, Or.inr ⟨_, rfl⟩, hcbe, havci, rfl, hsegs, rfl, rfl⟩
  obtain ⟨t2, seg2, hd, c1, c2, c3, c4, c5, c6⟩ := hdelta
  rcases hd with hd | ⟨f, hd⟩
  · rw [hd] at h
    simp only [Outcome.andThen, c1, if_true] at h
    unfold OP1AIndexTable.updateCBE at h
    simp only [c2, Bool.false_eq_true, if_false, OP1AIndexTable.onFirstSegment, c4] at h
    unfold OP1AIndexTableSegment.AddCBEIndexEntry at h
    by_cases h0 : seg2.edit_unit_byte_count = 0
    · rw [if_pos h0] at h
      simp only [Outcome.ok.injEq] at h
      subst h
      exact ⟨c1, rfl, by simp only [c3], _, rfl, by simp only [c5],
        Or.inl ⟨by rw [← c6]; exact h0, rfl⟩⟩
    · rw [if_neg h0] at h
      by_cases h1 : seg2.edit_unit_byte_count = size
      · rw [if_pos h1] at h
        simp only [Outcome.ok.injEq] at h
        subst h
        exact ⟨c1, rfl, by simp only [c3], _, rfl, by simp only [c5],
          Or.inr ⟨by rw [← c6]; exact h0, by rw [← c6]; exact h1, h1⟩⟩
      · rw [if_neg h1] at h
        simp at h
  · rw [hd] at h
    simp [Outcome.andThen] at h

theorem prepared_segments (sid bsid : Nat) (rate : Rational) (regs : List Registration)
    (t0 : OP1AIndexTable) (h : prepared sid bsid rate regs = Outcome.ok t0) :
    t0.mDuration = 0 ∧ ∃ seg, t0.mIndexSegments = [seg] ∧ seg.edit_unit_byte_count = 0 ∧
      seg.index_duration = 0 ∧ seg.index_start_position = 0 := by
  unfold prepared OP1AIndexTable.PrepareWrite at h
  obtain ⟨f1, f2⟩ := register_fresh regs (OP1AIndexTable.new sid bsid rate) rfl rfl
  generalize List.foldl OP1AIndexTable.register (OP1AIndexTable.new sid bsid rate) regs = T
    at h f1 f2
  simp only at h
  split at h
  · exact absurd h (by simp)
  · injection h with h
    subst h
    simp only [f1, f2, List.nil_append]
    exact ⟨trivial, _, rfl, rfl, rfl, rfl⟩

theorem cbe_runOk (s0 : Nat) (hs0 : s0 ≠ 0) (us : List (Nat × List Nat))
    (t t1 : OP1AIndexTable) (seg : OP1AIndexTableSegment) (rest : List OP1AIndexTableSegment)
    (hcbe : t.mIsCBE = true) (havci : t.mAVCIFirstIndexSegment = none)
    (hsegs : t.mIndexSegments = seg :: rest) (hseg : seg.edit_unit_byte_count = s0)
    (h : t.runOk (us.map (fun u => Call.UpdateIndex u.1 u.2)) = some t1) :
    (∀ u ∈ us, u.1 = s0) ∧ t1.mDuration = t.mDuration + (us.length : Int) ∧
    ∃ seg1, t1.mIndexSegments = seg1 :: rest ∧ seg1.edit_unit_byte_count = s0 ∧
      seg1.index_duration = seg.index_duration + (us.length : Int) := by
  induction us generalizing t seg with
  | nil =>
    simp [OP1AIndexTable.runOk] at h
    subst h
    exact ⟨by simp, by simp, seg, hsegs, hseg, by simp⟩
  | cons u us ih =>
    simp only [List.map_cons, OP1AIndexTable.runOk, OP1AIndexTable.call] at h
    split at h
    · rename_i t2 h2
      obtain ⟨a1, a2, a3, seg2, a4, a5, a6⟩ :=
        UpdateIndex_cbe_step t t2 seg rest u.1 u.2 hcbe havci hsegs h2
      have hu : u.1 = s0 ∧ seg2.edit_unit_byte_count = s0 := by
        rcases a6 with ⟨b1, b2⟩ | ⟨b1, b2, b3⟩
        · exact absurd (hseg ▸ b1) hs0
        · exact ⟨by rw [← b2, hseg], by rw [b3, ← b2, hseg]⟩
      obtain ⟨i1, i2, seg1, i3, i4, i5⟩ := ih t2 seg2 a1 a2 a4 hu.2 h
      refine ⟨?_, ?_, seg1, i3, i4, ?_⟩
      · intro v hv
        rcases List.mem_cons.mp hv with hv | hv
        · rw [hv]; exact hu.1
        · exact i1 v hv
      · rw [i2, a3]; simp only [List.length_cons]; push_cast; ring
      · rw [i5, a5]; simp only [List.length_cons]; push_cast; ring
    · exact absurd h (by simp)

/-- C10 (amended): for a CBE table without AVC-Intra first segment and a first edit unit of
non-zero size `s0`: if `UpdateIndex(s0, ...)` and all later `UpdateIndex(s, ...)` calls return
normally, then every `s` equals `s0`, the segment's `edit_unit_byte_count` is `s0` and its
index duration counts the calls.  (A first size of 0 leaves the byte count unset.) -/
theorem cbe_fixed_size (sid bsid : Nat) (rate : Rational) (regs : List Registration)
    (t0 t : OP1AIndexTable) (s0 : Nat) (e0 : List Nat) (later : List (Nat × List Nat))
    (hprep : prepared sid bsid rate regs = Outcome.ok t0) (hcbe : t0.mIsCBE = true)
    (havci : t0.mAVCIFirstIndexSegment = none) (hs0 : s0 ≠ 0)
    (hrun : t0.runOk (Call.UpdateIndex s0 e0 ::
      later.map (fun u => Call.UpdateIndex u.1 u.2)) = some t) :
    (∃ t1 seg1, t0.UpdateIndex s0 e0 = Outcome.ok t1 ∧ t1.mIndexSegments = [seg1] ∧
      seg1.edit_unit_byte_count = s0) ∧
    (∀ u ∈ later, u.1 = s0) ∧
    (∃ seg, t.mIndexSegments = [seg] ∧ seg.edit_unit_byte_count = s0 ∧
      seg.index_duration = (later.length : Int) + 1 ∧
      t.mDuration = (later.length : Int) + 1) := by
  obtain ⟨p1, seg0, p2, p3, p4, -⟩ := prepared_segments sid bsid rate regs t0 hprep
  simp only [OP1AIndexTable.runOk, OP1AIndexTable.call] at hrun
  split at hrun
  · rename_i t1 h1
    obtain ⟨a1, a2, a3, seg1, a4, a5, a6⟩ :=
      UpdateIndex_cbe_step t0 t1 seg0 [] s0 e0 hcbe havci p2 h1
    have hseg1 : seg1.edit_unit_byte_count = s0 := by
      rcases a6 with ⟨-, b2⟩ | ⟨-, -, b3⟩
      · exact b2
      · exact b3
    obtain ⟨i1, i2, seg, i3, i4, i5⟩ := cbe_runOk s0 hs0 later t1 t seg1 [] a1 a2 a4 hseg1 hrun
    refine ⟨⟨t1, seg1, h1, a4, hseg1⟩, i1, seg, i3, i4, ?_, ?_⟩
    · rw [i5, a5, p4]; ring
    · rw [i2, a3, p1]; ring
  · exact absurd hrun (by simp)

/-- C10 (witness): one sound element and three edit units of 5 bytes. -/
theorem cbe_fixed_size_witness :
    (∀ u ∈ [((5 : Nat), [(5 : Nat)]), (5, [5])], u.1 = 5) ∧
    (∃ seg : OP1AIndexTableSegment,
      [({ mIndexEntrySize := 11, mEntries := [], index_sid := 1, body_sid := 2,
          index_edit_rate := ⟨48000, 1⟩, index_start_position := 0, index_duration := 3,
          edit_unit_byte_count := 5, slice_count := 0, delta_entries := [] } :
        OP1AIndexTableSegment)] = [seg] ∧
      seg.edit_unit_byte_count = 5 ∧ seg.index_duration = ((2 : Nat) : Int) + 1) := by
  have h := cbe_fixed_size 1 2 ⟨48000, 1⟩ [Registration.sound 3]
    { mIndexSID := 1, mBodySID := 2, mFrameRate := ⟨48000, 1⟩, mIsCBE := true,
      mHaveAVCI := false,
      mIndexElements :=
        [{ object_id := 0, track_index := 3, is_picture := false, is_cbe := true,
           apply_temporal_reordering := false, slice_offset := 0, element_size := 0,
           mIndexEntryCache := [] }],
      mIndexElementsMap := [(3, 0)], mSliceCount := 0, mIndexEntrySize := 11,
      mAVCIFirstIndexSegment := none,
      mIndexSegments :=
        [{ mIndexEntrySize := 11, mEntries := [], index_sid := 1, body_sid := 2,
           index_edit_rate := ⟨48000, 1⟩, index_start_position := 0, index_duration := 0,
           edit_unit_byte_count := 0, slice_count := 0, delta_entries := [] }],
      mDeltaEntries := [], mDuration := 0, mStreamOffset := 0 }
    { mIndexSID := 1, mBodySID := 2, mFrameRate := ⟨48000, 1⟩, mIsCBE := true,
      mHaveAVCI := false,
      mIndexElements :=
        [{ object_id := 0, track_index := 3, is_picture := false, is_cbe := true,
           apply_temporal_reordering := false, slice_offset := 0, element_size := 5,
           mIndexEntryCache := [] }],
      mIndexElementsMap := [(3, 0)], mSliceCount := 0, mIndexEntrySize := 11,
      mAVCIFirstIndexSegment := none,
      mIndexSegments :=
        [{ mIndexEntrySize := 11, mEntries := [], index_sid := 1, body_sid := 2,
           index_edit_rate := ⟨48000, 1⟩, index_start_position := 0, index_duration := 3,
           edit_unit_byte_count := 5, slice_count := 0, delta_entries := [] }],
      mDeltaEntries := [], mDuration := 3, mStreamOffset := 15 }
    5 [5] [(5, [5]), (5, [5])] (by decide) (by decide) (by decide) (by decide) (by decide)
  obtain ⟨-, h2, seg, h3, h4, h5, -⟩ := h
  exact ⟨h2, seg, h3, h4, h5⟩

/-- C10 (counterexample): a first edit unit of size 0 leaves `edit_unit_byte_count` at 0, and
the later `UpdateIndex(5, ...)` returns normally although `5 != 0`: the segment then has byte
count 5 for two edit units of sizes 0 and 5. -/
theorem cbe_fixed_size_counterexample :
    ∃ t0 t1 t2,
      prepared 1 2 ⟨48000, 1⟩ [Registration.sound 3] = Outcome.ok t0 ∧
      t0.mIsCBE = true ∧ t0.mAVCIFirstIndexSegment = none ∧
      t0.UpdateIndex 0 [0] = Outcome.ok t1 ∧
      t1.mIndexSegments.map (fun s => (s.edit_unit_byte_count, s.index_duration)) = [(0, 1)] ∧
      t1.UpdateIndex 5 [0] = Outcome.ok t2 ∧
      t2.mIndexSegments.map (fun s => (s.edit_unit_byte_count, s.index_duration)) = [(5, 2)] :=
  ⟨_, _, _, rfl, by decide, by decide, rfl, by decide, rfl, by decide⟩
/-! ## Theorems: SMPTE timecodes -/

/-- Byte 0: a frame count below 30 and the drop-frame flag are read back as written; the
count is in bits 0-5, the flag is bit 6, bit 7 is clear. -/
theorem frame_byte : ∀ f, f < 30 → ∀ d : Bool,
    (((if d then to_uchar (((f % 10) &&& 0x0f) ||| (((f / 10) <<< 4) &&& 0x30)) ||| 0x40
        else to_uchar (((f % 10) &&& 0x0f) ||| (((f / 10) <<< 4) &&& 0x30))) &&& 0x30) >>> 4) * 10
      + ((if d then to_uchar (((f % 10) &&& 0x0f) ||| (((f / 10) <<< 4) &&& 0x30)) ||| 0x40
        else to_uchar (((f % 10) &&& 0x0f) ||| (((f / 10) <<< 4) &&& 0x30))) &&& 0x0f) = f ∧
    (((if d then to_uchar (((f % 10) &&& 0x0f) ||| (((f / 10) <<< 4) &&& 0x30)) ||| 0x40
        else to_uchar (((f % 10) &&& 0x0f) ||| (((f / 10) <<< 4) &&& 0x30))) &&& 0x40) != 0) = d ∧
    (if d then to_uchar (((f % 10) &&& 0x0f) ||| (((f / 10) <<< 4) &&& 0x30)) ||| 0x40
        else to_uchar (((f % 10) &&& 0x0f) ||| (((f / 10) <<< 4) &&& 0x30))) % 64 = bcd f ∧
    (if d then to_uchar (((f % 10) &&& 0x0f) ||| (((f / 10) <<< 4) &&& 0x30)) ||| 0x40
        else to_uchar (((f % 10) &&& 0x0f) ||| (((f / 10) <<< 4) &&& 0x30))) / 64
      = (if d then 1 else 0) := by
  decide

/-- Bytes 1 and 2: a count below 60 is read back as written, whether or not bit 7 is set, and
bit 7 is read back as written. -/
theorem sixty_byte : ∀ s, s < 60 → ∀ m : Bool,
    (((if m then to_uchar (((s % 10) &&& 0x0f) ||| (((s / 10) <<< 4) &&& 0x70)) ||| 0x80
        else to_uchar (((s % 10) &&& 0x0f) ||| (((s / 10) <<< 4) &&& 0x70))) &&& 0x70) >>> 4) * 10
      + ((if m then to_uchar (((s % 10) &&& 0x0f) ||| (((s / 10) <<< 4) &&& 0x70)) ||| 0x80
        else to_uchar (((s % 10) &&& 0x0f) ||| (((s / 10) <<< 4) &&& 0x70))) &&& 0x0f) = s ∧
    (((if m then to_uchar (((s % 10) &&& 0x0f) ||| (((s / 10) <<< 4) &&& 0x70)) ||| 0x80
        else to_uchar (((s % 10) &&& 0x0f) ||| (((s / 10) <<< 4) &&& 0x70))) &&& 0x80) != 0) = m ∧
    (if m then to_uchar (((s % 10) &&& 0x0f) ||| (((s / 10) <<< 4) &&& 0x70)) ||| 0x80
        else to_uchar (((s % 10) &&& 0x0f) ||| (((s / 10) <<< 4) &&& 0x70))) % 128 = bcd s ∧
    (if m then to_uchar (((s % 10) &&& 0x0f) ||| (((s / 10) <<< 4) &&& 0x70)) ||| 0x80
        else to_uchar (((s % 10) &&& 0x0f) ||| (((s / 10) <<< 4) &&& 0x70))) / 128
      = (if m then 1 else 0) := by
  decide

/-- Byte 3: an hour below 24 is read back as written, whether or not bit 7 is set, and bit 7
is read back as written. -/
theorem hour_byte : ∀ h, h < 24 → ∀ m : Bool,
    (((if m then to_uchar (((h % 10) &&& 0x0f) ||| (((h / 10) <<< 4) &&& 0x30)) ||| 0x80
        else to_uchar (((h % 10) &&& 0x0f) ||| (((h / 10) <<< 4) &&& 0x30))) &&& 0x30) >>> 4) * 10
      + ((if m then to_uchar (((h % 10) &&& 0x0f) ||| (((h / 10) <<< 4) &&& 0x30)) ||| 0x80
        else to_uchar (((h % 10) &&& 0x0f) ||| (((h / 10) <<< 4) &&& 0x30))) &&& 0x0f) = h ∧
    (((if m then to_uchar (((h % 10) &&& 0x0f) ||| (((h / 10) <<< 4) &&& 0x30)) ||| 0x80
        else to_uchar (((h % 10) &&& 0x0f) ||| (((h / 10) <<< 4) &&& 0x30))) &&& 0x80) != 0) = m ∧
    (if m then to_uchar (((h % 10) &&& 0x0f) ||| (((h / 10) <<< 4) &&& 0x30)) ||| 0x80
        else to_uchar (((h % 10) &&& 0x0f) ||| (((h / 10) <<< 4) &&& 0x30))) % 128 = bcd h ∧
    (if m then to_uchar (((h % 10) &&& 0x0f) ||| (((h / 10) <<< 4) &&& 0x30)) ||| 0x80
        else to_uchar (((h % 10) &&& 0x0f) ||| (((h / 10) <<< 4) &&& 0x30))) / 128
      = (if m then 1 else 0) := by
  decide

/-- C17: for a timecode with rounded base at most 30, hour below 24, minute and second below
60 and frame below the base, with either drop-frame flag and either `field_mark` argument,
`encode_smpte_timecode` writes `size >= 4` bytes from which `decode_smpte_timecode`, given a
frame rate of the same rounded base, takes the same hour, minute, second, frame and drop-frame
flag and `field_mark = false`; bits 0-5 of byte 0 hold the frame (binary-coded decimal) and
bit 6 of byte 0 the drop-frame flag. -/
theorem smpte_timecode_round_trip (timecode : Timecode) (field_mark : Bool) (size : Nat)
    (frame_rate : Rational) (hsize : 4 ≤ size)
    (hbase : timecode.GetRoundedTCBase ≤ 30)
    (hrate : get_rounded_tc_base frame_rate = timecode.GetRoundedTCBase)
    (hhour : timecode.GetHour < 24) (hmin : timecode.GetMin < 60)
    (hsec : timecode.GetSec < 60) (hframe : timecode.GetFrame < timecode.GetRoundedTCBase) :
    ∃ b0 rest, encode_smpte_timecode timecode field_mark size = some (b0 :: rest) ∧
      (b0 :: rest).length = size ∧
      decode_smpte_timecode frame_rate (b0 :: rest) size
        = some { frame_rate := frame_rate, drop_frame := timecode.IsDropFrame,
                 hour := timecode.GetHour, min := timecode.GetMin, sec := timecode.GetSec,
                 frame := timecode.GetFrame, field_mark := false } ∧
      b0 % 64 = bcd timecode.GetFrame ∧
      b0 / 64 = (if timecode.IsDropFrame then 1 else 0) := by
  obtain ⟨base, d, h, m, s, f, _⟩ := timecode
  simp only at hbase hrate hhour hmin hsec hframe ⊢
  have hf := frame_byte f (by omega) d
  have hs := sixty_byte s hsec false
  have hm := sixty_byte m hmin false
  have hh := hour_byte h hhour false
  simp only [Bool.false_eq_true, if_false] at hs hm hh
  have hb : ¬ base > 30 := by omega
  have hz : ¬ size < 4 := by omega
  have hd : decide (base > 30) = false := decide_eq_false hb
  simp only [encode_smpte_timecode, if_neg hz, if_neg hb, hd, Bool.and_false,
    Bool.false_and, Bool.false_eq_true, if_false]
  refine ⟨_, _, rfl, ?_, ?_, hf.2.2.1, hf.2.2.2⟩
  · simp; omega
  · simp only [decode_smpte_timecode, if_neg hz, hrate, if_neg hb, List.append_eq,
      List.cons_append, List.nil_append, hf.1, hf.2.1, hs.1, hm.1, hh.1]

/-- C17 (witness): 23:59:58;29 at 30000/1001 with the drop-frame flag. -/
theorem smpte_timecode_round_trip_witness :
    get_rounded_tc_base ⟨30000, 1001⟩ = 30 ∧
    ∃ b0 rest, encode_smpte_timecode ⟨30, true, 23, 59, 58, 29, 2589377⟩ true 4
        = some (b0 :: rest) ∧
      (b0 :: rest).length = 4 ∧
      decode_smpte_timecode ⟨30000, 1001⟩ (b0 :: rest) 4
        = some { frame_rate := ⟨30000, 1001⟩, drop_frame := true, hour := 23, min := 59,
                 sec := 58, frame := 29, field_mark := false } ∧
      b0 % 64 = bcd 29 ∧ b0 / 64 = (if true = true then 1 else 0) :=
  ⟨by decide, smpte_timecode_round_trip ⟨30, true, 23, 59, 58, 29, 2589377⟩ true 4 ⟨30000, 1001⟩
    (by decide) (by decide) (by decide) (by decide) (by decide) (by decide) (by decide)⟩

/-- C18: for a timecode with rounded base 50 or 60, frame below the base, hour below 24 and
minute and second below 60, `encode_smpte_timecode` with `field_mark = true` stores
`frame / 2` as the binary-coded decimal frame count and sets the field-mark flag, bit 7 of
byte 3 for base 50 and bit 7 of byte 1 for base 60 (the other of the two bits stays clear),
exactly when the frame is odd; `decode_smpte_timecode`, given a frame rate of the same rounded
base, takes from these bytes the same hour, minute and second, the frame `2 * (frame / 2)` and
`field_mark = true` exactly when the frame was odd, so that the decoded frame plus the field
mark is the original frame. -/
theorem smpte_timecode_field_mark (timecode : Timecode) (size : Nat) (frame_rate : Rational)
    (hsize : 4 ≤ size)
    (hbase : timecode.GetRoundedTCBase = 50 ∨ timecode.GetRoundedTCBase = 60)
    (hrate : get_rounded_tc_base frame_rate = timecode.GetRoundedTCBase)
    (hhour : timecode.GetHour < 24) (hmin : timecode.GetMin < 60)
    (hsec : timecode.GetSec < 60) (hframe : timecode.GetFrame < timecode.GetRoundedTCBase) :
    ∃ b0 b1 b2 b3 rest,
      encode_smpte_timecode timecode true size = some (b0 :: b1 :: b2 :: b3 :: rest) ∧
      b0 % 64 = bcd (timecode.GetFrame / 2) ∧
      b3 / 128 = (if timecode.GetRoundedTCBase = 50 ∧ timecode.GetFrame % 2 = 1 then 1 else 0) ∧
      b1 / 128 = (if timecode.GetRoundedTCBase = 60 ∧ timecode.GetFrame % 2 = 1 then 1 else 0) ∧
      decode_smpte_timecode frame_rate (b0 :: b1 :: b2 :: b3 :: rest) size
        = some { frame_rate := frame_rate, drop_frame := timecode.IsDropFrame,
                 hour := timecode.GetHour, min := timecode.GetMin, sec := timecode.GetSec,
                 frame := 2 * (timecode.GetFrame / 2),
                 field_mark := decide (timecode.GetFrame % 2 = 1) } ∧
      2 * (timecode.GetFrame / 2) + (if timecode.GetFrame % 2 = 1 then 1 else 0)
        = timecode.GetFrame := by
  obtain ⟨base, d, h, m, s, f, _⟩ := timecode
  simp only at hbase hrate hhour hmin hsec hframe ⊢
  have hf := frame_byte (f / 2) (by omega) d
  have hm := sixty_byte m hmin false
  simp only [Bool.false_eq_true, if_false] at hm
  have hb : base > 30 := by omega
  have hz : ¬ size < 4 := by omega
  have hd : decide (base > 30) = true := decide_eq_true hb
  simp only [encode_smpte_timecode, if_neg hz, if_pos hb, hd, Bool.and_true, Bool.true_and]
  refine ⟨_, _, _, _, _, rfl, hf.2.2.1, ?_, ?_, ?_, by split <;> omega⟩
  · have hh := hour_byte h hhour (decide (f % 2 = 1) && base == 50)
    rw [hh.2.2.2]
    rcases hbase with hbase | hbase <;> subst hbase <;> by_cases hodd : f % 2 = 1 <;> simp [hodd]
  · have hs := sixty_byte s hsec (decide (f % 2 = 1) && base == 60)
    rw [hs.2.2.2]
    rcases hbase with hbase | hbase <;> subst hbase <;> by_cases hodd : f % 2 = 1 <;> simp [hodd]
  · have hh := hour_byte h hhour (decide (f % 2 = 1) && base == 50)
    have hs := sixty_byte s hsec (decide (f % 2 = 1) && base == 60)
    have hb2 : get_rounded_tc_base frame_rate > 30 := by omega
    simp only [decode_smpte_timecode, if_neg hz, if_pos hb2, hrate, hf.1, hf.2.1, hs.1,
      hs.2.1, hm.1, hh.1, hh.2.1]
    rcases hbase with hbase | hbase <;> subst hbase <;> by_cases hodd : f % 2 = 1 <;>
      simp [hodd, Nat.mul_comm]

/-- C18 (witness): frame 49 of second 58 at 50 frames per second: the count 24 is stored and
the field mark set in byte 3. -/
theorem smpte_timecode_field_mark_witness :
    get_rounded_tc_base ⟨50, 1⟩ = 50 ∧
    ∃ b0 b1 b2 b3 rest,
      encode_smpte_timecode ⟨50, false, 23, 59, 58, 49, 4319949⟩ true 4
        = some (b0 :: b1 :: b2 :: b3 :: rest) ∧
      b0 % 64 = bcd (49 / 2) ∧
      b3 / 128 = (if 50 = 50 ∧ 49 % 2 = 1 then 1 else 0) ∧
      b1 / 128 = (if 50 = 60 ∧ 49 % 2 = 1 then 1 else 0) ∧
      decode_smpte_timecode ⟨50, 1⟩ (b0 :: b1 :: b2 :: b3 :: rest) 4
        = some { frame_rate := ⟨50, 1⟩, drop_frame := false, hour := 23, min := 59, sec := 58,
                 frame := 2 * (49 / 2), field_mark := decide (49 % 2 = 1) } ∧
      2 * (49 / 2) + (if 49 % 2 = 1 then 1 else 0) = 49 :=
  ⟨by decide, smpte_timecode_field_mark ⟨50, false, 23, 59, 58, 49, 4319949⟩ 4 ⟨50, 1⟩
    (by decide) (by decide) (by decide) (by decide) (by decide) (by decide) (by decide)⟩

/-! ## Theorems: AS02Track offsets and durations -/

theorem wrap64_of_isInt64 (x : Int) (h : isInt64 x) : wrap64 x = x := by
  unfold isInt64 at h
  unfold wrap64
  omega

theorem wrap64_add_wrap64 (a b : Int) : wrap64 (wrap64 a + b) = wrap64 (a + b) := by
  unfold wrap64
  omega

/-- C19 (amended): in a track state with 64-bit container duration and end offset, when
`container_duration - output_start_offset + output_end_offset` is representable in 64 bits,
`GetOutputDuration(false)` returns that value if it is `>= 0` and fails otherwise; every value
it returns is `>= 0`; it fails when `container_duration == 0`, `output_end_offset < 0`,
`output_start_offset >= 0` and the sum is representable.  `GetDuration` returns
`container_duration + output_end_offset` if that is `>= 0` and fails otherwise whenever the sum
is representable, which it is for `container_duration >= 0` and `output_end_offset <= 0`; it
fails whenever `container_duration == 0` and `output_end_offset < 0`. -/
theorem output_duration_check (t : AS02Track)
    (hc : isInt64 t.mContainerDuration) (he : isInt64 t.mOutputEndOffset) :
    (isInt64 (t.mContainerDuration - t.mOutputStartOffset + t.mOutputEndOffset) →
      t.GetOutputDuration false =
        if 0 ≤ t.mContainerDuration - t.mOutputStartOffset + t.mOutputEndOffset
        then some (t.mContainerDuration - t.mOutputStartOffset + t.mOutputEndOffset)
        else none) ∧
    (∀ v, t.GetOutputDuration false = some v → 0 ≤ v) ∧
    (t.mContainerDuration = 0 → t.mOutputEndOffset < 0 → 0 ≤ t.mOutputStartOffset →
      isInt64 (t.mContainerDuration - t.mOutputStartOffset + t.mOutputEndOffset) →
      t.GetOutputDuration false = none) ∧
    (isInt64 (t.mContainerDuration + t.mOutputEndOffset) →
      t.GetDuration =
        if 0 ≤ t.mContainerDuration + t.mOutputEndOffset
        then some (t.mContainerDuration + t.mOutputEndOffset) else none) ∧
    (0 ≤ t.mContainerDuration → t.mOutputEndOffset ≤ 0 →
      isInt64 (t.mContainerDuration + t.mOutputEndOffset)) ∧
    (∀ v, t.GetDuration = some v → 0 ≤ v) ∧
    (t.mContainerDuration = 0 → t.mOutputEndOffset < 0 → t.GetDuration = none) := by
  have hout : ∀ h : isInt64 (t.mContainerDuration - t.mOutputStartOffset + t.mOutputEndOffset),
      t.GetOutputDuration false =
        if 0 ≤ t.mContainerDuration - t.mOutputStartOffset + t.mOutputEndOffset
        then some (t.mContainerDuration - t.mOutputStartOffset + t.mOutputEndOffset)
        else none := by
    intro h
    simp only [AS02Track.GetOutputDuration, add64, sub64, wrap64_add_wrap64,
      wrap64_of_isInt64 _ h, ge_iff_le, Bool.false_eq_true, if_false]
  have hdur : ∀ h : isInt64 (t.mContainerDuration + t.mOutputEndOffset),
      t.GetDuration =
        if 0 ≤ t.mContainerDuration + t.mOutputEndOffset
        then some (t.mContainerDuration + t.mOutputEndOffset) else none := by
    intro h
    simp only [AS02Track.GetDuration, add64, wrap64_of_isInt64 _ h, ge_iff_le]
  refine ⟨hout, ?_, ?_, hdur, ?_, ?_, ?_⟩
  · intro v hv
    simp only [AS02Track.GetOutputDuration, Bool.false_eq_true, if_false] at hv
    split at hv
    · injection hv with hv; omega
    · exact absurd hv (by simp)
  · intro h0 h1 h2 h
    rw [hout h, if_neg (by omega)]
  · intro h0 h1
    unfold isInt64 at hc he ⊢
    omega
  · intro v hv
    simp only [AS02Track.GetDuration] at hv
    split at hv
    · injection hv with hv; omega
    · exact absurd hv (by simp)
  · intro h0 h1
    have h : isInt64 (t.mContainerDuration + t.mOutputEndOffset) := by
      unfold isInt64 at he ⊢
      omega
    rw [hdur h, if_neg (by omega)]

/-- C19 (witness): 100 samples written, start offset 10 and end offset -20: the output
duration is 70 and the duration is 80. -/
theorem output_duration_check_witness :
    (AS02Track.mk 100 10 (-20) ⟨25, 1⟩ ⟨25, 1⟩).GetOutputDuration false = some 70 ∧
    (AS02Track.mk 100 10 (-20) ⟨25, 1⟩ ⟨25, 1⟩).GetDuration = some 80 := by
  have h := output_duration_check (AS02Track.mk 100 10 (-20) ⟨25, 1⟩ ⟨25, 1⟩)
    (by decide) (by decide)
  exact ⟨(h.1 (by decide)).trans (by decide), (h.2.2.2.1 (by decide)).trans (by decide)⟩

/-- C19 (counterexample): after `SetOutputStartOffset(2^63 - 1)` and
`SetOutputEndOffset(-2^63)` on a new track, container duration minus start offset plus end
offset is `-(2^64 - 1)`, which is negative, yet the 64-bit sum is 1 and
`GetOutputDuration(false)` returns 1. -/
theorem output_duration_check_counterexample :
    ((AS02Track.new ⟨25, 1⟩ ⟨25, 1⟩).run
      [OffsetCall.SetOutputStartOffset (2 ^ 63 - 1), OffsetCall.SetOutputEndOffset (-2 ^ 63)])
      = AS02Track.mk 0 (2 ^ 63 - 1) (-2 ^ 63) ⟨25, 1⟩ ⟨25, 1⟩ ∧
    (0 : Int) - (2 ^ 63 - 1) + (-2 ^ 63) < 0 ∧
    (AS02Track.mk 0 (2 ^ 63 - 1) (-2 ^ 63) ⟨25, 1⟩ ⟨25, 1⟩).GetOutputDuration false
      = some 1 := by
  refine ⟨by decide, by decide, by decide⟩

/-- C20: `SetOutputStartOffset(o)` returns, with the start offset set to `o` and the end
offset untouched, when `o >= 0` and throws otherwise; `SetOutputEndOffset(o)` returns, with the
end offset set to `o` and the start offset untouched, when `o <= 0` and throws otherwise; a
call that throws leaves the track as it was; and after any sequence of such calls on a newly
constructed track the start offset is `>= 0` and the end offset is `<= 0`. -/
theorem offset_invariant (t : AS02Track) (o : Int) (sample_rate clip_frame_rate : Rational)
    (calls : List OffsetCall) :
    ((∃ t1, t.SetOutputStartOffset o = Outcome.ok t1) ↔ 0 ≤ o) ∧
    ((∃ t1, t.SetOutputEndOffset o = Outcome.ok t1) ↔ o ≤ 0) ∧
    (∀ t1, t.SetOutputStartOffset o = Outcome.ok t1 →
      t1.mOutputStartOffset = o ∧ t1.mOutputEndOffset = t.mOutputEndOffset) ∧
    (∀ t1, t.SetOutputEndOffset o = Outcome.ok t1 →
      t1.mOutputEndOffset = o ∧ t1.mOutputStartOffset = t.mOutputStartOffset) ∧
    (¬ 0 ≤ o → t.SetOutputStartOffset o = Outcome.thrown Failure.offset_nonneg t) ∧
    (¬ o ≤ 0 → t.SetOutputEndOffset o = Outcome.thrown Failure.offset_nonpos t) ∧
    0 ≤ ((AS02Track.new sample_rate clip_frame_rate).run calls).mOutputStartOffset ∧
    ((AS02Track.new sample_rate clip_frame_rate).run calls).mOutputEndOffset ≤ 0 := by
  have inv : ∀ (cs : List OffsetCall) (s : AS02Track),
      0 ≤ s.mOutputStartOffset ∧ s.mOutputEndOffset ≤ 0 →
      0 ≤ (s.run cs).mOutputStartOffset ∧ (s.run cs).mOutputEndOffset ≤ 0 := by
    intro cs
    induction cs with
    | nil => intro s hs; exact hs
    | cons c rest ih =>
      intro s hs
      cases c with
      | SetOutputStartOffset off =>
        simp only [AS02Track.run, AS02Track.call, AS02Track.SetOutputStartOffset]
        by_cases h : off ≥ 0
        · rw [if_pos h]; exact ih _ ⟨h, hs.2⟩
        · rw [if_neg h]; exact ih _ hs
      | SetOutputEndOffset off =>
        simp only [AS02Track.run, AS02Track.call, AS02Track.SetOutputEndOffset]
        by_cases h : off ≤ 0
        · rw [if_pos h]; exact ih _ ⟨hs.1, h⟩
        · rw [if_neg h]; exact ih _ hs
  have hfinal := inv calls (AS02Track.new sample_rate clip_frame_rate)
    ⟨le_refl _, le_refl _⟩
  refine ⟨?_, ?_, ?_, ?_, ?_, ?_, hfinal.1, hfinal.2⟩
  · unfold AS02Track.SetOutputStartOffset
    by_cases h : o ≥ 0
    · rw [if_pos h]; exact ⟨fun _ => h, fun _ => ⟨_, rfl⟩⟩
    · rw [if_neg h]; exact ⟨fun ⟨_, h1⟩ => absurd h1 (by simp), fun h1 => absurd h1 h⟩
  · unfold AS02Track.SetOutputEndOffset
    by_cases h : o ≤ 0
    · rw [if_pos h]; exact ⟨fun _ => h, fun _ => ⟨_, rfl⟩⟩
    · rw [if_neg h]; exact ⟨fun ⟨_, h1⟩ => absurd h1 (by simp), fun h1 => absurd h1 h⟩
  · intro t1 h1
    unfold AS02Track.SetOutputStartOffset at h1
    split at h1
    · injection h1 with h1; subst h1; exact ⟨rfl, rfl⟩
    · exact absurd h1 (by simp)
  · intro t1 h1
    unfold AS02Track.SetOutputEndOffset at h1
    split at h1
    · injection h1 with h1; subst h1; exact ⟨rfl, rfl⟩
    · exact absurd h1 (by simp)
  · intro h
    unfold AS02Track.SetOutputStartOffset
    rw [if_neg h]
  · intro h
    unfold AS02Track.SetOutputEndOffset
    rw [if_neg h]
/-! ## Theorems: preparation of the index table -/

theorem orderedInsert_pictures_first (e : OP1AIndexTableElement)
    (l : List OP1AIndexTableElement) :
    List.orderedInsert (fun a b => compare_element b a = false) e
        (l.filter (fun x => x.is_picture) ++ l.filter (fun x => !x.is_picture))
      = (e :: l).filter (fun x => x.is_picture) ++ (e :: l).filter (fun x => !x.is_picture) := by
  cases hp : e.is_picture with
  | true =>
    simp only [List.filter_cons, hp, if_true, Bool.not_true, Bool.false_eq_true, if_false,
      List.cons_append]
    cases h : (l.filter (fun x => x.is_picture) ++ l.filter (fun x => !x.is_picture)) with
    | nil => rfl
    | cons x rest =>
      simp only [List.orderedInsert]
      rw [if_pos]
      simp [compare_element, hp]
  | false =>
    simp only [List.filter_cons, hp, Bool.false_eq_true, if_false, Bool.not_false, if_true]
    have hpics : ∀ x ∈ l.filter (fun x => x.is_picture), x.is_picture = true := by
      intro x hx
      simpa using (List.mem_filter.mp hx).2
    have hsnd : ∀ x ∈ l.filter (fun x => !x.is_picture), x.is_picture = false := by
      intro x hx
      simpa using (List.mem_filter.mp hx).2
    generalize l.filter (fun x => x.is_picture) = P at hpics
    generalize l.filter (fun x => !x.is_picture) = S at hsnd
    induction P with
    | nil =>
      cases S with
      | nil => rfl
      | cons s rest =>
        simp only [List.nil_append, List.orderedInsert]
        rw [if_pos]
        simp [compare_element, hsnd s (List.mem_cons_self _ _)]
    | cons p rest ih =>
      simp only [List.cons_append, List.orderedInsert]
      rw [if_neg]
      · have := ih (fun x hx => hpics x (List.mem_cons_of_mem _ hx))
        simp only [List.append_eq] at this ⊢
        rw [this]
      · simp [compare_element, hp, hpics p (List.mem_cons_self _ _)]

/-- The stable sort of `PrepareWrite` puts the picture elements first and keeps the order
within the picture elements and within the sound elements. -/
theorem stable_sort_pictures_first (l : List OP1AIndexTableElement) :
    stable_sort compare_element l
      = l.filter (fun x => x.is_picture) ++ l.filter (fun x => !x.is_picture) := by
  induction l with
  | nil => rfl
  | cons e rest ih =>
    unfold stable_sort at ih ⊢
    rw [List.insertionSort, ih]
    exact orderedInsert_pictures_first e rest

theorem assignSliceOffsets_clear (b : Bool) (sc es : Nat) (l : List OP1AIndexTableElement) :
    (assignSliceOffsets b sc es l).1.map (fun e => { e with slice_offset := 0 })
      = l.map (fun e => { e with slice_offset := 0 }) := by
  induction l generalizing b sc es with
  | nil => rfl
  | cons e rest ih => simp [assignSliceOffsets, ih]

theorem assignSliceOffsets_last (b : Bool) (sc es : Nat) (l : List OP1AIndexTableElement) :
    (assignSliceOffsets b sc es l).2.1
      = (match (assignSliceOffsets b sc es l).1.getLast? with
         | some e => e.slice_offset
         | none => sc) := by
  induction l generalizing b sc es with
  | nil => rfl
  | cons e rest ih =>
    simp only [assignSliceOffsets]
    rw [ih]
    cases hr : (assignSliceOffsets (!e.is_cbe) (if b = true then wrapU8 (sc + 1) else sc)
        (if b = true then wrapU32 (es + 4) else es) rest).1 with
    | nil => simp
    | cons x xs =>
      obtain ⟨y, hy⟩ : ∃ y, (x :: xs).getLast? = some y :=
        ⟨_, List.getLast?_eq_getLast _ (List.cons_ne_nil _ _)⟩
      simp [List.getLast?_cons_cons, hy]

theorem vbeBefore_zero (l : List OP1AIndexTableElement) : vbeBefore l 0 = 0 := by
  simp [vbeBefore]

theorem vbeBefore_succ (e : OP1AIndexTableElement) (l : List OP1AIndexTableElement) (i : Nat) :
    vbeBefore (e :: l) (i + 1) = (if e.is_cbe then 0 else 1) + vbeBefore l i := by
  simp only [vbeBefore, List.take_succ_cons, List.filter_cons]
  cases e.is_cbe
  · simp; omega
  · simp

theorem assignSliceOffsets_offsets (b : Bool) (sc es : Nat) (l : List OP1AIndexTableElement)
    (h : sc + countSlices b l ≤ 255) (i : Nat) (e : OP1AIndexTableElement)
    (he : (assignSliceOffsets b sc es l).1[i]? = some e) :
    e.slice_offset = sc + (if b then 1 else 0) + vbeBefore (assignSliceOffsets b sc es l).1 i := by
  induction l generalizing b sc es i with
  | nil => simp [assignSliceOffsets] at he
  | cons x rest ih =>
    simp only [countSlices] at h
    simp only [assignSliceOffsets] at he ⊢
    have e1 : (if b = true then wrapU8 (sc + 1) else sc) = sc + (if b = true then 1 else 0) := by
      cases b with
      | true => simp only [if_true, wrapU8] at h ⊢; omega
      | false => simp
    rw [e1] at he ⊢
    cases i with
    | zero =>
      simp only [List.getElem?_cons_zero, Option.some.injEq] at he
      subst he
      simp [vbeBefore_zero]
    | succ j =>
      simp only [List.getElem?_cons_succ] at he
      have := ih (!x.is_cbe) (sc + (if b = true then 1 else 0)) _ (by omega) j he
      rw [this, vbeBefore_succ]
      cases x.is_cbe
      · simp; omega
      · simp

theorem assignSliceOffsets_all_cbe (sc es : Nat) (l : List OP1AIndexTableElement)
    (h : ∀ e ∈ l, e.is_cbe = true) : (assignSliceOffsets false sc es l).2.1 = sc := by
  induction l generalizing sc es with
  | nil => rfl
  | cons e rest ih =>
    simp only [assignSliceOffsets, Bool.false_eq_true, if_false]
    rw [h e (List.mem_cons_self _ _)]
    exact ih sc es (fun x hx => h x (List.mem_cons_of_mem _ hx))

/-- What the registration calls maintain: a table that is still CBE holds only CBE elements,
and no element has a slice offset yet. -/
theorem registered_spec (sid bsid : Nat) (rate : Rational) (regs : List Registration) :
    ((registered sid bsid rate regs).mIsCBE = true →
      ∀ e ∈ (registered sid bsid rate regs).mIndexElements, e.is_cbe = true) ∧
    (∀ e ∈ (registered sid bsid rate regs).mIndexElements, e.slice_offset = 0) := by
  unfold registered
  have key : ∀ (rs : List Registration) (t : OP1AIndexTable),
      ((t.mIsCBE = true → ∀ e ∈ t.mIndexElements, e.is_cbe = true) ∧
        (∀ e ∈ t.mIndexElements, e.slice_offset = 0)) →
      (((rs.foldl OP1AIndexTable.register t).mIsCBE = true →
          ∀ e ∈ (rs.foldl OP1AIndexTable.register t).mIndexElements, e.is_cbe = true) ∧
        (∀ e ∈ (rs.foldl OP1AIndexTable.register t).mIndexElements, e.slice_offset = 0)) := by
    intro rs
    induction rs with
    | nil => intro t ht; exact ht
    | cons r rest ih =>
      intro t ht
      simp only [List.foldl_cons]
      apply ih
      cases r with
      | picture track cbe reorder =>
        simp only [OP1AIndexTable.register, OP1AIndexTable.RegisterPictureTrackElement,
          OP1AIndexTable.pushElement, Bool.and_eq_true, List.mem_append, List.mem_singleton]
        refine ⟨?_, ?_⟩
        · rintro ⟨h1, h2⟩ e (he | he)
          · exact ht.1 h1 e he
          · subst he; exact h2
        · rintro e (he | he)
          · exact ht.2 e he
          · subst he; rfl
      | avci track =>
        simp only [OP1AIndexTable.register, OP1AIndexTable.RegisterAVCITrackElement,
          OP1AIndexTable.pushElement, List.mem_append, List.mem_singleton]
        refine ⟨?_, ?_⟩
        · rintro h1 e (he | he)
          · exact ht.1 h1 e he
          · subst he; rfl
        · rintro e (he | he)
          · exact ht.2 e he
          · subst he; rfl
      | sound track =>
        simp only [OP1AIndexTable.register, OP1AIndexTable.RegisterSoundTrackElement,
          OP1AIndexTable.pushElement, List.mem_append, List.mem_singleton]
        refine ⟨?_, ?_⟩
        · rintro h1 e (he | he)
          · exact ht.1 h1 e he
          · subst he; rfl
        · rintro e (he | he)
          · exact ht.2 e he
          · subst he; rfl
  exact key regs _ ⟨by intro _ e he; simp [OP1AIndexTable.new] at he,
    by intro e he; simp [OP1AIndexTable.new] at he⟩

theorem clear_slice_offset_of_zero (l : List OP1AIndexTableElement)
    (h : ∀ e ∈ l, e.slice_offset = 0) :
    l.map (fun e => { e with slice_offset := 0 }) = l := by
  induction l with
  | nil => rfl
  | cons e rest ih =>
    have h0 := h e (List.mem_cons_self _ _)
    simp only [List.map_cons, ih (fun x hx => h x (List.mem_cons_of_mem _ hx))]
    congr 1
    cases e
    simp only at h0
    subst h0
    rfl

/-- C13 (amended): after any sequence of registration calls `PrepareWrite` returns (its
assertion that a CBE table has slice count 0 holds); the elements are the picture elements in
registration order followed by the sound elements in registration order; `slice_count` is the
slice offset of the last element (0 without elements); and when there are at most 255 slices
(VBE elements followed by another element), element `i` has the slice offset equal to the
number of VBE elements among the elements `0 .. i-1` and the entry size is
`11 + 4 * slice_count`. -/
theorem prepare_write_spec (sid bsid : Nat) (rate : Rational) (regs : List Registration) :
    ∃ t0, prepared sid bsid rate regs = Outcome.ok t0 ∧
      t0.mIndexElements.map (fun e => { e with slice_offset := 0 })
        = (registered sid bsid rate regs).mIndexElements.filter (fun e => e.is_picture) ++
          (registered sid bsid rate regs).mIndexElements.filter (fun e => !e.is_picture) ∧
      t0.mSliceCount = (match t0.mIndexElements.getLast? with
                        | some e => e.slice_offset
                        | none => 0) ∧
      (countSlices false t0.mIndexElements ≤ 255 →
        (∀ i e, t0.mIndexElements[i]? = some e → e.slice_offset = vbeBefore t0.mIndexElements i) ∧
        t0.mIndexEntrySize = 11 + 4 * t0.mSliceCount) := by
  obtain ⟨hcbe, hzero⟩ := registered_spec sid bsid rate regs
  have hprep : prepared sid bsid rate regs = (registered sid bsid rate regs).PrepareWrite := rfl
  rw [hprep]
  generalize registered sid bsid rate regs = T at hcbe hzero ⊢
  unfold OP1AIndexTable.PrepareWrite
  rw [stable_sort_pictures_first]
  generalize hl : T.mIndexElements.filter (fun e => e.is_picture) ++
    T.mIndexElements.filter (fun e => !e.is_picture) = l
  have hmem : ∀ e ∈ l, e ∈ T.mIndexElements := by
    intro e he
    rw [← hl] at he
    rcases List.mem_append.mp he with h | h
    · exact (List.mem_filter.mp h).1
    · exact (List.mem_filter.mp h).1
  have hno : (T.mIsCBE && (assignSliceOffsets false 0 11 l).2.1 != 0) = false := by
    cases hc : T.mIsCBE with
    | false => rfl
    | true =>
      rw [assignSliceOffsets_all_cbe 0 11 l (fun e he => hcbe hc e (hmem e he))]
      rfl
  simp only [hno, Bool.false_eq_true, if_false]
  refine ⟨_, rfl, ?_, ?_, ?_⟩
  · simp only
    rw [assignSliceOffsets_clear]
    exact clear_slice_offset_of_zero l (fun e he => hzero e (hmem e he))
  · simp only
    exact assignSliceOffsets_last false 0 11 l
  · simp only
    intro hc
    have hcongr := countSlices_congr false l _ (assignSliceOffsets_is_cbe false 0 11 l)
    rw [hcongr] at hc
    refine ⟨?_, ?_⟩
    · intro i e he
      have := assignSliceOffsets_offsets false 0 11 l (by omega) i e he
      simpa using this
    · obtain ⟨a, b, -⟩ := assignSliceOffsets_spec false 0 11 l (by omega) (by omega)
      rw [a, b]
      omega

/-- C13 (witness): a sound track registered before two VBE picture tracks: the pictures come
first, the slice offsets are 0, 1, 2, the slice count is 2 and the entry size 19. -/
theorem prepare_write_spec_witness :
    ∃ t0, prepared 1 2 ⟨25, 1⟩
        [Registration.sound 2, Registration.picture 0 false true,
          Registration.picture 1 false false] = Outcome.ok t0 ∧
      t0.mIndexElements.map (fun e => (e.track_index, e.is_picture, e.slice_offset))
        = [(0, true, 0), (1, true, 1), (2, false, 2)] ∧
      (t0.mSliceCount, t0.mIndexEntrySize) = (2, 19) ∧
      countSlices false t0.mIndexElements ≤ 255 ∧
      (∀ i e, t0.mIndexElements[i]? = some e → e.slice_offset = vbeBefore t0.mIndexElements i) ∧
      t0.mIndexEntrySize = 11 + 4 * t0.mSliceCount := by
  obtain ⟨t1, h0, -, -, h3⟩ := prepare_write_spec 1 2 ⟨25, 1⟩
    [Registration.sound 2, Registration.picture 0 false true,
      Registration.picture 1 false false]
  refine ⟨_, rfl, by decide, by decide, by decide, ?_⟩
  have ht : Outcome.ok _ = Outcome.ok t1 := h0
  injection ht with ht
  subst ht
  exact h3 (by decide)

set_option maxRecDepth 1000000 in
/-- C13 (counterexample): with 257 VBE picture elements the last element (index 256) has 256
VBE elements before it but the slice offset 0, and the entry size is 1035 while
`11 + 4 * slice_count` is 11. -/
theorem prepare_write_spec_counterexample :
    ((prepared 1 2 ⟨25, 1⟩
        ((List.range 257).map (fun i => Registration.picture i false false))).state.map
      (fun t0 => (t0.mIndexElements[256]?.map (fun e => e.slice_offset),
        vbeBefore t0.mIndexElements 256, t0.mSliceCount, t0.mIndexEntrySize,
        11 + 4 * t0.mSliceCount)))
      = some (some 0, 256, 0, 1035, 11) := by
  decide!

/-! ### What a call leaves alone -/

theorem sameFrame_refl {β : Type} (g : OP1AIndexTableElement → β) (t : OP1AIndexTable) :
    sameFrame g t t := ⟨rfl, fun _ => rfl, rfl, rfl⟩

theorem sameFrame_trans {β : Type} {g : OP1AIndexTableElement → β} {a b c : OP1AIndexTable}
    (h1 : sameFrame g a b) (h2 : sameFrame g b c) : sameFrame g a c :=
  ⟨h2.1.trans h1.1, fun h => (h2.2.1 (h1.1.trans h)).trans (h1.2.1 h),
    h2.2.2.1.trans h1.2.2.1, h2.2.2.2.trans h1.2.2.2⟩

theorem replaceElement_map {β : Type} (g : OP1AIndexTableElement → β)
    (e e1 : OP1AIndexTableElement) (l : List OP1AIndexTableElement)
    (id : Nat) (hf : l.find? (fun x => x.object_id == id) = some e)
    (hid : e1.object_id = id) (hg : g e1 = g e) :
    (replaceElement e1 l).map g = l.map g := by
  induction l with
  | nil => rfl
  | cons x rest ih =>
    simp only [replaceElement]
    by_cases hx : x.object_id = id
    · have hb : (x.object_id == id) = true := by simp [hx]
      have : x = e := by
        simp only [List.find?_cons, hb] at hf
        exact Option.some.inj hf
      subst this
      rw [if_pos (by rw [hx, hid])]
      simp [hg]
    · have hb : (x.object_id == id) = false := by simp [hx]
      have hf2 : rest.find? (fun x => x.object_id == id) = some e := by
        simp only [List.find?_cons, hb] at hf
        exact hf
      rw [if_neg (by rw [hid]; exact hx)]
      simp [ih hf2]

theorem sameFrame_storeElement {β : Type} (g : OP1AIndexTableElement → β) (t : OP1AIndexTable)
    (track : Nat) (e e1 : OP1AIndexTableElement)
    (hf : t.findElement track = some e) (hid : e1.object_id = e.object_id)
    (hg : g e1 = g e) : sameFrame g t (t.storeElement e1) := by
  refine ⟨rfl, fun _ => rfl, ?_, rfl⟩
  unfold OP1AIndexTable.findElement at hf
  split at hf
  · exact absurd hf (by simp)
  · rename_i id _
    have hid2 : e.object_id = id := by
      have := List.find?_some hf
      simpa using this
    exact replaceElement_map g e e1 _ id hf (hid.trans hid2) hg

theorem CacheIndexEntry_cache {e e1 : OP1AIndexTableElement} {p a b : Int} {f : Nat} {c : Bool}
    (h : e.CacheIndexEntry p a b f c = Outcome.ok e1) :
    e.mIndexEntryCache.length ≤ MAX_CACHE_ENTRIES ∧
    e1 = { e with
      mIndexEntryCache := cacheSet p (OP1AIndexEntry.mk a b f c) e.mIndexEntryCache } := by
  unfold OP1AIndexTableElement.CacheIndexEntry at h
  split at h
  · rename_i hle
    injection h with h
    exact ⟨hle, h.symm⟩
  · exact absurd h (by simp)

theorem Element_UpdateIndexEntry_cache {e e1 : OP1AIndexTableElement} {p a : Int}
    (h : e.UpdateIndexEntry p a = Outcome.ok e1) :
    ∃ x, cacheFind p e.mIndexEntryCache = some x ∧
      e1 = { e with
        mIndexEntryCache :=
          cacheSet p { x with temporal_offset := a } e.mIndexEntryCache } := by
  unfold OP1AIndexTableElement.UpdateIndexEntry at h
  split at h
  · exact absurd h (by simp)
  · rename_i x hx
    injection h with h
    exact ⟨x, hx, h.symm⟩

theorem sameFrame_AddIndexEntry {β : Type} (g : OP1AIndexTableElement → β)
    (hc : ∀ e c, g { e with mIndexEntryCache := c } = g e)
    (t t1 : OP1AIndexTable) (track : Nat) (p tmp k : Int) (f : Nat)
    (c : Bool) (h : (t.AddIndexEntry track p tmp k f c).state = some t1) :
    sameFrame g t t1 ∧ t1.mDuration = t.mDuration := by
  unfold OP1AIndexTable.AddIndexEntry at h
  split at h
  · simp [Outcome.state] at h; subst h; exact ⟨sameFrame_refl g t, rfl⟩
  split at h
  · simp [Outcome.state] at h; subst h; exact ⟨sameFrame_refl g t, rfl⟩
  split at h
  · simp [Outcome.state] at h; subst h; exact ⟨sameFrame_refl g t, rfl⟩
  split at h
  · simp [Outcome.state] at h
  rename_i e hfe
  split at h
  · rename_i e1 he
    simp [Outcome.state] at h; subst h
    refine ⟨sameFrame_storeElement g t track e _ hfe (CacheIndexEntry_ok he).1 ?_, rfl⟩
    rw [(CacheIndexEntry_cache he).2]
    exact hc e _
  · rename_i e1 he
    simp [Outcome.state] at h; subst h
    rw [CacheIndexEntry_thrown he]
    exact ⟨sameFrame_storeElement g t track e _ hfe rfl rfl, rfl⟩
  · simp [Outcome.state] at h

theorem sameFrame_UpdateIndexEntry {β : Type} (g : OP1AIndexTableElement → β)
    (hc : ∀ e c, g { e with mIndexEntryCache := c } = g e)
    (t t1 : OP1AIndexTable) (track : Nat) (p tmp : Int)
    (h : (t.UpdateIndexEntry track p tmp).state = some t1) :
    sameFrame g t t1 ∧ t1.mDuration = t.mDuration := by
  unfold OP1AIndexTable.UpdateIndexEntry at h
  split at h
  · simp [Outcome.state] at h; subst h; exact ⟨sameFrame_refl g t, rfl⟩
  split at h
  · simp [Outcome.state] at h; subst h; exact ⟨sameFrame_refl g t, rfl⟩
  split at h
  · simp [Outcome.state] at h; subst h; exact ⟨sameFrame_refl g t, rfl⟩
  split at h
  · split at h
    · simp [Outcome.state] at h
    rename_i e hfe
    split at h
    · rename_i e1 he
      simp [Outcome.state] at h; subst h
      refine ⟨sameFrame_storeElement g t track e _ hfe (Element_UpdateIndexEntry_ok he).1 ?_,
        rfl⟩
      obtain ⟨x, -, hx⟩ := Element_UpdateIndexEntry_cache he
      rw [hx]
      exact hc e _
    · rename_i e1 he
      simp [Outcome.state] at h; subst h
      rw [Element_UpdateIndexEntry_thrown he]
      exact ⟨sameFrame_storeElement g t track e _ hfe rfl rfl, rfl⟩
    · simp [Outcome.state] at h
  · split at h
    · simp [Outcome.state] at h
    split at h
    · simp [Outcome.state] at h
    split at h
    · simp [Outcome.state] at h
    split at h
    · simp [Outcome.state] at h; subst h; exact ⟨⟨rfl, fun _ => rfl, rfl, rfl⟩, rfl⟩
    · simp [Outcome.state] at h; subst h; exact ⟨⟨rfl, fun _ => rfl, rfl, rfl⟩, rfl⟩
    · simp [Outcome.state] at h

theorem sameFrame_onFirstSegment {β : Type} (g : OP1AIndexTableElement → β)
    (t t1 : OP1AIndexTable) (f : OP1AIndexTableSegment → Outcome OP1AIndexTableSegment)
    (h : (t.onFirstSegment f).state = some t1) :
    sameFrame g t t1 ∧ t1.mDuration = t.mDuration := by
  unfold OP1AIndexTable.onFirstSegment at h
  split at h
  · simp [Outcome.state] at h
  split at h
  · simp [Outcome.state] at h; subst h; exact ⟨⟨rfl, fun _ => rfl, rfl, rfl⟩, rfl⟩
  · simp [Outcome.state] at h; subst h; exact ⟨⟨rfl, fun _ => rfl, rfl, rfl⟩, rfl⟩
  · simp [Outcome.state] at h

theorem createDeltaEntries_map {β : Type} (g : OP1AIndexTableElement → β)
    (hs : ∀ e s, g { e with element_size := s } = g e)
    (prev delta : Nat) (l : List OP1AIndexTableElement) (sizes : List Nat) :
    (createDeltaEntries prev delta l sizes).2.map g = l.map g := by
  induction l generalizing prev delta sizes with
  | nil => simp [createDeltaEntries]
  | cons e rest ih =>
    cases sizes with
    | nil => simp [createDeltaEntries]
    | cons sz sizes =>
      simp only [createDeltaEntries, List.map_cons, ih]
      split
      · rw [hs]
      · rfl

theorem TakeIndexEntry_map {β : Type} (g : OP1AIndexTableElement → β)
    (hc : ∀ e c, g { e with mIndexEntryCache := c } = g e)
    (e : OP1AIndexTableElement) (d : Int) : g (e.TakeIndexEntry d).2 = g e := by
  unfold OP1AIndexTableElement.TakeIndexEntry
  split
  · rfl
  · exact hc e _

theorem takeIndexEntries_map {β : Type} (g : OP1AIndexTableElement → β)
    (hc : ∀ e c, g { e with mIndexEntryCache := c } = g e)
    (d : Int) (l : List OP1AIndexTableElement) (sizes : List Nat) (st : VBELoopState) :
    (takeIndexEntries d l sizes st).1.map g = l.map g := by
  induction l generalizing sizes st with
  | nil => simp [takeIndexEntries]
  | cons e rest ih =>
    cases sizes with
    | nil => simp [takeIndexEntries]
    | cons sz sizes =>
      simp only [takeIndexEntries]
      split
      · split
        · simp [ih, TakeIndexEntry_map g hc]
        · simp [TakeIndexEntry_map g hc]
      · simp [ih, TakeIndexEntry_map g hc]

theorem stepFrame_updateDeltaEntries {β : Type} (g : OP1AIndexTableElement → β)
    (t t1 : OP1AIndexTable) (sizes : List Nat)
    (h : (t.updateDeltaEntries sizes).state = some t1) :
    stepFrame g t t1 ∧ t1.mDuration = t.mDuration := by
  unfold OP1AIndexTable.updateDeltaEntries at h
  split at h
  · rename_i hcr
    have hcr2 : createsDeltaEntries t := hcr
    have key : (∀ e s, g { e with element_size := s } = g e) ∨ ¬ createsDeltaEntries t →
        (createDeltaEntries 0 0 t.mIndexElements sizes).2.map g = t.mIndexElements.map g := by
      rintro (hs | hn)
      · exact createDeltaEntries_map g hs 0 0 t.mIndexElements sizes
      · exact absurd hcr2 hn
    simp only at h
    by_cases hcbe : t.mIsCBE = true
    · simp only [hcbe, if_true] at h
      repeat' split at h
      all_goals
        simp [Outcome.state] at h <;> subst h <;>
          exact ⟨⟨by simp [hcbe], le_refl _, by simp, fun hv => by simp [hcbe] at hv, key,
            fun hn => absurd hcr2 hn⟩, rfl⟩
    · simp only [hcbe, Bool.false_eq_true, if_false] at h
      simp [Outcome.state] at h
      subst h
      exact ⟨⟨by simpa using hcbe, le_refl _, by simp, fun _ => rfl, key,
        fun hn => absurd hcr2 hn⟩, rfl⟩
  · split at h <;> simp [Outcome.state] at h <;> subst h <;>
      exact ⟨⟨rfl, le_refl _, by simp, fun _ => rfl, fun _ => rfl, fun _ => rfl⟩, rfl⟩

theorem frame_updateCBE {β : Type} (g : OP1AIndexTableElement → β)
    (t t1 : OP1AIndexTable) (size : Nat) (sizes : List Nat)
    (h : (t.updateCBE size sizes).state = some t1) :
    t1.mIsCBE = t.mIsCBE ∧ t1.mIndexElements.map g = t.mIndexElements.map g ∧
    t1.mDeltaEntries = t.mDeltaEntries ∧ t1.mDuration = t.mDuration := by
  unfold OP1AIndexTable.updateCBE at h
  split at h
  · split at h
    · obtain ⟨⟨a, -, c, d⟩, e⟩ := sameFrame_onFirstSegment g _ _ _ h
      exact ⟨a, c, d, e⟩
    · simp [Outcome.state] at h; subst h; exact ⟨rfl, rfl, rfl, rfl⟩
    · simp [Outcome.state] at h
  · simp only at h
    split at h
    · rcases andThen_state h with ⟨e, h1⟩ | ⟨t2, h1, h2⟩
      · obtain ⟨⟨a, -, c, d⟩, e⟩ := sameFrame_onFirstSegment g _ t1 _ (by rw [h1]; rfl)
        exact ⟨a, c, d, e⟩
      · obtain ⟨⟨a, -, c, d⟩, e⟩ := sameFrame_onFirstSegment g _ t2 _ (by rw [h1]; rfl)
        obtain ⟨⟨a2, -, c2, d2⟩, e2⟩ := sameFrame_onFirstSegment g _ _ _ h2
        exact ⟨a2.trans a, c2.trans c, d2.trans d, e2.trans e⟩
    · obtain ⟨⟨a, -, c, d⟩, e⟩ := sameFrame_onFirstSegment g _ _ _ h
      exact ⟨a, c, d, e⟩

theorem openSegment_frame (t : OP1AIndexTable) (c : Bool) :
    (t.openSegment c).mIsCBE = t.mIsCBE ∧
    (t.openSegment c).mAVCIFirstIndexSegment = t.mAVCIFirstIndexSegment ∧
    (t.openSegment c).mIndexElements = t.mIndexElements ∧
    (t.openSegment c).mDeltaEntries = t.mDeltaEntries ∧
    (t.openSegment c).mDuration = t.mDuration := by
  unfold OP1AIndexTable.openSegment
  split
  · exact ⟨rfl, rfl, rfl, rfl, rfl⟩
  · split <;> exact ⟨rfl, rfl, rfl, rfl, rfl⟩

theorem sameFrame_updateVBE {β : Type} (g : OP1AIndexTableElement → β)
    (hc : ∀ e c, g { e with mIndexEntryCache := c } = g e)
    (t t1 : OP1AIndexTable) (sizes : List Nat)
    (h : (t.updateVBE sizes).state = some t1) :
    sameFrame g t t1 ∧ t1.mDuration = t.mDuration := by
  unfold OP1AIndexTable.updateVBE at h
  have key := takeIndexEntries_map g hc t.mDuration t.mIndexElements sizes
    { slice_cp_offset := 0, slice_cp_offsets := [], prev_slice_offset := 0,
      entry := OP1AIndexEntry.new }
  split at h
  · simp [Outcome.state] at h; subst h; exact ⟨sameFrame_refl g t, rfl⟩
  · simp only at h
    split at h
    · simp [Outcome.state] at h; subst h; exact ⟨⟨rfl, fun _ => rfl, key, rfl⟩, rfl⟩
    · split at h
      · simp [Outcome.state] at h
      · obtain ⟨o1, o2, o3, o4, o5⟩ := openSegment_frame
          { t with mIndexElements := (takeIndexEntries t.mDuration t.mIndexElements sizes
            { slice_cp_offset := 0, slice_cp_offsets := [], prev_slice_offset := 0,
              entry := OP1AIndexEntry.new }).1 } (by assumption)
        split at h
        · simp [Outcome.state] at h; subst h
          exact ⟨⟨o1, fun _ => o2, by simp only [o3]; exact key, o4⟩, o5⟩
        · simp [Outcome.state] at h; subst h
          exact ⟨⟨o1, fun _ => o2, by simp only [o3]; exact key, o4⟩, o5⟩
        · simp [Outcome.state] at h

theorem stepFrame_refl {β : Type} (g : OP1AIndexTableElement → β) (t : OP1AIndexTable) :
    stepFrame g t t := ⟨rfl, le_refl _, by omega, fun _ => rfl, fun _ => rfl, fun _ => rfl⟩

theorem stepFrame_of_sameFrame {β : Type} {g : OP1AIndexTableElement → β}
    {t t1 : OP1AIndexTable} (h : sameFrame g t t1 ∧ t1.mDuration = t.mDuration) :
    stepFrame g t t1 :=
  ⟨h.1.1, by rw [h.2], by rw [h.2]; omega, h.1.2.1, fun _ => h.1.2.2.1, fun _ => h.1.2.2.2⟩

theorem stepFrame_then {β : Type} {g : OP1AIndexTableElement → β} {a b c : OP1AIndexTable}
    (h1 : stepFrame g a b ∧ b.mDuration = a.mDuration)
    (h2 : sameFrame g b c ∧ c.mDuration = b.mDuration) :
    stepFrame g a c ∧ c.mDuration = a.mDuration := by
  obtain ⟨⟨a1, -, -, a4, a5, a6⟩, a7⟩ := h1
  obtain ⟨⟨b1, b2, b3, b4⟩, b5⟩ := h2
  refine ⟨⟨b1.trans a1, by rw [b5, a7], by rw [b5, a7]; omega, ?_, ?_, ?_⟩, b5.trans a7⟩
  · intro hv
    exact (b2 (a1.trans hv)).trans (a4 hv)
  · intro hcond
    exact b3.trans (a5 hcond)
  · intro hn
    exact b4.trans (a6 hn)

theorem stepFrame_UpdateIndex {β : Type} (g : OP1AIndexTableElement → β)
    (hc : ∀ e c, g { e with mIndexEntryCache := c } = g e)
    (t t1 : OP1AIndexTable) (size : Nat) (sizes : List Nat)
    (h : (t.UpdateIndex size sizes).state = some t1) : stepFrame g t t1 := by
  unfold OP1AIndexTable.UpdateIndex at h
  split at h
  · simp [Outcome.state] at h; subst h; exact stepFrame_refl g t
  have branch : ∀ t2 t3 : OP1AIndexTable,
      (if t2.mIsCBE = true then t2.updateCBE size sizes else t2.updateVBE sizes).state = some t3 →
      sameFrame g t2 t3 ∧ t3.mDuration = t2.mDuration := by
    intro t2 t3 h3
    by_cases hcbe : t2.mIsCBE = true
    · rw [if_pos hcbe] at h3
      obtain ⟨a, b, c, d⟩ := frame_updateCBE g t2 t3 size sizes h3
      exact ⟨⟨a, fun hv => by rw [hcbe] at hv; exact absurd hv (by simp), b, c⟩, d⟩
    · rw [if_neg hcbe] at h3; exact sameFrame_updateVBE g hc t2 t3 sizes h3
  rcases andThen_state h with ⟨e, h1⟩ | ⟨t3, h1, h2⟩
  · rcases andThen_state (show (Outcome.andThen _ _).state = some t1 by rw [h1]; rfl) with
      ⟨e2, h3⟩ | ⟨t2, h3, h4⟩
    · exact (stepFrame_updateDeltaEntries g t t1 sizes (by rw [h3]; rfl)).1
    · exact (stepFrame_then (stepFrame_updateDeltaEntries g t t2 sizes (by rw [h3]; rfl))
        (branch t2 t1 h4)).1
  · simp [Outcome.state] at h2; subst h2
    have h13 : stepFrame g t t3 ∧ t3.mDuration = t.mDuration := by
      rcases andThen_state (show (Outcome.andThen _ _).state = some t3 by rw [h1]; rfl) with
        ⟨e2, h3⟩ | ⟨t2, h3, h4⟩
      · exact stepFrame_updateDeltaEntries g t t3 sizes (by rw [h3]; rfl)
      · exact stepFrame_then (stepFrame_updateDeltaEntries g t t2 sizes (by rw [h3]; rfl))
          (branch t2 t3 h4)
    obtain ⟨⟨a1, -, -, a4, a5, a6⟩, a7⟩ := h13
    exact ⟨a1, by simp only [a7]; omega, by simp only [a7]; omega, a4, a5, a6⟩

theorem stepFrame_call {β : Type} (g : OP1AIndexTableElement → β)
    (hc : ∀ e c, g { e with mIndexEntryCache := c } = g e)
    (t t1 : OP1AIndexTable) (c : Call) (h : (t.call c).state = some t1) :
    stepFrame g t t1 := by
  cases c with
  | AddIndexEntry a b c d e f =>
    exact stepFrame_of_sameFrame (sameFrame_AddIndexEntry g hc t t1 a b c d e f h)
  | UpdateIndexEntry a b c =>
    exact stepFrame_of_sameFrame (sameFrame_UpdateIndexEntry g hc t t1 a b c h)
  | UpdateIndex a b => exact stepFrame_UpdateIndex g hc t t1 a b h

/-- No call changes whether an element is CBE, nor whether the table is. -/
theorem run_is_cbe (t t1 : OP1AIndexTable) (calls : List Call) (h : t.run calls = some t1) :
    t1.mIsCBE = t.mIsCBE ∧
    t1.mIndexElements.map (fun e => e.is_cbe) = t.mIndexElements.map (fun e => e.is_cbe) := by
  induction calls generalizing t with
  | nil => simp [OP1AIndexTable.run] at h; subst h; exact ⟨rfl, rfl⟩
  | cons c rest ih =>
    simp only [OP1AIndexTable.run] at h
    split at h
    · exact absurd h (by simp)
    · rename_i t2 h2
      obtain ⟨a1, -, -, -, a5, -⟩ :=
        stepFrame_call (fun e => e.is_cbe) (fun _ _ => rfl) t t2 c h2
      obtain ⟨b1, b2⟩ := ih t2 h
      exact ⟨b1.trans a1, b2.trans (a5 (Or.inl (fun _ _ => rfl)))⟩

/-! ### CanStartPartition -/

theorem Element_CanStartPartition_true (e : OP1AIndexTableElement) (d : Int) :
    e.CanStartPartition d = some true ↔
      (e.is_cbe = false →
        ∃ x, cacheFind d e.mIndexEntryCache = some x ∧ x.can_start_partition = true) := by
  unfold OP1AIndexTableElement.CanStartPartition
  cases hc : e.is_cbe with
  | true => simp
  | false =>
    simp only [Bool.false_eq_true, if_false, forall_const]
    cases hf : cacheFind d e.mIndexEntryCache with
    | none => simp
    | some x => simp

theorem Element_CanStartPartition_some (e : OP1AIndexTableElement) (d : Int)
    (h : e.is_cbe = false → ∃ x, cacheFind d e.mIndexEntryCache = some x) :
    ∃ b, e.CanStartPartition d = some b := by
  unfold OP1AIndexTableElement.CanStartPartition
  cases hc : e.is_cbe with
  | true => exact ⟨true, by simp⟩
  | false =>
    obtain ⟨x, hx⟩ := h hc
    exact ⟨x.can_start_partition, by simp [hx]⟩

theorem canStartPartitionLoop_true (d : Int) (l : List OP1AIndexTableElement) :
    canStartPartitionLoop d l = some true ↔
      ∀ e ∈ l, e.is_cbe = false →
        ∃ x, cacheFind d e.mIndexEntryCache = some x ∧ x.can_start_partition = true := by
  induction l with
  | nil => simp [canStartPartitionLoop]
  | cons e rest ih =>
    simp only [canStartPartitionLoop, List.mem_cons, forall_eq_or_imp]
    rw [← ih, ← Element_CanStartPartition_true e d]
    cases h : e.CanStartPartition d with
    | none => simp
    | some b => cases b <;> simp

theorem canStartPartitionLoop_some (d : Int) (l : List OP1AIndexTableElement)
    (h : ∀ e ∈ l, e.is_cbe = false → ∃ x, cacheFind d e.mIndexEntryCache = some x) :
    ∃ b, canStartPartitionLoop d l = some b := by
  induction l with
  | nil => exact ⟨true, rfl⟩
  | cons e rest ih =>
    obtain ⟨b, hb⟩ := Element_CanStartPartition_some e d (h e (List.mem_cons_self _ _))
    obtain ⟨b2, hb2⟩ := ih (fun x hx => h x (List.mem_cons_of_mem _ hx))
    simp only [canStartPartitionLoop, hb]
    cases b with
    | true => exact ⟨b2, hb2⟩
    | false => exact ⟨false, rfl⟩

/-- A table that `PrepareWrite` leaves CBE holds only CBE elements. -/
theorem prepared_is_cbe (sid bsid : Nat) (rate : Rational) (regs : List Registration)
    (t0 : OP1AIndexTable) (h : prepared sid bsid rate regs = Outcome.ok t0)
    (hcbe : t0.mIsCBE = true) : ∀ e ∈ t0.mIndexElements, e.is_cbe = true := by
  obtain ⟨hreg, -⟩ := registered_spec sid bsid rate regs
  have hprep : prepared sid bsid rate regs = (registered sid bsid rate regs).PrepareWrite := rfl
  rw [hprep] at h
  generalize registered sid bsid rate regs = T at hreg h
  unfold OP1AIndexTable.PrepareWrite at h
  rw [stable_sort_pictures_first] at h
  simp only at h
  split at h
  · exact absurd h (by simp)
  · injection h with h
    subst h
    simp only at hcbe ⊢
    intro e he
    have hmap := assignSliceOffsets_is_cbe false 0 11
      (T.mIndexElements.filter (fun e => e.is_picture) ++
        T.mIndexElements.filter (fun e => !e.is_picture))
    have : e.is_cbe ∈ (assignSliceOffsets false 0 11
        (T.mIndexElements.filter (fun e => e.is_picture) ++
          T.mIndexElements.filter (fun e => !e.is_picture))).1.map (fun x => x.is_cbe) :=
      List.mem_map_of_mem _ he
    rw [hmap] at this
    obtain ⟨x, hx, hxe⟩ := List.mem_map.mp this
    rw [← hxe]
    apply hreg hcbe
    rcases List.mem_append.mp hx with hm | hm
    · exact (List.mem_filter.mp hm).1
    · exact (List.mem_filter.mp hm).1

/-- C15: in every state that a table reaches from the registration calls, with or without
`PrepareWrite`, by any sequence of calls, `CanStartPartition` returns true iff every VBE
element has a cached entry at the current duration that is marked `can_start_partition` (CBE
elements play no part); it returns a value whenever every VBE element has a cached entry at
the current duration; and it returns true for a CBE table. -/
theorem can_start_partition_spec (sid bsid : Nat) (rate : Rational) (regs : List Registration)
    (t0 t : OP1AIndexTable) (calls : List Call)
    (hstart : t0 = registered sid bsid rate regs ∨ prepared sid bsid rate regs = Outcome.ok t0)
    (hrun : t0.run calls = some t) :
    (t.CanStartPartition = some true ↔
      ∀ e ∈ t.mIndexElements, e.is_cbe = false →
        ∃ x, cacheFind t.mDuration e.mIndexEntryCache = some x ∧
          x.can_start_partition = true) ∧
    ((∀ e ∈ t.mIndexElements, e.is_cbe = false →
        ∃ x, cacheFind t.mDuration e.mIndexEntryCache = some x) →
      ∃ b, t.CanStartPartition = some b) ∧
    (t.mIsCBE = true → t.CanStartPartition = some true) := by
  have h0 : t0.mIsCBE = true → ∀ e ∈ t0.mIndexElements, e.is_cbe = true := by
    rcases hstart with h | h
    · subst h; exact (registered_spec sid bsid rate regs).1
    · exact prepared_is_cbe sid bsid rate regs t0 h
  obtain ⟨r1, r2⟩ := run_is_cbe t0 t calls hrun
  have hall : t.mIsCBE = true → ∀ e ∈ t.mIndexElements, e.is_cbe = true := by
    intro hc e he
    have : e.is_cbe ∈ t.mIndexElements.map (fun x => x.is_cbe) := List.mem_map_of_mem _ he
    rw [r2] at this
    obtain ⟨x, hx, hxe⟩ := List.mem_map.mp this
    rw [← hxe]
    exact h0 (r1 ▸ hc) x hx
  unfold OP1AIndexTable.CanStartPartition
  by_cases hc : t.mIsCBE = true
  · simp only [hc, if_true, true_iff, forall_const, and_true]
    refine ⟨?_, fun _ => ⟨true, rfl⟩⟩
    intro e he hv
    rw [hall hc e he] at hv
    exact absurd hv (by simp)
  · simp only [hc, Bool.false_eq_true, if_false, false_implies, and_true]
    exact ⟨canStartPartitionLoop_true _ _, canStartPartitionLoop_some _ _⟩

/-- C15 (witness): a VBE picture track and a sound track; with the picture's entry at
position 0 cached and marked, `CanStartPartition` returns true. -/
theorem can_start_partition_spec_witness :
    prepared 1 2 ⟨25, 1⟩ [Registration.sound 1, Registration.picture 0 false true]
      = Outcome.ok pictureSoundTable ∧
    ∃ t, pictureSoundTable.run [Call.AddIndexEntry 0 0 0 0 0 true] = some t ∧
      (∀ e ∈ t.mIndexElements, e.is_cbe = false →
        ∃ x, cacheFind t.mDuration e.mIndexEntryCache = some x ∧
          x.can_start_partition = true) ∧
      t.CanStartPartition = some true := by
  refine ⟨by decide, _, rfl, ?_, by decide⟩
  exact (can_start_partition_spec 1 2 ⟨25, 1⟩
    [Registration.sound 1, Registration.picture 0 false true] pictureSoundTable _
    [Call.AddIndexEntry 0 0 0 0 0 true] (Or.inr (by decide)) rfl).1.mp (by decide)

/-! ### The size of an entry cache -/

theorem cacheSet_append (p : Int) (x : OP1AIndexEntry) (l : List (Int × OP1AIndexEntry))
    (h : ∀ kv ∈ l, kv.1 < p) : cacheSet p x l = l ++ [(p, x)] := by
  induction l with
  | nil => rfl
  | cons kv rest ih =>
    obtain ⟨k, v⟩ := kv
    have hk : k < p := h (k, v) (List.mem_cons_self _ _)
    simp only [cacheSet, List.cons_append]
    rw [if_neg (by omega), if_neg (by omega), ih (fun y hy => h y (List.mem_cons_of_mem _ hy))]

theorem filledCache_succ (n : Nat) :
    cacheSet (n : Int) OP1AIndexEntry.new (filledCache n) = filledCache (n + 1) := by
  rw [cacheSet_append]
  · simp [filledCache, List.range_succ]
  · intro kv hkv
    simp only [filledCache, List.mem_map, List.mem_range] at hkv
    obtain ⟨i, hi, hkv⟩ := hkv
    subst hkv
    simp only
    omega

theorem cachedTable_step (n : Nat) (h : n ≤ 250) :
    (cachedTable n).AddIndexEntry 0 (n : Int) 0 0 0 true = Outcome.ok (cachedTable (n + 1)) := by
  have hlen : (filledCache n).length ≤ 250 := by simp [filledCache]; exact h
  have hs := filledCache_succ n
  simp only [OP1AIndexEntry.new] at hs
  simp [OP1AIndexTable.AddIndexEntry, cachedTable, elementsMapFind, List.lookup,
    OP1AIndexTable.findElement, OP1AIndexTableElement.CacheIndexEntry, MAX_CACHE_ENTRIES, hlen,
    OP1AIndexTable.storeElement, replaceElement, hs]

theorem cachedTable_calls (n : Nat) (h : n ≤ 251) :
    (cachedTable 0).runOk (cacheCalls n) = some (cachedTable n) := by
  induction n with
  | zero => rfl
  | succ k ih =>
    have e : cacheCalls (k + 1) = cacheCalls k ++ [Call.AddIndexEntry 0 (k : Int) 0 0 0 true] := by
      simp [cacheCalls, List.range_succ]
    rw [e, runOk_append, ih (by omega)]
    simp only [Option.some_bind, OP1AIndexTable.runOk, OP1AIndexTable.call]
    rw [cachedTable_step k (by omega)]

/-- C16 (the code at the failing input): on the prepared table of one VBE picture track, 251
calls of `AddIndexEntry` for the positions 0 to 250 all return: `CacheIndexEntry` checks
`size() <= MAX_CACHE_ENTRIES` before it inserts, so the element's cache then holds 251
entries, one more than `MAX_CACHE_ENTRIES`; only the next call fails the check. -/
theorem cache_exceeds_max :
    ∃ t0 t e,
      prepared 1 2 ⟨25, 1⟩ [Registration.picture 0 false false] = Outcome.ok t0 ∧
      t0.runOk (cacheCalls 251) = some t ∧
      t.mIndexElements = [e] ∧ e.mIndexEntryCache.length = 251 ∧
      MAX_CACHE_ENTRIES < e.mIndexEntryCache.length ∧
      t.AddIndexEntry 0 251 0 0 0 true = Outcome.thrown Failure.cache_size_le_max t := by
  refine ⟨cachedTable 0, cachedTable 251, _, by decide, cachedTable_calls 251 (by omega), rfl,
    ?_, ?_, ?_⟩
  · simp [filledCache]
  · simp [filledCache, MAX_CACHE_ENTRIES]
  · have hlen : ¬ (filledCache 251).length ≤ 250 := by simp [filledCache]
    simp [OP1AIndexTable.AddIndexEntry, cachedTable, elementsMapFind, List.lookup,
      OP1AIndexTable.findElement, OP1AIndexTableElement.CacheIndexEntry, MAX_CACHE_ENTRIES, hlen,
      OP1AIndexTable.storeElement, replaceElement]

/-! ### The delta entries -/

theorem sizeBeforeInSlice_zero (l : List OP1AIndexTableElement) (sizes : List Nat) (s : Nat) :
    sizeBeforeInSlice l sizes 0 s = 0 := by
  simp [sizeBeforeInSlice]

theorem sizeBeforeInSlice_succ (e : OP1AIndexTableElement) (l : List OP1AIndexTableElement)
    (sz : Nat) (sizes : List Nat) (i s : Nat) :
    sizeBeforeInSlice (e :: l) (sz :: sizes) (i + 1) s
      = (if e.slice_offset = s then sz else 0) + sizeBeforeInSlice l sizes i s := by
  simp only [sizeBeforeInSlice, List.zip_cons_cons, List.take_succ_cons, List.filter_cons]
  by_cases h : e.slice_offset = s
  · simp [h]
  · simp [h]

theorem createDeltaEntries_entries (prev delta : Nat) (l : List OP1AIndexTableElement)
    (sizes : List Nat) (hlen : sizes.length = l.length) (hd : delta < 4294967296)
    (hsorted : List.Pairwise (fun a b => a ≤ b) (prev :: l.map (fun e => e.slice_offset))) :
    (createDeltaEntries prev delta l sizes).1.length = l.length ∧
    ∀ (i : Nat) (e : OP1AIndexTableElement), l[i]? = some e →
      (createDeltaEntries prev delta l sizes).1[i]? = some
        (OP1ADeltaEntry.mk (if e.apply_temporal_reordering then -1 else 0) e.slice_offset
          (wrapU32 ((if e.slice_offset = prev then delta else 0) +
            sizeBeforeInSlice l sizes i e.slice_offset))) := by
  induction l generalizing prev delta sizes with
  | nil => simp [createDeltaEntries]
  | cons x rest ih =>
    cases sizes with
    | nil => simp at hlen
    | cons sz sizes =>
      simp only [List.length_cons, Nat.add_right_cancel_iff] at hlen
      simp only [List.map_cons, List.pairwise_cons] at hsorted
      obtain ⟨hprev, hx, hrest⟩ := hsorted
      have hnext : List.Pairwise (fun a b => a ≤ b)
          (x.slice_offset :: rest.map (fun e => e.slice_offset)) :=
        List.pairwise_cons.mpr ⟨hx, hrest⟩
      have hw : wrapU32 ((if x.slice_offset ≠ prev then 0 else delta) + sz) < 4294967296 := by
        simp only [wrapU32]; omega
      obtain ⟨ih1, ih2⟩ := ih x.slice_offset _ sizes hlen hw hnext
      simp only [createDeltaEntries, List.length_cons, ih1, true_and]
      intro i e he
      cases i with
      | zero =>
        simp only [List.getElem?_cons_zero, Option.some.injEq] at he
        subst he
        simp only [List.getElem?_cons_zero, sizeBeforeInSlice_zero, Nat.add_zero]
        congr 2
        by_cases hp : x.slice_offset = prev
        · simp only [hp, ne_eq, not_true_eq_false, if_false, if_true, wrapU32]; omega
        · simp [hp, wrapU32]
      | succ j =>
        simp only [List.getElem?_cons_succ] at he ⊢
        rw [ih2 j e he, sizeBeforeInSlice_succ]
        congr 2
        have hxe : x.slice_offset ≤ e.slice_offset :=
          hx _ (List.mem_map_of_mem _ (List.getElem?_mem he))
        have hpx : prev ≤ x.slice_offset := hprev _ (List.mem_cons_self _ _)
        by_cases h1 : e.slice_offset = x.slice_offset
        · rw [h1]
          simp only [if_true]
          by_cases hp : x.slice_offset = prev
          · simp only [hp, ne_eq, not_true_eq_false, if_false, if_true, wrapU32]; omega
          · simp only [hp, ne_eq, not_false_eq_true, if_true, if_false, wrapU32]; omega
        · have h2 : ¬ x.slice_offset = e.slice_offset := fun h => h1 h.symm
          have h3 : ¬ e.slice_offset = prev := by omega
          simp only [h1, h2, h3, if_false, Nat.zero_add]

theorem assignSliceOffsets_sorted (b : Bool) (sc es : Nat) (l : List OP1AIndexTableElement)
    (h : sc + countSlices b l ≤ 255) :
    List.Pairwise (fun a b => a ≤ b)
      (sc :: (assignSliceOffsets b sc es l).1.map (fun e => e.slice_offset)) := by
  induction l generalizing b sc es with
  | nil => simp [assignSliceOffsets]
  | cons x rest ih =>
    simp only [countSlices] at h
    have e1 : (if b = true then wrapU8 (sc + 1) else sc) = sc + (if b = true then 1 else 0) := by
      cases b with
      | true => simp only [if_true, wrapU8] at h ⊢; omega
      | false => simp
    simp only [assignSliceOffsets, List.map_cons, e1]
    have := ih (!x.is_cbe) (sc + (if b = true then 1 else 0))
      (if b = true then wrapU32 (es + 4) else es) (by omega)
    rw [List.pairwise_cons] at this ⊢
    refine ⟨?_, List.pairwise_cons.mpr this⟩
    intro y hy
    rcases List.mem_cons.mp hy with hy | hy
    · omega
    · have := this.1 y hy
      omega

theorem prepared_sorted (sid bsid : Nat) (rate : Rational) (regs : List Registration)
    (t0 : OP1AIndexTable) (h : prepared sid bsid rate regs = Outcome.ok t0)
    (hslices : countSlices false t0.mIndexElements ≤ 255) :
    List.Pairwise (fun a b => a ≤ b) (0 :: t0.mIndexElements.map (fun e => e.slice_offset)) := by
  unfold prepared OP1AIndexTable.PrepareWrite at h
  generalize List.foldl OP1AIndexTable.register (OP1AIndexTable.new sid bsid rate) regs = T at h
  simp only at h
  split at h
  · exact absurd h (by simp)
  · injection h with h
    subst h
    simp only at hslices ⊢
    generalize stable_sort compare_element T.mIndexElements = l at hslices ⊢
    rw [countSlices_congr false l _ (assignSliceOffsets_is_cbe false 0 11 l)] at hslices
    exact assignSliceOffsets_sorted false 0 11 l (by omega)

theorem prepared_offsets (sid bsid : Nat) (rate : Rational) (regs : List Registration)
    (t0 : OP1AIndexTable) (h : prepared sid bsid rate regs = Outcome.ok t0)
    (hslices : countSlices false t0.mIndexElements ≤ 255) (i : Nat) (e : OP1AIndexTableElement)
    (he : t0.mIndexElements[i]? = some e) : e.slice_offset = vbeBefore t0.mIndexElements i := by
  unfold prepared OP1AIndexTable.PrepareWrite at h
  generalize List.foldl OP1AIndexTable.register (OP1AIndexTable.new sid bsid rate) regs = T at h
  simp only at h
  split at h
  · exact absurd h (by simp)
  · injection h with h
    subst h
    simp only at hslices he ⊢
    generalize stable_sort compare_element T.mIndexElements = l at hslices he ⊢
    rw [countSlices_congr false l _ (assignSliceOffsets_is_cbe false 0 11 l)] at hslices
    have := assignSliceOffsets_offsets false 0 11 l (by omega) i e he
    simpa using this

theorem segments_updateDeltaEntries (t t1 : OP1AIndexTable) (sizes : List Nat)
    (hseg : t.mIndexSegments ≠ []) (h : (t.updateDeltaEntries sizes).state = some t1) :
    t1.mIndexSegments ≠ [] := by
  unfold OP1AIndexTable.updateDeltaEntries at h
  split at h
  · simp only at h
    repeat' split at h
    all_goals
      simp [Outcome.state] at h <;> subst h <;> first | exact hseg | simp
  · split at h <;> simp [Outcome.state] at h <;> subst h <;> exact hseg

theorem segments_onFirstSegment (t t1 : OP1AIndexTable)
    (f : OP1AIndexTableSegment → Outcome OP1AIndexTableSegment)
    (h : (t.onFirstSegment f).state = some t1) : t1.mIndexSegments ≠ [] := by
  unfold OP1AIndexTable.onFirstSegment at h
  split at h
  · simp [Outcome.state] at h
  split at h
  · simp [Outcome.state] at h; subst h; simp
  · simp [Outcome.state] at h; subst h; simp
  · simp [Outcome.state] at h

theorem segments_updateCBE (t t1 : OP1AIndexTable) (size : Nat) (sizes : List Nat)
    (hseg : t.mIndexSegments ≠ []) (h : (t.updateCBE size sizes).state = some t1) :
    t1.mIndexSegments ≠ [] := by
  unfold OP1AIndexTable.updateCBE at h
  split at h
  · split at h
    · exact segments_onFirstSegment _ _ _ h
    · simp [Outcome.state] at h; subst h; exact hseg
    · simp [Outcome.state] at h
  · simp only at h
    split at h
    · rcases andThen_state h with ⟨e, h1⟩ | ⟨t2, h1, h2⟩
      · exact segments_onFirstSegment _ t1 _ (by rw [h1]; rfl)
      · exact segments_onFirstSegment _ _ _ h2
    · exact segments_onFirstSegment _ _ _ h

theorem cbe_call_segments (t t1 : OP1AIndexTable) (c : Call) (hcbe : t.mIsCBE = true)
    (hseg : t.mIndexSegments ≠ []) (h : (t.call c).state = some t1) :
    t1.mIsCBE = true ∧ t1.mIndexSegments ≠ [] := by
  cases c with
  | AddIndexEntry a b c d e f =>
    simp [OP1AIndexTable.call, OP1AIndexTable.AddIndexEntry, hcbe, Outcome.state] at h
    subst h
    exact ⟨hcbe, hseg⟩
  | UpdateIndexEntry a b c =>
    simp [OP1AIndexTable.call, OP1AIndexTable.UpdateIndexEntry, hcbe, Outcome.state] at h
    subst h
    exact ⟨hcbe, hseg⟩
  | UpdateIndex size sizes =>
    have hk : t1.mIsCBE = true :=
      (stepFrame_UpdateIndex (fun _ => ()) (fun _ _ => rfl) t t1 size sizes h).1.trans hcbe
    refine ⟨hk, ?_⟩
    simp only [OP1AIndexTable.call] at h
    unfold OP1AIndexTable.UpdateIndex at h
    split at h
    · simp [Outcome.state] at h; subst h; exact hseg
    have branch : ∀ t2 t3 : OP1AIndexTable, t2.mIsCBE = true → t2.mIndexSegments ≠ [] →
        (if t2.mIsCBE = true then t2.updateCBE size sizes else t2.updateVBE sizes).state
          = some t3 → t3.mIndexSegments ≠ [] := by
      intro t2 t3 hc2 hs2 h3
      rw [if_pos hc2] at h3
      exact segments_updateCBE t2 t3 size sizes hs2 h3
    have hd : ∀ t2, (t.updateDeltaEntries sizes).state = some t2 →
        t2.mIsCBE = true ∧ t2.mIndexSegments ≠ [] := by
      intro t2 h2
      exact ⟨(stepFrame_updateDeltaEntries (fun _ => ()) t t2 sizes h2).1.1.trans hcbe,
        segments_updateDeltaEntries t t2 sizes hseg h2⟩
    rcases andThen_state h with ⟨e, h1⟩ | ⟨t3, h1, h2⟩
    · rcases andThen_state (show (Outcome.andThen _ _).state = some t1 by rw [h1]; rfl) with
        ⟨e2, h3⟩ | ⟨t2, h3, h4⟩
      · exact (hd t1 (by rw [h3]; rfl)).2
      · obtain ⟨x, y⟩ := hd t2 (by rw [h3]; rfl)
        exact branch t2 t1 x y h4
    · simp [Outcome.state] at h2; subst h2
      simp only
      rcases andThen_state (show (Outcome.andThen _ _).state = some t3 by rw [h1]; rfl) with
        ⟨e2, h3⟩ | ⟨t2, h3, h4⟩
      · exact (hd t3 (by rw [h3]; rfl)).2
      · obtain ⟨x, y⟩ := hd t2 (by rw [h3]; rfl)
        exact branch t2 t3 x y h4

/-- A prepared table keeps at least one segment, whatever is called on it. -/
theorem reachable_segments (sid bsid : Nat) (rate : Rational) (regs : List Registration)
    (t0 t : OP1AIndexTable) (calls : List Call)
    (hprep : prepared sid bsid rate regs = Outcome.ok t0) (hrun : t0.run calls = some t) :
    t.mIndexSegments ≠ [] := by
  cases hk : t0.mIsCBE with
  | false =>
    exact (VBEInvariant_run t0 t calls (prepared_spec sid bsid rate regs t0 hprep hk).1 hrun).nonempty
  | true =>
    obtain ⟨-, seg, hseg, -⟩ := prepared_segments sid bsid rate regs t0 hprep
    have h0 : t0.mIndexSegments ≠ [] := by rw [hseg]; simp
    clear hseg hprep
    induction calls generalizing t0 with
    | nil => simp [OP1AIndexTable.run] at hrun; subst hrun; exact h0
    | cons c rest ih =>
      simp only [OP1AIndexTable.run] at hrun
      split at hrun
      · exact absurd hrun (by simp)
      · rename_i t2 h2
        obtain ⟨a, b⟩ := cbe_call_segments t0 t2 c hk h0 h2
        exact ih t2 hrun a b

theorem updateDeltaEntries_creates (t : OP1AIndexTable) (sizes : List Nat)
    (hc : createsDeltaEntries t) (hseg : t.mIndexSegments ≠ []) :
    ∃ t1, t.updateDeltaEntries sizes = Outcome.ok t1 ∧
      t1.mDeltaEntries =
        (if singleZeroDeltaEntry (createDeltaEntries 0 0 t.mIndexElements sizes).1 then []
         else (createDeltaEntries 0 0 t.mIndexElements sizes).1) ∧
      t1.mIndexElements = (createDeltaEntries 0 0 t.mIndexElements sizes).2 := by
  unfold OP1AIndexTable.updateDeltaEntries
  have hc2 : t.mDuration = 0 ∨ (t.mAVCIFirstIndexSegment.isSome = true ∧ t.mDuration = 1) := hc
  rw [if_pos hc2]
  obtain ⟨s, rest, hs⟩ : ∃ s rest, t.mIndexSegments = s :: rest := by
    cases hl : t.mIndexSegments with
    | nil => exact absurd hl hseg
    | cons s rest => exact ⟨s, rest, rfl⟩
  simp only [hs]
  repeat' split
  all_goals exact ⟨_, rfl, rfl, rfl⟩

theorem UpdateIndex_deltaEntries (t t1 t2 : OP1AIndexTable) (size : Nat) (sizes : List Nat)
    (h1 : t.updateDeltaEntries sizes = Outcome.ok t1)
    (h : (t.UpdateIndex size sizes).state = some t2)
    (hlen : sizes.length = t.mIndexElements.length) :
    t2.mDeltaEntries = t1.mDeltaEntries := by
  unfold OP1AIndexTable.UpdateIndex at h
  rw [if_neg (by simp [hlen]), h1] at h
  have branch : ∀ t3 : OP1AIndexTable,
      (if t1.mIsCBE = true then t1.updateCBE size sizes else t1.updateVBE sizes).state = some t3 →
      t3.mDeltaEntries = t1.mDeltaEntries := by
    intro t3 h3
    by_cases hcbe : t1.mIsCBE = true
    · rw [if_pos hcbe] at h3
      exact (frame_updateCBE (fun _ => ()) t1 t3 size sizes h3).2.2.1
    · rw [if_neg hcbe] at h3
      exact (sameFrame_updateVBE (fun _ => ()) (fun _ _ => rfl) t1 t3 sizes h3).1.2.2.2
  rcases andThen_state h with ⟨e, h3⟩ | ⟨t3, h3, h4⟩
  · exact branch t2 (by simp only [Outcome.andThen] at h3; rw [h3]; rfl)
  · simp [Outcome.state] at h4
    subst h4
    exact branch t3 (by simp only [Outcome.andThen] at h3; rw [h3]; rfl)

theorem singleton_of_length_one {α : Type} (l : List α) (h : l.length = 1) : ∃ a, l = [a] := by
  match l, h with
  | [a], _ => exact ⟨a, rfl⟩

/-- C12 (amended): on a table prepared with at most 255 slices, before the first edit unit is
indexed (`mDuration = 0`), `UpdateIndex` with one size per element computes one delta entry per
element: entry `i` has `pos_table_index` -1 if element `i` applies temporal reordering and 0
otherwise, `slice` the slice offset of element `i`, and `element_delta` the sum, modulo `2^32`,
of the sizes of the preceding elements of the same slice.  The array is left empty if there is
a single element and it is without temporal reordering; it is empty only then or when there is
no element at all.  The rest of `UpdateIndex` does not change it. -/
theorem delta_entries_derivation (sid bsid : Nat) (rate : Rational) (regs : List Registration)
    (t0 t : OP1AIndexTable) (calls : List Call) (sizes : List Nat)
    (hprep : prepared sid bsid rate regs = Outcome.ok t0)
    (hslices : countSlices false t0.mIndexElements ≤ 255)
    (hrun : t0.run calls = some t) (hd : t.mDuration = 0)
    (hlen : sizes.length = t.mIndexElements.length) :
    ∃ t1 entries, t.updateDeltaEntries sizes = Outcome.ok t1 ∧
      entries.length = t.mIndexElements.length ∧
      (∀ (i : Nat) (e : OP1AIndexTableElement), t.mIndexElements[i]? = some e →
        entries[i]? = some { spec_delta_entry t.mIndexElements sizes i e with
          element_delta := wrapU32 (spec_delta_entry t.mIndexElements sizes i e).element_delta }) ∧
      ((∃ e, t.mIndexElements = [e] ∧ e.apply_temporal_reordering = false) →
        t1.mDeltaEntries = []) ∧
      (¬ (∃ e, t.mIndexElements = [e] ∧ e.apply_temporal_reordering = false) →
        t1.mDeltaEntries = entries) ∧
      (t1.mDeltaEntries = [] ↔
        (t.mIndexElements = [] ∨
          ∃ e, t.mIndexElements = [e] ∧ e.apply_temporal_reordering = false)) ∧
      (∀ size t2, (t.UpdateIndex size sizes).state = some t2 →
        t2.mDeltaEntries = t1.mDeltaEntries) := by
  have hseg := reachable_segments sid bsid rate regs t0 t calls hprep hrun
  obtain ⟨-, -, -, hmap⟩ := sameShape_run t0 t calls hrun
  have hsorted := prepared_sorted sid bsid rate regs t0 hprep hslices
  rw [← hmap] at hsorted
  obtain ⟨t1, h1, h2, -⟩ := updateDeltaEntries_creates t sizes (Or.inl hd) hseg
  obtain ⟨e1, e2⟩ := createDeltaEntries_entries 0 0 t.mIndexElements sizes hlen (by omega)
    hsorted
  generalize (createDeltaEntries 0 0 t.mIndexElements sizes).1 = E at h2 e1 e2
  have e3 : ∀ (i : Nat) (e : OP1AIndexTableElement), t.mIndexElements[i]? = some e →
      E[i]? = some { spec_delta_entry t.mIndexElements sizes i e with
        element_delta := wrapU32 (spec_delta_entry t.mIndexElements sizes i e).element_delta } := by
    intro i e he
    rw [e2 i e he]
    simp [spec_delta_entry]
  have hfirst : ∀ e, t.mIndexElements[0]? = some e → e.slice_offset = 0 := by
    intro e he
    have hm : (t.mIndexElements.map (fun x => x.slice_offset))[0]? = some e.slice_offset := by
      simp [List.getElem?_map, he]
    rw [hmap, List.getElem?_map] at hm
    cases h0 : t0.mIndexElements[0]? with
    | none => simp [h0] at hm
    | some e0 =>
      simp only [h0, Option.map_some', Option.some.injEq] at hm
      rw [← hm, prepared_offsets sid bsid rate regs t0 hprep hslices 0 e0 h0, vbeBefore_zero]
  have hsingle : singleZeroDeltaEntry E = true ↔
      ∃ e, t.mIndexElements = [e] ∧ e.apply_temporal_reordering = false := by
    constructor
    · intro hz
      obtain ⟨d, hE⟩ : ∃ d, E = [d] := by
        unfold singleZeroDeltaEntry at hz
        split at hz
        · exact ⟨_, rfl⟩
        · exact absurd hz (by simp)
      obtain ⟨e, he⟩ := singleton_of_length_one t.mIndexElements (by rw [← e1, hE]; rfl)
      refine ⟨e, he, ?_⟩
      have := e3 0 e (by rw [he]; rfl)
      rw [hE] at this hz
      simp only [List.getElem?_cons_zero, Option.some.injEq] at this
      rw [this] at hz
      simp only [singleZeroDeltaEntry, spec_delta_entry, Bool.and_eq_true, beq_iff_eq] at hz
      cases hr : e.apply_temporal_reordering with
      | false => rfl
      | true => simp [hr] at hz
    · rintro ⟨e, he, hr⟩
      obtain ⟨d, hE⟩ := singleton_of_length_one E (by rw [e1, he]; rfl)
      have := e3 0 e (by rw [he]; rfl)
      rw [hE] at this
      simp only [List.getElem?_cons_zero, Option.some.injEq] at this
      subst this
      rw [hE]
      have h0 := hfirst e (by rw [he]; rfl)
      simp [singleZeroDeltaEntry, spec_delta_entry, hr, h0, sizeBeforeInSlice_zero, wrapU32]
  refine ⟨t1, E, h1, e1, e3, ?_, ?_, ?_, ?_⟩
  · intro hs
    rw [h2, if_pos (hsingle.mpr hs)]
  · intro hs
    rw [h2, if_neg (fun hz => hs (hsingle.mp hz))]
  · rw [h2]
    constructor
    · intro hnil
      by_cases hz : singleZeroDeltaEntry E = true
      · exact Or.inr (hsingle.mp hz)
      · rw [if_neg hz] at hnil
        left
        apply List.eq_nil_of_length_eq_zero
        rw [← e1, hnil]
        rfl
    · rintro (hnil | hs)
      · have : E = [] := by
          apply List.eq_nil_of_length_eq_zero
          rw [e1, hnil]
          rfl
        rw [this]
        simp
      · rw [if_pos (hsingle.mpr hs)]
  · intro size t2 h
    exact UpdateIndex_deltaEntries t t1 t2 size sizes h1 h hlen

/-- C12 (witness): a VBE picture track with temporal reordering and two sound tracks, with the
element sizes 1000, 40 and 50: the picture is alone in slice 0, the sounds share slice 1, and
the second sound lies 40 bytes into that slice. -/
theorem delta_entries_derivation_witness :
    prepared 1 2 ⟨25, 1⟩
      [Registration.sound 1, Registration.sound 2, Registration.picture 0 false true]
      = Outcome.ok pictureTwoSoundsTable ∧
    ∃ t1, pictureTwoSoundsTable.updateDeltaEntries [1000, 40, 50] = Outcome.ok t1 ∧
      t1.mDeltaEntries = [⟨-1, 0, 0⟩, ⟨0, 1, 0⟩, ⟨0, 1, 40⟩] ∧
      (∀ (i : Nat) (e : OP1AIndexTableElement),
        pictureTwoSoundsTable.mIndexElements[i]? = some e →
        t1.mDeltaEntries[i]? = some
          { spec_delta_entry pictureTwoSoundsTable.mIndexElements [1000, 40, 50] i e with
            element_delta := wrapU32
              (spec_delta_entry pictureTwoSoundsTable.mIndexElements
                [1000, 40, 50] i e).element_delta }) := by
  obtain ⟨t1, entries, h1, -, he, -, hne, -, -⟩ := delta_entries_derivation 1 2 ⟨25, 1⟩
    [Registration.sound 1, Registration.sound 2, Registration.picture 0 false true]
    pictureTwoSoundsTable pictureTwoSoundsTable [] [1000, 40, 50]
    (by decide) (by decide) rfl (by decide) (by decide)
  have hcomp : pictureTwoSoundsTable.updateDeltaEntries [1000, 40, 50]
      = Outcome.ok { pictureTwoSoundsTable with
          mDeltaEntries := [⟨-1, 0, 0⟩, ⟨0, 1, 0⟩, ⟨0, 1, 40⟩],
          mIndexElements := [
            { object_id := 2, track_index := 0, is_picture := true, is_cbe := false,
              apply_temporal_reordering := true, slice_offset := 0, element_size := 0,
              mIndexEntryCache := [] },
            { object_id := 0, track_index := 1, is_picture := false, is_cbe := true,
              apply_temporal_reordering := false, slice_offset := 1, element_size := 40,
              mIndexEntryCache := [] },
            { object_id := 1, track_index := 2, is_picture := false, is_cbe := true,
              apply_temporal_reordering := false, slice_offset := 1, element_size := 50,
              mIndexEntryCache := [] }] } := by decide
  rw [hcomp] at h1
  injection h1 with h1
  refine ⟨by decide, t1, by rw [hcomp, h1], ?_, ?_⟩
  · rw [← h1]
  · rw [hne (by rintro ⟨e, he2, -⟩; simp [pictureTwoSoundsTable] at he2)]
    exact he

set_option maxRecDepth 1000000 in
/-- C12 (counterexample): (1) three sound elements of sizes `2^31`, `2^31`, 0 lie in slice 0;
the sizes before the third sum to `2^32`, its `element_delta` is 0.  (2) With 257 VBE picture
elements of size 1 the slice offset of the last element has wrapped to 0, the slice offset of
the first; the size of the first is not counted in the last element's `element_delta`, which
is 0.  (3) Without any element the array is empty although no entry was derived. -/
theorem delta_entries_derivation_counterexample :
    (((prepared 1 2 ⟨25, 1⟩
        [Registration.sound 0, Registration.sound 1, Registration.sound 2]).state.bind
      (fun t0 => (t0.updateDeltaEntries [2147483648, 2147483648, 0]).state)).map
      (fun t1 => (t1.mDeltaEntries.map (fun d => (d.slice, d.element_delta)),
        sizeBeforeInSlice t1.mIndexElements [2147483648, 2147483648, 0] 2 0)))
      = some ([(0, 0), (0, 2147483648), (0, 0)], 4294967296) ∧
    (((prepared 1 2 ⟨25, 1⟩
        ((List.range 257).map (fun i => Registration.picture i false false))).state.bind
      (fun t0 => (t0.updateDeltaEntries (List.replicate 257 1)).state)).map
      (fun t1 => (t1.mDeltaEntries[256]?.map (fun d => (d.slice, d.element_delta)),
        sizeBeforeInSlice t1.mIndexElements (List.replicate 257 1) 256 0)))
      = some (some (0, 0), 1) ∧
    (((prepared 1 2 ⟨25, 1⟩ []).state.bind
      (fun t0 => (t0.updateDeltaEntries []).state)).map
      (fun t1 => (t1.mDeltaEntries, t1.mIndexElements.length)))
      = some ([], 0) := by
  refine ⟨by decide, by decide!, by decide⟩

/-! ### The delta entries and the CBE element sizes after the first edit unit -/

theorem createDeltaEntries_sizes (prev delta : Nat) (l : List OP1AIndexTableElement)
    (sizes : List Nat) (hlen : sizes.length = l.length) (i : Nat) (e : OP1AIndexTableElement)
    (he : (createDeltaEntries prev delta l sizes).2[i]? = some e) (hcbe : e.is_cbe = true) :
    sizes[i]? = some e.element_size := by
  induction l generalizing prev delta sizes i with
  | nil => simp [createDeltaEntries] at he
  | cons x rest ih =>
    cases sizes with
    | nil => simp at hlen
    | cons sz sizes =>
      simp only [List.length_cons, Nat.add_right_cancel_iff] at hlen
      simp only [createDeltaEntries] at he
      cases i with
      | zero =>
        simp only [List.getElem?_cons_zero, Option.some.injEq] at he ⊢
        subst he
        by_cases hx : x.is_cbe = true
        · simp [hx]
        · simp [hx] at hcbe
      | succ j =>
        simp only [List.getElem?_cons_succ] at he ⊢
        exact ih _ _ sizes hlen j he

theorem elementSizesUnchanged_false (l : List OP1AIndexTableElement) (sizes : List Nat)
    (hlen : sizes.length = l.length) (i : Nat) (e : OP1AIndexTableElement)
    (he : l[i]? = some e) (hcbe : e.is_cbe = true) (hne : sizes[i]? ≠ some e.element_size) :
    elementSizesUnchanged l sizes = false := by
  induction l generalizing sizes i with
  | nil => simp at he
  | cons x rest ih =>
    cases sizes with
    | nil => simp at hlen
    | cons sz sizes =>
      simp only [List.length_cons, Nat.add_right_cancel_iff] at hlen
      simp only [elementSizesUnchanged]
      cases i with
      | zero =>
        simp only [List.getElem?_cons_zero, Option.some.injEq] at he hne
        subst he
        have : ¬ x.element_size = sz := fun h => hne (by rw [h])
        simp [hcbe, this]
      | succ j =>
        simp only [List.getElem?_cons_succ] at he hne
        rw [ih sizes hlen j he hne]
        simp

theorem updateDeltaEntries_creates_vbe (t : OP1AIndexTable) (sizes : List Nat)
    (hvbe : t.mIsCBE = false) (hc : createsDeltaEntries t) :
    ∃ t1, t.updateDeltaEntries sizes = Outcome.ok t1 ∧
      t1.mIndexElements = (createDeltaEntries 0 0 t.mIndexElements sizes).2 ∧
      t1.mIsCBE = false := by
  unfold OP1AIndexTable.updateDeltaEntries
  have hc2 : t.mDuration = 0 ∨ (t.mAVCIFirstIndexSegment.isSome = true ∧ t.mDuration = 1) := hc
  rw [if_pos hc2]
  simp only [hvbe, Bool.false_eq_true, if_false]
  exact ⟨_, rfl, rfl, rfl⟩

/-- After the first edit unit of a VBE table without first AVC-Intra segment was indexed, each
CBE element holds the size it had in that edit unit. -/
theorem first_UpdateIndex_sizes (t t1 : OP1AIndexTable) (size0 : Nat) (sizes0 : List Nat)
    (hvbe : t.mIsCBE = false) (hd : t.mDuration = 0)
    (h1 : t.UpdateIndex size0 sizes0 = Outcome.ok t1) (i : Nat) (e : OP1AIndexTableElement)
    (he : t1.mIndexElements[i]? = some e) (hcbe : e.is_cbe = true) :
    sizes0[i]? = some e.element_size := by
  have hlen : sizes0.length = t.mIndexElements.length := by
    by_contra hne
    unfold OP1AIndexTable.UpdateIndex at h1
    rw [if_pos hne] at h1
    exact absurd h1 (by simp)
  obtain ⟨ta, ha, hael, hak⟩ := updateDeltaEntries_creates_vbe t sizes0 hvbe (Or.inl hd)
  unfold OP1AIndexTable.UpdateIndex at h1
  rw [if_neg (by simp [hlen]), ha] at h1
  simp only [Outcome.andThen, hak, Bool.false_eq_true, if_false] at h1
  generalize hO : ta.updateVBE sizes0 = O at h1
  cases O with
  | ok tb =>
    simp only [Outcome.ok.injEq] at h1
    subst h1
    simp only at he
    have hf := (sameFrame_updateVBE (fun e => (e.is_cbe, e.element_size)) (fun _ _ => rfl)
      ta tb sizes0 (by rw [hO]; rfl)).1.2.2.1
    rw [hael] at hf
    have hm : (tb.mIndexElements.map (fun e => (e.is_cbe, e.element_size)))[i]?
        = some (e.is_cbe, e.element_size) := by
      simp [List.getElem?_map, he]
    rw [hf, List.getElem?_map] at hm
    cases h0 : (createDeltaEntries 0 0 t.mIndexElements sizes0).2[i]? with
    | none => simp [h0] at hm
    | some e0 =>
      simp only [h0, Option.map_some', Option.some.injEq, Prod.mk.injEq] at hm
      rw [← hm.2]
      exact createDeltaEntries_sizes 0 0 t.mIndexElements sizes0 hlen i e0 h0
        (hm.1.trans hcbe)
  | thrown f tb => simp at h1
  | undefined => simp at h1

/-- From the second edit unit on, no call on a VBE table without first AVC-Intra segment
changes the delta entries or the recorded sizes of the CBE elements. -/
theorem frozen_run (t t1 : OP1AIndexTable) (calls : List Call)
    (hvbe : t.mIsCBE = false) (havci : t.mAVCIFirstIndexSegment = none)
    (hd : 1 ≤ t.mDuration) (h : t.run calls = some t1) :
    t1.mIsCBE = false ∧ t1.mAVCIFirstIndexSegment = none ∧ 1 ≤ t1.mDuration ∧
    t1.mDeltaEntries = t.mDeltaEntries ∧
    t1.mIndexElements.map (fun e => (e.is_cbe, e.element_size))
      = t.mIndexElements.map (fun e => (e.is_cbe, e.element_size)) := by
  induction calls generalizing t with
  | nil => simp [OP1AIndexTable.run] at h; subst h; exact ⟨hvbe, havci, hd, rfl, rfl⟩
  | cons c rest ih =>
    simp only [OP1AIndexTable.run] at h
    split at h
    · exact absurd h (by simp)
    · rename_i t2 h2
      obtain ⟨a1, a2, -, a4, a5, a6⟩ :=
        stepFrame_call (fun e => (e.is_cbe, e.element_size)) (fun _ _ => rfl) t t2 c h2
      have hn : ¬ createsDeltaEntries t := by
        unfold createsDeltaEntries
        rw [havci]
        simp
        omega
      obtain ⟨b1, b2, b3, b4, b5⟩ := ih t2 (a1.trans hvbe) ((a4 hvbe).trans havci) (by omega) h
      exact ⟨b1, b2, b3, b4.trans (a6 hn), b5.trans (a5 (Or.inr hn))⟩

/-- C11: on a VBE index table without first AVC-Intra segment, once the first `UpdateIndex`
(at `mDuration = 0`) has returned, no later call changes the delta entries it computed, and a
later `UpdateIndex` in which the size given for some CBE element differs from (or is missing
for) the size that element had in the first edit unit throws, at the check of the number of
sizes or at the check of the CBE element sizes, and leaves the whole table as it was. -/
theorem delta_entries_frozen (t t1 t2 : OP1AIndexTable) (size0 : Nat) (sizes0 : List Nat)
    (calls : List Call)
    (hvbe : t.mIsCBE = false) (havci : t.mAVCIFirstIndexSegment = none) (hd : t.mDuration = 0)
    (h1 : t.UpdateIndex size0 sizes0 = Outcome.ok t1) (hrun : t1.run calls = some t2) :
    t2.mDeltaEntries = t1.mDeltaEntries ∧
    (∀ (size : Nat) (sizes : List Nat),
      (∃ (i : Nat) (e : OP1AIndexTableElement),
        t2.mIndexElements[i]? = some e ∧ e.is_cbe = true ∧ sizes[i]? ≠ sizes0[i]?) →
      t2.UpdateIndex size sizes =
        Outcome.thrown
          (if sizes.length = t2.mIndexElements.length then Failure.element_size_constant
           else Failure.element_sizes_count) t2) := by
  obtain ⟨a1, -, -, a4, -, -⟩ := stepFrame_UpdateIndex (fun _ => ()) (fun _ _ => rfl) t t1
    size0 sizes0 (by rw [h1]; rfl)
  have hd1 : t1.mDuration = 1 := by
    rw [UpdateIndex_ok_duration t t1 size0 sizes0 hvbe h1, hd]; rfl
  obtain ⟨b1, b2, b3, b4, b5⟩ := frozen_run t1 t2 calls (a1.trans hvbe) ((a4 hvbe).trans havci)
    (by omega) hrun
  refine ⟨b4, ?_⟩
  rintro size sizes ⟨i, e, he, hcbe, hne⟩
  have hsz : sizes0[i]? = some e.element_size := by
    have hm : (t2.mIndexElements.map (fun e => (e.is_cbe, e.element_size)))[i]?
        = some (e.is_cbe, e.element_size) := by
      simp [List.getElem?_map, he]
    rw [b5, List.getElem?_map] at hm
    cases h0 : t1.mIndexElements[i]? with
    | none => simp [h0] at hm
    | some e1 =>
      simp only [h0, Option.map_some', Option.some.injEq, Prod.mk.injEq] at hm
      rw [← hm.2]
      exact first_UpdateIndex_sizes t t1 size0 sizes0 hvbe hd h1 i e1 h0 (hm.1.trans hcbe)
  rw [hsz] at hne
  unfold OP1AIndexTable.UpdateIndex
  by_cases hlen : sizes.length = t2.mIndexElements.length
  · rw [if_neg (by simp [hlen]), if_pos hlen]
    have hn : ¬ (t2.mDuration = 0 ∨
        (t2.mAVCIFirstIndexSegment.isSome = true ∧ t2.mDuration = 1)) := by
      rw [b2]
      simp
      omega
    have hu := elementSizesUnchanged_false t2.mIndexElements sizes hlen i e he hcbe hne
    simp [OP1AIndexTable.updateDeltaEntries, hn, hu, Outcome.andThen]
  · rw [if_pos hlen, if_neg hlen]

/-- C11 (witness): a VBE picture track and a sound track; the first edit unit has 150 bytes of
picture and 50 of sound.  After the entry of the next picture was cached the delta entries are
the same, and an `UpdateIndex` with 60 bytes of sound throws and leaves the table as it was. -/
theorem delta_entries_frozen_witness :
    (pictureSoundCached [(0, OP1AIndexEntry.new)]).UpdateIndex 200 [150, 50]
      = Outcome.ok (pictureSoundIndexed []) ∧
    (pictureSoundIndexed []).run [Call.AddIndexEntry 0 1 0 0 0 true]
      = some (pictureSoundIndexed [(1, OP1AIndexEntry.new)]) ∧
    (pictureSoundIndexed [(1, OP1AIndexEntry.new)]).mDeltaEntries
      = (pictureSoundIndexed []).mDeltaEntries ∧
    (pictureSoundIndexed [(1, OP1AIndexEntry.new)]).UpdateIndex 210 [150, 60]
      = Outcome.thrown Failure.element_size_constant
          (pictureSoundIndexed [(1, OP1AIndexEntry.new)]) := by
  have h := delta_entries_frozen (pictureSoundCached [(0, OP1AIndexEntry.new)])
    (pictureSoundIndexed []) (pictureSoundIndexed [(1, OP1AIndexEntry.new)]) 200 [150, 50]
    [Call.AddIndexEntry 0 1 0 0 0 true] (by decide) (by decide) (by decide) (by decide)
    (by decide)
  refine ⟨by decide, by decide, h.1, ?_⟩
  have h2 := h.2 210 [150, 60] ⟨1, _, rfl, by decide, by decide⟩
  simpa [pictureSoundIndexed] using h2

/-! ### The compatibility of the cached entries -/

theorem IsDefault_iff (x : OP1AIndexEntry) : x.IsDefault = true ↔ x.fields = (0, 0, 0) := by
  simp [OP1AIndexEntry.IsDefault, OP1AIndexEntry.fields, and_assoc]

theorem IsCompatible_iff (cur x : OP1AIndexEntry) :
    cur.IsCompatible x = true ↔ (cur.IsDefault = true ∨ cur.fields = x.fields) := by
  simp [OP1AIndexEntry.IsCompatible, OP1AIndexEntry.IsDefault, OP1AIndexEntry.fields, and_assoc]

theorem nonDefaultAt_not_default (d : Int) (e : OP1AIndexTableElement) (x : OP1AIndexEntry)
    (h : nonDefaultAt d e = some x) : x.IsDefault = false := by
  unfold nonDefaultAt at h
  split at h
  · split at h
    · exact absurd h (by simp)
    · rename_i hx
      injection h with h
      subst h
      simpa using hx
  · exact absurd h (by simp)

theorem nonDefaultEntries_cons (d : Int) (e : OP1AIndexTableElement)
    (l : List OP1AIndexTableElement) :
    nonDefaultEntries d (e :: l)
      = (match nonDefaultAt d e with
         | some x => x :: nonDefaultEntries d l
         | none => nonDefaultEntries d l) := by
  simp only [nonDefaultEntries, List.filterMap_cons]
  split <;> simp_all

/-- The VBE loop of `UpdateIndex` fails its check iff a non-default cached entry differs from
the non-default entry before it; otherwise the entry it ends with has the fields of every
non-default cached entry. -/
theorem takeIndexEntries_compat (d : Int) (l : List OP1AIndexTableElement) (sizes : List Nat)
    (st : VBELoopState) (hlen : sizes.length = l.length) :
    ((takeIndexEntries d l sizes st).2 = none ↔
      ((st.entry.IsDefault = false ∧ ∃ x ∈ nonDefaultEntries d l, x.fields ≠ st.entry.fields) ∨
        incompatibleEntries d l)) ∧
    (∀ st1, (takeIndexEntries d l sizes st).2 = some st1 →
      (∀ x ∈ nonDefaultEntries d l, st1.entry.fields = x.fields) ∧
      (st.entry.IsDefault = false → st1.entry.fields = st.entry.fields) ∧
      (nonDefaultEntries d l = [] → st1.entry = st.entry)) := by
  induction l generalizing sizes st with
  | nil =>
    simp [takeIndexEntries, nonDefaultEntries, incompatibleEntries]
  | cons e rest ih =>
    cases sizes with
    | nil => simp at hlen
    | cons sz sizes =>
      simp only [List.length_cons, Nat.add_right_cancel_iff] at hlen
      have htake : (e.TakeIndexEntry d).1 = cacheFind d e.mIndexEntryCache := by
        unfold OP1AIndexTableElement.TakeIndexEntry
        split <;> simp_all
      have hnd : (match (e.TakeIndexEntry d).1 with
          | some x => if x.IsDefault = true then none else some x
          | none => none) = nonDefaultAt d e := by
        rw [htake]; rfl
      simp only [takeIndexEntries, hnd, nonDefaultEntries_cons]
      cases hx : nonDefaultAt d e with
      | none =>
        simp only
        have := ih sizes
          { slice_cp_offset := wrapU32 (st.slice_cp_offset + sz),
            slice_cp_offsets := if e.slice_offset ≠ st.prev_slice_offset
              then st.slice_cp_offsets ++ [st.slice_cp_offset] else st.slice_cp_offsets,
            prev_slice_offset := e.slice_offset, entry := st.entry } hlen
        simp only at this
        obtain ⟨i1, i2⟩ := this
        refine ⟨?_, i2⟩
        rw [i1]
        simp only [incompatibleEntries, nonDefaultEntries_cons, hx]
      | some x =>
        have hxd := nonDefaultAt_not_default d e x hx
        simp only
        by_cases hc : st.entry.IsCompatible x = true
        · rw [if_pos hc]
          have := ih sizes
            { slice_cp_offset := wrapU32 (st.slice_cp_offset + sz),
              slice_cp_offsets := if e.slice_offset ≠ st.prev_slice_offset
                then st.slice_cp_offsets ++ [st.slice_cp_offset] else st.slice_cp_offsets,
              prev_slice_offset := e.slice_offset, entry := x } hlen
          simp only at this
          obtain ⟨i1, i2⟩ := this
          have hc2 := (IsCompatible_iff st.entry x).mp hc
          constructor
          · rw [i1]
            simp only [incompatibleEntries, nonDefaultEntries_cons, hx, List.mem_cons]
            constructor
            · rintro (⟨-, y, hy, hne⟩ | ⟨a, ha, b, hb, hne⟩)
              · exact Or.inr ⟨y, Or.inr hy, x, Or.inl rfl, hne⟩
              · exact Or.inr ⟨a, Or.inr ha, b, Or.inr hb, hne⟩
            · rintro (⟨hnd0, y, hy, hne⟩ | ⟨a, ha, b, hb, hne⟩)
              · have hsame : st.entry.fields = x.fields := by
                  rcases hc2 with h | h
                  · rw [hnd0] at h; exact absurd h (by simp)
                  · exact h
                rcases hy with hy | hy
                · subst hy; exact absurd hsame.symm hne
                · exact Or.inl ⟨hxd, y, hy, by rw [← hsame]; exact hne⟩
              · rcases ha with ha | ha <;> rcases hb with hb | hb
                · subst ha; subst hb; exact absurd rfl hne
                · subst ha; exact Or.inl ⟨hxd, b, hb, fun h => hne h.symm⟩
                · subst hb; exact Or.inl ⟨hxd, a, ha, hne⟩
                · exact Or.inr ⟨a, ha, b, hb, hne⟩
          · intro st1 h1
            obtain ⟨j1, j2, -⟩ := i2 st1 h1
            have hx1 := j2 hxd
            refine ⟨?_, ?_, ?_⟩
            · intro y hy
              rcases List.mem_cons.mp hy with hy | hy
              · rw [hy]; exact hx1
              · exact j1 y hy
            · intro hnd0
              rcases hc2 with h | h
              · rw [hnd0] at h; exact absurd h (by simp)
              · rw [hx1, h]
            · intro hnil
              exact absurd hnil (by simp)
        · rw [if_neg hc]
          simp only [true_iff, false_implies, implies_true, and_true, reduceCtorEq]
          have hc2 : ¬ (st.entry.IsDefault = true ∨ st.entry.fields = x.fields) :=
            fun h => hc ((IsCompatible_iff st.entry x).mpr h)
          simp only [not_or] at hc2
          left
          refine ⟨by simpa using hc2.1, x, List.mem_cons_self _ _, fun h => hc2.2 h.symm⟩

theorem updateVBE_compat (t : OP1AIndexTable) (sizes : List Nat) (n : Nat)
    (hinv : VBEInvariant t) (hes : t.mIndexEntrySize = 11 + 4 * n)
    (hch : countChanges 0 (t.mIndexElements.map (fun x => x.slice_offset)) = n)
    (hlen : sizes.length = t.mIndexElements.length)
    (hcsp : t.CanStartPartition ≠ none) :
    (incompatibleEntries t.mDuration t.mIndexElements →
      ∃ t1, t.updateVBE sizes = Outcome.thrown Failure.entries_compatible t1) ∧
    (¬ incompatibleEntries t.mDuration t.mIndexElements →
      ∃ t1 last front entry offsets, t.updateVBE sizes = Outcome.ok t1 ∧
        t1.mIndexSegments.getLast? = some last ∧
        last.mEntries = front ++ entryBytes entry t.mStreamOffset offsets ∧
        (∀ x ∈ nonDefaultEntries t.mDuration t.mIndexElements, entry.fields = x.fields) ∧
        (nonDefaultEntries t.mDuration t.mIndexElements = [] → entry.fields = (0, 0, 0))) := by
  obtain ⟨c1, c2⟩ := takeIndexEntries_compat t.mDuration t.mIndexElements sizes
    { slice_cp_offset := 0, slice_cp_offsets := [], prev_slice_offset := 0,
      entry := OP1AIndexEntry.new } hlen
  have hnew : OP1AIndexEntry.new.IsDefault = true := rfl
  simp only [hnew, Bool.true_eq_false, false_and, false_or] at c1
  unfold OP1AIndexTable.updateVBE
  cases hc : t.CanStartPartition with
  | none => exact absurd hc hcsp
  | some csp =>
    simp only
    generalize hr : takeIndexEntries t.mDuration t.mIndexElements sizes
      { slice_cp_offset := 0, slice_cp_offsets := [], prev_slice_offset := 0,
        entry := OP1AIndexEntry.new } = r at c1 c2
    have hinv1 : VBEInvariant { t with mIndexElements := r.1 } :=
      VBEInvariant_of_same_segments hinv rfl rfl rfl rfl rfl
    cases hst : r.2 with
    | none =>
      refine ⟨fun _ => ⟨_, rfl⟩, fun hn => absurd (c1.mp hst) hn⟩
    | some st =>
      refine ⟨fun hi => ?_, fun _ => ?_⟩
      · rw [c1.mpr hi] at hst
        exact absurd hst (by simp)
      · obtain ⟨d1, -, d3⟩ := c2 st hst
        have hoff := takeIndexEntries_offsets t.mDuration t.mIndexElements sizes _ st hlen
          (by rw [hr]; exact hst)
        simp only [List.length_nil, Nat.zero_add] at hoff
        rw [hch] at hoff
        obtain ⟨hinv2, last, hlast, -⟩ := openSegment_spec _ csp hinv1
        obtain ⟨-, -, hes2, -, -, hso⟩ := openSegment_shape { t with mIndexElements := r.1 } csp
        generalize ht2 : OP1AIndexTable.openSegment { t with mIndexElements := r.1 } csp = t2
          at hinv2 hlast hes2 hso
        simp only [hlast]
        have hmem : last ∈ t2.mIndexSegments := by
          rw [getLast?_snoc_decomp _ _ hlast]; simp
        obtain ⟨s1, -⟩ := hinv2.segments last hmem
        have hsize : last.mIndexEntrySize = 11 + st.slice_cp_offsets.length * 4 := by
          rw [s1, hes2, hoff]; simp only; omega
        unfold OP1AIndexTableSegment.AddIndexEntry
        rw [if_pos hsize]
        refine ⟨_,
          { last with
            mEntries := last.mEntries ++ entryBytes st.entry t2.mStreamOffset st.slice_cp_offsets,
            index_duration := last.index_duration + 1 },
          last.mEntries, st.entry, st.slice_cp_offsets, rfl, ?_, ?_, d1, ?_⟩
        · simp
        · simp only [hso]
        · intro hnil
          rw [d3 hnil]
          rfl

theorem nonDefaultEntries_congr (d : Int) (l l1 : List OP1AIndexTableElement)
    (h : l1.map (fun e => e.mIndexEntryCache) = l.map (fun e => e.mIndexEntryCache)) :
    nonDefaultEntries d l1 = nonDefaultEntries d l := by
  have key : ∀ m : List OP1AIndexTableElement, nonDefaultEntries d m
      = (m.map (fun e => e.mIndexEntryCache)).filterMap (fun c =>
          match cacheFind d c with
          | some x => if x.IsDefault then none else some x
          | none => none) := by
    intro m
    rw [List.filterMap_map]
    rfl
  rw [key l1, key l, h]

theorem canStartPartitionLoop_congr (d : Int) (l l1 : List OP1AIndexTableElement)
    (h : l1.map (fun e => (e.is_cbe, e.mIndexEntryCache))
      = l.map (fun e => (e.is_cbe, e.mIndexEntryCache))) :
    canStartPartitionLoop d l1 = canStartPartitionLoop d l := by
  induction l generalizing l1 with
  | nil =>
    simp at h
    subst h
    rfl
  | cons e rest ih =>
    cases l1 with
    | nil => simp at h
    | cons e1 rest1 =>
      simp only [List.map_cons, List.cons.injEq, Prod.mk.injEq] at h
      simp only [canStartPartitionLoop, OP1AIndexTableElement.CanStartPartition, h.1.1, h.1.2,
        ih rest1 h.2]

theorem updateDeltaEntries_vbe_ok (t : OP1AIndexTable) (sizes : List Nat)
    (hvbe : t.mIsCBE = false)
    (hsizes : createsDeltaEntries t ∨ elementSizesUnchanged t.mIndexElements sizes = true) :
    ∃ ta, t.updateDeltaEntries sizes = Outcome.ok ta ∧
      ta.mIsCBE = t.mIsCBE ∧ ta.mSliceCount = t.mSliceCount ∧
      ta.mIndexEntrySize = t.mIndexEntrySize ∧ ta.mIndexSegments = t.mIndexSegments ∧
      ta.mDuration = t.mDuration ∧ ta.mStreamOffset = t.mStreamOffset := by
  obtain ⟨t1, hd, d1, d2, d3, d4, d5, d6⟩ := updateDeltaEntries_vbe t sizes hvbe
  rcases hd with hd | hd
  · exact ⟨t1, hd, d1, d2, d3, d4, d5, d6⟩
  · exfalso
    by_cases hc : createsDeltaEntries t
    · obtain ⟨ta, ha, -⟩ := updateDeltaEntries_creates_vbe t sizes hvbe hc
      rw [ha] at hd
      exact absurd hd (by simp)
    · have hu : elementSizesUnchanged t.mIndexElements sizes = true := by
        rcases hsizes with h | h
        · exact absurd h hc
        · exact h
      have hc2 : ¬ (t.mDuration = 0 ∨
          (t.mAVCIFirstIndexSegment.isSome = true ∧ t.mDuration = 1)) := hc
      simp [OP1AIndexTable.updateDeltaEntries, hc2, hu] at hd

/-- C14 (amended): on a VBE table prepared with at most 255 slices, in any state it reaches, an
`UpdateIndex` at position `d = mDuration` whose earlier checks pass (one size per element, the
CBE element sizes unchanged unless the delta entries are being created, and the assertion of
`CanStartPartition` that the entries it looks at are cached) throws iff two elements have
cached entries at `d` that are both non-default and differ in `temporal_offset`,
`key_frame_offset` or `flags`; it then throws at the compatibility check.  Otherwise it returns
and the entry appended to the last segment carries the fields of the non-default cached
entries, or (0, 0, 0) when every cached entry at `d` is default or absent. -/
theorem vbe_entry_compatibility (sid bsid : Nat) (rate : Rational) (regs : List Registration)
    (t0 t : OP1AIndexTable) (calls : List Call) (size : Nat) (sizes : List Nat)
    (hprep : prepared sid bsid rate regs = Outcome.ok t0) (hvbe : t0.mIsCBE = false)
    (hslices : countSlices false t0.mIndexElements ≤ 255)
    (hrun : t0.run calls = some t)
    (hlen : sizes.length = t.mIndexElements.length)
    (hsizes : createsDeltaEntries t ∨ elementSizesUnchanged t.mIndexElements sizes = true)
    (hcache : t.CanStartPartition ≠ none) :
    ((∃ f t1, t.UpdateIndex size sizes = Outcome.thrown f t1) ↔
      incompatibleEntries t.mDuration t.mIndexElements) ∧
    (incompatibleEntries t.mDuration t.mIndexElements →
      ∃ t1, t.UpdateIndex size sizes = Outcome.thrown Failure.entries_compatible t1) ∧
    (¬ incompatibleEntries t.mDuration t.mIndexElements →
      ∃ t1 last front entry offsets, t.UpdateIndex size sizes = Outcome.ok t1 ∧
        t1.mIndexSegments.getLast? = some last ∧
        last.mEntries = front ++ entryBytes entry t.mStreamOffset offsets ∧
        (∀ x ∈ nonDefaultEntries t.mDuration t.mIndexElements, entry.fields = x.fields) ∧
        (nonDefaultEntries t.mDuration t.mIndexElements = [] → entry.fields = (0, 0, 0))) := by
  obtain ⟨hinv0, hshape0⟩ := prepared_spec sid bsid rate regs t0 hprep hvbe
  obtain ⟨p1, p2, p3⟩ := hshape0 hslices
  have hinv := VBEInvariant_run t0 t calls hinv0 hrun
  obtain ⟨q1, q2, q3, q4⟩ := sameShape_run t0 t calls hrun
  obtain ⟨ta, ha, a1, a2, a3, a4, a5, a6⟩ := updateDeltaEntries_vbe_ok t sizes hinv.vbe hsizes
  have hinva : VBEInvariant ta := VBEInvariant_of_same_segments hinv a1 a2 a3 a4 a5
  obtain ⟨-, -, -, s4⟩ := sameShape_updateDeltaEntries t ta sizes (by rw [ha]; rfl)
  have hg := (stepFrame_updateDeltaEntries (fun e => (e.is_cbe, e.mIndexEntryCache)) t ta sizes
    (by rw [ha]; rfl)).1.2.2.2.2.1 (Or.inl (fun _ _ => rfl))
  have hcaches : ta.mIndexElements.map (fun e => e.mIndexEntryCache)
      = t.mIndexElements.map (fun e => e.mIndexEntryCache) := by
    have := congrArg (List.map Prod.snd) hg
    simpa [List.map_map, Function.comp_def] using this
  have hnd : nonDefaultEntries ta.mDuration ta.mIndexElements
      = nonDefaultEntries t.mDuration t.mIndexElements := by
    rw [a5]; exact nonDefaultEntries_congr _ _ _ hcaches
  have hcsp : ta.CanStartPartition ≠ none := by
    have : ta.CanStartPartition = t.CanStartPartition := by
      simp only [OP1AIndexTable.CanStartPartition, a1, a5,
        canStartPartitionLoop_congr t.mDuration _ _ hg]
    rw [this]; exact hcache
  have hlena : sizes.length = ta.mIndexElements.length := by
    have := congrArg List.length s4
    simp only [List.length_map] at this
    omega
  obtain ⟨v1, v2⟩ := updateVBE_compat ta sizes t.mSliceCount hinva
    (by rw [a3, q3, q2]; exact p2) (by rw [s4, q4, q2]; exact p3) hlena hcsp
  have hinc : incompatibleEntries ta.mDuration ta.mIndexElements
      ↔ incompatibleEntries t.mDuration t.mIndexElements := by
    simp only [incompatibleEntries, hnd]
  rw [hinc] at v1 v2
  rw [hnd, a6] at v2
  have hvbea : ta.mIsCBE = false := a1.trans hinv.vbe
  have hthrown : incompatibleEntries t.mDuration t.mIndexElements →
      ∃ t1, t.UpdateIndex size sizes = Outcome.thrown Failure.entries_compatible t1 := by
    intro hi
    obtain ⟨t1, h1⟩ := v1 hi
    refine ⟨t1, ?_⟩
    unfold OP1AIndexTable.UpdateIndex
    rw [if_neg (by simp [hlen]), ha]
    simp only [Outcome.andThen, hvbea, Bool.false_eq_true, if_false, h1]
  have hok : ¬ incompatibleEntries t.mDuration t.mIndexElements →
      ∃ t1 last front entry offsets, t.UpdateIndex size sizes = Outcome.ok t1 ∧
        t1.mIndexSegments.getLast? = some last ∧
        last.mEntries = front ++ entryBytes entry t.mStreamOffset offsets ∧
        (∀ x ∈ nonDefaultEntries t.mDuration t.mIndexElements, entry.fields = x.fields) ∧
        (nonDefaultEntries t.mDuration t.mIndexElements = [] → entry.fields = (0, 0, 0)) := by
    intro hn
    obtain ⟨t1, last, front, entry, offsets, h1, h2, h3, h4, h5⟩ := v2 hn
    refine ⟨{ t1 with mDuration := t1.mDuration + 1,
                      mStreamOffset := t1.mStreamOffset + (size : Int) },
      last, front, entry, offsets, ?_, h2, h3, h4, h5⟩
    unfold OP1AIndexTable.UpdateIndex
    rw [if_neg (by simp [hlen]), ha]
    simp only [Outcome.andThen, hvbea, Bool.false_eq_true, if_false, h1]
  refine ⟨⟨?_, ?_⟩, hthrown, hok⟩
  · rintro ⟨f, t1, h1⟩
    by_contra hn
    obtain ⟨t2, -, -, -, -, h2, -⟩ := hok hn
    rw [h2] at h1
    exact absurd h1 (by simp)
  · intro hi
    obtain ⟨t1, h1⟩ := hthrown hi
    exact ⟨_, t1, h1⟩

/-- C14 (witness): a VBE picture track and a sound track; the picture's entry at position 0 is
cached with temporal offset -1 and flags 0x80, the sound has no entry: `UpdateIndex` returns and
the entry appended has the fields (-1, 0, 0x80). -/
theorem vbe_entry_compatibility_witness :
    prepared 1 2 ⟨25, 1⟩ [Registration.sound 1, Registration.picture 0 false true]
      = Outcome.ok pictureSoundTable ∧
    pictureSoundTable.run [Call.AddIndexEntry 0 0 (-1) 0 128 true]
      = some (pictureSoundCached [(0, ⟨-1, 0, 128, true⟩)]) ∧
    ¬ incompatibleEntries 0 (pictureSoundCached [(0, ⟨-1, 0, 128, true⟩)]).mIndexElements ∧
    ∃ t1 last front entry offsets,
      (pictureSoundCached [(0, ⟨-1, 0, 128, true⟩)]).UpdateIndex 200 [150, 50] = Outcome.ok t1 ∧
      t1.mIndexSegments.getLast? = some last ∧
      last.mEntries = front ++ entryBytes entry 0 offsets ∧
      entry.fields = (-1, 0, 128) := by
  have hnd : nonDefaultEntries 0 (pictureSoundCached [(0, ⟨-1, 0, 128, true⟩)]).mIndexElements
      = [⟨-1, 0, 128, true⟩] := by decide
  have hn : ¬ incompatibleEntries 0
      (pictureSoundCached [(0, ⟨-1, 0, 128, true⟩)]).mIndexElements := by
    rintro ⟨x, hx, y, hy, hne⟩
    rw [hnd] at hx hy
    simp only [List.mem_singleton] at hx hy
    subst hx hy
    exact hne rfl
  obtain ⟨t1, last, front, entry, offsets, h1, h2, h3, h4, -⟩ :=
    (vbe_entry_compatibility 1 2 ⟨25, 1⟩ [Registration.sound 1, Registration.picture 0 false true]
      pictureSoundTable (pictureSoundCached [(0, ⟨-1, 0, 128, true⟩)])
      [Call.AddIndexEntry 0 0 (-1) 0 128 true] 200 [150, 50]
      (by decide) (by decide) (by decide) (by decide) (by decide) (Or.inl (Or.inl rfl))
      (by decide)).2.2 hn
  refine ⟨by decide, by decide, hn, t1, last, front, entry, offsets, h1, h2, h3, ?_⟩
  exact h4 ⟨-1, 0, 128, true⟩ (by
    show _ ∈ nonDefaultEntries 0 _
    rw [hnd]
    exact List.mem_singleton.mpr rfl)

/-- C14 (counterexample): a VBE picture track and a sound track, and no entry cached: no
element has a cached entry at position 0, yet `UpdateIndex` throws, at the assertion of
`CanStartPartition` that the picture's entry is cached. -/
theorem vbe_entry_compatibility_counterexample :
    nonDefaultEntries pictureSoundTable.mDuration pictureSoundTable.mIndexElements = [] ∧
    ¬ incompatibleEntries pictureSoundTable.mDuration pictureSoundTable.mIndexElements ∧
    ∃ t1, pictureSoundTable.UpdateIndex 200 [150, 50]
      = Outcome.thrown Failure.cache_has_position t1 := by
  have hnd : nonDefaultEntries pictureSoundTable.mDuration pictureSoundTable.mIndexElements
      = [] := by decide
  refine ⟨hnd, ?_, _, rfl⟩
  rintro ⟨x, hx, -⟩
  rw [hnd] at hx
  exact absurd hx (by simp)

/-! ## Theorems: the AS-02 track file -/

theorem GetOutputDuration_valid (t : AS02Track) (hc : isInt64 t.mContainerDuration)
    (hs : 0 ≤ t.mOutputStartOffset) (he : t.mOutputEndOffset ≤ 0)
    (hd : 0 ≤ t.mContainerDuration - t.mOutputStartOffset + t.mOutputEndOffset) :
    t.GetOutputDuration false
      = some (t.mContainerDuration - t.mOutputStartOffset + t.mOutputEndOffset) := by
  have h : isInt64 (t.mContainerDuration - t.mOutputStartOffset + t.mOutputEndOffset) := by
    unfold isInt64 at hc ⊢
    omega
  simp only [AS02Track.GetOutputDuration, add64, sub64, wrap64_add_wrap64,
    wrap64_of_isInt64 _ h, ge_iff_le, Bool.false_eq_true, if_false, if_pos hd]

theorem GetDuration_valid (t : AS02Track) (hc : isInt64 t.mContainerDuration)
    (hs : 0 ≤ t.mOutputStartOffset) (he : t.mOutputEndOffset ≤ 0)
    (hd : 0 ≤ t.mContainerDuration - t.mOutputStartOffset + t.mOutputEndOffset) :
    t.GetDuration = some (t.mContainerDuration + t.mOutputEndOffset) := by
  have h : isInt64 (t.mContainerDuration + t.mOutputEndOffset) := by
    unfold isInt64 at hc ⊢
    omega
  have h0 : 0 ≤ t.mContainerDuration + t.mOutputEndOffset := by omega
  simp only [AS02Track.GetDuration, add64, wrap64_of_isInt64 _ h, ge_iff_le, if_pos h0]

/-- What `UpdatePackageMetadata` makes of a material package with two tracks whose sequences
have a negative duration and one component. -/
theorem UpdatePackageMetadata_material (t : AS02Track) (uid : UMID) (a b : Track)
    (ca cb : StructuralComponent) (d : Int) (hd : t.GetOutputDuration false = some d)
    (ha : a.sequence.duration < 0) (hb : b.sequence.duration < 0)
    (hca : a.sequence.components = [ca]) (hcb : b.sequence.components = [cb]) :
    t.UpdatePackageMetadata
        { is_source_package := false, package_uid := uid,
          tracks := [GenericTrack.Track a, GenericTrack.Track b], descriptor := none }
      = Outcome.ok
        { is_source_package := false, package_uid := uid,
          tracks :=
            [GenericTrack.Track
               { a with sequence :=
                   { a.sequence with duration := d, components := [ca.setDuration d] } },
             GenericTrack.Track
               { b with sequence :=
                   { b.sequence with duration := d, components := [cb.setDuration d] } }],
          descriptor := none } := by
  simp [AS02Track.UpdatePackageMetadata, AS02Track.updateTracks, AS02Track.updateTrack, hd,
    ha, hb, hca, hcb]

/-- What `UpdatePackageMetadata` makes of a file source package with two tracks whose
sequences have a negative duration and one component. -/
theorem UpdatePackageMetadata_source (t : AS02Track) (uid : UMID) (a b : Track)
    (ca cb : StructuralComponent) (d c : Int) (id : Nat) (hd : t.GetDuration = some d)
    (ha : a.sequence.duration < 0) (hb : b.sequence.duration < 0)
    (hca : a.sequence.components = [ca]) (hcb : b.sequence.components = [cb]) :
    t.UpdatePackageMetadata
        { is_source_package := true, package_uid := uid,
          tracks := [GenericTrack.Track a, GenericTrack.Track b],
          descriptor := some (Descriptor.FileDescriptor c id) }
      = Outcome.ok
        { is_source_package := true, package_uid := uid,
          tracks :=
            [GenericTrack.Track
               { a with
                 origin := t.mOutputStartOffset,
                 sequence :=
                   { a.sequence with duration := d, components := [ca.setDuration d] } },
             GenericTrack.Track
               { b with
                 origin := t.mOutputStartOffset,
                 sequence :=
                   { b.sequence with duration := d, components := [cb.setDuration d] } }],
          descriptor := some (Descriptor.FileDescriptor t.mContainerDuration id) } := by
  simp [AS02Track.UpdatePackageMetadata, AS02Track.updateTracks, AS02Track.updateTrack, hd,
    ha, hb, hca, hcb]

/-- The two packages of `CreateHeaderMetadata` after the two calls of `UpdatePackageMetadata`
in `CompleteWrite`, when the two durations pass their checks. -/
theorem updatePackages_created (w0 w : AS02TrackState)
    (AddOffset : Timecode → Int → Rational → Timecode) (d1 d2 : Int)
    (hm : w.mMaterialPackage = (w0.CreateHeaderMetadata AddOffset).mMaterialPackage)
    (hf : w.mFileSourcePackage = (w0.CreateHeaderMetadata AddOffset).mFileSourcePackage)
    (h1 : w.toAS02Track.GetOutputDuration false = some d1)
    (h2 : w.toAS02Track.GetDuration = some d2) :
    ∃ m f, w.updatePackages
        = Outcome.ok { w with mMaterialPackage := some m, mFileSourcePackage := some f } ∧
      m.sequenceDurations = [d1, d1] ∧ m.componentDurations = [[d1], [d1]] ∧
      m.origins = [0, 0] ∧
      f.sequenceDurations = [d2, d2] ∧ f.componentDurations = [[d2], [d2]] ∧
      f.origins = [w.mOutputStartOffset, w.mOutputStartOffset] ∧
      f.descriptor = some (Descriptor.FileDescriptor w.mContainerDuration
        (if w0.mIsPicture then VIDEO_TRACK_ID else AUDIO_TRACK_ID)) ∧
      m.tracks.length = 2 ∧ f.tracks.length = 2 := by
  simp only [AS02TrackState.CreateHeaderMetadata] at hm hf
  simp only [AS02TrackState.updatePackages, hm, hf]
  rw [UpdatePackageMetadata_material w.toAS02Track _ _ _ _ _ d1 h1 (by simp) (by simp)
    rfl rfl]
  simp only
  rw [UpdatePackageMetadata_source w.toAS02Track _ _ _ _ _ d2 _ _ h2 (by simp) (by simp)
    rfl rfl]
  refine ⟨_, _, rfl, ?_, ?_, ?_, ?_, ?_, ?_, ?_, rfl, rfl⟩
  · simp [GenericPackage.sequenceDurations, GenericPackage.timelineTracks]
  · simp [GenericPackage.componentDurations, GenericPackage.timelineTracks,
      StructuralComponent.setDuration, StructuralComponent.getDuration]
  · simp [GenericPackage.origins, GenericPackage.timelineTracks]
  · simp [GenericPackage.sequenceDurations, GenericPackage.timelineTracks]
  · by_cases hl : w0.mHaveLowerLevelSourcePackage = true
    · simp [GenericPackage.componentDurations, GenericPackage.timelineTracks,
        StructuralComponent.setDuration, StructuralComponent.getDuration, hl]
    · simp [GenericPackage.componentDurations, GenericPackage.timelineTracks,
        StructuralComponent.setDuration, StructuralComponent.getDuration, hl]
  · simp [GenericPackage.origins, GenericPackage.timelineTracks]
  · rfl

/-- C21 (amended): for packages built by `CreateHeaderMetadata`, a 64-bit container duration
and valid offsets (start offset `>= 0`, end offset `<= 0`, container duration minus start
offset plus end offset `>= 0`), the two calls of `UpdatePackageMetadata` in `CompleteWrite`
return; afterwards both sequences and both components of the material package have the
duration `container_duration - output_start_offset + output_end_offset`, both sequences and
both components of the file source package have the duration
`container_duration + output_end_offset`, the tracks of the file source package have the
origin `output_start_offset`, and the container duration of the file descriptor is
`container_duration`. -/
theorem final_durations (w0 w : AS02TrackState)
    (AddOffset : Timecode → Int → Rational → Timecode)
    (hm : w.mMaterialPackage = (w0.CreateHeaderMetadata AddOffset).mMaterialPackage)
    (hf : w.mFileSourcePackage = (w0.CreateHeaderMetadata AddOffset).mFileSourcePackage)
    (hc : isInt64 w.mContainerDuration)
    (hs : 0 ≤ w.mOutputStartOffset) (he : w.mOutputEndOffset ≤ 0)
    (hd : 0 ≤ w.mContainerDuration - w.mOutputStartOffset + w.mOutputEndOffset) :
    ∃ m f, w.updatePackages
        = Outcome.ok { w with mMaterialPackage := some m, mFileSourcePackage := some f } ∧
      m.sequenceDurations
        = [w.mContainerDuration - w.mOutputStartOffset + w.mOutputEndOffset,
           w.mContainerDuration - w.mOutputStartOffset + w.mOutputEndOffset] ∧
      m.componentDurations
        = [[w.mContainerDuration - w.mOutputStartOffset + w.mOutputEndOffset],
           [w.mContainerDuration - w.mOutputStartOffset + w.mOutputEndOffset]] ∧
      f.sequenceDurations
        = [w.mContainerDuration + w.mOutputEndOffset,
           w.mContainerDuration + w.mOutputEndOffset] ∧
      f.componentDurations
        = [[w.mContainerDuration + w.mOutputEndOffset],
           [w.mContainerDuration + w.mOutputEndOffset]] ∧
      f.origins = [w.mOutputStartOffset, w.mOutputStartOffset] ∧
      f.descriptor = some (Descriptor.FileDescriptor w.mContainerDuration
        (if w0.mIsPicture then VIDEO_TRACK_ID else AUDIO_TRACK_ID)) := by
  obtain ⟨m, f, h, h1, h2, _, h4, h5, h6, h7, _, _⟩ :=
    updatePackages_created w0 w AddOffset _ _ hm hf
      (GetOutputDuration_valid w.toAS02Track hc hs he hd)
      (GetDuration_valid w.toAS02Track hc hs he hd)
  exact ⟨m, f, h, h1, h2, h4, h5, h6, h7⟩

/-- C21 (witness): a track with 100 samples, start offset 10 and end offset -20: the material
package gets the duration 70, the file source package the duration 80 and the origin 10, the
file descriptor the container duration 100. -/
theorem final_durations_witness :
    ∃ m f,
      (({ (dvTrack.CreateHeaderMetadata keepTimecode) with
            mOutputStartOffset := 10 }).afterSamples 100 (-20)).updatePackages
        = Outcome.ok
          { (({ (dvTrack.CreateHeaderMetadata keepTimecode) with
                  mOutputStartOffset := 10 }).afterSamples 100 (-20)) with
            mMaterialPackage := some m, mFileSourcePackage := some f } ∧
      m.sequenceDurations = [70, 70] ∧ m.componentDurations = [[70], [70]] ∧
      f.sequenceDurations = [80, 80] ∧ f.componentDurations = [[80], [80]] ∧
      f.origins = [10, 10] ∧
      f.descriptor = some (Descriptor.FileDescriptor 100 VIDEO_TRACK_ID) :=
  final_durations dvTrack
    (({ (dvTrack.CreateHeaderMetadata keepTimecode) with
          mOutputStartOffset := 10 }).afterSamples 100 (-20))
    keepTimecode rfl rfl (by decide) (by decide) (by decide) (by decide)

/-- C21 (counterexample): a track file with container duration 10 and end offset -1, from
`PrepareWrite` to `CompleteWrite`: the sequences and components of the file source package
end with the duration 9, not with the container duration 10, which only the file descriptor
gets. -/
theorem final_durations_counterexample :
    (recorded dvTrack 10 (-1)).returned = true ∧
    ((recorded dvTrack 10 (-1)).state.map fun w => w.mContainerDuration) = some 10 ∧
    ((recorded dvTrack 10 (-1)).state.bind fun w =>
        w.mFileSourcePackage.map GenericPackage.sequenceDurations) = some [9, 9] ∧
    ((recorded dvTrack 10 (-1)).state.bind fun w =>
        w.mFileSourcePackage.map GenericPackage.componentDurations) = some [[9], [9]] ∧
    ((recorded dvTrack 10 (-1)).state.bind fun w =>
        w.mFileSourcePackage.map fun f => f.descriptor)
      = some (some (Descriptor.FileDescriptor 10 VIDEO_TRACK_ID)) := by
  decide

/-- C22: for the material package and the file source package built by `CreateHeaderMetadata`
(every sequence created with duration -1 and one component with duration -1), with a 64-bit
container duration, start offset `>= 0`, end offset `<= 0` and a non-negative output
duration, the two calls of `UpdatePackageMetadata` in `CompleteWrite` return; afterwards all
tracks of both packages are timeline tracks, every sequence and every component has a
duration `>= 0`, and the duration of each sequence is the sum of the durations of its
components. -/
theorem no_duration_sentinel (w0 w : AS02TrackState)
    (AddOffset : Timecode → Int → Rational → Timecode)
    (hm : w.mMaterialPackage = (w0.CreateHeaderMetadata AddOffset).mMaterialPackage)
    (hf : w.mFileSourcePackage = (w0.CreateHeaderMetadata AddOffset).mFileSourcePackage)
    (hc : isInt64 w.mContainerDuration)
    (hs : 0 ≤ w.mOutputStartOffset) (he : w.mOutputEndOffset ≤ 0)
    (hd : 0 ≤ w.mContainerDuration - w.mOutputStartOffset + w.mOutputEndOffset) :
    ∃ m f, w.updatePackages
        = Outcome.ok { w with mMaterialPackage := some m, mFileSourcePackage := some f } ∧
      ∀ p ∈ [m, f],
        p.sequenceDurations.length = p.tracks.length ∧
        (∀ d ∈ p.sequenceDurations, 0 ≤ d) ∧
        (∀ l ∈ p.componentDurations, ∀ d ∈ l, 0 ≤ d) ∧
        p.sequenceDurations = p.componentDurations.map List.sum := by
  obtain ⟨m, f, h, h1, h2, _, h4, h5, _, _, h8, h9⟩ :=
    updatePackages_created w0 w AddOffset _ _ hm hf
      (GetOutputDuration_valid w.toAS02Track hc hs he hd)
      (GetDuration_valid w.toAS02Track hc hs he hd)
  have h0 : 0 ≤ w.mContainerDuration + w.mOutputEndOffset := by omega
  refine ⟨m, f, h, ?_⟩
  intro p hp
  simp only [List.mem_cons, List.mem_singleton, List.not_mem_nil, or_false] at hp
  rcases hp with rfl | rfl
  · rw [h1, h2, h8]
    refine ⟨rfl, ?_, ?_, by simp⟩
    · intro d hd1
      simp only [List.mem_cons, List.mem_singleton, List.not_mem_nil, or_false, or_self] at hd1
      omega
    · intro l hl d hd1
      simp only [List.mem_cons, List.mem_singleton, List.not_mem_nil, or_false, or_self] at hl
      subst hl
      simp only [List.mem_singleton] at hd1
      omega
  · rw [h4, h5, h9]
    refine ⟨rfl, ?_, ?_, by simp⟩
    · intro d hd1
      simp only [List.mem_cons, List.mem_singleton, List.not_mem_nil, or_false, or_self] at hd1
      omega
    · intro l hl d hd1
      simp only [List.mem_cons, List.mem_singleton, List.not_mem_nil, or_false, or_self] at hl
      subst hl
      simp only [List.mem_singleton] at hd1
      omega

/-- C22 (witness): a sound track with 48000 samples and no offsets. -/
theorem no_duration_sentinel_witness :
    ∃ m f,
      ((pcmTrack.CreateHeaderMetadata keepTimecode).afterSamples 48000 0).updatePackages
        = Outcome.ok
          { ((pcmTrack.CreateHeaderMetadata keepTimecode).afterSamples 48000 0) with
            mMaterialPackage := some m, mFileSourcePackage := some f } ∧
      ∀ p ∈ [m, f],
        p.sequenceDurations.length = p.tracks.length ∧
        (∀ d ∈ p.sequenceDurations, 0 ≤ d) ∧
        (∀ l ∈ p.componentDurations, ∀ d ∈ l, 0 ≤ d) ∧
        p.sequenceDurations = p.componentDurations.map List.sum :=
  no_duration_sentinel pcmTrack ((pcmTrack.CreateHeaderMetadata keepTimecode).afterSamples 48000 0)
    keepTimecode rfl rfl (by decide) (by decide) (by decide) (by decide)

/-- C24 (amended): with a positive sample size, `WriteCBEIndexTable` returns.  On its first
call (no segment yet) it creates a segment with index duration 0, the sample rate as edit
rate and `edit_unit_byte_count = 16 + LLen + sample_size` for a picture track, provided this
sum is below `2^32`, and `= sample_size` for a sound track, and writes it; on a later call (a
segment exists) it sets the index duration of the segment to the container duration, leaves
everything else in it unchanged, and writes it.  `LLen` is 4 in a new track. -/
theorem cbe_index_segment (w : AS02TrackState) (hsize : 0 < w.mSampleSize)
    (hfit : w.mIsPicture = true → mxfKey_extlen + w.mLLen + w.mSampleSize < 2 ^ 32) :
    (w.mCBEIndexSegment = none →
      ∃ segment, w.WriteCBEIndexTable
          = Outcome.ok
            { w with
              mCBEIndexSegment := some segment,
              written := w.written ++ [FileWrite.index_table_segment segment] } ∧
        segment.index_duration = 0 ∧
        segment.index_edit_rate = w.sample_rate ∧
        segment.edit_unit_byte_count
          = (if w.mIsPicture then 16 + w.mLLen + w.mSampleSize else w.mSampleSize)) ∧
    (∀ segment, w.mCBEIndexSegment = some segment →
      w.WriteCBEIndexTable
        = Outcome.ok
          { w with
            mCBEIndexSegment := some { segment with index_duration := w.mContainerDuration },
            written := w.written ++
              [FileWrite.index_table_segment
                { segment with index_duration := w.mContainerDuration }] }) ∧
    (∀ (sample_rate clip_frame_rate : Rational) (sample_size : Nat) (tc : Timecode)
        (m f : UMID),
      (AS02TrackState.new sample_rate clip_frame_rate sample_size tc m f).mLLen = 4) := by
  refine ⟨?_, ?_, fun _ _ _ _ _ _ => rfl⟩
  · intro hnone
    refine ⟨{ index_edit_rate := w.sample_rate, index_duration := 0,
              index_sid := w.mIndexSID, body_sid := w.mBodySID,
              edit_unit_byte_count :=
                if w.mIsPicture then wrapU32 (mxfKey_extlen + w.mLLen + w.mSampleSize)
                else w.mSampleSize }, ?_, rfl, rfl, ?_⟩
    · simp only [AS02TrackState.WriteCBEIndexTable, gt_iff_lt, if_pos hsize, hnone]
    · by_cases hp : w.mIsPicture = true
      · have := hfit hp
        simp only [hp, if_true, wrapU32, mxfKey_extlen] at this ⊢
        omega
      · simp only [hp, Bool.false_eq_true, if_false]
  · intro segment hsome
    simp only [AS02TrackState.WriteCBEIndexTable, gt_iff_lt, if_pos hsize, hsome]

/-- C24 (witness): a DV25 track with frames of 144000 bytes gets a segment with byte count
`16 + 4 + 144000` and duration 0 at the first call, and after 100 frames the track file ends
with byte count 144020 and duration 100; a PCM track with 48000 samples of 2 bytes ends with
byte count 2 and duration 48000. -/
theorem cbe_index_segment_witness :
    (∃ segment, ({ dvTrack with mSampleSize := 144000 }).WriteCBEIndexTable
        = Outcome.ok
          { ({ dvTrack with mSampleSize := 144000 } : AS02TrackState) with
            mCBEIndexSegment := some segment,
            written := [FileWrite.index_table_segment segment] } ∧
      segment.index_duration = 0 ∧
      segment.index_edit_rate = ⟨25, 1⟩ ∧
      segment.edit_unit_byte_count = 16 + 4 + 144000) ∧
    ((recorded dvTrack 100 0).state.bind fun w => w.mCBEIndexSegment)
      = some { index_edit_rate := ⟨25, 1⟩, index_duration := 100, index_sid := 1,
               body_sid := 2, edit_unit_byte_count := 144020 } ∧
    ((recorded pcmTrack 48000 0).state.bind fun w => w.mCBEIndexSegment)
      = some { index_edit_rate := ⟨48000, 1⟩, index_duration := 48000, index_sid := 1,
               body_sid := 2, edit_unit_byte_count := 2 } :=
  ⟨(cbe_index_segment { dvTrack with mSampleSize := 144000 } (by decide) (by decide)).1 rfl,
    by decide, by decide⟩

/-- C24 (counterexample): `PrepareWrite` on a picture track whose sample size is
`2^32 - 20` returns and creates a segment with `edit_unit_byte_count` 0, where
`16 + 4 + sample_size` is `2^32`; and on a track whose sample size is 0 the first call of
`WriteCBEIndexTable` throws and creates no segment. -/
theorem cbe_index_segment_counterexample :
    ((AS02TrackState.new ⟨25, 1⟩ ⟨25, 1⟩ 4294967276 zeroTimecode 1 2).PrepareWrite
        AS02TrackHooks.base keepTimecode).returned = true ∧
    (((AS02TrackState.new ⟨25, 1⟩ ⟨25, 1⟩ 4294967276 zeroTimecode 1 2).PrepareWrite
        AS02TrackHooks.base keepTimecode).state.bind fun w =>
          w.mCBEIndexSegment.map fun s => s.edit_unit_byte_count) = some 0 ∧
    dvTrack.mSampleSize = 0 ∧
    dvTrack.WriteCBEIndexTable = Outcome.thrown Failure.sample_size_positive dvTrack := by
  decide

theorem andThen_eq_ok {σ : Type} (o : Outcome σ) (next : σ → Outcome σ) (s : σ)
    (h : o.andThen next = Outcome.ok s) : ∃ a, o = Outcome.ok a ∧ next a = Outcome.ok s := by
  cases o with
  | ok a => exact ⟨a, rfl, h⟩
  | thrown f a => simp [Outcome.andThen] at h
  | undefined => simp [Outcome.andThen] at h

theorem closeFile_file (w w1 : AS02TrackState) (h : w.closeFile = Outcome.ok w1) :
    w1.mMXFFile = none := by
  unfold AS02TrackState.closeFile at h
  split at h
  · simp at h
  · injection h with h
    rw [← h]

theorem CompleteWrite_file (w w1 : AS02TrackState) (hooks : AS02TrackHooks)
    (h : w.CompleteWrite hooks = Outcome.ok w1) : w1.mMXFFile = none := by
  unfold AS02TrackState.CompleteWrite at h
  split at h
  · simp at h
  · simp at h
  · obtain ⟨s1, _, h⟩ := andThen_eq_ok _ _ _ h
    obtain ⟨s2, _, h⟩ := andThen_eq_ok _ _ _ h
    obtain ⟨s3, _, h⟩ := andThen_eq_ok _ _ _ h
    obtain ⟨s4, _, h⟩ := andThen_eq_ok _ _ _ h
    obtain ⟨s7, _, h⟩ := andThen_eq_ok _ _ _ h
    exact closeFile_file _ _ h

/-- C23 (amended): once `CompleteWrite` has returned on an AS02 track writer, `PrepareWrite`
and `CompleteWrite` both fail with an error, whatever the subclass, and leave the writer as it
was: nothing is written. -/
theorem lifecycle_after_complete (w w1 : AS02TrackState) (hooks hooks1 : AS02TrackHooks)
    (AddOffset : Timecode → Int → Rational → Timecode)
    (h : w.CompleteWrite hooks = Outcome.ok w1) :
    w1.PrepareWrite hooks1 AddOffset = Outcome.thrown Failure.mxf_file_set w1 ∧
    w1.CompleteWrite hooks1 = Outcome.thrown Failure.mxf_file_set w1 := by
  have hfile := CompleteWrite_file w w1 hooks h
  constructor
  · simp only [AS02TrackState.PrepareWrite, hfile]
  · simp only [AS02TrackState.CompleteWrite, hfile]

/-- C23 (witness): the DV25 track file of 100 frames: `CompleteWrite` returns, after which
both calls throw. -/
theorem lifecycle_after_complete_witness :
    (dvPrepared.afterSamples 100 0).CompleteWrite AS02TrackHooks.base
      = Outcome.ok dvCompleted ∧
    dvCompleted.PrepareWrite AS02TrackHooks.base keepTimecode
      = Outcome.thrown Failure.mxf_file_set dvCompleted ∧
    dvCompleted.CompleteWrite AS02TrackHooks.base
      = Outcome.thrown Failure.mxf_file_set dvCompleted :=
  ⟨by decide,
    lifecycle_after_complete (dvPrepared.afterSamples 100 0) dvCompleted AS02TrackHooks.base
      AS02TrackHooks.base keepTimecode (by decide)⟩

/-- C23 (counterexample): on a new track `PrepareWrite` returns after 5 writes to the file,
and a second `PrepareWrite` returns as well, after 5 more writes; `CompleteWrite` on a new
track, before any `PrepareWrite`, throws no error: it asks the empty list of partitions for
its last element, which has no defined behaviour. -/
theorem lifecycle_after_complete_counterexample :
    (dvTrack.PrepareWrite AS02TrackHooks.base keepTimecode).returned = true ∧
    ((dvTrack.PrepareWrite AS02TrackHooks.base keepTimecode).state.map
      fun s => s.written.length) = some 5 ∧
    (dvPrepared.PrepareWrite AS02TrackHooks.base keepTimecode).returned = true ∧
    ((dvPrepared.PrepareWrite AS02TrackHooks.base keepTimecode).state.map
      fun s => s.written.length) = some 10 ∧
    dvTrack.CompleteWrite AS02TrackHooks.base = Outcome.undefined := by
  decide

/-! ## Theorems: AS-02 file names -/

theorem rfind_none (c : Char) (l : List Char) (h : c ∉ l) : rfind c l = none := by
  induction l with
  | nil => rfl
  | cons x rest ih =>
    simp only [List.mem_cons, not_or] at h
    have hx : ¬ x = c := fun e => h.1 e.symm
    simp only [rfind, ih h.2, if_neg hx]

theorem rfind_last (c : Char) (a b : List Char) (h : c ∉ b) :
    rfind c (a ++ c :: b) = some a.length := by
  induction a with
  | nil => simp [rfind, rfind_none c b h]
  | cons x rest ih => simp [rfind, ih]

theorem strip_suffix_last (a b : List Char) (h : '.' ∉ b) :
    strip_suffix (a ++ '.' :: b) = a := by
  simp [strip_suffix, rfind_last '.' a b h]

theorem strip_suffix_none (l : List Char) (h : '.' ∉ l) : strip_suffix l = l := by
  simp [strip_suffix, rfind_none '.' l h]

/-- C30: for every bundle root `R`, version file name `F` and track number `n`,
`CreateEssenceComponentFilepath(F, is_video, n)` fails if and only if `n == 0`, and otherwise
returns `R + "media/" + strip_suffix(F) + ("_v" or "_a") + decimal(n - 1) + ".mxf"` and builds
the relative URI from the same path without `R`; `strip_suffix` removes everything from the
last `'.'` of `F` on and leaves a name without `'.'` as it is.  So for the version
`B + ".mxf"` picture track 1 and sound tracks 1 and 2 get `media/B_v0.mxf`, `media/B_a0.mxf`
and `media/B_a1.mxf`. -/
theorem essence_component_filepath (bundle : AS02Bundle) (uri : List Char → List Char)
    (F : List Char) (is_video : Bool) (n : Nat) :
    (bundle.CreateEssenceComponentFilepath uri F is_video n
        = Except.error Failure.track_number_positive ↔ n = 0) ∧
    (n ≠ 0 →
      bundle.CreateEssenceComponentFilepath uri F is_video n
        = Except.ok
          (bundle.mRootFilepath ++ "media/".toList ++ strip_suffix F ++
              (if is_video then "_v" else "_a").toList ++ Nat.toDigits 10 (n - 1) ++
              ".mxf".toList,
            uri ("media/".toList ++ strip_suffix F ++
              (if is_video then "_v" else "_a").toList ++ Nat.toDigits 10 (n - 1) ++
              ".mxf".toList))) ∧
    (∀ a b : List Char, '.' ∉ b → strip_suffix (a ++ '.' :: b) = a) ∧
    (∀ l : List Char, '.' ∉ l → strip_suffix l = l) ∧
    (∀ B : List Char,
      bundle.CreateEssenceComponentFilepath uri (B ++ ".mxf".toList) true 1
        = Except.ok (bundle.mRootFilepath ++ "media/".toList ++ B ++ "_v0.mxf".toList,
            uri ("media/".toList ++ B ++ "_v0.mxf".toList)) ∧
      bundle.CreateEssenceComponentFilepath uri (B ++ ".mxf".toList) false 1
        = Except.ok (bundle.mRootFilepath ++ "media/".toList ++ B ++ "_a0.mxf".toList,
            uri ("media/".toList ++ B ++ "_a0.mxf".toList)) ∧
      bundle.CreateEssenceComponentFilepath uri (B ++ ".mxf".toList) false 2
        = Except.ok (bundle.mRootFilepath ++ "media/".toList ++ B ++ "_a1.mxf".toList,
            uri ("media/".toList ++ B ++ "_a1.mxf".toList))) := by
  have hmxf : ∀ B : List Char, strip_suffix (B ++ ".mxf".toList) = B := fun B =>
    strip_suffix_last B "mxf".toList (by decide)
  refine ⟨?_, ?_, strip_suffix_last, strip_suffix_none, ?_⟩
  · by_cases h : n > 0
    · simp only [AS02Bundle.CreateEssenceComponentFilepath, if_pos h]
      constructor
      · intro e; cases e
      · intro e; omega
    · simp only [AS02Bundle.CreateEssenceComponentFilepath, if_neg h, true_iff]
      omega
  · intro h
    have h0 : n > 0 := Nat.pos_of_ne_zero h
    simp only [AS02Bundle.CreateEssenceComponentFilepath, if_pos h0, MEDIA_SUBDIR_NAME]
    simp [List.append_assoc]
  · intro B
    have d0 : Nat.toDigits 10 0 = ['0'] := by decide
    have d1 : Nat.toDigits 10 1 = ['1'] := by decide
    simp only [AS02Bundle.CreateEssenceComponentFilepath, MEDIA_SUBDIR_NAME, hmxf]
    refine ⟨?_, ?_, ?_⟩
    · simp [List.append_assoc, d0]
    · simp [List.append_assoc, d0]
    · simp [List.append_assoc, d1]

/-! ## Theorems: the Avid clip writer -/

theorem orderedInsert_track (e : AvidTrack) (l : List AvidTrack)
    (h : ∀ x ∈ l, e.GetTrackIndex < x.GetTrackIndex) :
    List.orderedInsert (fun a b => compare_track b a = false) e
        (l.filter (fun x => x.IsPicture) ++ l.filter (fun x => !x.IsPicture))
      = (e :: l).filter (fun x => x.IsPicture) ++ (e :: l).filter (fun x => !x.IsPicture) := by
  have hpics : ∀ x ∈ l.filter (fun x => x.IsPicture),
      x.IsPicture = true ∧ e.GetTrackIndex < x.GetTrackIndex := by
    intro x hx
    exact ⟨by simpa using (List.mem_filter.mp hx).2, h x (List.mem_filter.mp hx).1⟩
  have hsnd : ∀ x ∈ l.filter (fun x => !x.IsPicture), x.IsPicture = false := by
    intro x hx
    simpa using (List.mem_filter.mp hx).2
  cases hp : e.IsPicture with
  | true =>
    simp only [List.filter_cons, hp, if_true, Bool.not_true, Bool.false_eq_true, if_false,
      List.cons_append]
    generalize l.filter (fun x => x.IsPicture) = P at hpics
    generalize l.filter (fun x => !x.IsPicture) = S at hsnd
    cases P with
    | nil =>
      cases S with
      | nil => rfl
      | cons s rest =>
        simp only [List.nil_append, List.orderedInsert]
        rw [if_pos]
        simp [compare_track, hsnd s (List.mem_cons_self _ _)]
    | cons p rest =>
      have hpe := hpics p (List.mem_cons_self _ _)
      have hc : compare_track p e = false := by
        simp [compare_track, hpe.1, hp, Nat.le_of_lt hpe.2]
      simp only [List.cons_append, List.orderedInsert, hc, if_true, List.append_eq]
  | false =>
    simp only [List.filter_cons, hp, Bool.false_eq_true, if_false, Bool.not_false, if_true]
    generalize l.filter (fun x => x.IsPicture) = P at hpics
    generalize l.filter (fun x => !x.IsPicture) = S at hsnd
    induction P with
    | nil =>
      cases S with
      | nil => rfl
      | cons s rest =>
        simp only [List.nil_append, List.orderedInsert]
        rw [if_pos]
        simp [compare_track, hsnd s (List.mem_cons_self _ _)]
    | cons p rest ih =>
      simp only [List.cons_append, List.orderedInsert]
      rw [if_neg]
      · have := ih (fun x hx => hpics x (List.mem_cons_of_mem _ hx))
        simp only [List.append_eq] at this ⊢
        rw [this]
      · simp [compare_track, hp, (hpics p (List.mem_cons_self _ _)).1]

/-- The stable sort of tracks whose track indexes increase puts the picture tracks first and
keeps the order within the picture tracks and within the sound tracks. -/
theorem stable_sort_tracks (l : List AvidTrack)
    (h : l.Pairwise (fun a b => a.GetTrackIndex < b.GetTrackIndex)) :
    stable_sort compare_track l
      = l.filter (fun x => x.IsPicture) ++ l.filter (fun x => !x.IsPicture) := by
  induction l with
  | nil => rfl
  | cons e rest ih =>
    rw [List.pairwise_cons] at h
    have ih := ih h.2
    unfold stable_sort at ih ⊢
    rw [List.insertionSort, ih]
    exact orderedInsert_track e rest h.1

theorem createTracks_spec (clip : AvidClip) (calls : List (Bool × Rational))
    (h : clip.mTracks.map (fun t => t.GetTrackIndex) = List.range clip.mTracks.length) :
    (clip.createTracks calls).mTracks.map (fun t => t.GetTrackIndex)
      = List.range (clip.mTracks.length + calls.length) ∧
    (clip.createTracks calls).mTracks.map (fun t => t.IsPicture)
      = clip.mTracks.map (fun t => t.IsPicture) ++ calls.map Prod.fst := by
  induction calls generalizing clip with
  | nil => simpa [AvidClip.createTracks] using h
  | cons c rest ih =>
    obtain ⟨p, r⟩ := c
    have h1 : (clip.CreateTrack p r).mTracks.map (fun t => t.GetTrackIndex)
        = List.range (clip.CreateTrack p r).mTracks.length := by
      simp [AvidClip.CreateTrack, AvidTrack.OpenNew, h, List.range_succ]
    have := ih (clip.CreateTrack p r) h1
    simp only [AvidClip.createTracks]
    refine ⟨?_, ?_⟩
    · rw [this.1]
      simp only [AvidClip.CreateTrack, List.length_append, List.length_cons, List.length_nil]
      congr 1
      omega
    · rw [this.2]
      simp [AvidClip.CreateTrack, AvidTrack.OpenNew]

theorem filter_append_perm (l : List AvidTrack) :
    (l.filter (fun x => x.IsPicture) ++ l.filter (fun x => !x.IsPicture)).Perm l := by
  induction l with
  | nil => simp
  | cons e rest ih =>
    cases hp : e.IsPicture with
    | true =>
      simp only [List.filter_cons, hp, if_true, Bool.not_true, Bool.false_eq_true, if_false,
        List.cons_append]
      exact List.Perm.cons e ih
    | false =>
      simp only [List.filter_cons, hp, Bool.false_eq_true, if_false, Bool.not_false, if_true]
      exact (List.perm_middle).trans (List.Perm.cons e ih)

/-- C27: `compare_track` is a strict weak ordering: irreflexive, transitive, and with a
transitive incomparability.  For every sequence of `CreateTrack` calls on a new clip, the
tracks get the track indexes 0, 1, 2, ... in creation order, and the stable sort of
`PrepareWrite` makes of the track list a permutation of it that consists of the picture
tracks in creation order followed by the sound tracks in creation order. -/
theorem track_ordering (frame_rate : Rational) (clip : AvidClip)
    (calls : List (Bool × Rational)) (h : AvidClip.new frame_rate = Except.ok clip) :
    (∀ a, compare_track a a = false) ∧
    (∀ a b c, compare_track a b = true → compare_track b c = true →
      compare_track a c = true) ∧
    (∀ a b c, compare_track a b = false ∧ compare_track b a = false →
      compare_track b c = false ∧ compare_track c b = false →
      compare_track a c = false ∧ compare_track c a = false) ∧
    (clip.createTracks calls).mTracks.map (fun t => t.GetTrackIndex)
      = List.range calls.length ∧
    (clip.createTracks calls).mTracks.map (fun t => t.IsPicture) = calls.map Prod.fst ∧
    ((clip.createTracks calls).sortTracks.mTracks).Perm (clip.createTracks calls).mTracks ∧
    (clip.createTracks calls).sortTracks.mTracks
      = (clip.createTracks calls).mTracks.filter (fun t => t.IsPicture) ++
        (clip.createTracks calls).mTracks.filter (fun t => !t.IsPicture) := by
  have hnew : clip.mTracks = [] := by
    unfold AvidClip.new at h
    split at h
    · injection h with h
      rw [← h]
    · cases h
  have hspec := createTracks_spec clip calls (by simp [hnew])
  simp only [hnew, List.length_nil, Nat.zero_add, List.map_nil, List.nil_append] at hspec
  have hpair : (clip.createTracks calls).mTracks.Pairwise
      (fun a b => a.GetTrackIndex < b.GetTrackIndex) := by
    have := List.pairwise_lt_range calls.length
    rw [← hspec.1, List.pairwise_map] at this
    exact this
  have hsort := stable_sort_tracks _ hpair
  refine ⟨?_, ?_, ?_, hspec.1, hspec.2, ?_, ?_⟩
  · intro a
    cases hp : a.IsPicture <;> simp [compare_track, hp]
  · intro a b c
    simp only [compare_track]
    cases a.IsPicture <;> cases b.IsPicture <;> cases c.IsPicture <;> simp
    omega
  · intro a b c
    simp only [compare_track]
    cases a.IsPicture <;> cases b.IsPicture <;> cases c.IsPicture <;> simp
    omega
  · simp only [AvidClip.sortTracks, hsort]
    exact filter_append_perm _
  · simp only [AvidClip.sortTracks, hsort]

/-- C27 (witness): a sound track, a picture track, a sound track and a picture track created
in this order on a new clip at 25/1: the sort puts the tracks with the indexes 1 and 3 first,
then those with the indexes 0 and 2. -/
theorem track_ordering_witness :
    AvidClip.new ⟨25, 1⟩ = Except.ok clip25 ∧
    ((clip25.createTracks
        [(false, ⟨48000, 1⟩), (true, ⟨25, 1⟩), (false, ⟨48000, 1⟩),
          (true, ⟨25, 1⟩)]).sortTracks.mTracks.map fun t => t.GetTrackIndex)
      = [1, 3, 0, 2] := by
  have h := track_ordering ⟨25, 1⟩ clip25
    [(false, ⟨48000, 1⟩), (true, ⟨25, 1⟩), (false, ⟨48000, 1⟩), (true, ⟨25, 1⟩)] rfl
  refine ⟨rfl, ?_⟩
  rw [h.2.2.2.2.2.2]
  decide

theorem tapeTrackLoop_spec (rate : Rational) (d : Int) (nv : Nat) (steps : Nat) :
    ∀ (i : Nat) (acc : List GenericTrack), i + steps + 1 < 2 ^ 32 →
      tapeTrackLoop rate d nv steps i (i + 1) (min i nv + 1) (i - nv + 1) acc
        = (acc ++ (List.range steps).map (fun k => tapeTrackAt rate d nv (i + k)),
            i + steps + 1) := by
  induction steps with
  | zero =>
    intro i acc _
    simp [tapeTrackLoop]
  | succ n ih =>
    intro i acc h
    have hw : wrapU32 (i + 1 + 1) = i + 1 + 1 := by
      unfold wrapU32
      exact Nat.mod_eq_of_lt (by omega)
    have hnext := ih (i + 1) (acc ++ [tapeTrackAt rate d nv i]) (by omega)
    by_cases hv : i < nv
    · have hmin : min i nv = i := Nat.min_eq_left (Nat.le_of_lt hv)
      have hmin1 : min (i + 1) nv = i + 1 := Nat.min_eq_left hv
      have hsub : i - nv = 0 := by omega
      have hsub1 : i + 1 - nv = 0 := by omega
      rw [hmin1, hsub1] at hnext
      simp only [tapeTrackLoop, hv, decide_True, if_true, hmin, hsub, hw, Nat.zero_add]
      have ht : GenericTrack.Track
          { track_id := i + 1, track_number := i + 1, edit_rate := rate, origin := 0,
            sequence :=
              { data_definition := DataDefinition.Picture, duration := d,
                components := [StructuralComponent.SourceClip d 0 g_Null_UMID 0] } }
          = tapeTrackAt rate d nv i := by
        simp [tapeTrackAt, hv]
      rw [ht]
      simp only [Nat.zero_add] at hnext
      rw [hnext, List.range_succ_eq_map]
      simp only [List.map_cons, List.map_map, List.append_assoc, List.singleton_append,
        Nat.add_zero, Prod.mk.injEq]
      refine ⟨?_, by omega⟩
      congr 2
      apply List.map_congr_left
      intro k _
      simp only [Function.comp]
      congr 1
      omega
    · have hmin : min i nv = nv := Nat.min_eq_right (by omega)
      have hmin1 : min (i + 1) nv = nv := Nat.min_eq_right (by omega)
      have hsub1 : i + 1 - nv = i - nv + 1 := by omega
      have hw2 : wrapU32 (i - nv + 1 + 1) = i - nv + 1 + 1 := by
        unfold wrapU32
        exact Nat.mod_eq_of_lt (by omega)
      rw [hmin1, hsub1] at hnext
      simp only [tapeTrackLoop, hv, decide_False, Bool.false_eq_true, if_false, hmin, hw, hw2]
      have ht : GenericTrack.Track
          { track_id := i + 1, track_number := i - nv + 1, edit_rate := rate, origin := 0,
            sequence :=
              { data_definition := DataDefinition.Sound, duration := d,
                components := [StructuralComponent.SourceClip d 0 g_Null_UMID 0] } }
          = tapeTrackAt rate d nv i := by
        simp [tapeTrackAt, hv]
      rw [ht, hnext, List.range_succ_eq_map]
      simp only [List.map_cons, List.map_map, List.append_assoc, List.singleton_append,
        Nat.add_zero, Prod.mk.injEq]
      refine ⟨?_, by omega⟩
      congr 2
      apply List.map_congr_left
      intro k _
      simp only [Function.comp]
      congr 1
      omega

theorem tape_duration_supported (rate : Rational) (h : supportedFrameRate rate = true) :
    tape_duration rate = some (120 * 3600 * (get_rounded_tc_base rate : Int)) := by
  obtain ⟨n, d⟩ := rate
  simp only [supportedFrameRate, Bool.or_eq_true, Bool.and_eq_true, beq_iff_eq] at h
  rcases h with ((⟨h1, h2⟩ | ⟨h1, h2⟩) | ⟨h1, h2⟩) | ⟨h1, h2⟩ <;> subst h1 <;> subst h2 <;>
    decide

theorem range_add_map (nv na : Nat) (f : Nat → GenericTrack) :
    (List.range (nv + na)).map f
      = (List.range nv).map f ++ (List.range na).map (fun k => f (nv + k)) := by
  rw [List.range_add, List.map_append, List.map_map]
  rfl

theorem CreateDefaultTapeSource_eq (clip : AvidClip) (uid : UMID) (nv na : Nat) (d : Int)
    (h : tape_duration clip.mClipFrameRate = some d) :
    clip.CreateDefaultTapeSource uid nv na
      = some
        ({ clip with
            mTapeSourcePackages := clip.mTapeSourcePackages ++
              [{ is_source_package := true, package_uid := uid,
                 tracks :=
                   (tapeTrackLoop clip.mClipFrameRate d nv (wrapU32 (nv + na)) 0 1 1 1 []).1 ++
                   [GenericTrack.Track
                     { track_id :=
                         (tapeTrackLoop clip.mClipFrameRate d nv (wrapU32 (nv + na))
                           0 1 1 1 []).2,
                       track_number := 1, edit_rate := clip.mClipFrameRate, origin := 0,
                       sequence :=
                         { data_definition := DataDefinition.Timecode, duration := d,
                           components :=
                             [StructuralComponent.TimecodeComponent d
                               (get_rounded_tc_base clip.mClipFrameRate) false 0] } }],
                 descriptor := some Descriptor.TapeDescriptor }] },
          { is_source_package := true, package_uid := uid,
            tracks :=
              (tapeTrackLoop clip.mClipFrameRate d nv (wrapU32 (nv + na)) 0 1 1 1 []).1 ++
              [GenericTrack.Track
                { track_id :=
                    (tapeTrackLoop clip.mClipFrameRate d nv (wrapU32 (nv + na))
                      0 1 1 1 []).2,
                  track_number := 1, edit_rate := clip.mClipFrameRate, origin := 0,
                  sequence :=
                    { data_definition := DataDefinition.Timecode, duration := d,
                      components :=
                        [StructuralComponent.TimecodeComponent d
                          (get_rounded_tc_base clip.mClipFrameRate) false 0] } }],
            descriptor := some Descriptor.TapeDescriptor }) := by
  unfold AvidClip.CreateDefaultTapeSource
  rw [h]

/-- C28 (amended): for a clip with one of the four supported frame rates and track counts
with `nv + na + 1 < 2^32`, `CreateDefaultTapeSource(name, nv, na)` returns and registers a
source package with a tape descriptor whose tracks are `nv` picture timeline tracks followed
by `na` sound timeline tracks, with the track ids `1 .. nv + na`, the track numbers `1 .. nv`
and `1 .. na`, the clip frame rate as edit rate, origin 0, and sequence and source clip
durations `120 * 3600 * rounded_tc_base(clip frame rate)` with start position 0 and a null
source reference, followed by one timecode track with the id `nv + na + 1` whose sequence and
timecode component have that same duration, start timecode 0 and drop-frame false. -/
theorem default_tape_source (clip : AvidClip) (uid : UMID) (nv na : Nat)
    (hrate : supportedFrameRate clip.mClipFrameRate = true) (hfit : nv + na + 1 < 2 ^ 32) :
    ∃ package,
      clip.CreateDefaultTapeSource uid nv na
        = some ({ clip with mTapeSourcePackages := clip.mTapeSourcePackages ++ [package] },
            package) ∧
      package.is_source_package = true ∧
      package.package_uid = uid ∧
      package.descriptor = some Descriptor.TapeDescriptor ∧
      package.tracks =
        (List.range nv).map (fun k =>
          GenericTrack.Track
            { track_id := k + 1, track_number := k + 1, edit_rate := clip.mClipFrameRate,
              origin := 0,
              sequence :=
                { data_definition := DataDefinition.Picture,
                  duration := 120 * 3600 * (get_rounded_tc_base clip.mClipFrameRate : Int),
                  components :=
                    [StructuralComponent.SourceClip
                      (120 * 3600 * (get_rounded_tc_base clip.mClipFrameRate : Int))
                      0 g_Null_UMID 0] } }) ++
        (List.range na).map (fun k =>
          GenericTrack.Track
            { track_id := nv + k + 1, track_number := k + 1,
              edit_rate := clip.mClipFrameRate, origin := 0,
              sequence :=
                { data_definition := DataDefinition.Sound,
                  duration := 120 * 3600 * (get_rounded_tc_base clip.mClipFrameRate : Int),
                  components :=
                    [StructuralComponent.SourceClip
                      (120 * 3600 * (get_rounded_tc_base clip.mClipFrameRate : Int))
                      0 g_Null_UMID 0] } }) ++
        [GenericTrack.Track
          { track_id := nv + na + 1, track_number := 1, edit_rate := clip.mClipFrameRate,
            origin := 0,
            sequence :=
              { data_definition := DataDefinition.Timecode,
                duration := 120 * 3600 * (get_rounded_tc_base clip.mClipFrameRate : Int),
                components :=
                  [StructuralComponent.TimecodeComponent
                    (120 * 3600 * (get_rounded_tc_base clip.mClipFrameRate : Int))
                    (get_rounded_tc_base clip.mClipFrameRate) false 0] } }] := by
  have hw : wrapU32 (nv + na) = nv + na := by
    unfold wrapU32
    exact Nat.mod_eq_of_lt (by omega)
  have hloop := tapeTrackLoop_spec clip.mClipFrameRate
    (120 * 3600 * (get_rounded_tc_base clip.mClipFrameRate : Int)) nv (nv + na) 0 []
    (by omega)
  simp only [Nat.zero_add, Nat.zero_min, Nat.zero_sub, List.nil_append] at hloop
  refine ⟨{ is_source_package := true, package_uid := uid,
            tracks :=
              (List.range (nv + na)).map (fun k =>
                tapeTrackAt clip.mClipFrameRate
                  (120 * 3600 * (get_rounded_tc_base clip.mClipFrameRate : Int)) nv k) ++
              [GenericTrack.Track
                { track_id := nv + na + 1, track_number := 1,
                  edit_rate := clip.mClipFrameRate, origin := 0,
                  sequence :=
                    { data_definition := DataDefinition.Timecode,
                      duration :=
                        120 * 3600 * (get_rounded_tc_base clip.mClipFrameRate : Int),
                      components :=
                        [StructuralComponent.TimecodeComponent
                          (120 * 3600 * (get_rounded_tc_base clip.mClipFrameRate : Int))
                          (get_rounded_tc_base clip.mClipFrameRate) false 0] } }],
            descriptor := some Descriptor.TapeDescriptor }, ?_, rfl, rfl, rfl, ?_⟩
  · rw [CreateDefaultTapeSource_eq clip uid nv na _ (tape_duration_supported _ hrate), hw,
      hloop]
  · simp only [range_add_map]
    congr 2
    · apply List.map_congr_left
      intro k hk
      have hk := List.mem_range.mp hk
      simp [tapeTrackAt, hk]
    · apply List.map_congr_left
      intro k _
      simp [tapeTrackAt]

/-- C28 (witness): one picture and two sound tracks on a clip at 25/1: track ids 1, 2, 3 and
the timecode track 4, all with the duration 10800000. -/
theorem default_tape_source_witness :
    ∃ package,
      clip25.CreateDefaultTapeSource 7 1 2
        = some ({ clip25 with mTapeSourcePackages := [package] }, package) ∧
      package.tracks.map GenericTrack.getTrackID = [1, 2, 3, 4] ∧
      package.sequenceDurations = [10800000, 10800000, 10800000, 10800000] := by
  obtain ⟨package, h, _, _, _, ht⟩ := default_tape_source clip25 7 1 2 (by decide) (by decide)
  refine ⟨package, h, ?_, ?_⟩
  · rw [ht]
    decide
  · simp only [GenericPackage.sequenceDurations, GenericPackage.timelineTracks, ht]
    decide

theorem tapeTrackLoop_track_id (rate : Rational) (d : Int) (nv : Nat) (steps : Nat) :
    ∀ (i track_id vn an : Nat) (acc : List GenericTrack), track_id < 4294967296 →
      (tapeTrackLoop rate d nv steps i track_id vn an acc).2
        = (track_id + steps) % 4294967296 := by
  induction steps with
  | zero =>
    intro i track_id vn an acc h
    simp only [tapeTrackLoop, Nat.add_zero]
    exact (Nat.mod_eq_of_lt h).symm
  | succ n ih =>
    intro i track_id vn an acc _
    simp only [tapeTrackLoop]
    rw [ih _ _ _ _ _ (by unfold wrapU32; exact Nat.mod_lt _ (by decide))]
    unfold wrapU32
    omega

/-- C28 (counterexample): on a clip at 25/1, `CreateDefaultTapeSource(name, 4294967295, 1)`
returns a package whose only track is the timecode track, with the track id 1: the sum of
the two track counts wraps to 0 and no picture or sound track is made.  And
`CreateDefaultTapeSource(name, 4294967295, 0)` gives the timecode track the track id 0, not
`nv + na + 1 = 4294967296`. -/
theorem default_tape_source_counterexample :
    ((clip25.CreateDefaultTapeSource 7 4294967295 1).map
      fun r => r.2.tracks.map GenericTrack.getTrackID) = some [1] ∧
    ((clip25.CreateDefaultTapeSource 7 4294967295 0).map
      fun r => r.2.tracks.getLast?.map GenericTrack.getTrackID) = some (some 0) := by
  constructor
  · decide
  · rw [CreateDefaultTapeSource_eq clip25 7 4294967295 0 10800000 (by decide)]
    simp only [Option.map_some', List.getLast?_append, List.getLast?_singleton,
      GenericTrack.getTrackID]
    rw [tapeTrackLoop_track_id _ _ _ _ _ _ _ _ _ (by decide)]
    decide

theorem appendLocatorSegments_spec (clip : AvidClip) (locators : List AvidLocator) :
    ∀ (j : Nat) (segments : List DMSegment),
      clip.appendLocatorSegments j locators segments
        = segments ++ (locators.take (MAX_LOCATORS - j)).map clip.locatorSegment := by
  induction locators with
  | nil =>
    intro j segments
    simp [AvidClip.appendLocatorSegments]
  | cons l rest ih =>
    intro j segments
    by_cases hj : j < MAX_LOCATORS
    · have hsub : MAX_LOCATORS - j = (MAX_LOCATORS - (j + 1)) + 1 := by omega
      simp only [AvidClip.appendLocatorSegments, if_pos hj, ih]
      rw [hsub, List.take_succ_cons]
      simp
    · have hsub : MAX_LOCATORS - j = 0 := by omega
      simp [AvidClip.appendLocatorSegments, hj, hsub]

theorem addLocators_locators (clip : AvidClip) (locators : List AvidLocator) :
    (clip.addLocators locators).mLocators = clip.mLocators ++ locators ∧
    (clip.addLocators locators).mClipFrameRate = clip.mClipFrameRate ∧
    (clip.addLocators locators).mLocatorDescribedTrackId = clip.mLocatorDescribedTrackId ∧
    (clip.addLocators locators).mTracks = clip.mTracks := by
  induction locators generalizing clip with
  | nil => simp [AvidClip.addLocators]
  | cons l rest ih =>
    obtain ⟨h1, h2, h3, h4⟩ := ih (clip.AddLocator l)
    refine ⟨?_, ?_, ?_, ?_⟩
    · show ((clip.AddLocator l).addLocators rest).mLocators = _
      rw [h1]
      simp [AvidClip.AddLocator]
    · show ((clip.AddLocator l).addLocators rest).mClipFrameRate = _
      rw [h2]
      rfl
    · show ((clip.AddLocator l).addLocators rest).mLocatorDescribedTrackId = _
      rw [h3]
      rfl
    · show ((clip.AddLocator l).addLocators rest).mTracks = _
      rw [h4]
      rfl

theorem findPackage_uid (packages : List GenericPackage) (uid : UMID) (p : GenericPackage)
    (h : findPackage packages uid = some p) : p.package_uid = uid := by
  have := List.find?_some h
  simpa using this

theorem findPackage_setPackage (packages : List GenericPackage) (uid : UMID)
    (old new : GenericPackage) (h : findPackage packages uid = some old)
    (hu : new.package_uid = old.package_uid) :
    findPackage (setPackage packages new) uid = some new := by
  have hold := findPackage_uid packages uid old h
  induction packages with
  | nil => simp [findPackage] at h
  | cons q rest ih =>
    by_cases hq : q.package_uid = uid
    · have hq2 : q.package_uid = new.package_uid := by rw [hq, hu, hold]
      have hn : new.package_uid = uid := by rw [hu, hold]
      simp [setPackage, hq2, findPackage, hn]
    · have hq2 : ¬ q.package_uid = new.package_uid := by rw [hu, hold]; exact hq
      have hrest : findPackage rest uid = some old := by
        simpa [findPackage, List.find?_cons, hq] using h
      have := ih hrest
      simp only [setPackage, beq_iff_eq, hq2, if_false]
      simpa [findPackage, List.find?_cons, hq] using this

theorem addLocatorTracks_spec (clip : AvidClip) (hne : clip.mLocators ≠ [])
    (l : List AvidTrack)
    (h : ∀ track ∈ l, (findPackage track.packages track.GetMaterialPackage).isSome = true) :
    ∃ tracks, clip.addLocatorTracks l = some tracks ∧
      List.Forall₂ (fun track t => ∃ mp,
          findPackage track.packages track.GetMaterialPackage = some mp ∧
          t = { track with
                packages :=
                  setPackage track.packages
                    { mp with
                      tracks := mp.tracks ++
                        [GenericTrack.EventTrack
                          { track_id := DM_TRACK_ID, track_number := DM_TRACK_NUMBER,
                            event_edit_rate := clip.mClipFrameRate,
                            data_definition := DataDefinition.DescriptiveMetadata,
                            segments :=
                              clip.appendLocatorSegments 0 clip.mLocators [] }] } })
        l tracks := by
  induction l with
  | nil => exact ⟨[], rfl, List.Forall₂.nil⟩
  | cons track rest ih =>
    obtain ⟨ts, hts, hall⟩ := ih (fun t ht => h t (List.mem_cons_of_mem _ ht))
    have htrack := h track (List.mem_cons_self _ _)
    obtain ⟨mp, hmp⟩ := Option.isSome_iff_exists.mp htrack
    refine ⟨_ :: ts, ?_, List.Forall₂.cons ⟨mp, hmp, rfl⟩ hall⟩
    simp only [AvidClip.addLocatorTracks, AvidClip.addLocatorTrack, hmp, ne_eq, hne,
      not_false_eq_true, if_true, hts, Option.map_some']

/-- C29: `AddLocator` is total and keeps every locator: after `n >= 1` calls on a clip
without locators, the clip holds the `n` locators in insertion order.  The first loop of
`UpdateHeaderMetadata` then returns, when every track has its material package, and appends
to the material package of each track one event track (track id 1000, track number 1, the
clip frame rate, descriptive metadata) whose sequence has exactly `min(n, 4095)` DM segments:
those of the first `min(n, 4095)` locators in insertion order, with their positions. -/
theorem locator_cap (clip : AvidClip) (locators : List AvidLocator)
    (hnew : clip.mLocators = []) (hn : 1 ≤ locators.length)
    (hmp : ∀ track ∈ clip.mTracks,
      (findPackage track.packages track.GetMaterialPackage).isSome = true) :
    (clip.addLocators locators).mLocators = locators ∧
    ∃ tracks,
      (clip.addLocators locators).addLocatorTracks (clip.addLocators locators).mTracks
        = some tracks ∧
      List.Forall₂ (fun track t => ∃ mp segments,
          findPackage track.packages track.GetMaterialPackage = some mp ∧
          findPackage t.packages t.GetMaterialPackage
            = some { mp with
                     tracks := mp.tracks ++
                       [GenericTrack.EventTrack
                         { track_id := 1000, track_number := 1,
                           event_edit_rate := clip.mClipFrameRate,
                           data_definition := DataDefinition.DescriptiveMetadata,
                           segments := segments }] } ∧
          segments.length = min locators.length 4095 ∧
          segments = (locators.take (min locators.length 4095)).map
            (clip.addLocators locators).locatorSegment ∧
          segments.map (fun s => s.event_start_position)
            = (locators.take (min locators.length 4095)).map (fun l => l.position))
        clip.mTracks tracks := by
  obtain ⟨h1, h2, _, h4⟩ := addLocators_locators clip locators
  rw [hnew, List.nil_append] at h1
  have hne : (clip.addLocators locators).mLocators ≠ [] := by
    rw [h1]
    intro e
    rw [e] at hn
    simp at hn
  obtain ⟨tracks, hts, hall⟩ := addLocatorTracks_spec (clip.addLocators locators) hne
    clip.mTracks hmp
  refine ⟨h1, tracks, by rw [h4]; exact hts, ?_⟩
  have htake : locators.take (min locators.length 4095) = locators.take 4095 := by
    rcases Nat.le_total locators.length 4095 with hle | hle
    · rw [Nat.min_eq_left hle, List.take_of_length_le (Nat.le_refl _),
        List.take_of_length_le hle]
    · rw [Nat.min_eq_right hle]
  refine List.Forall₂.imp ?_ hall
  intro track t ⟨mp, hmp1, ht⟩
  have hseg := appendLocatorSegments_spec (clip.addLocators locators)
    (clip.addLocators locators).mLocators 0 []
  rw [h1] at hseg
  simp only [Nat.sub_zero, List.nil_append, MAX_LOCATORS] at hseg
  refine ⟨mp, (locators.take 4095).map (clip.addLocators locators).locatorSegment,
    hmp1, ?_, ?_, ?_, ?_⟩
  · rw [ht]
    simp only [h1, h2, hseg, DM_TRACK_ID, DM_TRACK_NUMBER]
    exact findPackage_setPackage _ _ mp _ hmp1 rfl
  · simp [List.length_take]
    exact Nat.min_comm _ _
  · rw [htake]
  · rw [htake, List.map_map]
    rfl

/-- C29 (witness): 4096 locators added to a clip with one track: the clip holds all 4096, and
the event track of the material package gets `min(4096, 4095) = 4095` segments; with 4095
locators the bound `min(4095, 4095)` is 4095 as well. -/
theorem locator_cap_witness :
    min (redLocators 4096).length 4095 = 4095 ∧
    min (redLocators 4095).length 4095 = 4095 ∧
    (tapeClip.addLocators (redLocators 4096)).mLocators = redLocators 4096 ∧
    ∃ tracks,
      (tapeClip.addLocators (redLocators 4096)).addLocatorTracks
          (tapeClip.addLocators (redLocators 4096)).mTracks
        = some tracks ∧
      List.Forall₂ (fun track t => ∃ mp segments,
          findPackage track.packages track.GetMaterialPackage = some mp ∧
          findPackage t.packages t.GetMaterialPackage
            = some { mp with
                     tracks := mp.tracks ++
                       [GenericTrack.EventTrack
                         { track_id := 1000, track_number := 1,
                           event_edit_rate := tapeClip.mClipFrameRate,
                           data_definition := DataDefinition.DescriptiveMetadata,
                           segments := segments }] } ∧
          segments.length = min (redLocators 4096).length 4095 ∧
          segments = ((redLocators 4096).take (min (redLocators 4096).length 4095)).map
            (tapeClip.addLocators (redLocators 4096)).locatorSegment ∧
          segments.map (fun s => s.event_start_position)
            = ((redLocators 4096).take (min (redLocators 4096).length 4095)).map
                (fun l => l.position))
        tapeClip.mTracks tracks :=
  ⟨by simp [redLocators], by simp [redLocators],
    locator_cap tapeClip (redLocators 4096) rfl (by simp [redLocators]) (by decide)⟩

theorem setStartPosition_skip (rate : Rational) (start : Int) (front rest : List GenericTrack)
    (h : ∀ x ∈ front, isEssenceTrack x = false) :
    setStartPosition rate start (front ++ rest)
      = match setStartPosition rate start rest with
        | Outcome.ok r => Outcome.ok (front ++ r)
        | Outcome.thrown f r => Outcome.thrown f (front ++ r)
        | Outcome.undefined => Outcome.undefined := by
  induction front with
  | nil =>
    simp only [List.nil_append]
    cases setStartPosition rate start rest <;> rfl
  | cons x xs ih =>
    have hx := h x (List.mem_cons_self _ _)
    have ih := ih (fun y hy => h y (List.mem_cons_of_mem _ hy))
    generalize setStartPosition rate start rest = o at ih ⊢
    cases x with
    | EventTrack e =>
      simp only [List.cons_append, setStartPosition, List.append_eq, ih]
      cases o <;> rfl
    | Track t =>
      simp only [isEssenceTrack, Bool.or_eq_false_iff] at hx
      simp only [List.cons_append, setStartPosition, hx.1, hx.2, Bool.not_false, Bool.and_self,
        if_true, List.append_eq, ih]
      cases o <;> rfl

theorem setStartPosition_first (rate : Rational) (start : Int) (front back : List GenericTrack)
    (tr : Track) (duration sp : Int) (pid : UMID) (tid : Nat) (position : Int)
    (h : ∀ x ∈ front, isEssenceTrack x = false)
    (he : isEssenceTrack (GenericTrack.Track tr) = true)
    (hc : tr.sequence.components = [StructuralComponent.SourceClip duration sp pid tid])
    (hp : convert_position_rate rate start tr.edit_rate Rounding.ROUND_AUTO = some position) :
    setStartPosition rate start (front ++ GenericTrack.Track tr :: back)
      = Outcome.ok (front ++
          GenericTrack.Track
            { tr with sequence :=
                { tr.sequence with
                  components := [StructuralComponent.SourceClip duration position pid tid] } }
          :: back) := by
  rw [setStartPosition_skip rate start front _ h]
  have hne : (!mxf_is_picture tr.sequence.data_definition &&
      !mxf_is_sound tr.sequence.data_definition) = false := by
    simp only [isEssenceTrack, Bool.or_eq_true] at he
    rcases he with he | he <;> simp [he]
  simp only [setStartPosition, hne, Bool.false_eq_true, if_false, hc, hp]

/-- C25: for a track whose referenced source package carries a tape descriptor and a timecode
component with start timecode `T` at base `bt`, and a clip start timecode with offset `C` at
base `bc`, let `B` be the rounded timecode base of the clip frame rate,
`t = convert_position(T, B, bt, AUTO)`, `c = convert_position(C, B, bc, AUTO)` and
`start = c - t`, a 64-bit value.  If `start < 0` the track is left as it is.  Otherwise the
source clip of the first picture or sound track of the file source package gets the start
position `convert_position(clip frame rate, start, track edit rate, AUTO)` and nothing else
changes. -/
theorem tape_start_timecode (clip : AvidClip) (track : AvidTrack) (uid : UMID)
    (ref : GenericPackage) (tape : StartTimecode) (t c : Int)
    (href : track.GetRefSourcePackage = some uid)
    (hfind : findPackage track.packages uid = some ref)
    (hdesc : ref.descriptor = some Descriptor.TapeDescriptor)
    (htape : GetStartTimecode ref = some tape)
    (ht : convert_position tape.offset (get_rounded_tc_base clip.mClipFrameRate : Int)
      (tape.rounded_tc_base : Int) Rounding.ROUND_AUTO = some t)
    (hc : convert_position clip.mStartTimecode.GetOffset
      (get_rounded_tc_base clip.mClipFrameRate : Int)
      (clip.mStartTimecode.GetRoundedTCBase : Int) Rounding.ROUND_AUTO = some c)
    (hfit : isInt64 (c - t)) :
    (c - t < 0 → clip.setTapeStartTimecode track = Outcome.ok track) ∧
    (0 ≤ c - t →
      ∀ (file : GenericPackage) (front back : List GenericTrack) (tr : Track)
        (duration sp : Int) (pid : UMID) (tid : Nat) (position : Int),
        findPackage track.packages track.GetFileSourcePackage = some file →
        file.tracks = front ++ GenericTrack.Track tr :: back →
        (∀ x ∈ front, isEssenceTrack x = false) →
        isEssenceTrack (GenericTrack.Track tr) = true →
        tr.sequence.components = [StructuralComponent.SourceClip duration sp pid tid] →
        convert_position_rate clip.mClipFrameRate (c - t) tr.edit_rate Rounding.ROUND_AUTO
          = some position →
        clip.setTapeStartTimecode track
          = Outcome.ok
            { track with
              packages :=
                setPackage track.packages
                  { file with
                    tracks := front ++
                      GenericTrack.Track
                        { tr with sequence :=
                            { tr.sequence with
                              components :=
                                [StructuralComponent.SourceClip duration position pid
                                  tid] } }
                      :: back } }) := by
  have hsub : sub64 c t = c - t := by
    unfold sub64
    exact wrap64_of_isInt64 _ hfit
  have hd : ¬ (ref.descriptor ≠ some Descriptor.TapeDescriptor) := fun h => h hdesc
  constructor
  · intro hneg
    simp only [AvidClip.setTapeStartTimecode, href, Option.some_bind, hfind, hd, if_false,
      htape, ht, hc, hsub, if_pos hneg]
  · intro hpos file front back tr duration sp pid tid position hfile htracks hfront hess hcomp
      hposition
    have hn : ¬ c - t < 0 := by omega
    simp only [AvidClip.setTapeStartTimecode, href, Option.some_bind, hfind, hd, if_false,
      htape, ht, hc, hsub, if_neg hn, hfile, htracks,
      setStartPosition_first _ _ front back tr duration sp pid tid position hfront hess hcomp
        hposition]

/-- C25 (witness): tape start 01:00:00:00 (offset 90000) and clip start 01:00:05:00 (offset
90125) at 25 frames per second: the source clip of the file source package of a track with
edit rate 25/1 gets the start position 125. -/
theorem tape_start_timecode_witness :
    tapeClip.setTapeStartTimecode tapeTrack
      = Outcome.ok
        { tapeTrack with
          packages :=
            setPackage tapeTrack.packages
              { fileSourcePackage with
                tracks := [] ++
                  GenericTrack.Track
                    { fileSourceTrack with sequence :=
                        { fileSourceTrack.sequence with
                          components := [StructuralComponent.SourceClip (-1) 125 3 1] } }
                  :: [] } } ∧
    ((tapeClip.SetTapeStartTimecode).state.map fun clip =>
        clip.mTracks.map fun t =>
          (findPackage t.packages t.GetFileSourcePackage).map GenericPackage.startPositions)
      = some [some [[125]]] :=
  ⟨(tape_start_timecode tapeClip tapeTrack 3 tapePackage
      { rounded_tc_base := 25, drop_frame := false, offset := 90000 } 90000 90125
      rfl rfl rfl rfl (by decide) (by decide) (by decide)).2 (by decide)
      fileSourcePackage [] [] fileSourceTrack (-1) 0 3 1 125 rfl rfl (by simp) rfl rfl
      (by decide),
    by decide⟩

theorem findTrack_id (package : GenericPackage) (id : Nat) (t : GenericTrack)
    (h : package.findTrack id = some t) : t.getTrackID = id := by
  have := List.find?_some h
  simpa using this

theorem findTrack_setTrack (tracks : List GenericTrack) (id : Nat) (old new : Track)
    (h : tracks.find? (fun t => t.getTrackID == id) = some (GenericTrack.Track old))
    (hid : new.track_id = old.track_id) :
    (setTrack tracks new).find? (fun t => t.getTrackID == id)
      = some (GenericTrack.Track new) := by
  have hold : old.track_id = id := by
    have := List.find?_some h
    simpa [GenericTrack.getTrackID] using this
  induction tracks with
  | nil => simp at h
  | cons q rest ih =>
    by_cases hq : q.getTrackID = id
    · have hq2 : q.getTrackID = new.track_id := by rw [hq, hid, hold]
      have hn : (GenericTrack.Track new).getTrackID = id := by
        show new.track_id = id
        rw [hid, hold]
      simp only [setTrack, hq2, beq_self_eq_true, if_true, List.find?_cons, hn]
    · have hq2 : ¬ q.getTrackID = new.track_id := by rw [hid, hold]; exact hq
      have hqb : (q.getTrackID == id) = false := by simpa using hq
      have hrest : rest.find? (fun t => t.getTrackID == id)
          = some (GenericTrack.Track old) := by
        rw [List.find?_cons, hqb] at h
        exact h
      have := ih hrest
      simp only [setTrack, beq_iff_eq, hq2, if_false, List.find?_cons, hqb]
      exact this

theorem getTrackAt_setTrackAt (tracks : List AvidTrack) (ref : TrackRef) (old new : Track)
    (h : getTrackAt tracks ref = some (GenericTrack.Track old))
    (hid : new.track_id = old.track_id) :
    getTrackAt (setTrackAt tracks ref new) ref = some (GenericTrack.Track new) := by
  unfold getTrackAt at h
  cases ho : tracks.get? ref.owner with
  | none =>
    rw [ho] at h
    simp at h
  | some owner =>
    rw [ho, Option.some_bind] at h
    cases hp : findPackage owner.packages ref.package_uid with
    | none =>
      rw [hp] at h
      simp at h
    | some package =>
      rw [hp, Option.some_bind] at h
      have hlt : ref.owner < tracks.length := by
        rcases Nat.lt_or_ge ref.owner tracks.length with hlt | hge
        · exact hlt
        · rw [List.get?_eq_none.mpr hge] at ho
          cases ho
      have hset : (tracks.set ref.owner
          { owner with
            packages :=
              setPackage owner.packages
                { package with tracks := setTrack package.tracks new } }).get? ref.owner
          = some { owner with
                   packages :=
                     setPackage owner.packages
                       { package with tracks := setTrack package.tracks new } } := by
        simp [List.getElem?_set, hlt]
      simp only [setTrackAt, ho, hp, getTrackAt, hset, Option.some_bind]
      rw [findPackage_setPackage owner.packages ref.package_uid package
        { package with tracks := setTrack package.tracks new } hp rfl]
      simp only [Option.some_bind, GenericPackage.findTrack]
      exact findTrack_setTrack package.tracks ref.track_id old new h hid

/-- C26: `UpdateTrackDurations` on a track whose sequence duration is already `>= 0`
returns without any change: no duration of that sequence, of its component or of a track
further down the reference chain is touched.  When the sequence duration is negative and the
sequence has a single component, the sequence and the component are set to
`convert_duration(edit_rate, duration, track edit rate, AUTO)`; if the component is a source
clip that refers to a timeline track of a package of the preface, the call continues as the
call for that track with the edit rate of the track and the duration
`source_clip.start_position + that value` (a 64-bit value); if the component is a timecode
component or a source clip with the null UMID, the call returns there. -/
theorem existing_durations_preserved (fuel : Nat) (tracks : List AvidTrack)
    (avid_track : Nat) (ref : TrackRef) (track : Track) (edit_rate : Rational)
    (duration track_duration : Int)
    (hget : getTrackAt tracks ref = some (GenericTrack.Track track))
    (hconv : convert_duration_rate edit_rate duration track.edit_rate Rounding.ROUND_AUTO
      = some track_duration) :
    (0 ≤ track.sequence.duration →
      UpdateTrackDurations (fuel + 1) tracks avid_track ref edit_rate duration
        = some (Outcome.ok tracks)) ∧
    (track.sequence.duration < 0 →
      ∀ component, track.sequence.components = [component] →
        getTrackAt (setTrackAt tracks ref (track.withDuration component track_duration)) ref
          = some (GenericTrack.Track (track.withDuration component track_duration)) ∧
        (∀ (d sp : Int) (pid : UMID) (tid : Nat) (ref_package : GenericPackage)
            (ref_track : Track),
          component = StructuralComponent.SourceClip d sp pid tid →
          pid ≠ g_Null_UMID →
          ((setTrackAt tracks ref (track.withDuration component track_duration)).get?
              avid_track).bind (fun owner => findPackage owner.packages pid)
            = some ref_package →
          ref_package.findTrack tid = some (GenericTrack.Track ref_track) →
          isInt64 (sp + track_duration) →
          UpdateTrackDurations (fuel + 1) tracks avid_track ref edit_rate duration
            = UpdateTrackDurations fuel
                (setTrackAt tracks ref (track.withDuration component track_duration))
                avid_track { owner := avid_track, package_uid := pid, track_id := tid }
                track.edit_rate (sp + track_duration)) ∧
        ((∃ d b f s, component = StructuralComponent.TimecodeComponent d b f s) ∨
            (∃ d sp tid, component = StructuralComponent.SourceClip d sp g_Null_UMID tid) →
          UpdateTrackDurations (fuel + 1) tracks avid_track ref edit_rate duration
            = some (Outcome.ok
                (setTrackAt tracks ref (track.withDuration component track_duration))))) := by
  constructor
  · intro h
    simp only [UpdateTrackDurations, hget, hconv, ge_iff_le, if_pos h]
  · intro h component hcomp
    have hn : ¬ 0 ≤ track.sequence.duration := by omega
    refine ⟨getTrackAt_setTrackAt tracks ref track _ hget rfl, ?_, ?_⟩
    · intro d sp pid tid ref_package ref_track hc hpid hpkg htrack hfit
      subst hc
      have hadd : add64 sp track_duration = sp + track_duration := by
        unfold add64
        exact wrap64_of_isInt64 _ hfit
      simp only [Track.withDuration] at hpkg
      simp only [UpdateTrackDurations, hget, hconv, ge_iff_le, if_neg hn, hcomp, ne_eq, hpid,
        not_false_eq_true, if_true, hpkg, htrack, hadd, Track.withDuration]
    · rintro (⟨d, b, f, s, hc⟩ | ⟨d, sp, tid, hc⟩)
      · subst hc
        simp only [UpdateTrackDurations, hget, hconv, ge_iff_le, if_neg hn, hcomp,
          Track.withDuration]
      · subst hc
        simp only [UpdateTrackDurations, hget, hconv, ge_iff_le, if_neg hn, hcomp, ne_eq,
          not_true_eq_false, if_false, Track.withDuration]

/-- C26 (witness): a picture track of 100 frames with material package, file source package
and tape source package.  The call for the material track, whose duration is -1, sets it to
100 and continues with the track of the file source package and the duration `0 + 100`; at
the end the material and the file source package have the duration 100 and the tape, whose
durations were set, keeps 10800000. -/
theorem existing_durations_preserved_witness :
    UpdateTrackDurations (2 + 1) [tapeTrack] 0 { owner := 0, package_uid := 1, track_id := 1 }
        ⟨25, 1⟩ 100
      = UpdateTrackDurations 2
          (setTrackAt [tapeTrack] { owner := 0, package_uid := 1, track_id := 1 }
            (materialTrack.withDuration (StructuralComponent.SourceClip (-1) 0 2 1) 100))
          0 { owner := 0, package_uid := 2, track_id := 1 } ⟨25, 1⟩ (0 + 100) ∧
    ((UpdateTrackDurations 3 [tapeTrack] 0 { owner := 0, package_uid := 1, track_id := 1 }
        ⟨25, 1⟩ 100).map fun o => o.state.map fun ts => ts.map AvidTrack.durations)
      = some (some [[([100], [[100]]), ([100], [[100]]),
          ([10800000, 10800000], [[10800000], [10800000]])]]) ∧
    (UpdateTrackDurations 1 [tapeTrack] 0 { owner := 0, package_uid := 3, track_id := 1 }
        ⟨25, 1⟩ 100).map Outcome.returned = some true :=
  ⟨((existing_durations_preserved 2 [tapeTrack] 0
        { owner := 0, package_uid := 1, track_id := 1 } materialTrack ⟨25, 1⟩ 100 100
        (by decide) (by decide)).2 (by decide) (StructuralComponent.SourceClip (-1) 0 2 1)
        rfl).2.1 (-1) 0 2 1 fileSourcePackage fileSourceTrack rfl (by decide) (by decide)
        (by decide) (by decide),
    by decide, by decide⟩

/-! ## Essence types, the manifest entry and the working directory: theorems -/

theorem IsSupported_unknown (is_mpeg2lg_720p : Bool) (sample_rate : Rational) :
    IsSupported AS02EssenceType.AS02_UNKNOWN_ESSENCE is_mpeg2lg_720p sample_rate = false := by
  simp [IsSupported, isSupportedIn, AS02_SAMPLE_RATE_SUPPORT]

/-- C40: the two `ConvertEssenceType` functions are inverse to each other on the rows of
`ESSENCE_TYPE_MAP`: each row's AS-02 type converts to the row's descriptor-helper type and
back, so the round trip is the identity on every type listed, in both directions; a type that
is not listed converts to the unknown value of the other enumeration (so do the two unknown
values); and every AS-02 type that `IsSupported` accepts for some flag and rate is listed. -/
theorem essence_type_bijection :
    (∀ row ∈ ESSENCE_TYPE_MAP,
      row.1.ConvertEssenceType = row.2 ∧ row.2.ConvertEssenceType = row.1) ∧
    (∀ t ∈ ESSENCE_TYPE_MAP.map Prod.fst, t.ConvertEssenceType.ConvertEssenceType = t) ∧
    (∀ h ∈ ESSENCE_TYPE_MAP.map Prod.snd, h.ConvertEssenceType.ConvertEssenceType = h) ∧
    (∀ t, t ∉ ESSENCE_TYPE_MAP.map Prod.fst →
      t.ConvertEssenceType = EssenceType.UNKNOWN_ESSENCE) ∧
    (∀ h, h ∉ ESSENCE_TYPE_MAP.map Prod.snd →
      h.ConvertEssenceType = AS02EssenceType.AS02_UNKNOWN_ESSENCE) ∧
    AS02EssenceType.AS02_UNKNOWN_ESSENCE.ConvertEssenceType = EssenceType.UNKNOWN_ESSENCE ∧
    EssenceType.UNKNOWN_ESSENCE.ConvertEssenceType = AS02EssenceType.AS02_UNKNOWN_ESSENCE ∧
    (∀ t is_mpeg2lg_720p sample_rate, IsSupported t is_mpeg2lg_720p sample_rate = true →
      t ∈ ESSENCE_TYPE_MAP.map Prod.fst) := by
  refine ⟨by decide, by decide, by decide, ?_, ?_, rfl, rfl, ?_⟩
  · intro t ht
    cases t <;> first | rfl | exact absurd (by decide) ht
  · intro h hh
    cases h <;> first | rfl | exact absurd (by decide) hh
  · intro t flag rate hs
    cases t <;> first | (exact (by decide)) | skip
    rw [IsSupported_unknown] at hs
    exact absurd hs (by simp)

theorem CreateHeaderMetadata_package_uid (s : AS02TrackState)
    (AddOffset : Timecode → Int → Rational → Timecode) :
    (s.CreateHeaderMetadata AddOffset).mFileSourcePackage.map (fun p => p.package_uid)
      = some s.mFileSourcePackageUID ∧
    (s.CreateHeaderMetadata AddOffset).mFileSourcePackageUID = s.mFileSourcePackageUID := by
  simp [AS02TrackState.CreateHeaderMetadata]

theorem writer_call_id (w : AS02TrackWriter) (c : SetterCall)
    (h : w.mManifestFile.id = w.mFileSourcePackageUID) :
    (w.call c).mManifestFile.id = (w.call c).mFileSourcePackageUID := by
  cases c with
  | SetFileSourcePackageUID uid =>
    simp [AS02TrackWriter.call, AS02TrackWriter.SetFileSourcePackageUID,
      AS02ManifestFile.SetId]
  | SetMICType x =>
    simpa [AS02TrackWriter.call, AS02TrackWriter.SetMICType, AS02ManifestFile.SetMICType]
      using h
  | SetMICScope x =>
    simpa [AS02TrackWriter.call, AS02TrackWriter.SetMICScope, AS02ManifestFile.SetMICScope]
      using h
  | SetOutputStartOffset o =>
    simpa [AS02TrackWriter.call, AS02TrackWriter.onState] using h
  | SetOutputEndOffset o =>
    simpa [AS02TrackWriter.call, AS02TrackWriter.onState] using h

theorem writer_run_id (w : AS02TrackWriter) (calls : List SetterCall)
    (h : w.mManifestFile.id = w.mFileSourcePackageUID) :
    (w.run calls).mManifestFile.id = (w.run calls).mFileSourcePackageUID := by
  induction calls generalizing w with
  | nil => exact h
  | cons c rest ih => exact ih (w.call c) (writer_call_id w c h)

/-- C31: the id of the manifest file entry of an AS02 track is the UMID of its file source
package: after the constructor, after `SetFileSourcePackageUID(uid)` (both are then `uid`),
and after every sequence of setter calls on a new track; that UMID is the package UID that
`GetSourceReference` returns and that `CreateHeaderMetadata` gives to the file source package
it creates. -/
theorem manifest_id_tracks_package_uid (sample_rate clip_frame_rate : Rational)
    (sample_size : Nat) (start_timecode : Timecode)
    (material_package_uid file_source_package_uid : UMID) (rel_uri : List Char)
    (calls : List SetterCall) (package_uid : UMID)
    (AddOffset : Timecode → Int → Rational → Timecode) :
    (AS02TrackWriter.new sample_rate clip_frame_rate sample_size start_timecode
      material_package_uid file_source_package_uid rel_uri).mManifestFile.id
        = file_source_package_uid ∧
    (AS02TrackWriter.new sample_rate clip_frame_rate sample_size start_timecode
      material_package_uid file_source_package_uid rel_uri).mFileSourcePackageUID
        = file_source_package_uid ∧
    (∀ w : AS02TrackWriter,
      (w.SetFileSourcePackageUID package_uid).mManifestFile.id = package_uid ∧
      (w.SetFileSourcePackageUID package_uid).mFileSourcePackageUID = package_uid) ∧
    (∀ w : AS02TrackWriter,
      w = (AS02TrackWriter.new sample_rate clip_frame_rate sample_size start_timecode
        material_package_uid file_source_package_uid rel_uri).run calls →
      w.mManifestFile.id = w.mFileSourcePackageUID ∧
      w.GetSourceReference.1 = w.mFileSourcePackageUID ∧
      (w.CreateHeaderMetadata AddOffset).mFileSourcePackage.map (fun p => p.package_uid)
        = some w.mFileSourcePackageUID ∧
      (w.CreateHeaderMetadata AddOffset).mManifestFile.id = w.mFileSourcePackageUID ∧
      (w.CreateHeaderMetadata AddOffset).mFileSourcePackageUID = w.mFileSourcePackageUID) := by
  refine ⟨rfl, rfl, fun w => ⟨rfl, rfl⟩, ?_⟩
  intro w hw
  have hid : w.mManifestFile.id = w.mFileSourcePackageUID := by
    rw [hw]
    exact writer_run_id _ calls rfl
  obtain ⟨h1, h2⟩ := CreateHeaderMetadata_package_uid w.toAS02TrackState AddOffset
  exact ⟨hid, rfl, h1, hid, h2⟩

/-! ### The working directory -/

theorem get_abs_cwd_fuel_total (getcwd : Nat → Except Errno (List Char)) (fuel path_size : Nat)
    (buffers : List Nat) (h0 : 0 < fuel)
    (h : MAX_REASONABLE_PATH_SIZE + 1024 ≤ path_size + 1024 * fuel) :
    ∃ r, get_abs_cwd_fuel getcwd fuel path_size buffers = some r := by
  induction fuel generalizing path_size buffers with
  | zero => omega
  | succ n ih =>
    unfold get_abs_cwd_fuel
    split
    · exact ⟨_, rfl⟩
    · exact ⟨_, rfl⟩
    · split
      · exact ⟨_, rfl⟩
      · rename_i hlt
        exact ih (path_size + 1024) _ (by unfold MAX_REASONABLE_PATH_SIZE at *; omega)
          (by unfold MAX_REASONABLE_PATH_SIZE at *; omega)
    · exact ⟨_, rfl⟩

theorem getcwd_fits (cwd : List Char) (size : Nat) (h : cwd.length + 1 ≤ size) :
    getcwd cwd size = Except.ok cwd := by
  unfold getcwd
  rw [if_pos h]

theorem getcwd_range (cwd : List Char) (size : Nat) (h : ¬ cwd.length + 1 ≤ size) :
    getcwd cwd size = Except.error Errno.ERANGE := by
  unfold getcwd
  rw [if_neg h]

theorem get_abs_cwd_fuel_fit (cwd : List Char) (fuel path_size : Nat) (buffers : List Nat)
    (h : cwd.length + 1 ≤ path_size) :
    get_abs_cwd_fuel (getcwd cwd) (fuel + 1) path_size buffers
      = some { result := CwdResult.returned cwd, buffers := buffers ++ [path_size] } := by
  unfold get_abs_cwd_fuel
  rw [getcwd_fits cwd path_size h]

theorem get_abs_cwd_fuel_grow (cwd : List Char) (fuel path_size : Nat) (buffers : List Nat)
    (h : ¬ cwd.length + 1 ≤ path_size) (hs : path_size < 10240) :
    get_abs_cwd_fuel (getcwd cwd) (fuel + 1) path_size buffers
      = get_abs_cwd_fuel (getcwd cwd) fuel (path_size + 1024) (buffers ++ [path_size]) := by
  rw [get_abs_cwd_fuel, getcwd_range cwd path_size h]
  simp only
  rw [if_neg (by unfold MAX_REASONABLE_PATH_SIZE; omega)]

theorem get_abs_cwd_fuel_max (cwd : List Char) (fuel path_size : Nat) (buffers : List Nat)
    (h : ¬ cwd.length + 1 ≤ path_size) (hs : 10240 ≤ path_size) :
    get_abs_cwd_fuel (getcwd cwd) (fuel + 1) path_size buffers
      = some { result := CwdResult.max_path_size_exceeded,
               buffers := buffers ++ [path_size] } := by
  rw [get_abs_cwd_fuel, getcwd_range cwd path_size h]
  simp only
  rw [if_pos (by unfold MAX_REASONABLE_PATH_SIZE; omega)]

/-- With the platform call that fails only for a buffer too small, `get_abs_cwd` returns the
path from the first buffer of 1024, 2048, ... bytes that holds it, and throws after the buffer
of 10240 bytes. -/
theorem get_abs_cwd_getcwd (cwd : List Char) :
    get_abs_cwd (getcwd cwd) =
      if cwd.length + 1 ≤ MAX_REASONABLE_PATH_SIZE then
        some { result := CwdResult.returned cwd,
               buffers := bufferSizes (cwd.length / 1024 + 1) }
      else
        some { result := CwdResult.max_path_size_exceeded, buffers := bufferSizes 10 } := by
  have hM : MAX_REASONABLE_PATH_SIZE = 10240 := rfl
  rw [hM]
  unfold get_abs_cwd
  by_cases hfit : cwd.length + 1 ≤ 10240
  · rw [if_pos hfit]
    have hq : cwd.length / 1024 < 10 := by omega
    generalize hqe : cwd.length / 1024 = q at hq
    have h1 : 1024 * q ≤ cwd.length := by omega
    have h2 : cwd.length < 1024 * (q + 1) := by omega
    interval_cases q <;>
      (repeat (rw [get_abs_cwd_fuel_grow cwd _ _ _ (by omega) (by omega)])
       rw [get_abs_cwd_fuel_fit cwd _ _ _ (by omega)]
       rfl)
  · rw [if_neg hfit]
    repeat (rw [get_abs_cwd_fuel_grow cwd _ _ _ (by omega) (by omega)])
    rw [get_abs_cwd_fuel_max cwd _ _ _ (by omega) (by omega)]
    rfl

/-- C32 (amended): with the platform call that succeeds iff the path and its terminator fit
the buffer and reports `ERANGE` otherwise, `get_abs_cwd` returns: it tries buffers of 1024,
2048, ... bytes, growing in steps of 1024, each but the last too small; a path shorter than
10 KiB (`MAX_REASONABLE_PATH_SIZE`, 10240 bytes) is returned unchanged; and the maximum path
size error is reported exactly for a path of 10240 bytes or more, after the ten buffers up to
10240 bytes were too small.  Whatever the platform call does, `get_abs_cwd` ends within ten
passes of its loop. -/
theorem cwd_buffer_limit (cwd : List Char) :
    (∃ run, get_abs_cwd (getcwd cwd) = some run ∧
      run.buffers = bufferSizes run.buffers.length ∧
      (∀ size ∈ run.buffers.dropLast, ¬ cwd.length + 1 ≤ size) ∧
      (cwd.length < 10 * 1024 → run.result = CwdResult.returned cwd) ∧
      (run.result = CwdResult.max_path_size_exceeded ↔ 10 * 1024 ≤ cwd.length) ∧
      (run.result = CwdResult.max_path_size_exceeded →
        run.buffers = bufferSizes 10 ∧ ¬ cwd.length + 1 ≤ 10 * 1024)) ∧
    (∀ platform : Nat → Except Errno (List Char), ∃ run, get_abs_cwd platform = some run) := by
  have hM : MAX_REASONABLE_PATH_SIZE = 10240 := rfl
  refine ⟨?_, fun platform =>
    get_abs_cwd_fuel_total platform 10 1024 [] (by omega) (by rw [hM])⟩
  rw [get_abs_cwd_getcwd cwd, hM]
  have hsizes : ∀ n, ∀ size ∈ (bufferSizes n).dropLast, size ≤ 1024 * (n - 1) := by
    intro n size hs
    unfold bufferSizes at hs
    rw [← List.map_dropLast, List.dropLast_eq_take, List.length_range, List.take_range] at hs
    simp only [List.mem_map, List.mem_range] at hs
    obtain ⟨i, hi, rfl⟩ := hs
    have : i + 1 ≤ n - 1 := by omega
    omega
  by_cases hfit : cwd.length + 1 ≤ 10240
  · rw [if_pos hfit]
    refine ⟨_, rfl, ?_, ?_, fun _ => rfl, ?_, ?_⟩
    · simp [bufferSizes]
    · intro size hs
      have := hsizes _ size hs
      simp only [Nat.add_sub_cancel] at this
      omega
    · simp only [reduceCtorEq, false_iff]
      omega
    · intro h
      simp at h
  · rw [if_neg hfit]
    refine ⟨_, rfl, ?_, ?_, fun h => absurd h (by omega), ?_, ?_⟩
    · simp [bufferSizes]
    · intro size hs
      have := hsizes _ size hs
      omega
    · simp only [true_iff]
      omega
    · intro _
      exact ⟨rfl, by omega⟩

/-- C32 (counterexample): a working directory whose path has 10240 characters, far below
10 MiB: the ten buffers of 1024 up to 10240 bytes are too small for the path and its
terminator, and `get_abs_cwd` reports the maximum path size error. -/
theorem cwd_buffer_limit_counterexample :
    (List.replicate 10240 'a').length < 10 * 1024 * 1024 ∧
    get_abs_cwd (getcwd (List.replicate 10240 'a')) =
      some { result := CwdResult.max_path_size_exceeded,
             buffers := [1024, 2048, 3072, 4096, 5120, 6144, 7168, 8192, 9216, 10240] } := by
  have hlen : (List.replicate 10240 'a').length = 10240 := List.length_replicate _ _
  refine ⟨by rw [hlen]; decide, ?_⟩
  rw [get_abs_cwd_getcwd, hlen, if_neg (by decide)]
  rfl

/-! ## Conversions without overflow: theorems -/

theorem spec_convert_same (p t : Int) (r : Rounding) (ht : 0 < t) :
    spec_convert p t t r = p := by
  unfold spec_convert
  have hr0 := spec_round_nonneg t t ht r
  have hr1 := spec_round_lt t t ht r
  rw [Int.add_comm, Int.add_mul_ediv_right _ _ (ne_of_gt ht), Int.ediv_eq_zero_of_lt hr0 hr1]
  simp

theorem spec_convert_zero (t b : Int) (r : Rounding) (hb : 0 < b) :
    spec_convert 0 t b r = 0 := by
  unfold spec_convert
  rw [zero_mul, zero_add]
  exact Int.ediv_eq_zero_of_lt (spec_round_nonneg t b hb r) (spec_round_lt t b hb r)

theorem spec_convert_mono (p q t b : Int) (r : Rounding) (hpq : p ≤ q) (ht : 0 ≤ t)
    (hb : 0 < b) : spec_convert p t b r ≤ spec_convert q t b r := by
  unfold spec_convert
  have := Int.mul_le_mul_of_nonneg_right hpq ht
  exact Int.ediv_le_ediv hb (by omega)

/-- A positive position whose operations fit 64 bits converts to the floor formula. -/
theorem convert_position_pos_fits (p t b : Int) (r : Rounding) (hp0 : 0 < p) (hp : p < 2 ^ 63)
    (ht0 : 0 ≤ t) (hb0 : 0 < b) (hb : b < 2 ^ 63) (hne : t ≠ b)
    (hf : positionFits p t b r) :
    convert_position p t b r = some (spec_convert p t b r) := by
  have hr0 := spec_round_nonneg t b hb0 r
  by_cases hM : p ≤ MAX_INT32
  · obtain ⟨-, h2⟩ := hf.1 hM
    rw [convert_position_direct p t b r hp0 hM hne hb0 hb, wrap64_eq _ h2.1 h2.2]
    have : 0 ≤ p * t := Int.mul_nonneg (le_of_lt hp0) ht0
    rw [Int.tdiv_eq_ediv (by omega) (le_of_lt hb0)]
    rfl
  · obtain ⟨h1, -, h3, h4⟩ := hf.2 (by omega)
    rw [convert_position_split p t b r (by omega) hp hne hb0 hb, wrap64_eq _ h1.1 h1.2,
      wrap64_eq _ h3.1 h3.2]
    have hm0 : 0 ≤ p % b := Int.emod_nonneg _ (by omega)
    have : 0 ≤ p % b * t := Int.mul_nonneg hm0 ht0
    rw [Int.tdiv_eq_ediv (by omega) (le_of_lt hb0), wrap64_eq _ h4.1 h4.2,
      split_div p t b _ hb0]
    rfl

/-- The floor formula of a positive position whose operations fit 64 bits fits 64 bits. -/
theorem spec_convert_of_fits (p t b : Int) (r : Rounding) (hp0 : 0 < p) (ht0 : 0 ≤ t)
    (hb0 : 0 < b) (hf : positionFits p t b r) : spec_convert p t b r < 2 ^ 63 := by
  by_cases hM : p ≤ MAX_INT32
  · have h2 := ((hf.1 hM).2).2
    have hnum : 0 ≤ p * t + spec_round t b r := by
      have := Int.mul_nonneg (le_of_lt hp0) ht0
      have := spec_round_nonneg t b hb0 r
      omega
    have := Int.ediv_le_self b hnum
    unfold spec_convert
    omega
  · have h4 := ((hf.2 (by omega)).2.2.2).2
    rw [split_div p t b _ hb0] at h4
    exact h4

/-- A position whose conversion does not overflow converts to the floor formula applied to
its magnitude, with the sign of the position. -/
theorem convert_position_of_fits (p t b : Int) (r : Rounding) (hp : isInt64 p)
    (ht0 : 0 ≤ t) (hb0 : 0 < b) (hb : b < 2 ^ 63) (hf : convert_position_fits p t b r) :
    convert_position p t b r =
      some (if 0 ≤ p then spec_convert p t b r else -(spec_convert (-p) t b r)) := by
  obtain ⟨hp1, hp2⟩ := hp
  by_cases h0 : p = 0 ∨ t = b
  · have e : convert_position p t b r = some p := by
      unfold convert_position convert_position_fuel
      rw [if_pos h0]
    rw [e]
    rcases h0 with h0 | h0
    · subst h0
      simp [spec_convert_zero t b r hb0]
    · subst h0
      by_cases hs : 0 ≤ p
      · rw [if_pos hs, spec_convert_same p t r hb0]
      · rw [if_neg hs, spec_convert_same (-p) t r hb0]
        simp
  · have hp0 : p ≠ 0 := fun h => h0 (Or.inl h)
    have hne : t ≠ b := fun h => h0 (Or.inr h)
    rcases hf with hf | hf | hf | hf
    · exact absurd hf hp0
    · exact absurd hf hne
    · rw [if_pos (le_of_lt hf.1)]
      exact convert_position_pos_fits p t b r hf.1 hp2 ht0 hb0 hb hne hf.2
    · obtain ⟨hneg, hi, hfit⟩ := hf
      have hlow : -2 ^ 63 < p := by
        have := hi.2
        omega
      rw [if_neg (by omega), convert_position_of_neg p t b r hneg hlow hne,
        convert_position_pos_fits (-p) t b r (by omega) (by omega) ht0 hb0 hb hne hfit]
      simp only [Option.map_some']
      have hs0 := spec_convert_nonneg (-p) t b r (by omega) ht0 hb0
      have hs1 := spec_convert_of_fits (-p) t b r (by omega) ht0 hb0 hfit
      rw [show neg64 (spec_convert (-p) t b r) = -(spec_convert (-p) t b r) from
        wrap64_eq _ (by omega) (by omega)]

/-- C38: for `factor_top >= 0`, `factor_bottom > 0`, a rounding mode and 64-bit positions
`p <= q` of either sign and on either side of the `2^31 - 1` threshold, when no operation of
the two calls overflows 64 bits, `convert_position` returns for both, with
`convert_position(p, ...) <= convert_position(q, ...)`, and a position `>= 0` converts to a
value `>= 0`. -/
theorem convert_position_monotone (p q t b : Int) (r : Rounding) (hpq : p ≤ q)
    (hp : isInt64 p) (hq : isInt64 q) (ht0 : 0 ≤ t) (hb0 : 0 < b) (hb : b < 2 ^ 63)
    (hfp : convert_position_fits p t b r) (hfq : convert_position_fits q t b r) :
    ∃ x y, convert_position p t b r = some x ∧ convert_position q t b r = some y ∧
      x ≤ y ∧ (0 ≤ p → 0 ≤ x) ∧ (0 ≤ q → 0 ≤ y) := by
  refine ⟨_, _, convert_position_of_fits p t b r hp ht0 hb0 hb hfp,
    convert_position_of_fits q t b r hq ht0 hb0 hb hfq, ?_, ?_, ?_⟩
  · by_cases h1 : 0 ≤ p
    · rw [if_pos h1, if_pos (by omega)]
      exact spec_convert_mono p q t b r hpq ht0 hb0
    · rw [if_neg h1]
      have a := spec_convert_nonneg (-p) t b r (by omega) ht0 hb0
      by_cases h2 : 0 ≤ q
      · rw [if_pos h2]
        have := spec_convert_nonneg q t b r h2 ht0 hb0
        omega
      · rw [if_neg h2]
        have := spec_convert_mono (-q) (-p) t b r (by omega) ht0 hb0
        omega
  · intro h
    rw [if_pos h]
    exact spec_convert_nonneg p t b r h ht0 hb0
  · intro h
    rw [if_pos h]
    exact spec_convert_nonneg q t b r h ht0 hb0

/-- C38 (witness): the positions -3 and `2^31`, one negative and one beyond the threshold,
from factor 30000 to 48000, rounded to the nearest. -/
theorem convert_position_monotone_witness :
    ∃ x y, convert_position (-3) 48000 30000 Rounding.ROUND_NEAREST = some x ∧
      convert_position 2147483648 48000 30000 Rounding.ROUND_NEAREST = some y ∧
      x ≤ y ∧ ((0 : Int) ≤ -3 → 0 ≤ x) ∧ ((0 : Int) ≤ 2147483648 → 0 ≤ y) :=
  convert_position_monotone (-3) 2147483648 48000 30000 Rounding.ROUND_NEAREST (by decide)
    (by decide) (by decide) (by decide) (by decide) (by decide) (by decide) (by decide)

/-- C39 (amended): for every 64-bit position `p >= 0` and positive factors with
`factor_top > factor_bottom`, when no operation of the two calls overflows 64 bits,
converting with `ROUND_AUTO` and converting the result back with `ROUND_AUTO` returns
exactly `p`. -/
theorem convert_position_higher_rate_round_trip (p t b : Int) (hp0 : 0 ≤ p) (hp : p < 2 ^ 63)
    (hb0 : 0 < b) (hbt : b < t) (ht : t < 2 ^ 63)
    (hf1 : convert_position_fits p t b Rounding.ROUND_AUTO)
    (hf2 : ∀ q, convert_position p t b Rounding.ROUND_AUTO = some q →
      convert_position_fits q b t Rounding.ROUND_AUTO) :
    ∃ q, convert_position p t b Rounding.ROUND_AUTO = some q ∧
      convert_position q b t Rounding.ROUND_AUTO = some p := by
  have e1 := convert_position_of_fits p t b Rounding.ROUND_AUTO ⟨by omega, hp⟩ (by omega) hb0
    (by omega) hf1
  rw [if_pos hp0] at e1
  have hq0 := spec_convert_nonneg p t b Rounding.ROUND_AUTO hp0 (by omega) hb0
  obtain ⟨m1, m2⟩ := spec_round_trip p t b (by omega) hb0
  have hback : spec_convert (spec_convert p t b Rounding.ROUND_AUTO) b t Rounding.ROUND_AUTO
      = p := by
    generalize spec_convert (spec_convert p t b Rounding.ROUND_AUTO) b t Rounding.ROUND_AUTO
      = q1 at m1 m2
    by_contra hc
    have : 1 * t ≤ (q1 - p) * t := Int.mul_le_mul_of_nonneg_right (by omega) (by omega)
    omega
  have hq1 : spec_convert p t b Rounding.ROUND_AUTO < 2 ^ 63 := by
    rcases hf1 with h | h | h | h
    · subst h
      rw [spec_convert_zero t b _ hb0]
      norm_num
    · omega
    · exact spec_convert_of_fits p t b _ h.1 (by omega) hb0 h.2
    · omega
  exact ⟨_, e1, by
    have e2 := convert_position_of_fits (spec_convert p t b Rounding.ROUND_AUTO) b t
      Rounding.ROUND_AUTO ⟨by omega, hq1⟩ (by omega) (by omega) ht (hf2 _ e1)
    rw [if_pos hq0, hback] at e2
    exact e2⟩

/-- C39 (witness): position 1000 from factor 25 to factor 48000 and back. -/
theorem convert_position_higher_rate_round_trip_witness :
    ∃ q, convert_position 1000 48000 25 Rounding.ROUND_AUTO = some q ∧
      convert_position q 25 48000 Rounding.ROUND_AUTO = some 1000 :=
  convert_position_higher_rate_round_trip 1000 48000 25 (by decide) (by decide) (by decide)
    (by decide) (by decide) (by decide)
    (fun q hq => by
      have e : convert_position 1000 48000 25 Rounding.ROUND_AUTO = some 1920000 := by decide
      rw [e] at hq
      cases hq
      decide)

/-- C39 (counterexample): the position `2^62` with the factors 4 and 1: the product `2^64`
wraps to 0, so the position converts to 0, and 0 converts back to 0. -/
theorem convert_position_higher_rate_round_trip_counterexample :
    ((0 : Int) ≤ 2 ^ 62 ∧ (0 : Int) < 1 ∧ (1 : Int) < 4) ∧
    convert_position (2 ^ 62) 4 1 Rounding.ROUND_AUTO = some 0 ∧
    convert_position 0 1 4 Rounding.ROUND_AUTO = some 0 ∧
    (0 : Int) ≠ 2 ^ 62 := by
  decide

/-! ## The index table: first AVC-Intra segment, entry caches, element offsets -/

theorem elementSizesUnchanged_create (prev delta : Nat) (l : List OP1AIndexTableElement)
    (sizes : List Nat) :
    elementSizesUnchanged (createDeltaEntries prev delta l sizes).2 sizes = true := by
  induction l generalizing prev delta sizes with
  | nil => cases sizes <;> simp [createDeltaEntries, elementSizesUnchanged]
  | cons e rest ih =>
    cases sizes with
    | nil => simp [createDeltaEntries, elementSizesUnchanged]
    | cons sz sizes =>
      simp only [createDeltaEntries, elementSizesUnchanged, ih, Bool.and_true]
      by_cases he : e.is_cbe = true
      · simp [he]
      · simp [he]

theorem register_first_segment (regs : List Registration) (t : OP1AIndexTable)
    (h : t.mAVCIFirstIndexSegment = none) :
    (regs.foldl OP1AIndexTable.register t).mAVCIFirstIndexSegment = none := by
  induction regs generalizing t with
  | nil => exact h
  | cons r rest ih =>
    simp only [List.foldl_cons]
    apply ih
    cases r <;> exact h

/-- What `PrepareWrite` leaves behind when it allocates the first AVC-Intra segment: the
first segment and the main segment are new. -/
theorem prepared_first_segment (sid bsid : Nat) (rate : Rational) (regs : List Registration)
    (t0 : OP1AIndexTable) (first : OP1AIndexTableSegment)
    (h : prepared sid bsid rate regs = Outcome.ok t0)
    (hfirst : t0.mAVCIFirstIndexSegment = some first) :
    t0.mDuration = 0 ∧ first.index_duration = 0 ∧ first.edit_unit_byte_count = 0 ∧
    ∃ seg, t0.mIndexSegments = [seg] ∧ seg.edit_unit_byte_count = 0 ∧
      seg.index_duration = 0 ∧ seg.index_start_position = 0 := by
  obtain ⟨p1, p2⟩ := prepared_segments sid bsid rate regs t0 h
  refine ⟨p1, ?_, ?_, p2⟩
  all_goals
    unfold prepared OP1AIndexTable.PrepareWrite at h
    have f3 := register_first_segment regs (OP1AIndexTable.new sid bsid rate) rfl
    generalize List.foldl OP1AIndexTable.register (OP1AIndexTable.new sid bsid rate) regs = T
      at h f3
    simp only at h
    split at h
    · exact absurd h (by simp)
    · injection h with h
      subst h
      simp only [f3] at hfirst
      split at hfirst
      · injection hfirst with hfirst
        subst hfirst
        rfl
      · exact absurd hfirst (by simp)
theorem createDeltaEntries_length (prev delta : Nat) (l : List OP1AIndexTableElement)
    (sizes : List Nat) : (createDeltaEntries prev delta l sizes).2.length = l.length := by
  have := congrArg List.length
    (createDeltaEntries_map (fun _ => ()) (fun _ _ => rfl) prev delta l sizes)
  simpa using this

/-- The first edit unit of a CBE table with a first AVC-Intra segment. -/
theorem UpdateIndex_avci_first (t : OP1AIndexTable) (first seg : OP1AIndexTableSegment)
    (rest : List OP1AIndexTableSegment) (size : Nat) (sizes : List Nat)
    (hcbe : t.mIsCBE = true) (hfirst : t.mAVCIFirstIndexSegment = some first)
    (hd : t.mDuration = 0) (hsegs : t.mIndexSegments = seg :: rest)
    (hf0 : first.edit_unit_byte_count = 0)
    (hlen : sizes.length = t.mIndexElements.length) :
    ∃ t1 first1 seg1, t.UpdateIndex size sizes = Outcome.ok t1 ∧ t1.mIsCBE = true ∧
      t1.mDuration = 1 ∧ t1.mAVCIFirstIndexSegment = some first1 ∧
      first1.index_duration = first.index_duration + 1 ∧
      first1.edit_unit_byte_count = size ∧
      t1.mIndexSegments = seg1 :: rest ∧ seg1.index_start_position = 1 ∧
      seg1.index_duration = seg.index_duration ∧
      seg1.edit_unit_byte_count = seg.edit_unit_byte_count ∧
      t1.mIndexElements.length = t.mIndexElements.length := by
  unfold OP1AIndexTable.UpdateIndex
  rw [if_neg (by simp [hlen])]
  unfold OP1AIndexTable.updateDeltaEntries
  rw [if_pos (Or.inl hd)]
  simp only [hcbe, if_true, hfirst, hd, decide_True]
  generalize (if singleZeroDeltaEntry (createDeltaEntries 0 0 t.mIndexElements sizes).1 = true
    then [] else (createDeltaEntries 0 0 t.mIndexElements sizes).1) = entries
  by_cases he : entries = []
  · rw [if_pos he]
    simp only [Outcome.andThen, if_true]
    unfold OP1AIndexTable.updateCBE
    simp only [decide_True, OP1AIndexTableSegment.AddCBEIndexEntry, hf0, if_true,
      OP1AIndexTable.onFirstSegment, hsegs]
    exact ⟨_, _, _, rfl, rfl, by simp, rfl, rfl, rfl, rfl, rfl, rfl, rfl,
      createDeltaEntries_length _ _ _ _⟩
  · rw [if_neg he]
    simp only [Outcome.andThen, if_true]
    unfold OP1AIndexTable.updateCBE
    simp only [decide_True, OP1AIndexTableSegment.AddCBEIndexEntry,
      OP1AIndexTableSegment.appendDeltaEntries, hf0, if_true,
      OP1AIndexTable.onFirstSegment, hsegs]
    exact ⟨_, _, _, rfl, rfl, by simp, rfl, rfl, rfl, rfl, rfl, rfl, rfl,
      createDeltaEntries_length _ _ _ _⟩

/-- The second edit unit of a CBE table with a first AVC-Intra segment. -/
theorem UpdateIndex_avci_second (t : OP1AIndexTable) (first seg : OP1AIndexTableSegment)
    (rest : List OP1AIndexTableSegment) (size : Nat) (sizes : List Nat)
    (hcbe : t.mIsCBE = true) (hfirst : t.mAVCIFirstIndexSegment = some first)
    (hd : t.mDuration = 1) (hsegs : t.mIndexSegments = seg :: rest)
    (hs0 : seg.edit_unit_byte_count = 0)
    (hlen : sizes.length = t.mIndexElements.length) :
    ∃ t1 seg1, t.UpdateIndex size sizes = Outcome.ok t1 ∧ t1.mIsCBE = true ∧
      t1.mDuration = 2 ∧ t1.mIndexSegments = seg1 :: rest ∧
      seg1.edit_unit_byte_count = size ∧
      t1.mIndexElements.length = t.mIndexElements.length ∧
      (first.edit_unit_byte_count = size →
        t1.mAVCIFirstIndexSegment = none ∧ seg1.index_start_position = 0 ∧
        seg1.index_duration = seg.index_duration + 2) ∧
      (first.edit_unit_byte_count ≠ size →
        t1.mAVCIFirstIndexSegment = some first ∧
        seg1.index_start_position = seg.index_start_position ∧
        seg1.index_duration = seg.index_duration + 1) := by
  unfold OP1AIndexTable.UpdateIndex
  rw [if_neg (by simp [hlen])]
  unfold OP1AIndexTable.updateDeltaEntries
  rw [if_pos (Or.inr ⟨by simp [hfirst], hd⟩)]
  have hu := elementSizesUnchanged_create 0 0 t.mIndexElements sizes
  simp only [hcbe, if_true, hfirst, hd]
  generalize (if singleZeroDeltaEntry (createDeltaEntries 0 0 t.mIndexElements sizes).1 = true
    then [] else (createDeltaEntries 0 0 t.mIndexElements sizes).1) = entries
  have h10 : decide ((1 : Int) = 0) = false := by decide
  by_cases he : entries = []
  · rw [if_pos he]
    simp only [Outcome.andThen, if_true]
    unfold OP1AIndexTable.updateCBE
    simp only [h10, decide_True, hu, Bool.and_true, Bool.true_and]
    by_cases hsz : first.edit_unit_byte_count = size
    · simp only [hsz, decide_True, if_true, OP1AIndexTable.onFirstSegment, hsegs,
        OP1AIndexTableSegment.AddCBEIndexEntry, hs0, Outcome.andThen]
      by_cases hz : size = 0
      · subst hz
        simp only [if_true]
        exact ⟨_, _, rfl, rfl, by simp, rfl, rfl, createDeltaEntries_length _ _ _ _,
          fun _ => ⟨rfl, rfl, by simp; ring⟩, fun h => absurd rfl h⟩
      · simp only [if_neg hz, if_true]
        exact ⟨_, _, rfl, rfl, by simp, rfl, rfl, createDeltaEntries_length _ _ _ _,
          fun _ => ⟨rfl, rfl, by simp; ring⟩, fun h => absurd rfl h⟩
    · simp only [hsz, decide_False, Bool.false_eq_true, if_false,
        OP1AIndexTable.onFirstSegment, hsegs, OP1AIndexTableSegment.AddCBEIndexEntry, hs0,
        if_true]
      exact ⟨_, _, rfl, rfl, by simp, rfl, rfl, createDeltaEntries_length _ _ _ _,
        fun h => h.elim, fun _ => ⟨rfl, rfl, rfl⟩⟩
  · rw [if_neg he]
    simp only [h10, hsegs, Outcome.andThen, if_true]
    unfold OP1AIndexTable.updateCBE
    simp only [h10, decide_True, hu, Bool.and_true, Bool.true_and]
    by_cases hsz : first.edit_unit_byte_count = size
    · simp only [hsz, decide_True, if_true, OP1AIndexTable.onFirstSegment,
        OP1AIndexTableSegment.AddCBEIndexEntry, OP1AIndexTableSegment.appendDeltaEntries, hs0,
        Outcome.andThen]
      by_cases hz : size = 0
      · subst hz
        simp only [if_true]
        exact ⟨_, _, rfl, rfl, by simp, rfl, rfl, createDeltaEntries_length _ _ _ _,
          fun _ => ⟨rfl, rfl, by simp; ring⟩, fun h => absurd rfl h⟩
      · simp only [if_neg hz, if_true]
        exact ⟨_, _, rfl, rfl, by simp, rfl, rfl, createDeltaEntries_length _ _ _ _,
          fun _ => ⟨rfl, rfl, by simp; ring⟩, fun h => absurd rfl h⟩
    · simp only [hsz, decide_False, Bool.false_eq_true, if_false,
        OP1AIndexTable.onFirstSegment, OP1AIndexTableSegment.AddCBEIndexEntry,
        OP1AIndexTableSegment.appendDeltaEntries, hs0, if_true]
      exact ⟨_, _, rfl, rfl, by simp, rfl, rfl, createDeltaEntries_length _ _ _ _,
        fun h => h.elim, fun _ => ⟨rfl, rfl, rfl⟩⟩

/-- A later edit unit of a CBE table that kept its first AVC-Intra segment. -/
theorem UpdateIndex_avci_later (t t1 : OP1AIndexTable) (first seg : OP1AIndexTableSegment)
    (rest : List OP1AIndexTableSegment) (size : Nat) (sizes : List Nat)
    (hcbe : t.mIsCBE = true) (hfirst : t.mAVCIFirstIndexSegment = some first)
    (hd : 2 ≤ t.mDuration) (hsegs : t.mIndexSegments = seg :: rest)
    (h : t.UpdateIndex size sizes = Outcome.ok t1) :
    t1.mIsCBE = true ∧ t1.mAVCIFirstIndexSegment = some first ∧
    t1.mDuration = t.mDuration + 1 ∧
    ∃ seg1, t1.mIndexSegments = seg1 :: rest ∧
      seg1.index_duration = seg.index_duration + 1 ∧
      seg1.index_start_position = seg.index_start_position := by
  unfold OP1AIndexTable.UpdateIndex at h
  split at h
  · exact absurd h (by simp)
  unfold OP1AIndexTable.updateDeltaEntries at h
  rw [if_neg (by intro hc; rcases hc with hc | ⟨-, hc⟩ <;> omega)] at h
  by_cases hu : elementSizesUnchanged t.mIndexElements sizes = true
  · rw [if_pos hu] at h
    simp only [Outcome.andThen, hcbe, if_true] at h
    unfold OP1AIndexTable.updateCBE at h
    have h0 : decide (t.mDuration = 0) = false := by simp; omega
    have h1 : decide (t.mDuration = 1) = false := by simp; omega
    simp only [hfirst, h0, h1, Bool.false_and, Bool.false_eq_true, if_false,
      OP1AIndexTable.onFirstSegment, hsegs, OP1AIndexTableSegment.AddCBEIndexEntry] at h
    by_cases hz : seg.edit_unit_byte_count = 0
    · simp only [hz, if_true, Outcome.ok.injEq] at h
      subst h
      exact ⟨hcbe, rfl, rfl, _, rfl, rfl, rfl⟩
    · simp only [hz, if_false] at h
      by_cases hs : seg.edit_unit_byte_count = size
      · simp only [hs, if_true, Outcome.ok.injEq] at h
        subst h
        exact ⟨hcbe, rfl, rfl, _, rfl, rfl, rfl⟩
      · simp [hs] at h
  · rw [if_neg hu] at h
    simp [Outcome.andThen] at h

/-- An edit unit of a CBE table without first AVC-Intra segment leaves the start position of
the segment alone. -/
theorem UpdateIndex_cbe_start (t t1 : OP1AIndexTable) (seg seg1 : OP1AIndexTableSegment)
    (rest : List OP1AIndexTableSegment) (size : Nat) (sizes : List Nat)
    (hcbe : t.mIsCBE = true) (havci : t.mAVCIFirstIndexSegment = none)
    (hsegs : t.mIndexSegments = seg :: rest) (hsegs1 : t1.mIndexSegments = seg1 :: rest)
    (h : t.UpdateIndex size sizes = Outcome.ok t1) :
    seg1.index_start_position = seg.index_start_position := by
  unfold OP1AIndexTable.UpdateIndex at h
  split at h
  · exact absurd h (by simp)
  have hdelta : ∃ t2 seg2, (t.updateDeltaEntries sizes = Outcome.ok t2 ∨
        ∃ f, t.updateDeltaEntries sizes = Outcome.thrown f t2) ∧
      t2.mIsCBE = true ∧ t2.mAVCIFirstIndexSegment = none ∧
      t2.mIndexSegments = seg2 :: rest ∧
      seg2.index_start_position = seg.index_start_position := by
    unfold OP1AIndexTable.updateDeltaEntries
    split
    · simp only [hcbe, if_true, havci, hsegs]
      repeat' split
      all_goals
        first
        | exact ⟨_, seg, Or.inl rfl, rfl, rfl, rfl, rfl⟩
        | exact ⟨_, _, Or.inl rfl, rfl, rfl, rfl, rfl⟩
    · split
      · exact ⟨_, seg, Or.inl rfl, hcbe, havci, hsegs, rfl⟩
      · exact ⟨_, seg, Or.inr ⟨_, rfl⟩, hcbe, havci, hsegs, rfl⟩
  obtain ⟨t2, seg2, hd, c1, c2, c4, c5⟩ := hdelta
  rcases hd with hd | ⟨f, hd⟩
  · rw [hd] at h
    simp only [Outcome.andThen, c1, if_true] at h
    unfold OP1AIndexTable.updateCBE at h
    simp only [c2, Bool.false_eq_true, if_false, OP1AIndexTable.onFirstSegment, c4] at h
    unfold OP1AIndexTableSegment.AddCBEIndexEntry at h
    by_cases h0 : seg2.edit_unit_byte_count = 0
    · rw [if_pos h0] at h
      simp only [Outcome.ok.injEq] at h
      subst h
      simp only [List.cons.injEq, and_true] at hsegs1
      rw [← hsegs1, ← c5]
    · rw [if_neg h0] at h
      by_cases h1 : seg2.edit_unit_byte_count = size
      · rw [if_pos h1] at h
        simp only [Outcome.ok.injEq] at h
        subst h
        simp only [List.cons.injEq, and_true] at hsegs1
        rw [← hsegs1, ← c5]
      · rw [if_neg h1] at h
        simp at h
  · rw [hd] at h
    simp [Outcome.andThen] at h

theorem UpdateIndex_ok_length (t t1 : OP1AIndexTable) (size : Nat) (sizes : List Nat)
    (h : t.UpdateIndex size sizes = Outcome.ok t1) :
    sizes.length = t.mIndexElements.length := by
  by_contra hne
  unfold OP1AIndexTable.UpdateIndex at h
  rw [if_pos hne] at h
  simp at h

theorem avciSegments_step (t t1 : OP1AIndexTable) (size : Nat) (sizes : List Nat)
    (hinv : avciSegments t) (h : t.UpdateIndex size sizes = Outcome.ok t1) :
    avciSegments t1 ∧ t1.mDuration = t.mDuration + 1 := by
  obtain ⟨hcbe, seg, hsegs, hm⟩ := hinv
  have hlen := UpdateIndex_ok_length t t1 size sizes h
  cases hf : t.mAVCIFirstIndexSegment with
  | none =>
    rw [hf] at hm
    obtain ⟨a1, a2, a3, seg1, a4, a5, -⟩ :=
      UpdateIndex_cbe_step t t1 seg [] size sizes hcbe hf hsegs h
    refine ⟨⟨a1, seg1, a4, ?_⟩, a3⟩
    rw [a2]
    have hstart := UpdateIndex_cbe_start t t1 seg seg1 [] size sizes hcbe hf hsegs a4 h
    exact ⟨by rw [a5, a3, hm.1], by rw [hstart, hm.2]⟩
  | some first =>
    rw [hf] at hm
    rcases hm with ⟨m1, m2, m3, m4, m5⟩ | ⟨m1, m2, m3, m4, m5⟩ | ⟨m1, m2, m3, m4⟩
    · obtain ⟨u, first1, seg1, b1, b2, b3, b4, b5, b6, b7, b8, b9, b10, -⟩ :=
        UpdateIndex_avci_first t first seg [] size sizes hcbe hf m1 hsegs m3 hlen
      rw [b1] at h
      injection h with h
      subst h
      refine ⟨⟨b2, seg1, b7, ?_⟩, by rw [b3, m1]; rfl⟩
      rw [b4]
      exact Or.inr (Or.inl ⟨b3, by rw [b5, m2]; rfl, by rw [b9, m4], by rw [b10, m5], b8⟩)
    · obtain ⟨u, seg1, b1, b2, b3, b4, b5, -, b6, b7⟩ :=
        UpdateIndex_avci_second t first seg [] size sizes hcbe hf m1 hsegs m4 hlen
      rw [b1] at h
      injection h with h
      subst h
      refine ⟨⟨b2, seg1, b4, ?_⟩, by rw [b3, m1]; rfl⟩
      by_cases hs : first.edit_unit_byte_count = size
      · obtain ⟨c1, c2, c3⟩ := b6 hs
        rw [c1]
        exact ⟨by rw [c3, b3, m3]; rfl, c2⟩
      · obtain ⟨c1, c2, c3⟩ := b7 hs
        rw [c1]
        exact Or.inr (Or.inr ⟨by rw [b3], m2, by rw [c3, b3, m3]; rfl, by rw [c2, m5]⟩)
    · obtain ⟨c1, c2, c3, seg1, c4, c5, c6⟩ :=
        UpdateIndex_avci_later t t1 first seg [] size sizes hcbe hf m1 hsegs h
      refine ⟨⟨c1, seg1, c4, ?_⟩, c3⟩
      rw [c2]
      exact Or.inr (Or.inr ⟨by omega, m2, by rw [c5, c3, m3]; ring, by rw [c6, m4]⟩)

theorem avciSegments_runOk (us : List (Nat × List Nat)) (t t1 : OP1AIndexTable)
    (hinv : avciSegments t)
    (h : t.runOk (us.map (fun u => Call.UpdateIndex u.1 u.2)) = some t1) :
    avciSegments t1 ∧ t1.mDuration = t.mDuration + (us.length : Int) := by
  induction us generalizing t with
  | nil =>
    simp [OP1AIndexTable.runOk] at h
    subst h
    exact ⟨hinv, by simp⟩
  | cons u us ih =>
    simp only [List.map_cons, OP1AIndexTable.runOk, OP1AIndexTable.call] at h
    split at h
    · rename_i t2 h2
      obtain ⟨a1, a2⟩ := avciSegments_step t t2 u.1 u.2 hinv h2
      obtain ⟨b1, b2⟩ := ih t2 a1 h
      refine ⟨b1, ?_⟩
      rw [b2, a2]
      simp only [List.length_cons]
      push_cast
      ring
    · exact absurd h (by simp)

theorem avciSegments_sum (t : OP1AIndexTable) (hinv : avciSegments t) :
    t.retainedDurations.sum = t.mDuration := by
  obtain ⟨-, seg, hsegs, hm⟩ := hinv
  unfold OP1AIndexTable.retainedDurations
  cases hf : t.mAVCIFirstIndexSegment with
  | none =>
    rw [hf] at hm
    simp [hsegs, hm.1]
  | some first =>
    rw [hf] at hm
    simp only [hsegs, List.map_cons, List.map_nil, List.singleton_append, List.sum_cons,
      List.sum_nil, add_zero]
    rcases hm with ⟨m1, m2, -, m4, -⟩ | ⟨m1, m2, m3, -, -⟩ | ⟨-, m2, m3, -⟩ <;> omega

/-- C34: in a CBE table for which `PrepareWrite` allocated the first AVC-Intra segment, the
first `UpdateIndex` (given one size per element) returns and leaves the first segment with
duration 1 and the size of the edit unit as its `edit_unit_byte_count`, and the main segment,
still empty, with start position 1.  The second `UpdateIndex` returns too: if its size equals
the first, the first segment is discarded and the main segment has start position 0 and
duration 2; otherwise the first segment stays and the main segment has start position 1 and
duration 1.  After `n` successful `UpdateIndex` calls the durations of the retained segments
sum to `n`, which is the duration of the table. -/
theorem avci_first_segment (sid bsid : Nat) (rate : Rational) (regs : List Registration)
    (t0 : OP1AIndexTable) (first0 : OP1AIndexTableSegment)
    (hprep : prepared sid bsid rate regs = Outcome.ok t0) (hcbe : t0.mIsCBE = true)
    (hfirst : t0.mAVCIFirstIndexSegment = some first0) :
    (∀ (s0 : Nat) (e0 : List Nat), e0.length = t0.mIndexElements.length →
      ∃ t1 first1 main1, t0.UpdateIndex s0 e0 = Outcome.ok t1 ∧
        t1.mAVCIFirstIndexSegment = some first1 ∧ first1.index_duration = 1 ∧
        first1.edit_unit_byte_count = s0 ∧ t1.mIndexSegments = [main1] ∧
        main1.index_start_position = 1 ∧ main1.index_duration = 0 ∧
        ∀ (s1 : Nat) (e1 : List Nat), e1.length = t0.mIndexElements.length →
          ∃ t2 main2, t1.UpdateIndex s1 e1 = Outcome.ok t2 ∧ t2.mIndexSegments = [main2] ∧
            (s1 = s0 → t2.mAVCIFirstIndexSegment = none ∧
              main2.index_start_position = 0 ∧ main2.index_duration = 2) ∧
            (s1 ≠ s0 → t2.mAVCIFirstIndexSegment = some first1 ∧
              main2.index_start_position = 1 ∧ main2.index_duration = 1)) ∧
    (∀ (us : List (Nat × List Nat)) (t : OP1AIndexTable),
      t0.runOk (us.map (fun u => Call.UpdateIndex u.1 u.2)) = some t →
      t.retainedDurations.sum = (us.length : Int) ∧ t.mDuration = (us.length : Int)) := by
  obtain ⟨p1, p2, p3, seg0, p4, p5, p6, -⟩ :=
    prepared_first_segment sid bsid rate regs t0 first0 hprep hfirst
  constructor
  · intro s0 e0 hlen0
    obtain ⟨t1, first1, main1, b1, b2, b3, b4, b5, b6, b7, b8, b9, b10, b11⟩ :=
      UpdateIndex_avci_first t0 first0 seg0 [] s0 e0 hcbe hfirst p1 p4 p3 hlen0
    refine ⟨t1, first1, main1, b1, b4, by rw [b5, p2]; rfl, b6, b7, b8, by rw [b9, p6], ?_⟩
    intro s1 e1 hlen1
    obtain ⟨t2, main2, c1, -, -, c4, -, -, c6, c7⟩ :=
      UpdateIndex_avci_second t1 first1 main1 [] s1 e1 b2 b4 b3 b7 (by rw [b10, p5])
        (by rw [hlen1, b11])
    refine ⟨t2, main2, c1, c4, ?_, ?_⟩
    · intro hs
      obtain ⟨d1, d2, d3⟩ := c6 (by rw [b6, hs])
      exact ⟨d1, d2, by rw [d3, b9, p6]; rfl⟩
    · intro hs
      obtain ⟨d1, d2, d3⟩ := c7 (by rw [b6]; exact fun h => hs h.symm)
      exact ⟨d1, by rw [d2, b8], by rw [d3, b9, p6]; rfl⟩
  · intro us t hrun
    have hinv0 : avciSegments t0 := by
      refine ⟨hcbe, seg0, p4, ?_⟩
      rw [hfirst]
      exact Or.inl ⟨p1, p2, p3, p6, p5⟩
    obtain ⟨a1, a2⟩ := avciSegments_runOk us t0 t hinv0 hrun
    rw [avciSegments_sum t a1, a2, p1]
    simp

/-- C34 (witness): one AVC-Intra track; a first edit unit of 1000 bytes and two edit units of
800 bytes leave a first segment of duration 1 and a main segment of duration 2, from
position 1; three edit units of 800 bytes leave one segment of duration 3. -/
theorem avci_first_segment_witness :
    prepared 1 2 ⟨25, 1⟩ [Registration.avci 0] = Outcome.ok avciTable ∧
    (∃ t, avciTable.runOk [Call.UpdateIndex 1000 [1000], Call.UpdateIndex 800 [800],
        Call.UpdateIndex 800 [800]] = some t ∧
      t.retainedDurations = [1, 2] ∧ t.retainedDurations.sum = 3) ∧
    (∃ t, avciTable.runOk [Call.UpdateIndex 800 [800], Call.UpdateIndex 800 [800],
        Call.UpdateIndex 800 [800]] = some t ∧
      t.retainedDurations = [3] ∧ t.retainedDurations.sum = 3) := by
  have h := avci_first_segment 1 2 ⟨25, 1⟩ [Registration.avci 0] avciTable _ (by decide)
    (by decide) rfl
  refine ⟨by decide, ⟨_, rfl, by decide, ?_⟩, ⟨_, rfl, by decide, ?_⟩⟩
  · exact (h.2 [(1000, [1000]), (800, [800]), (800, [800])] _ rfl).1
  · exact (h.2 [(800, [800]), (800, [800]), (800, [800])] _ rfl).1

/-! ### The entry caches -/

theorem cacheSet_mem (p : Int) (x : OP1AIndexEntry) (l : List (Int × OP1AIndexEntry))
    (kv : Int × OP1AIndexEntry) (h : kv ∈ cacheSet p x l) : kv = (p, x) ∨ kv ∈ l := by
  induction l with
  | nil =>
    simp only [cacheSet, List.mem_singleton] at h
    exact Or.inl h
  | cons a rest ih =>
    obtain ⟨k, v⟩ := a
    simp only [cacheSet] at h
    split at h
    · rcases List.mem_cons.mp h with h | h
      · exact Or.inl h
      · exact Or.inr h
    · split at h
      · rcases List.mem_cons.mp h with h | h
        · exact Or.inl h
        · exact Or.inr (List.mem_cons_of_mem _ h)
      · rcases List.mem_cons.mp h with h | h
        · exact Or.inr (by rw [h]; exact List.mem_cons_self _ _)
        · rcases ih h with h | h
          · exact Or.inl h
          · exact Or.inr (List.mem_cons_of_mem _ h)

theorem cacheSet_ordered (p : Int) (x : OP1AIndexEntry) (l : List (Int × OP1AIndexEntry))
    (h : cacheOrdered l) : cacheOrdered (cacheSet p x l) := by
  unfold cacheOrdered at h ⊢
  induction l with
  | nil => simp [cacheSet]
  | cons a rest ih =>
    obtain ⟨k, v⟩ := a
    rw [List.pairwise_cons] at h
    simp only [cacheSet]
    split
    · rename_i hlt
      rw [List.pairwise_cons]
      refine ⟨?_, List.pairwise_cons.mpr h⟩
      intro b hb
      rcases List.mem_cons.mp hb with hb | hb
      · rw [hb]; exact hlt
      · have := h.1 b hb
        simp only at this ⊢
        omega
    · split
      · rename_i heq
        rw [List.pairwise_cons]
        refine ⟨?_, h.2⟩
        intro b hb
        have := h.1 b hb
        simp only at this ⊢
        omega
      · rename_i hge hne
        rw [List.pairwise_cons]
        refine ⟨?_, ih h.2⟩
        intro b hb
        rcases cacheSet_mem p x rest b hb with hb | hb
        · rw [hb]
          simp only
          omega
        · exact h.1 b hb

theorem cacheErase_sublist (p : Int) (l : List (Int × OP1AIndexEntry)) :
    (cacheErase p l).Sublist l := by
  induction l with
  | nil => simp [cacheErase]
  | cons a rest ih =>
    obtain ⟨k, v⟩ := a
    simp only [cacheErase]
    split
    · exact List.sublist_cons_self _ _
    · exact List.Sublist.cons₂ _ ih

theorem cacheErase_ne (p : Int) (l : List (Int × OP1AIndexEntry)) (h : cacheOrdered l) :
    ∀ kv ∈ cacheErase p l, kv.1 ≠ p := by
  unfold cacheOrdered at h
  induction l with
  | nil => simp [cacheErase]
  | cons a rest ih =>
    obtain ⟨k, v⟩ := a
    rw [List.pairwise_cons] at h
    simp only [cacheErase]
    split
    · rename_i heq
      intro kv hkv
      have := h.1 kv hkv
      simp only at this
      omega
    · rename_i hne
      intro kv hkv
      rcases List.mem_cons.mp hkv with hkv | hkv
      · rw [hkv]; exact hne
      · exact ih h.2 kv hkv

theorem cacheFind_none (p : Int) (l : List (Int × OP1AIndexEntry))
    (h : cacheFind p l = none) : ∀ kv ∈ l, kv.1 ≠ p := by
  induction l with
  | nil => simp
  | cons a rest ih =>
    obtain ⟨k, v⟩ := a
    simp only [cacheFind] at h
    split at h
    · exact absurd h (by simp)
    · rename_i hne
      intro kv hkv
      rcases List.mem_cons.mp hkv with hkv | hkv
      · rw [hkv]; exact hne
      · exact ih h kv hkv

theorem cacheFind_mem (p : Int) (l : List (Int × OP1AIndexEntry)) (x : OP1AIndexEntry)
    (h : cacheFind p l = some x) : (p, x) ∈ l := by
  induction l with
  | nil => simp [cacheFind] at h
  | cons a rest ih =>
    obtain ⟨k, v⟩ := a
    simp only [cacheFind] at h
    split at h
    · rename_i heq
      injection h with h
      rw [heq, h]
      exact List.mem_cons_self _ _
    · exact List.mem_cons_of_mem _ (ih h)

/-- Taking the entry at `d` from a cache without positions below `d` leaves a cache without
positions below `d + 1`. -/
theorem TakeIndexEntry_cachedFrom (e : OP1AIndexTableElement) (d : Int)
    (h : e.cachedFrom d) : (e.TakeIndexEntry d).2.cachedFrom (d + 1) := by
  obtain ⟨h1, h2⟩ := h
  unfold OP1AIndexTableElement.TakeIndexEntry
  split
  · rename_i hnone
    refine ⟨h1, fun kv hkv => ?_⟩
    have a := h2 kv hkv
    have b := cacheFind_none d _ hnone kv hkv
    omega
  · refine ⟨List.Pairwise.sublist (cacheErase_sublist d _) h1, fun kv hkv => ?_⟩
    have a := h2 kv ((cacheErase_sublist d _).subset hkv)
    have b := cacheErase_ne d _ h1 kv hkv
    simp only at a b ⊢
    omega

theorem cachedFrom_mono (e : OP1AIndexTableElement) (d d1 : Int) (hd : d ≤ d1)
    (h : e.cachedFrom d1) : e.cachedFrom d :=
  ⟨h.1, fun kv hkv => le_trans hd (h.2 kv hkv)⟩

/-- The VBE loop leaves every cache without positions below `d`, and when it runs to its end
every cache is without positions below `d + 1`. -/
theorem takeIndexEntries_cachedFrom (d : Int) (l : List OP1AIndexTableElement)
    (sizes : List Nat) (st : VBELoopState) (h : ∀ e ∈ l, e.cachedFrom d) :
    (∀ e ∈ (takeIndexEntries d l sizes st).1, e.cachedFrom d) ∧
    (sizes.length = l.length → (takeIndexEntries d l sizes st).2.isSome = true →
      ∀ e ∈ (takeIndexEntries d l sizes st).1, e.cachedFrom (d + 1)) := by
  induction l generalizing sizes st with
  | nil =>
    cases sizes <;> simp [takeIndexEntries]
  | cons e rest ih =>
    have he := h e (List.mem_cons_self _ _)
    have hrest : ∀ x ∈ rest, x.cachedFrom d := fun x hx => h x (List.mem_cons_of_mem _ hx)
    have htake := TakeIndexEntry_cachedFrom e d he
    cases sizes with
    | nil =>
      simp only [takeIndexEntries]
      exact ⟨h, fun hl => absurd hl (by simp)⟩
    | cons sz sizes =>
      simp only [takeIndexEntries]
      split
      · split
        · simp only [List.mem_cons, forall_eq_or_imp, List.length_cons,
            Nat.add_right_cancel_iff]
          refine ⟨⟨cachedFrom_mono _ d (d + 1) (by omega) htake, (ih sizes _ hrest).1⟩, ?_⟩
          intro hl hs
          exact ⟨htake, (ih sizes _ hrest).2 hl hs⟩
        · simp only [List.mem_cons, forall_eq_or_imp]
          refine ⟨⟨cachedFrom_mono _ d (d + 1) (by omega) htake, hrest⟩, ?_⟩
          intro _ hs
          simp at hs
      · simp only [List.mem_cons, forall_eq_or_imp, List.length_cons,
          Nat.add_right_cancel_iff]
        refine ⟨⟨cachedFrom_mono _ d (d + 1) (by omega) htake, (ih sizes _ hrest).1⟩, ?_⟩
        intro hl hs
        exact ⟨htake, (ih sizes _ hrest).2 hl hs⟩

theorem cachedFrom_of_map_eq (d : Int) (l l1 : List OP1AIndexTableElement)
    (hmap : l1.map (fun e => e.mIndexEntryCache) = l.map (fun e => e.mIndexEntryCache))
    (h : ∀ e ∈ l, e.cachedFrom d) : ∀ e ∈ l1, e.cachedFrom d := by
  intro e he
  have : e.mIndexEntryCache ∈ l1.map (fun e => e.mIndexEntryCache) :=
    List.mem_map_of_mem _ he
  rw [hmap] at this
  obtain ⟨x, hx, hxe⟩ := List.mem_map.mp this
  have := h x hx
  unfold OP1AIndexTableElement.cachedFrom at this ⊢
  rw [← hxe]
  exact this

theorem replaceElement_forall (P : OP1AIndexTableElement → Prop) (e1 : OP1AIndexTableElement)
    (l : List OP1AIndexTableElement) (h : ∀ e ∈ l, P e) (h1 : P e1) :
    ∀ e ∈ replaceElement e1 l, P e := by
  induction l with
  | nil => simp [replaceElement]
  | cons x rest ih =>
    simp only [replaceElement]
    split
    · intro e he
      rcases List.mem_cons.mp he with he | he
      · rw [he]; exact h1
      · exact h e (List.mem_cons_of_mem _ he)
    · intro e he
      rcases List.mem_cons.mp he with he | he
      · rw [he]; exact h x (List.mem_cons_self _ _)
      · exact ih (fun y hy => h y (List.mem_cons_of_mem _ hy)) e he

theorem findElement_mem (t : OP1AIndexTable) (track : Nat) (e : OP1AIndexTableElement)
    (h : t.findElement track = some e) : e ∈ t.mIndexElements := by
  unfold OP1AIndexTable.findElement at h
  split at h
  · exact absurd h (by simp)
  · exact List.mem_of_find?_eq_some h

theorem cachesDrained_AddIndexEntry (t t1 : OP1AIndexTable) (track : Nat) (p tmp k : Int)
    (f : Nat) (c : Bool) (hinv : cachesDrained t)
    (h : (t.AddIndexEntry track p tmp k f c).state = some t1) :
    cachesDrained t1 ∧ t1.mDuration = t.mDuration := by
  unfold OP1AIndexTable.AddIndexEntry at h
  split at h
  · simp [Outcome.state] at h; subst h; exact ⟨hinv, rfl⟩
  split at h
  · simp [Outcome.state] at h; subst h; exact ⟨hinv, rfl⟩
  rename_i hpos
  split at h
  · simp [Outcome.state] at h; subst h; exact ⟨hinv, rfl⟩
  split at h
  · simp [Outcome.state] at h
  rename_i e hfe
  have hmem := findElement_mem t track e hfe
  split at h
  · rename_i e1 he
    simp [Outcome.state] at h; subst h
    refine ⟨?_, rfl⟩
    apply replaceElement_forall (fun x => x.cachedFrom t.mDuration) e1 _ hinv
    rw [(CacheIndexEntry_cache he).2]
    obtain ⟨o1, o2⟩ := hinv e hmem
    refine ⟨cacheSet_ordered _ _ _ o1, fun kv hkv => ?_⟩
    rcases cacheSet_mem _ _ _ kv hkv with hkv | hkv
    · rw [hkv]
      simp only
      omega
    · exact o2 kv hkv
  · rename_i e1 he
    simp [Outcome.state] at h; subst h
    rw [CacheIndexEntry_thrown he]
    exact ⟨replaceElement_forall (fun x => x.cachedFrom t.mDuration) e _ hinv (hinv e hmem),
      rfl⟩
  · simp [Outcome.state] at h

theorem cachesDrained_UpdateIndexEntry (t t1 : OP1AIndexTable) (track : Nat) (p tmp : Int)
    (hinv : cachesDrained t) (h : (t.UpdateIndexEntry track p tmp).state = some t1) :
    cachesDrained t1 ∧ t1.mDuration = t.mDuration := by
  unfold OP1AIndexTable.UpdateIndexEntry at h
  split at h
  · simp [Outcome.state] at h; subst h; exact ⟨hinv, rfl⟩
  split at h
  · simp [Outcome.state] at h; subst h; exact ⟨hinv, rfl⟩
  split at h
  · simp [Outcome.state] at h; subst h; exact ⟨hinv, rfl⟩
  split at h
  · rename_i hgt
    split at h
    · simp [Outcome.state] at h
    rename_i e hfe
    have hmem := findElement_mem t track e hfe
    split at h
    · rename_i e1 he
      simp [Outcome.state] at h; subst h
      refine ⟨?_, rfl⟩
      apply replaceElement_forall (fun x => x.cachedFrom t.mDuration) e1 _ hinv
      obtain ⟨x, hx, hx1⟩ := Element_UpdateIndexEntry_cache he
      rw [hx1]
      obtain ⟨o1, o2⟩ := hinv e hmem
      refine ⟨cacheSet_ordered _ _ _ o1, fun kv hkv => ?_⟩
      rcases cacheSet_mem _ _ _ kv hkv with hkv | hkv
      · rw [hkv]
        simp only
        omega
      · exact o2 kv hkv
    · rename_i e1 he
      simp [Outcome.state] at h; subst h
      rw [Element_UpdateIndexEntry_thrown he]
      exact ⟨replaceElement_forall (fun x => x.cachedFrom t.mDuration) e _ hinv (hinv e hmem),
        rfl⟩
    · simp [Outcome.state] at h
  · split at h
    · simp [Outcome.state] at h
    split at h
    · simp [Outcome.state] at h
    split at h
    · simp [Outcome.state] at h
    split at h
    · simp [Outcome.state] at h; subst h; exact ⟨hinv, rfl⟩
    · simp [Outcome.state] at h; subst h; exact ⟨hinv, rfl⟩
    · simp [Outcome.state] at h

/-- The VBE branch of `UpdateIndex`: a failing call leaves no cached position below the
duration, a successful one none below the duration plus one. -/
theorem updateVBE_caches (t : OP1AIndexTable) (sizes : List Nat)
    (hinv : ∀ e ∈ t.mIndexElements, e.cachedFrom t.mDuration) :
    (∀ t1, (t.updateVBE sizes).state = some t1 →
      t1.mDuration = t.mDuration ∧ ∀ e ∈ t1.mIndexElements, e.cachedFrom t.mDuration) ∧
    (∀ t1, t.updateVBE sizes = Outcome.ok t1 → sizes.length = t.mIndexElements.length →
      ∀ e ∈ t1.mIndexElements, e.cachedFrom (t.mDuration + 1)) := by
  have key := takeIndexEntries_cachedFrom t.mDuration t.mIndexElements sizes
    { slice_cp_offset := 0, slice_cp_offsets := [], prev_slice_offset := 0,
      entry := OP1AIndexEntry.new } hinv
  constructor
  · intro t1 h
    unfold OP1AIndexTable.updateVBE at h
    split at h
    · simp [Outcome.state] at h; subst h; exact ⟨rfl, hinv⟩
    · simp only at h
      split at h
      · simp [Outcome.state] at h; subst h; exact ⟨rfl, key.1⟩
      · split at h
        · simp [Outcome.state] at h
        · obtain ⟨-, -, o3, -, o5⟩ := openSegment_frame
            { t with mIndexElements := (takeIndexEntries t.mDuration t.mIndexElements sizes
              { slice_cp_offset := 0, slice_cp_offsets := [], prev_slice_offset := 0,
                entry := OP1AIndexEntry.new }).1 } (by assumption)
          split at h
          · simp [Outcome.state] at h; subst h
            exact ⟨o5, by simp only [o3]; exact key.1⟩
          · simp [Outcome.state] at h; subst h
            exact ⟨o5, by simp only [o3]; exact key.1⟩
          · simp [Outcome.state] at h
  · intro t1 h hlen
    unfold OP1AIndexTable.updateVBE at h
    split at h
    · simp at h
    · simp only at h
      split at h
      · simp at h
      · rename_i st hst
        split at h
        · simp at h
        · obtain ⟨-, -, o3, -, o5⟩ := openSegment_frame
            { t with mIndexElements := (takeIndexEntries t.mDuration t.mIndexElements sizes
              { slice_cp_offset := 0, slice_cp_offsets := [], prev_slice_offset := 0,
                entry := OP1AIndexEntry.new }).1 } (by assumption)
          split at h
          · simp only [Outcome.ok.injEq] at h
            subst h
            simp only [o3]
            exact key.2 hlen (by rw [hst]; rfl)
          · simp at h
          · simp at h

theorem cacheFind_of_cachedFrom (e : OP1AIndexTableElement) (d : Int)
    (h : e.cachedFrom (d + 1)) : cacheFind d e.mIndexEntryCache = none := by
  cases hf : cacheFind d e.mIndexEntryCache with
  | none => rfl
  | some x =>
    have := h.2 _ (cacheFind_mem d _ x hf)
    simp only at this
    omega

/-- One `UpdateIndex` on a VBE table: whether it returns or throws, no cache is left with a
position below the duration; when it returns the duration has grown by one. -/
theorem cachesDrained_UpdateIndex (t t1 : OP1AIndexTable) (size : Nat) (sizes : List Nat)
    (hvbe : t.mIsCBE = false) (hinv : cachesDrained t)
    (h : (t.UpdateIndex size sizes).state = some t1) :
    cachesDrained t1 ∧
    (t.UpdateIndex size sizes = Outcome.ok t1 → t1.mDuration = t.mDuration + 1) := by
  refine ⟨?_, UpdateIndex_ok_duration t t1 size sizes hvbe⟩
  unfold OP1AIndexTable.UpdateIndex at h
  split at h
  · simp [Outcome.state] at h; subst h; exact hinv
  rename_i hlen
  simp only [ne_eq, Decidable.not_not] at hlen
  obtain ⟨t2, hd, d1, -, -, -, d5, -⟩ := updateDeltaEntries_vbe t sizes hvbe
  have hframe : (t.updateDeltaEntries sizes).state = some t2 := by
    rcases hd with hd | hd <;> rw [hd] <;> rfl
  have hmap := (stepFrame_updateDeltaEntries (fun e => e.mIndexEntryCache) t t2 sizes
    hframe).1.2.2.2.2.1 (Or.inl (fun _ _ => rfl))
  have hinv2 : ∀ e ∈ t2.mIndexElements, e.cachedFrom t2.mDuration := by
    rw [d5]
    exact cachedFrom_of_map_eq _ _ _ hmap hinv
  have hlen2 : sizes.length = t2.mIndexElements.length := by
    have := congrArg List.length hmap
    simp only [List.length_map] at this
    omega
  rcases hd with hd | hd
  · rw [hd] at h
    simp only [Outcome.andThen, d1, hvbe] at h
    obtain ⟨v1, v2⟩ := updateVBE_caches t2 sizes hinv2
    generalize hO : t2.updateVBE sizes = O at h v1 v2
    cases O with
    | ok t3 =>
      simp [Outcome.state] at h
      subst h
      have hdur := (v1 t3 rfl).1
      intro e he
      have := v2 t3 rfl hlen2 e he
      simp only [hdur]
      exact this
    | thrown f t3 =>
      simp [Outcome.state] at h
      subst h
      obtain ⟨a, b⟩ := v1 t3 rfl
      intro e he
      rw [a]
      exact b e he
    | undefined => simp [Outcome.state] at h
  · rw [hd] at h
    simp [Outcome.andThen, Outcome.state] at h
    subst h
    exact hinv2

theorem cachesDrained_call (t t1 : OP1AIndexTable) (c : Call) (hvbe : t.mIsCBE = false)
    (hinv : cachesDrained t) (h : (t.call c).state = some t1) : cachesDrained t1 := by
  cases c with
  | AddIndexEntry a b c d e f =>
    obtain ⟨h1, h2⟩ := cachesDrained_AddIndexEntry t t1 a b c d e f hinv h
    exact h1
  | UpdateIndexEntry a b c =>
    obtain ⟨h1, h2⟩ := cachesDrained_UpdateIndexEntry t t1 a b c hinv h
    exact h1
  | UpdateIndex a b => exact (cachesDrained_UpdateIndex t t1 a b hvbe hinv h).1

theorem cachesDrained_run (t t1 : OP1AIndexTable) (calls : List Call) (hvbe : t.mIsCBE = false)
    (hinv : cachesDrained t) (h : t.run calls = some t1) : cachesDrained t1 := by
  induction calls generalizing t with
  | nil => simp [OP1AIndexTable.run] at h; subst h; exact hinv
  | cons c rest ih =>
    simp only [OP1AIndexTable.run] at h
    split at h
    · exact absurd h (by simp)
    · rename_i t2 h2
      have hk := (run_is_cbe t t2 [c] (by simp [OP1AIndexTable.run, h2])).1
      exact ih t2 (by rw [hk]; exact hvbe) (cachesDrained_call t t2 c hvbe hinv h2) h

theorem register_caches (regs : List Registration) (t : OP1AIndexTable)
    (h : ∀ e ∈ t.mIndexElements, e.mIndexEntryCache = []) :
    ∀ e ∈ (regs.foldl OP1AIndexTable.register t).mIndexElements, e.mIndexEntryCache = [] := by
  induction regs generalizing t with
  | nil => exact h
  | cons r rest ih =>
    simp only [List.foldl_cons]
    apply ih
    intro e he
    cases r <;>
      (simp only [OP1AIndexTable.register, OP1AIndexTable.RegisterPictureTrackElement,
        OP1AIndexTable.RegisterAVCITrackElement, OP1AIndexTable.RegisterSoundTrackElement,
        OP1AIndexTable.pushElement, List.mem_append, List.mem_singleton] at he
       rcases he with he | he
       · exact h e he
       · rw [he]; rfl)

theorem assignSliceOffsets_cache (b : Bool) (sc es : Nat) (l : List OP1AIndexTableElement) :
    (assignSliceOffsets b sc es l).1.map (fun x => x.mIndexEntryCache)
      = l.map (fun x => x.mIndexEntryCache) := by
  induction l generalizing b sc es with
  | nil => rfl
  | cons e rest ih => simp [assignSliceOffsets, ih]

/-- After `PrepareWrite` every entry cache is empty. -/
theorem prepared_caches (sid bsid : Nat) (rate : Rational) (regs : List Registration)
    (t0 : OP1AIndexTable) (h : prepared sid bsid rate regs = Outcome.ok t0) :
    ∀ e ∈ t0.mIndexElements, e.mIndexEntryCache = [] := by
  have hreg := register_caches regs (OP1AIndexTable.new sid bsid rate)
    (by intro e he; simp [OP1AIndexTable.new] at he)
  unfold prepared OP1AIndexTable.PrepareWrite at h
  generalize List.foldl OP1AIndexTable.register (OP1AIndexTable.new sid bsid rate) regs = T
    at h hreg
  rw [stable_sort_pictures_first] at h
  simp only at h
  split at h
  · exact absurd h (by simp)
  · injection h with h
    subst h
    simp only
    intro e he
    have hmap := assignSliceOffsets_cache false 0 11
      (T.mIndexElements.filter (fun e => e.is_picture) ++
        T.mIndexElements.filter (fun e => !e.is_picture))
    have : e.mIndexEntryCache ∈ (assignSliceOffsets false 0 11
        (T.mIndexElements.filter (fun e => e.is_picture) ++
          T.mIndexElements.filter (fun e => !e.is_picture))).1.map
            (fun x => x.mIndexEntryCache) :=
      List.mem_map_of_mem _ he
    rw [hmap] at this
    obtain ⟨x, hx, hxe⟩ := List.mem_map.mp this
    rw [← hxe]
    apply hreg
    rcases List.mem_append.mp hx with hm | hm
    · exact (List.mem_filter.mp hm).1
    · exact (List.mem_filter.mp hm).1

/-- The segments after the VBE branch of `UpdateIndex` has returned: the entry went to the
last segment, or to a new segment that starts at the duration reached so far. -/
theorem updateVBE_segments (t t1 : OP1AIndexTable) (sizes : List Nat)
    (h : t.updateVBE sizes = Outcome.ok t1) :
    (∃ last, t.mIndexSegments.getLast? = some last ∧
      t1.mIndexSegments.dropLast = t.mIndexSegments.dropLast ∧
      t1.mIndexSegments.getLast?.map (fun s => (s.index_start_position, s.index_duration))
        = some (last.index_start_position, last.index_duration + 1)) ∨
    (t1.mIndexSegments.dropLast = t.mIndexSegments ∧
      t1.mIndexSegments.getLast?.map (fun s => (s.index_start_position, s.index_duration))
        = some (t.mDuration, 1)) := by
  unfold OP1AIndexTable.updateVBE at h
  split at h
  · simp at h
  · rename_i csp hcsp
    simp only at h
    split at h
    · simp at h
    · rename_i st hst
      unfold OP1AIndexTable.openSegment at h
      simp only at h
      cases hl : t.mIndexSegments.getLast? with
      | none =>
        have hnil := List.getLast?_eq_none_iff.mp hl
        simp only [hl, List.getLast?_singleton, OP1AIndexTableSegment.AddIndexEntry,
          OP1AIndexTableSegment.new] at h
        by_cases hsz : t.mIndexEntrySize = 11 + st.slice_cp_offsets.length * 4
        · simp only [hsz, if_true, Outcome.ok.injEq] at h
          subst h
          exact Or.inr (by simp [hnil])
        · simp [hsz] at h
      | some last =>
        simp only [hl] at h
        by_cases hreq : last.RequireNewSegment csp = true
        · simp only [hreq, if_true, List.getLast?_concat, List.dropLast_concat,
            OP1AIndexTableSegment.AddIndexEntry, OP1AIndexTableSegment.new] at h
          by_cases hsz : t.mIndexEntrySize = 11 + st.slice_cp_offsets.length * 4
          · simp only [hsz, if_true, Outcome.ok.injEq] at h
            subst h
            exact Or.inr (by simp)
          · simp [hsz] at h
        · simp only [hreq, Bool.false_eq_true, if_false, hl,
            OP1AIndexTableSegment.AddIndexEntry] at h
          by_cases hsz : last.mIndexEntrySize = 11 + st.slice_cp_offsets.length * 4
          · simp only [hsz, if_true, Outcome.ok.injEq] at h
            subst h
            exact Or.inl ⟨last, rfl, by simp, by simp⟩
          · simp [hsz] at h

theorem UpdateIndex_segments (t t1 : OP1AIndexTable) (size : Nat) (sizes : List Nat)
    (hvbe : t.mIsCBE = false) (h : t.UpdateIndex size sizes = Outcome.ok t1) :
    (∃ last, t.mIndexSegments.getLast? = some last ∧
      t1.mIndexSegments.dropLast = t.mIndexSegments.dropLast ∧
      t1.mIndexSegments.getLast?.map (fun s => (s.index_start_position, s.index_duration))
        = some (last.index_start_position, last.index_duration + 1)) ∨
    (t1.mIndexSegments.dropLast = t.mIndexSegments ∧
      t1.mIndexSegments.getLast?.map (fun s => (s.index_start_position, s.index_duration))
        = some (t.mDuration, 1)) := by
  unfold OP1AIndexTable.UpdateIndex at h
  split at h
  · exact absurd h (by simp)
  obtain ⟨t2, hd, d1, -, -, d4, d5, -⟩ := updateDeltaEntries_vbe t sizes hvbe
  rcases hd with hd | hd
  · rw [hd] at h
    simp only [Outcome.andThen, d1, hvbe] at h
    generalize hO : t2.updateVBE sizes = O at h
    cases O with
    | ok t3 =>
      simp at h
      subst h
      have := updateVBE_segments t2 t3 sizes hO
      rw [d4, d5] at this
      exact this
    | thrown f t3 => simp at h
    | undefined => simp at h
  · rw [hd] at h
    simp [Outcome.andThen] at h

/-- C35: in every state that a prepared VBE index table reaches by `AddIndexEntry`,
`UpdateIndexEntry` and `UpdateIndex` calls, returning or throwing, every position held in an
element's entry cache is at least the duration of the table, and the segments cover the edit
units from 0 to the duration without gap or overlap.  A successful `UpdateIndex` at duration
`d` leaves no entry at `d` in any cache and makes the duration `d + 1`; its entry goes to the
last segment, or to a new segment, which starts at `d`. -/
theorem cache_drained_in_order (sid bsid : Nat) (rate : Rational) (regs : List Registration)
    (t0 t : OP1AIndexTable) (calls : List Call)
    (hprep : prepared sid bsid rate regs = Outcome.ok t0) (hvbe : t0.mIsCBE = false)
    (hrun : t0.run calls = some t) :
    (∀ e ∈ t.mIndexElements, ∀ kv ∈ e.mIndexEntryCache, t.mDuration ≤ kv.1) ∧
    contiguous 0 t.mIndexSegments t.mDuration ∧
    (∀ (size : Nat) (sizes : List Nat) (t1 : OP1AIndexTable),
      t.UpdateIndex size sizes = Outcome.ok t1 →
      t1.mDuration = t.mDuration + 1 ∧
      (∀ e ∈ t1.mIndexElements, cacheFind t.mDuration e.mIndexEntryCache = none) ∧
      (∀ e ∈ t1.mIndexElements, ∀ kv ∈ e.mIndexEntryCache, t.mDuration + 1 ≤ kv.1) ∧
      contiguous 0 t1.mIndexSegments (t.mDuration + 1) ∧
      ((∃ last, t.mIndexSegments.getLast? = some last ∧
          t1.mIndexSegments.dropLast = t.mIndexSegments.dropLast ∧
          t1.mIndexSegments.getLast?.map
            (fun s => (s.index_start_position, s.index_duration))
            = some (last.index_start_position, last.index_duration + 1)) ∨
        (t1.mIndexSegments.dropLast = t.mIndexSegments ∧
          t1.mIndexSegments.getLast?.map
            (fun s => (s.index_start_position, s.index_duration))
            = some (t.mDuration, 1)))) := by
  have hinv0 : cachesDrained t0 := by
    intro e he
    have hc := prepared_caches sid bsid rate regs t0 hprep e he
    unfold OP1AIndexTableElement.cachedFrom cacheOrdered
    rw [hc]
    simp
  have hvbe1 : t.mIsCBE = false := by
    rw [(run_is_cbe t0 t calls hrun).1]
    exact hvbe
  have hinv := cachesDrained_run t0 t calls hvbe hinv0 hrun
  have hseg := VBEInvariant_run t0 t calls (prepared_spec sid bsid rate regs t0 hprep hvbe).1
    hrun
  refine ⟨fun e he => (hinv e he).2, hseg.cover, ?_⟩
  intro size sizes t1 h1
  have hstate : (t.UpdateIndex size sizes).state = some t1 := by rw [h1]; rfl
  obtain ⟨c1, c2⟩ := cachesDrained_UpdateIndex t t1 size sizes hvbe1 hinv hstate
  have hdur := c2 h1
  have hseg1 := VBEInvariant_UpdateIndex t t1 size sizes hseg hstate
  refine ⟨hdur, ?_, ?_, ?_, UpdateIndex_segments t t1 size sizes hvbe1 h1⟩
  · intro e he
    have := c1 e he
    rw [hdur] at this
    exact cacheFind_of_cachedFrom e _ this
  · intro e he
    have := (c1 e he).2
    rw [hdur] at this
    exact this
  · have := hseg1.cover
    rw [hdur] at this
    exact this

/-- C35 (witness): a VBE picture track and a sound track; the picture's entries at the
positions 0 and 1 are cached and the first edit unit is indexed.  The entry at 1 is still
cached, at the duration 1; the next `UpdateIndex` takes it and makes the duration 2. -/
theorem cache_drained_in_order_witness :
    prepared 1 2 ⟨25, 1⟩ [Registration.sound 1, Registration.picture 0 false true]
      = Outcome.ok pictureSoundTable ∧
    ∃ t t1, pictureSoundTable.run [Call.AddIndexEntry 0 0 0 0 0 true,
        Call.AddIndexEntry 0 1 0 0 0 true, Call.UpdateIndex 150 [100, 50]] = some t ∧
      t.mDuration = 1 ∧
      t.mIndexElements.map (fun e => e.mIndexEntryCache.map Prod.fst) = [[1], []] ∧
      (∀ e ∈ t.mIndexElements, ∀ kv ∈ e.mIndexEntryCache, t.mDuration ≤ kv.1) ∧
      t.UpdateIndex 150 [100, 50] = Outcome.ok t1 ∧
      t1.mDuration = 2 ∧
      ∀ e ∈ t1.mIndexElements, cacheFind 1 e.mIndexEntryCache = none := by
  have h := cache_drained_in_order 1 2 ⟨25, 1⟩
    [Registration.sound 1, Registration.picture 0 false true] pictureSoundTable _
    [Call.AddIndexEntry 0 0 0 0 0 true, Call.AddIndexEntry 0 1 0 0 0 true,
      Call.UpdateIndex 150 [100, 50]] (by decide) (by decide) rfl
  refine ⟨by decide, _, _, rfl, by decide, by decide, h.1, rfl, by decide, ?_⟩
  exact (h.2.2 150 [100, 50] _ rfl).2.1

/-! ## The clip writer: track dispatch and duration propagation -/

/-- C37 (the code at the failing input): on a new clip at 25/1 a sound track is created
first (track index 0), then a picture track (track index 1).  The stable sort of
`PrepareWrite` puts the picture track in front, so `WriteSamples(0, ...)` writes to the
picture track, which was created with track index 1, and `WriteSamples(1, ...)` writes to the
sound track, created with track index 0. -/
theorem write_samples_dispatch_after_sort :
    AvidClip.new ⟨25, 1⟩ = Except.ok clip25 ∧
    (clip25.createTracks [(false, ⟨48000, 1⟩), (true, ⟨25, 1⟩)]).mTracks.map
      (fun t => (t.GetTrackIndex, t.IsPicture)) = [(0, false), (1, true)] ∧
    ((clip25.createTracks [(false, ⟨48000, 1⟩), (true, ⟨25, 1⟩)]).sortTracks.WriteSamples 0).map
      (fun t => (t.GetTrackIndex, t.IsPicture)) = some (1, true) ∧
    ((clip25.createTracks [(false, ⟨48000, 1⟩), (true, ⟨25, 1⟩)]).sortTracks.WriteSamples 1).map
      (fun t => (t.GetTrackIndex, t.IsPicture)) = some (0, false) :=
  ⟨rfl, by decide, by decide, by decide⟩

end im
